import Mathlib

/-!
Streamflix: content catalog, user store, custom lists and recommendation engine.

A shallow embedding of `content.c`, `user.c`, `list.c`, `recommendation.c`, `report.c` and
`csvutil.c`.

Modelling conventions.

* A C `int` is an `Int`; signed overflow is undefined behaviour in C and lies outside the model.
* A C `float` is a rational number.  In the definitions that carry the plain names of the
  source, float arithmetic is exact rational arithmetic.  The rankings by popularity and by
  content similarity sort by scores whose rounding can decide the order; they are given a second
  time, with the suffix `_binary32`, in the arithmetic of IEEE 754 binary32: a `float` is a
  rational with 24 significant bits, and a conversion, a literal and each of `+`, `-`, `*`, `/`
  yields the binary32 number nearest to the exact value, a tie going to the even significand
  (the default rounding, every operation evaluated in `float`, as on x86-64).
* A NUL-terminated C string is the list of its characters (`CString`); `strncpy(dst, src, n - 1)`
  followed by `dst[n - 1] = 0` stores `src.take (n - 1)`.
* A growable array together with its `count` field is the list of its first `count` entries.
  `realloc` is taken to succeed, so the `capacity` fields play no role.
* A function that fills an output buffer and returns the number of entries written is the list of
  the entries written; the returned count is its length.
* Pointer arguments are non-null; a function returning a pointer that may be `NULL` returns an
  `Option`.
* `qsort` comes from the C library, which fixes only that the output is a rearrangement of the
  input that is ordered for the comparison function.  The functions that call it take the sorting
  function as their first argument and the theorems assume `QsortSpec` of it.
* `strcmp(a, b) == 0` is equality of the two character lists, `strstr` is the search for a
  contiguous occurrence, and `tolower` is that of the "C" locale (the program never calls
  `setlocale`), which changes the letters `A` to `Z` only.
* A file that `fopen` has opened is the list of its characters; writing appends to the list and
  reading consumes it from the front.  `sprintf` with `%d`, `atoi`, `fgets` and `strtok_r` come
  from the C library and are modelled by what the C standard says of them.
* A loop whose number of iterations is not fixed by a list takes a bound (`fuel`) that the
  calling function sets to a number the loop cannot exceed.
-/

namespace Streamflix

/-! ## Data model (`content.h`, `user.h`, `list.h`) -/

/-- A NUL-terminated C string, as the list of its characters. -/
abbrev CString := List Char

/-- `MAX_TITLE_LENGTH` of `content.h`. -/
def MAX_TITLE_LENGTH : Nat := 100

/-- `MAX_CATEGORY_LENGTH` of `content.h`. -/
def MAX_CATEGORY_LENGTH : Nat := 50

/-- `MAX_USERNAME_LENGTH` of `user.h`. -/
def MAX_USERNAME_LENGTH : Nat := 50

/-- `MAX_LIST_NAME_LENGTH` of `list.h`. -/
def MAX_LIST_NAME_LENGTH : Nat := 100

/-- `MAX_LIST_ITEMS` of `list.h`. -/
def MAX_LIST_ITEMS : Nat := 100

/-- `MAX_RECOMMENDATIONS` of `recommendation.h`. -/
def MAX_RECOMMENDATIONS : Int := 10

/-- The struct `Content` of `content.h`. -/
structure Content where
  id : Int
  title : CString
  category : CString
  duration : Int
  age_rating : Int
  views : Int
deriving DecidableEq, Repr

/-- The live part `items[0 .. count)` of a `ContentCatalog`. -/
abbrev ContentCatalog := List Content

/-- The enum `InteractionType` of `user.h`. -/
inductive InteractionType where
  | INTERACTION_PLAY
  | INTERACTION_PAUSE
  | INTERACTION_COMPLETE
  | INTERACTION_FAVORITE
deriving DecidableEq, Repr

open InteractionType

/-- The struct `Interaction` of `user.h`. -/
structure Interaction where
  user_id : Int
  content_id : Int
  type : InteractionType
  timestamp : Int
deriving DecidableEq, Repr

/-- The struct `User` of `user.h`; `favorite_contents` holds the first `favorite_count` slots. -/
structure User where
  id : Int
  username : CString
  favorite_contents : List Int
  interaction_count : Int
deriving DecidableEq, Repr

/-- The struct `UserManager` of `user.h`: the live users and the live interaction log. -/
structure UserManager where
  users : List User
  interactions : List Interaction
deriving DecidableEq, Repr

/-- The struct `CustomList` of `list.h`; `content_ids` holds the first `count` slots. -/
structure CustomList where
  id : Int
  user_id : Int
  name : CString
  content_ids : List Int
deriving DecidableEq, Repr

/-- The live part `lists[0 .. count)` of a `ListManager`. -/
abbrev ListManager := List CustomList

/-! ## Identifier allocation and lookup shared by the three stores -/

/-- The loop "Encontrar o próximo ID disponível" of `content_add`, `user_add` and `list_create`,
run over the ids of the store in store order: `next_id` starts at 1 and becomes `id + 1` at every
entry whose id is `>= next_id`. -/
def find_next_id (ids : List Int) : Int :=
  ids.foldl (fun next_id id => if id ≥ next_id then id + 1 else next_id) 1

/-- The search loop of `content_remove`, `user_remove` and `list_remove`: the index of the first
entry whose id equals `id`, or `none` where the C code leaves `index == -1`. -/
def find_index : List Int → Int → Option Nat
  | [], _ => none
  | x :: xs, id => if x = id then some 0 else (find_index xs id).map (· + 1)

/-! ## `content.c` -/

/-- The function `content_add`: returns the new id (or -1) and the catalog after the call. -/
def content_add (catalog : ContentCatalog) (title category : CString)
    (duration age_rating : Int) : Int × ContentCatalog :=
  if duration ≤ 0 ∨ age_rating < 0 then (-1, catalog)
  else
    let next_id := find_next_id (catalog.map (·.id))
    (next_id, catalog ++ [{ id := next_id,
                            title := title.take (MAX_TITLE_LENGTH - 1),
                            category := category.take (MAX_CATEGORY_LENGTH - 1),
                            duration := duration,
                            age_rating := age_rating,
                            views := 0 }])

/-- The function `content_remove`: returns 1 and the compacted catalog, or 0 and the catalog
unchanged. -/
def content_remove (catalog : ContentCatalog) (id : Int) : Int × ContentCatalog :=
  if id ≤ 0 then (0, catalog)
  else
    match find_index (catalog.map (·.id)) id with
    | none => (0, catalog)
    | some index => (1, catalog.eraseIdx index)

/-- The function `content_get_by_id`: the first record with the given id, `none` for `NULL`. -/
def content_get_by_id (catalog : ContentCatalog) (id : Int) : Option Content :=
  if id ≤ 0 then none else catalog.find? (fun c => c.id = id)

/-! ## `user.c` -/

/-- The function `user_get_by_id`: the first user with the given id, `none` for `NULL`. -/
def user_get_by_id (manager : UserManager) (user_id : Int) : Option User :=
  if user_id ≤ 0 then none else manager.users.find? (fun u => u.id = user_id)

/-- The function `user_add`: returns the new id (or -1) and the manager after the call. -/
def user_add (manager : UserManager) (username : CString) : Int × UserManager :=
  if username.length = 0 then (-1, manager)
  else if manager.users.any (fun u => u.username = username) then (-1, manager)
  else
    let next_id := find_next_id (manager.users.map (·.id))
    (next_id, { manager with
                users := manager.users ++ [{ id := next_id,
                                             username := username.take (MAX_USERNAME_LENGTH - 1),
                                             favorite_contents := [],
                                             interaction_count := 0 }] })

/-- The `while` loop of `user_remove` that deletes the interactions of `user_id`: a matching
entry at index `i` is overwritten by the last entry and the log shrinks by one, otherwise `i`
advances.  Every iteration lowers `interaction_count - i` by one, so the loop runs exactly as many
iterations as the log has entries at the start; `n` counts the iterations that remain. -/
def remove_interactions_loop (user_id : Int) : Nat → List Interaction → Nat → List Interaction
  | 0, interactions, _ => interactions
  | n + 1, interactions, i =>
    match interactions[i]?, interactions.getLast? with
    | some it, some last =>
      if it.user_id = user_id then
        remove_interactions_loop user_id n (interactions.set i last).dropLast i
      else
        remove_interactions_loop user_id n interactions (i + 1)
    | _, _ => interactions

/-- The function `user_remove`: returns 1 and the manager without the user and without the
user's interactions, or 0 and the manager unchanged. -/
def user_remove (manager : UserManager) (user_id : Int) : Int × UserManager :=
  if user_id ≤ 0 then (0, manager)
  else
    match find_index (manager.users.map (·.id)) user_id with
    | none => (0, manager)
    | some index =>
      (1, { users := manager.users.eraseIdx index,
            interactions :=
              remove_interactions_loop user_id manager.interactions.length
                manager.interactions 0 })

/-- A write through the pointer that `user_get_by_id` returns: the first user whose id equals
`user_id` is replaced by `f` of it, every other record stays. -/
def modify_user : List User → Int → (User → User) → List User
  | [], _, _ => []
  | u :: us, user_id, f =>
    if u.id = user_id then f u :: us else u :: modify_user us user_id f

/-- The function `user_add_favorite`: returns its result (1 or 0) and the manager after the
call. -/
def user_add_favorite (manager : UserManager) (user_id content_id : Int) : Int × UserManager :=
  if user_id ≤ 0 ∨ content_id ≤ 0 then (0, manager)
  else
    match user_get_by_id manager user_id with
    | none => (0, manager)
    | some user =>
      if content_id ∈ user.favorite_contents then (1, manager)
      else if user.favorite_contents.length ≥ 100 then (0, manager)
      else
        (1, { manager with
              users := modify_user manager.users user_id
                (fun u => { u with favorite_contents := u.favorite_contents ++ [content_id] }) })

/-- The function `user_register_interaction`; `now` is the value of `time(NULL)` at the call.
Returns its result (1 or 0) and the manager after the call. -/
def user_register_interaction (manager : UserManager) (user_id content_id : Int)
    (type : InteractionType) (now : Int) : Int × UserManager :=
  if user_id ≤ 0 ∨ content_id ≤ 0 then (0, manager)
  else
    match user_get_by_id manager user_id with
    | none => (0, manager)
    | some _ =>
      let logged : UserManager :=
        { users := modify_user manager.users user_id
            (fun u => { u with interaction_count := u.interaction_count + 1 }),
          interactions := manager.interactions ++
            [{ user_id := user_id, content_id := content_id, type := type, timestamp := now }] }
      if type = INTERACTION_FAVORITE then
        (1, (user_add_favorite logged user_id content_id).2)
      else (1, logged)

/-- The function `user_get_interaction_count`: the number of log entries of the user. -/
def user_get_interaction_count (manager : UserManager) (user_id : Int) : Int :=
  if user_id ≤ 0 then 0
  else
    manager.interactions.foldl
      (fun count interaction => if interaction.user_id = user_id then count + 1 else count) 0

/-! ## `list.c` -/

/-- The function `list_create`: returns the new id (or -1) and the manager after the call. -/
def list_create (manager : ListManager) (user_id : Int) (name : CString) : Int × ListManager :=
  if user_id ≤ 0 ∨ name.length = 0 then (-1, manager)
  else
    let next_id := find_next_id (manager.map (·.id))
    (next_id, manager ++ [{ id := next_id,
                            user_id := user_id,
                            name := name.take (MAX_LIST_NAME_LENGTH - 1),
                            content_ids := [] }])

/-- The function `list_remove`: returns 1 and the compacted store, or 0 and the store
unchanged. -/
def list_remove (manager : ListManager) (list_id : Int) : Int × ListManager :=
  if list_id ≤ 0 then (0, manager)
  else
    match find_index (manager.map (·.id)) list_id with
    | none => (0, manager)
    | some index => (1, manager.eraseIdx index)

/-! ## `recommendation.c` -/

/-- The struct `ContentScore` of `recommendation.c`. -/
structure ContentScore where
  content_id : Int
  score : ℚ
deriving DecidableEq

/-- The comparison function `compare_scores` handed to `qsort` (descending score). -/
def compare_scores (a b : ContentScore) : Int :=
  if b.score > a.score then 1
  else if b.score < a.score then -1
  else 0

/-- What the C library promises of `qsort(scores, n, sizeof(ContentScore), compare_scores)`: the
array afterwards is a rearrangement of the array before, and `compare_scores` never puts a later
entry strictly before an earlier one.  The order of entries that compare equal is left open. -/
def QsortSpec (qsort : List ContentScore → List ContentScore) : Prop :=
  ∀ l, (qsort l).Perm l ∧ (qsort l).Pairwise (fun a b => compare_scores a b ≤ 0)

/-- One admissible `qsort`: insertion sort by `compare_scores`, which keeps entries that compare
equal in their input order. -/
def insertion_qsort (l : List ContentScore) : List ContentScore :=
  l.insertionSort (fun a b => compare_scores a b ≤ 0)

/-- The loop `for (i = 0; i < content_catalog->count && score_count < 1000; i++)` that fills the
buffer `scores[1000]` of the three strategies; `step` is the loop body, `none` when the body
stores no score for the record. -/
def collect_scores (step : Content → Option ContentScore) (catalog : ContentCatalog) :
    List ContentScore :=
  catalog.foldl
    (fun scores content =>
      if scores.length < 1000 then
        match step content with
        | some s => scores ++ [s]
        | none => scores
      else scores)
    []

/-- The final loop "Copiar as recomendações para o array de resultado": the ids of the first
`max_recommendations` sorted scores. -/
def copy_recommendations (scores : List ContentScore) (max_recommendations : Int) : List Int :=
  (scores.take max_recommendations.toNat).map (·.content_id)

/-- The function `recommendation_by_popularity`. -/
def recommendation_by_popularity (qsort : List ContentScore → List ContentScore)
    (content_catalog : ContentCatalog) (max_recommendations : Int) : List Int :=
  if max_recommendations ≤ 0 then []
  else
    let scores :=
      collect_scores
        (fun content => some { content_id := content.id, score := (content.views : ℚ) })
        content_catalog
    copy_recommendations (qsort scores) max_recommendations

/-- The function `recommendation_has_watched`. -/
def recommendation_has_watched (user_manager : UserManager) (user_id content_id : Int) : Int :=
  if user_id ≤ 0 ∨ content_id ≤ 0 then 0
  else if user_manager.interactions.any
      (fun interaction =>
        interaction.user_id = user_id ∧ interaction.content_id = content_id ∧
        (interaction.type = INTERACTION_COMPLETE ∨ interaction.type = INTERACTION_PLAY))
  then 1
  else 0

/-- The function `recommendation_calculate_similarity`; a `NULL` argument is `none`. -/
def recommendation_calculate_similarity (content1 content2 : Option Content) : ℚ :=
  match content1, content2 with
  | some content1, some content2 =>
    let similarity : ℚ := 0
    let similarity : ℚ :=
      if content1.category = content2.category then similarity + 6 / 10 else similarity
    let age_diff : ℚ := ((abs (content1.age_rating - content2.age_rating) : Int) : ℚ)
    let max_age_diff : ℚ := 18
    let age_similarity : ℚ := 2 / 10 * (1 - age_diff / max_age_diff)
    let similarity : ℚ := similarity + age_similarity
    let duration_diff : ℚ := ((abs (content1.duration - content2.duration) : Int) : ℚ)
    let max_duration : ℚ :=
      ((if content1.duration > content2.duration then content1.duration
        else content2.duration : Int) : ℚ)
    if max_duration > 0 then
      similarity + 2 / 10 * (1 - duration_diff / max_duration)
    else similarity
  | _, _ => 0

/-- The first loop of `recommendation_by_content_similarity`: the buffer `watched_ids[100]`,
filled in log order with the distinct content ids of the user's COMPLETE interactions; the loop
stops once 100 ids are stored. -/
def collect_watched_ids (user_manager : UserManager) (user_id : Int) : List Int :=
  user_manager.interactions.foldl
    (fun watched_ids interaction =>
      if watched_ids.length < 100 then
        if interaction.user_id = user_id ∧ interaction.type = INTERACTION_COMPLETE then
          if interaction.content_id ∈ watched_ids then watched_ids
          else watched_ids ++ [interaction.content_id]
        else watched_ids
      else watched_ids)
    []

/-- The accumulation of `total_similarity` over `watched_ids` for one candidate. -/
def total_similarity (content_catalog : ContentCatalog) (watched_ids : List Int)
    (candidate : Content) : ℚ :=
  watched_ids.foldl
    (fun total id =>
      match content_get_by_id content_catalog id with
      | some watched =>
        total + recommendation_calculate_similarity (some watched) (some candidate)
      | none => total)
    0

/-- The function `recommendation_by_content_similarity`. -/
def recommendation_by_content_similarity (qsort : List ContentScore → List ContentScore)
    (user_manager : UserManager) (content_catalog : ContentCatalog)
    (user_id : Int) (max_recommendations : Int) : List Int :=
  if user_id ≤ 0 ∨ max_recommendations ≤ 0 then []
  else
    let watched_ids := collect_watched_ids user_manager user_id
    if watched_ids.length = 0 then
      recommendation_by_popularity qsort content_catalog max_recommendations
    else
      let scores :=
        collect_scores
          (fun candidate =>
            if candidate.id ∈ watched_ids then none
            else
              let avg_similarity : ℚ :=
                if watched_ids.length > 0 then
                  total_similarity content_catalog watched_ids candidate / (watched_ids.length : ℚ)
                else 0
              some { content_id := candidate.id, score := avg_similarity })
          content_catalog
      copy_recommendations (qsort scores) max_recommendations

/-- The lookup loop `for (j = 0; j < category_count; j++) if (strcmp(categories[j], ...) == 0)`
of `recommendation_by_category`: the first index whose name equals `category`, `none` where the
C code leaves `category_index == -1`.  An entry pairs `categories[j]` with
`category_counts[j]`. -/
def find_category : List (CString × Int) → CString → Option Nat
  | [], _ => none
  | x :: xs, category =>
    if x.1 = category then some 0 else (find_category xs category).map (· + 1)

/-- The statement `category_counts[category_index]++`. -/
def increment_count : List (CString × Int) → Nat → List (CString × Int)
  | [], _ => []
  | x :: xs, 0 => (x.1, x.2 + 1) :: xs
  | x :: xs, j + 1 => x :: increment_count xs j

/-- The body of the tally loop of `recommendation_by_category` for one interaction of the log:
a PLAY or COMPLETE interaction of the user on a content that `content_get_by_id` finds counts
for the category of that content. -/
def tally_step (content_catalog : ContentCatalog) (user_id : Int)
    (categories : List (CString × Int)) (interaction : Interaction) : List (CString × Int) :=
  if interaction.user_id = user_id ∧
      (interaction.type = INTERACTION_PLAY ∨ interaction.type = INTERACTION_COMPLETE) then
    match content_get_by_id content_catalog interaction.content_id with
    | some content =>
      match find_category categories content.category with
      | some category_index => increment_count categories category_index
      | none =>
        if categories.length < 100 then
          categories ++ [(content.category.take (MAX_CATEGORY_LENGTH - 1), 1)]
        else categories
    | none => categories
  else categories

/-- The tally loop of `recommendation_by_category` over the interaction log: the arrays
`categories[100]` and `category_counts[100]`, in first-seen order. -/
def tally_categories (user_manager : UserManager) (content_catalog : ContentCatalog)
    (user_id : Int) : List (CString × Int) :=
  user_manager.interactions.foldl (tally_step content_catalog user_id) []

/-- The body of the inner sorting loop: exchange entries `i` and `j` (count and name) when
`category_counts[j] > category_counts[i]`. -/
def swap_if_greater (categories : List (CString × Int)) (i j : Nat) : List (CString × Int) :=
  match categories[i]?, categories[j]? with
  | some ci, some cj => if cj.2 > ci.2 then (categories.set i cj).set j ci else categories
  | _, _ => categories

/-- The loop nest "Ordenar as categorias por frequência":
`for (i = 0; i < category_count - 1; i++) for (j = i + 1; j < category_count; j++)`. -/
def sort_categories (categories : List (CString × Int)) : List (CString × Int) :=
  (List.range (categories.length - 1)).foldl
    (fun cats i =>
      (List.range' (i + 1) (categories.length - (i + 1))).foldl
        (fun cats j => swap_if_greater cats i j) cats)
    categories

/-- The score that `recommendation_by_category` gives a content whose category sits at
`category_index` of the sorted arrays. -/
def category_score (categories : List (CString × Int)) (category_index : Nat) : ℚ :=
  (((categories.length : Int) - (category_index : Int) : Int) : ℚ) +
    (((categories.getD category_index ([], 0)).2 : Int) : ℚ) /
      (((if (categories.getD 0 ([], 0)).2 > 0 then (categories.getD 0 ([], 0)).2 else 1 : Int)
        : ℚ))

/-- The body of the candidate loop of `recommendation_by_category` for one catalog record: a
record that the user has not watched and whose category is in the sorted arrays gets a score,
any other record is skipped. -/
def category_candidate_score (user_manager : UserManager) (user_id : Int)
    (categories : List (CString × Int)) (content : Content) : Option ContentScore :=
  if recommendation_has_watched user_manager user_id content.id = 0 then
    match find_category categories content.category with
    | some category_index =>
      some { content_id := content.id, score := category_score categories category_index }
    | none => none
  else none

/-- The function `recommendation_by_category`. -/
def recommendation_by_category (qsort : List ContentScore → List ContentScore)
    (user_manager : UserManager) (content_catalog : ContentCatalog)
    (user_id : Int) (max_recommendations : Int) : List Int :=
  if user_id ≤ 0 ∨ max_recommendations ≤ 0 then []
  else
    let tally := tally_categories user_manager content_catalog user_id
    if tally.length = 0 then
      recommendation_by_popularity qsort content_catalog max_recommendations
    else
      let categories := sort_categories tally
      let scores :=
        collect_scores (category_candidate_score user_manager user_id categories)
          content_catalog
      copy_recommendations (qsort scores) max_recommendations

/-- The factor `(float)(count - i) / count` of `recommendation_personalized`, times the weight
of the sub-list: `weight * (float)(count - i) / count`. -/
def rank_weight (weight : ℚ) (count i : Nat) : ℚ :=
  weight * ((((count : Int) - (i : Int) : Int)) : ℚ) / (count : ℚ)

/-- The first merge loop of `recommendation_personalized`: every similarity recommendation is
stored as a new entry of `combined_scores`, with weight 3. -/
def add_similarity_scores (similarity_recs : List Int) : List ContentScore :=
  similarity_recs.enum.foldl
    (fun combined p =>
      combined ++ [{ content_id := p.2, score := rank_weight 3 similarity_recs.length p.1 }])
    []

/-- The body of the second and third merge loops for one recommendation: the score of the first
entry with the same content id grows by `contribution`; without such an entry a new one is
stored at the end. -/
def add_or_insert : List ContentScore → Int → ℚ → List ContentScore
  | [], content_id, contribution => [{ content_id := content_id, score := contribution }]
  | s :: rest, content_id, contribution =>
    if s.content_id = content_id then
      { content_id := s.content_id, score := s.score + contribution } :: rest
    else s :: add_or_insert rest content_id contribution

/-- The second and third merge loops of `recommendation_personalized`, for the category list
(weight 2) and the popularity list (weight 1). -/
def merge_into (weight : ℚ) (recs : List Int) (combined : List ContentScore) :
    List ContentScore :=
  recs.enum.foldl
    (fun combined p => add_or_insert combined p.2 (rank_weight weight recs.length p.1))
    combined

/-- The array `combined_scores` of `recommendation_personalized` after its three merge
loops. -/
def merge_recommendations (similarity_recs category_recs popularity_recs : List Int) :
    List ContentScore :=
  merge_into 1 popularity_recs (merge_into 2 category_recs
    (add_similarity_scores similarity_recs))

/-- The function `recommendation_personalized`. -/
def recommendation_personalized (qsort : List ContentScore → List ContentScore)
    (user_manager : UserManager) (content_catalog : ContentCatalog)
    (user_id : Int) (max_recommendations : Int) : List Int :=
  if user_id ≤ 0 ∨ max_recommendations ≤ 0 then []
  else
    let similarity_recs :=
      recommendation_by_content_similarity qsort user_manager content_catalog user_id
        MAX_RECOMMENDATIONS
    let category_recs :=
      recommendation_by_category qsort user_manager content_catalog user_id
        MAX_RECOMMENDATIONS
    let popularity_recs :=
      recommendation_by_popularity qsort content_catalog MAX_RECOMMENDATIONS
    let combined_scores :=
      merge_recommendations similarity_recs category_recs popularity_recs
    copy_recommendations (qsort combined_scores) max_recommendations

/-! ## The stores built by `test_recommendation` of `test.c` -/

/-- The catalog of `test_recommendation` after its five additions and its view increments. -/
def testCatalog : ContentCatalog :=
  [ { id := 1, title := "Filme de Ação 1".toList, category := "Ação".toList, duration := 120,
      age_rating := 16, views := 10 },
    { id := 2, title := "Filme de Ação 2".toList, category := "Ação".toList, duration := 110,
      age_rating := 14, views := 20 },
    { id := 3, title := "Comédia 1".toList, category := "Comédia".toList, duration := 100,
      age_rating := 12, views := 5 },
    { id := 4, title := "Drama 1".toList, category := "Drama".toList, duration := 140,
      age_rating := 16, views := 15 },
    { id := 5, title := "Documentário".toList, category := "Documentário".toList,
      duration := 90, age_rating := 0, views := 3 } ]

/-- The user manager of `test_recommendation` after its four registered interactions
(timestamps set to 0). -/
def testManager : UserManager :=
  { users := [ { id := 1, username := "Utilizador1".toList, favorite_contents := [],
                 interaction_count := 2 },
               { id := 2, username := "Utilizador2".toList, favorite_contents := [],
                 interaction_count := 2 } ],
    interactions :=
      [ { user_id := 1, content_id := 1, type := INTERACTION_COMPLETE, timestamp := 0 },
        { user_id := 1, content_id := 3, type := INTERACTION_COMPLETE, timestamp := 0 },
        { user_id := 2, content_id := 2, type := INTERACTION_COMPLETE, timestamp := 0 },
        { user_id := 2, content_id := 4, type := INTERACTION_COMPLETE, timestamp := 0 } ] }

/-! ## The similarity metric in the words of the specification -/

/-- The metric of the specification:
`0.6·[same category] + 0.2·(1 − |Δage_rating| / 18) + 0.2·(1 − |Δduration| / max(d1, d2))`,
the duration term left out when `max(d1, d2) = 0`. -/
def similarity_formula (a b : Content) : ℚ :=
  (if a.category = b.category then 6 / 10 else 0) +
  2 / 10 * (1 - ((abs (a.age_rating - b.age_rating) : Int) : ℚ) / 18) +
  (if max a.duration b.duration = 0 then 0
   else 2 / 10 * (1 - ((abs (a.duration - b.duration) : Int) : ℚ)
                        / ((max a.duration b.duration : Int) : ℚ)))

/-- Two contents of different categories, far apart in age rating. -/
def farContentA : Content :=
  { id := 1, title := "A".toList, category := "X".toList, duration := 1, age_rating := 0,
    views := 0 }

/-- The second content of the pair. -/
def farContentB : Content :=
  { id := 2, title := "B".toList, category := "Y".toList, duration := 1, age_rating := 90,
    views := 0 }

/-! ## The content-similarity ranking in the words of the specification -/

/-- The watched set of a user: the distinct content ids with a COMPLETE interaction by that
user. -/
def watched_set (user_manager : UserManager) (user_id : Int) : List Int :=
  ((user_manager.interactions.filter
      (fun it => it.user_id = user_id ∧ it.type = INTERACTION_COMPLETE)).map
    (·.content_id)).dedup

/-- The score of a candidate: the average over all items `w` of the watched set of
similarity(w, candidate), where the item of `w` is what `content_get_by_id` returns. -/
def average_similarity (content_catalog : ContentCatalog) (watched : List Int)
    (candidate : Content) : ℚ :=
  (watched.map (fun w =>
      recommendation_calculate_similarity (content_get_by_id content_catalog w)
        (some candidate))).sum / (watched.length : ℚ)

/-! ## The category sort as a function on lists -/

/-- One pass of the inner sorting loop, started with `x` in slot `i` and `rest` in the slots
after it: the entry left in slot `i` and the entries left after it.  Slot `i` takes every entry
whose count is greater than the count it holds, and hands its old entry to that slot. -/
def select_max (x : CString × Int) : List (CString × Int) →
    (CString × Int) × List (CString × Int)
  | [] => (x, [])
  | y :: ys =>
    if y.2 > x.2 then ((select_max y ys).1, x :: (select_max y ys).2)
    else ((select_max x ys).1, y :: (select_max x ys).2)

/-- The loop nest of `sort_categories` run for `n` iterations of the outer loop, on lists. -/
def exchange_sort : Nat → List (CString × Int) → List (CString × Int)
  | 0, l => l
  | _ + 1, [] => []
  | n + 1, x :: xs => (select_max x xs).1 :: exchange_sort n (select_max x xs).2

/-- The bounds that the arrays `char title[100]` and `char category[50]` of the struct `Content`
put on every record of a catalog. -/
def WellFormedCatalog (catalog : ContentCatalog) : Prop :=
  ∀ c ∈ catalog, c.title.length < MAX_TITLE_LENGTH ∧ c.category.length < MAX_CATEGORY_LENGTH

/-! ## Stores with a tie between two categories -/

/-- A catalog with three categories: contents 1 and 4 in "A", 2 and 5 in "B", 3 in "C". -/
def tieCatalog : ContentCatalog :=
  [ { id := 1, title := "a1".toList, category := "A".toList, duration := 90, age_rating := 12,
      views := 0 },
    { id := 2, title := "b1".toList, category := "B".toList, duration := 90, age_rating := 12,
      views := 0 },
    { id := 3, title := "c1".toList, category := "C".toList, duration := 90, age_rating := 12,
      views := 0 },
    { id := 4, title := "a2".toList, category := "A".toList, duration := 90, age_rating := 12,
      views := 0 },
    { id := 5, title := "b2".toList, category := "B".toList, duration := 90, age_rating := 12,
      views := 0 } ]

/-- A log in which user 1 plays content 1 (category "A"), then content 2 ("B"), then plays and
completes content 3 ("C"): "A" and "B" tie at frequency 1 and "A" is seen first. -/
def tieManager : UserManager :=
  { users := [ { id := 1, username := "ana".toList, favorite_contents := [],
                 interaction_count := 4 } ],
    interactions :=
      [ { user_id := 1, content_id := 1, type := INTERACTION_PLAY, timestamp := 0 },
        { user_id := 1, content_id := 2, type := INTERACTION_PLAY, timestamp := 0 },
        { user_id := 1, content_id := 3, type := INTERACTION_PLAY, timestamp := 0 },
        { user_id := 1, content_id := 3, type := INTERACTION_COMPLETE, timestamp := 0 } ] }

/-! ## The personalized blend in the words of the specification -/

/-- The contribution of one sub-list to the merged score of `x`: `weight·(N − i)/N` when `x` is
the item at rank `i` (0-based) of the list of length `N`, nothing when `x` is not in the list. -/
def rank_contribution (weight : ℚ) (recs : List Int) (x : Int) : ℚ :=
  if x ∈ recs then
    weight * ((recs.length : ℚ) - (recs.indexOf x : ℚ)) / (recs.length : ℚ)
  else 0

/-- The merged score of a content id: the contributions of the similarity list (weight 3), the
category list (weight 2) and the popularity list (weight 1), summed. -/
def blend_score (similarity_recs category_recs popularity_recs : List Int) (x : Int) : ℚ :=
  rank_contribution 3 similarity_recs x + rank_contribution 2 category_recs x +
    rank_contribution 1 popularity_recs x

/-- The blend of three lists: merged by content id with weights 3, 2, 1, sorted descending,
truncated to `m`. -/
def blend (qsort : List ContentScore → List ContentScore)
    (similarity_recs category_recs popularity_recs : List Int) (m : Int) : List Int :=
  copy_recommendations
    (qsort (merge_recommendations similarity_recs category_recs popularity_recs)) m

/-- The score that `combined_scores` holds for a content id: that of the first entry with the
id, 0 without such an entry. -/
def score_of : List ContentScore → Int → ℚ
  | [], _ => 0
  | s :: rest, x => if s.content_id = x then s.score else score_of rest x

/-! ## Stores for the blend, the watched test and the favorites bound -/

/-- A catalog of three contents of one category: 1 (most viewed), 2 (same attributes as 1) and
3 (ten minutes shorter, least viewed). -/
def blendCatalog : ContentCatalog :=
  [ { id := 1, title := "w".toList, category := "A".toList, duration := 100, age_rating := 12,
      views := 50 },
    { id := 2, title := "x".toList, category := "A".toList, duration := 100, age_rating := 12,
      views := 20 },
    { id := 3, title := "b".toList, category := "A".toList, duration := 90, age_rating := 12,
      views := 10 } ]

/-- A log in which user 1 completes content 1 and plays content 2. -/
def blendManager : UserManager :=
  { users := [ { id := 1, username := "ana".toList, favorite_contents := [],
                 interaction_count := 2 } ],
    interactions :=
      [ { user_id := 1, content_id := 1, type := INTERACTION_COMPLETE, timestamp := 0 },
        { user_id := 1, content_id := 2, type := INTERACTION_PLAY, timestamp := 0 } ] }

/-- A manager whose only user has the 100 favorites 1, ..., 100. -/
def fullFavoritesManager : UserManager :=
  { users := [ { id := 1, username := "ana".toList,
                 favorite_contents := (List.range 100).map (fun i => (i : Int) + 1),
                 interaction_count := 0 } ],
    interactions := [] }

/-- A log in which user 1 only pauses and favourites content 1. -/
def pauseManager : UserManager :=
  { users := [ { id := 1, username := "ana".toList, favorite_contents := [1],
                 interaction_count := 2 } ],
    interactions :=
      [ { user_id := 1, content_id := 1, type := INTERACTION_PAUSE, timestamp := 0 },
        { user_id := 1, content_id := 1, type := INTERACTION_FAVORITE, timestamp := 0 } ] }

/-! ## Editing and counting views (`content.c`) -/

/-- A write through a pointer into the catalog: the first record whose id equals `id` is replaced
by `f` of it, every other record stays. -/
def modify_content : List Content → Int → (Content → Content) → List Content
  | [], _, _ => []
  | c :: cs, id, f => if c.id = id then f c :: cs else c :: modify_content cs id f

/-- The four field updates of `content_edit` on the record found; a `NULL` title or category is
`none`. -/
def edit_fields (title category : Option CString) (duration age_rating : Int)
    (content : Content) : Content :=
  let content : Content :=
    match title with
    | some title => { content with title := title.take (MAX_TITLE_LENGTH - 1) }
    | none => content
  let content : Content :=
    match category with
    | some category => { content with category := category.take (MAX_CATEGORY_LENGTH - 1) }
    | none => content
  let content : Content :=
    if duration > 0 then { content with duration := duration } else content
  if age_rating ≥ 0 then { content with age_rating := age_rating } else content

/-- The function `content_edit`: returns its result (1 or 0) and the catalog after the call. -/
def content_edit (catalog : ContentCatalog) (id : Int) (title category : Option CString)
    (duration age_rating : Int) : Int × ContentCatalog :=
  if id ≤ 0 then (0, catalog)
  else
    match catalog.find? (fun c => c.id = id) with
    | none => (0, catalog)
    | some _ => (1, modify_content catalog id (edit_fields title category duration age_rating))

/-- The function `content_increment_views`: returns its result (1 or 0) and the catalog after the
call. -/
def content_increment_views (catalog : ContentCatalog) (id : Int) : Int × ContentCatalog :=
  if id ≤ 0 then (0, catalog)
  else
    match content_get_by_id catalog id with
    | none => (0, catalog)
    | some _ =>
      (1, modify_content catalog id (fun content => { content with views := content.views + 1 }))

/-- The argument that the edit menu of `main.c` hands to `content_edit` for a line of input:
`strlen(title) > 0 ? title : NULL`. -/
def edit_argument (input : CString) : Option CString :=
  if input.length > 0 then some input else none

/-! ## Searching (`content.c`) -/

/-- The function `tolower` of the C library in the "C" locale: the letters `A` to `Z` (codes 65
to 90) go to `a` to `z` (codes 97 to 122), every other character stays. -/
def tolower (c : Char) : Char := c.toLower

/-- The test `strstr(haystack, needle) != NULL` of the C library: `needle` occurs in `haystack`
at some position (the empty needle occurs at position 0). -/
def strstr : CString → CString → Bool
  | [], needle => needle.isEmpty
  | c :: rest, needle => needle.isPrefixOf (c :: rest) || strstr rest needle

/-- The loop `for (i = 0; i < catalog->count && found_count < max_results; i++)` of the search
functions; `test` is the condition under which the body stores the id of the record. -/
def search_loop (test : Content → Bool) (catalog : ContentCatalog) (max_results : Int) :
    List Int :=
  catalog.foldl
    (fun results content =>
      if (results.length : Int) < max_results then
        if test content then results ++ [content.id] else results
      else results)
    []

/-- The function `content_search_by_title`: the ids written to `results`. -/
def content_search_by_title (catalog : ContentCatalog) (title : CString) (max_results : Int) :
    List Int :=
  if max_results ≤ 0 then []
  else
    search_loop
      (fun content =>
        let title_lower := (content.title.take (MAX_TITLE_LENGTH - 1)).map tolower
        let search_lower := (title.take (MAX_TITLE_LENGTH - 1)).map tolower
        strstr title_lower search_lower)
      catalog max_results

/-- The function `content_search_by_category`: the ids written to `results`. -/
def content_search_by_category (catalog : ContentCatalog) (category : CString)
    (max_results : Int) : List Int :=
  if max_results ≤ 0 then []
  else
    search_loop
      (fun content =>
        let category_lower := (content.category.take (MAX_CATEGORY_LENGTH - 1)).map tolower
        let search_lower := (category.take (MAX_CATEGORY_LENGTH - 1)).map tolower
        decide (category_lower = search_lower))
      catalog max_results

/-- The search result in the words of the specification: the ids of the first `k` records, in
store order, that pass `test`. -/
def first_matches (test : Content → Bool) (catalog : ContentCatalog) (k : Int) : List Int :=
  ((catalog.filter test).map (·.id)).take k.toNat

/-- The title test in the words of the specification: `s` is a contiguous substring of `title`
when letter case is ignored. -/
def title_contains (s title : CString) : Bool :=
  decide (s.map tolower <:+: title.map tolower)

/-- The category test in the words of the specification: the whole `category` equals `c` when
letter case is ignored. -/
def category_equals (c category : CString) : Bool :=
  decide (category.map tolower = c.map tolower)

/-! ## Favorites, lookup by name and list items (`user.c`, `list.c`) -/

/-- The function `user_remove_favorite`: returns its result (1 or 0) and the manager after the
call. -/
def user_remove_favorite (manager : UserManager) (user_id content_id : Int) :
    Int × UserManager :=
  if user_id ≤ 0 ∨ content_id ≤ 0 then (0, manager)
  else
    match user_get_by_id manager user_id with
    | none => (0, manager)
    | some user =>
      match find_index user.favorite_contents content_id with
      | none => (0, manager)
      | some index =>
        (1, { manager with
              users := modify_user manager.users user_id
                (fun u => { u with favorite_contents := u.favorite_contents.eraseIdx index }) })

/-- The function `user_get_by_username`: the first user with the given name, `none` for
`NULL`. -/
def user_get_by_username (manager : UserManager) (username : CString) : Option User :=
  manager.users.find? (fun u => u.username = username)

/-- The function `list_get_by_id`: the first list with the given id, `none` for `NULL`. -/
def list_get_by_id (manager : ListManager) (list_id : Int) : Option CustomList :=
  if list_id ≤ 0 then none else manager.find? (fun l => l.id = list_id)

/-- A write through the pointer that `list_get_by_id` returns: the first list whose id equals
`list_id` is replaced by `f` of it, every other list stays. -/
def modify_list : List CustomList → Int → (CustomList → CustomList) → List CustomList
  | [], _, _ => []
  | l :: ls, list_id, f => if l.id = list_id then f l :: ls else l :: modify_list ls list_id f

/-- The function `list_add_content`: returns its result (1 or 0) and the store after the
call. -/
def list_add_content (manager : ListManager) (list_id content_id : Int) : Int × ListManager :=
  if list_id ≤ 0 ∨ content_id ≤ 0 then (0, manager)
  else
    match list_get_by_id manager list_id with
    | none => (0, manager)
    | some list =>
      if content_id ∈ list.content_ids then (1, manager)
      else if list.content_ids.length ≥ MAX_LIST_ITEMS then (0, manager)
      else
        (1, modify_list manager list_id
              (fun l => { l with content_ids := l.content_ids ++ [content_id] }))

/-! ## Sequences of calls on the user store -/

/-- One call of a function of `user.c` that changes the user manager, with its arguments. -/
inductive UserCall where
  | add (username : CString)
  | remove (user_id : Int)
  | register_interaction (user_id content_id : Int) (type : InteractionType) (now : Int)
  | add_favorite (user_id content_id : Int)
  | remove_favorite (user_id content_id : Int)

/-- The manager after one call. -/
def apply_call (manager : UserManager) : UserCall → UserManager
  | .add username => (user_add manager username).2
  | .remove user_id => (user_remove manager user_id).2
  | .register_interaction user_id content_id type now =>
    (user_register_interaction manager user_id content_id type now).2
  | .add_favorite user_id content_id => (user_add_favorite manager user_id content_id).2
  | .remove_favorite user_id content_id => (user_remove_favorite manager user_id content_id).2

/-- The manager reached from the empty manager (`user_init_manager`) by a sequence of calls. -/
def run_calls (calls : List UserCall) : UserManager :=
  calls.foldl apply_call { users := [], interactions := [] }

/-! ## Stores of `test_content` and stores at the buffer bounds -/

/-- The catalog of `test_content` after its three additions. -/
def testContentCatalog : ContentCatalog :=
  [ { id := 1, title := "Filme 1".toList, category := "Ação".toList, duration := 120,
      age_rating := 16, views := 0 },
    { id := 2, title := "Série 1".toList, category := "Drama".toList, duration := 45,
      age_rating := 12, views := 0 },
    { id := 3, title := "Documentário".toList, category := "Educacional".toList, duration := 90,
      age_rating := 0, views := 0 } ]

/-- A user name of 60 characters, longer than the field `username[50]`. -/
def longUsername : CString := List.replicate 60 'a'

/-- A catalog whose only record has a title of 99 characters and a category of 49 characters,
the longest that the fields `title[100]` and `category[50]` hold. -/
def boundCatalog : ContentCatalog :=
  [ { id := 1, title := List.replicate 99 'a', category := List.replicate 49 'a',
      duration := 90, age_rating := 12, views := 0 } ]

/-- A list store whose only list holds the 100 items 1, ..., 100. -/
def fullList : ListManager :=
  [ { id := 1, user_id := 1, name := "x".toList,
      content_ids := (List.range 100).map (fun i => (i : Int) + 1) } ]

/-! ## Interaction type names (`user.c`) -/

/-- `MAX_INTERACTION_TYPE_LENGTH` of `user.h`. -/
def MAX_INTERACTION_TYPE_LENGTH : Nat := 20

/-- The function `toupper` of the C library in the "C" locale: the letters `a` to `z` (codes 97
to 122) go to `A` to `Z` (codes 65 to 90), every other character stays. -/
def toupper (c : Char) : Char := c.toUpper

/-- The function `user_interaction_type_to_string`: the string left in `buffer`, where `size` is
the size of the buffer (`size > 0`). -/
def user_interaction_type_to_string (type : InteractionType) (size : Nat) : CString :=
  let type_str : CString :=
    match type with
    | INTERACTION_PLAY => "PLAY".toList
    | INTERACTION_PAUSE => "PAUSE".toList
    | INTERACTION_COMPLETE => "COMPLETE".toList
    | INTERACTION_FAVORITE => "FAVORITE".toList
  type_str.take (size - 1)

/-- The function `user_interaction_type_from_string`. -/
def user_interaction_type_from_string (str : CString) : InteractionType :=
  let len : Nat :=
    if str.length ≥ MAX_INTERACTION_TYPE_LENGTH then MAX_INTERACTION_TYPE_LENGTH - 1
    else str.length
  let upper_str : CString := (str.take len).map toupper
  if upper_str = "PLAY".toList then INTERACTION_PLAY
  else if upper_str = "PAUSE".toList then INTERACTION_PAUSE
  else if upper_str = "COMPLETE".toList then INTERACTION_COMPLETE
  else if upper_str = "FAVORITE".toList then INTERACTION_FAVORITE
  else INTERACTION_PLAY

/-! ## The report of the most viewed contents (`report.c`) -/

/-- The struct `ContentReportItem` of `report.h`. -/
structure ContentReportItem where
  content_id : Int
  title : CString
  count : Int
deriving DecidableEq, Repr

/-- The comparison function `compare_content_views` handed to `qsort` (descending count). -/
def compare_content_views (a b : ContentReportItem) : Int :=
  b.count - a.count

/-- What the C library promises of `qsort(results, count, sizeof(ContentReportItem),
compare_content_views)`: a rearrangement that `compare_content_views` finds in order. -/
def ReportQsortSpec (qsort : List ContentReportItem → List ContentReportItem) : Prop :=
  ∀ l, (qsort l).Perm l ∧ (qsort l).Pairwise (fun a b => compare_content_views a b ≤ 0)

/-- One admissible `qsort` of report items: insertion sort by `compare_content_views`. -/
def insertion_report_qsort (l : List ContentReportItem) : List ContentReportItem :=
  l.insertionSort (fun a b => compare_content_views a b ≤ 0)

/-- The function `report_most_viewed_contents`: the items written to `results`. -/
def report_most_viewed_contents (qsort : List ContentReportItem → List ContentReportItem)
    (content_catalog : ContentCatalog) (max_results : Int) : List ContentReportItem :=
  if max_results ≤ 0 then []
  else
    let count : Int :=
      if (content_catalog.length : Int) < max_results then (content_catalog.length : Int)
      else max_results
    let results : List ContentReportItem :=
      (content_catalog.take count.toNat).map
        (fun content =>
          { content_id := content.id,
            title := content.title.take (MAX_TITLE_LENGTH - 1),
            count := content.views })
    qsort results

/-- The catalog of `test_report` after its four additions and its view increments. -/
def reportCatalog : ContentCatalog :=
  [ { id := 1, title := "Filme de Ação 1".toList, category := "Ação".toList, duration := 120,
      age_rating := 16, views := 10 },
    { id := 2, title := "Filme de Ação 2".toList, category := "Ação".toList, duration := 110,
      age_rating := 14, views := 20 },
    { id := 3, title := "Comédia 1".toList, category := "Comédia".toList, duration := 100,
      age_rating := 12, views := 5 },
    { id := 4, title := "Drama 1".toList, category := "Drama".toList, duration := 140,
      age_rating := 16, views := 15 } ]

/-! ## Sequences of calls on the catalog -/

/-- One call of a function of `content.c` that changes the catalog, with its arguments. -/
inductive CatalogCall where
  | add (title category : CString) (duration age_rating : Int)
  | remove (id : Int)
  | edit (id : Int) (title category : Option CString) (duration age_rating : Int)
  | increment_views (id : Int)

/-- The catalog after one call. -/
def apply_catalog_call (catalog : ContentCatalog) : CatalogCall → ContentCatalog
  | .add title category duration age_rating =>
    (content_add catalog title category duration age_rating).2
  | .remove id => (content_remove catalog id).2
  | .edit id title category duration age_rating =>
    (content_edit catalog id title category duration age_rating).2
  | .increment_views id => (content_increment_views catalog id).2

/-- The catalog reached from the empty catalog (`content_init_catalog`) by a sequence of
calls. -/
def run_catalog_calls (calls : List CatalogCall) : ContentCatalog :=
  calls.foldl apply_catalog_call []

/-- A log in which user 1 plays content 3. -/
def gapWatchManager : UserManager :=
  { users := [ { id := 1, username := "ana".toList, favorite_contents := [],
                 interaction_count := 1 } ],
    interactions :=
      [ { user_id := 1, content_id := 3, type := INTERACTION_PLAY, timestamp := 0 } ] }

/-! ## CSV files (`csvutil.c`, `content.c`) -/

/-- `MAX_FIELD_COUNT` of `content.h`. -/
def MAX_FIELD_COUNT : Nat := 10

/-- The decimal digits of `n`, most significant first, as `%d` prints them; `fuel` bounds the
number of digits. -/
def decimal_digits : Nat → Nat → CString
  | 0, _ => []
  | fuel + 1, n =>
    if n < 10 then [Char.ofNat (48 + n)]
    else decimal_digits fuel (n / 10) ++ [Char.ofNat (48 + n % 10)]

/-- The string that `sprintf(buffer, "%d", n)` of the C library writes: a minus sign for a
negative number, then the decimal digits of the magnitude (a number `n` has at most `n + 1`
digits). -/
def sprintf_d (n : Int) : CString :=
  if n < 0 then '-' :: decimal_digits (n.natAbs + 1) n.natAbs
  else decimal_digits (n.natAbs + 1) n.natAbs

/-- The function `isspace` of the C library in the "C" locale: space, tab, newline, vertical
tab, form feed, carriage return. -/
def isspace (c : Char) : Bool :=
  c = ' ' ∨ c = '\t' ∨ c = '\n' ∨ c = Char.ofNat 11 ∨ c = Char.ofNat 12 ∨ c = '\r'

/-- The function `isdigit` of the C library. -/
def isdigit (c : Char) : Bool :=
  decide (48 ≤ c.toNat ∧ c.toNat ≤ 57)

/-- The digit loop of `atoi`: the value of the leading decimal digits, started at `acc`. -/
def atoi_digits : Int → CString → Int
  | acc, [] => acc
  | acc, c :: rest =>
    if isdigit c then atoi_digits (acc * 10 + ((c.toNat - 48 : Nat) : Int)) rest else acc

/-- The function `atoi` of the C library: white space is skipped, an optional sign is read, and
the leading decimal digits give the value (0 without a digit). -/
def atoi (s : CString) : Int :=
  let t := s.dropWhile isspace
  if t.head? = some '-' then - atoi_digits 0 t.tail
  else if t.head? = some '+' then atoi_digits 0 t.tail
  else atoi_digits 0 t

/-- The loop of `csv_write_line` over the fields: each field, and a comma after every field but
the last. -/
def write_fields : List CString → List Char
  | [] => []
  | [field] => field
  | field :: next :: rest => field ++ ',' :: write_fields (next :: rest)

/-- The function `csv_write_line`: the characters written to the file. -/
def csv_write_line (fields : List CString) : List Char :=
  if fields.length = 0 then [] else write_fields fields ++ ['\n']

/-- The function `fgets(buffer, size, file)` of the C library with `n = size - 1`: the
characters read, up to and including the first newline and at most `n`, and the rest of the
file. -/
def fgets : Nat → List Char → CString × List Char
  | 0, file => ([], file)
  | _ + 1, [] => ([], [])
  | n + 1, c :: rest =>
    if c = '\n' then ([c], rest) else (c :: (fgets n rest).1, (fgets n rest).2)

/-- The function `csv_read_line`: `none` at the end of the file, otherwise the line read,
without its final newline, and the rest of the file. -/
def csv_read_line (file : List Char) (size : Nat) : Option (CString × List Char) :=
  match file with
  | [] => none
  | _ :: _ =>
    let buffer := (fgets (size - 1) file).1
    some (if buffer.getLast? = some '\n' then buffer.dropLast else buffer,
          (fgets (size - 1) file).2)

/-- The function `strtok_r(rest, ",", &rest)` of the C library: leading commas are skipped;
`none` when nothing is left, otherwise the token up to the next comma and the text after that
comma. -/
def strtok_r (rest : CString) : Option (CString × CString) :=
  match rest.dropWhile (fun c => c = ',') with
  | [] => none
  | c :: cs =>
    some ((c :: cs).takeWhile (fun c => c ≠ ','),
          ((c :: cs).dropWhile (fun c => c ≠ ',')).drop 1)

/-- The trimming of a token in `csv_parse_line`: spaces are dropped at the start, spaces and
carriage returns at the end. -/
def trim_field (token : CString) : CString :=
  ((token.dropWhile (fun c => c = ' ')).reverse.dropWhile
    (fun c => c = ' ' ∨ c = '\r')).reverse

/-- The loop `while ((token = strtok_r(rest, ",", &rest)) && field_count < max_fields)` of
`csv_parse_line`; every iteration consumes a character of `rest`, and `fuel` bounds the number
of iterations. -/
def parse_loop : Nat → CString → Nat → List CString → List CString
  | 0, _, _, fields => fields
  | fuel + 1, rest, max_fields, fields =>
    match strtok_r rest with
    | none => fields
    | some (token, rest) =>
      if fields.length < max_fields then
        parse_loop fuel rest max_fields (fields ++ [trim_field token])
      else fields

/-- The function `csv_parse_line`: the fields found. -/
def csv_parse_line (line : CString) (max_fields : Nat) : List CString :=
  parse_loop (line.length + 1) line max_fields []

/-- The header line that `content_save_to_csv` writes. -/
def csv_header : CString := "ID,Titulo,Categoria,Duração,Classificacao,Visualizacoes".toList

/-- The six fields that `content_save_to_csv` writes for one record. -/
def content_fields (content : Content) : List CString :=
  [sprintf_d content.id, content.title, content.category, sprintf_d content.duration,
   sprintf_d content.age_rating, sprintf_d content.views]

/-- The function `content_save_to_csv`: the characters written to the file, the header line
and then one line for every record in store order. -/
def content_save_to_csv (catalog : ContentCatalog) : List Char :=
  catalog.foldl (fun file content => file ++ csv_write_line (content_fields content))
    (csv_header ++ ['\n'])

/-- The record that `content_load_from_csv` stores for the fields of one line. -/
def content_of_fields (fields : List CString) : Content :=
  { id := atoi (fields.getD 0 []),
    title := (fields.getD 1 []).take (MAX_TITLE_LENGTH - 1),
    category := (fields.getD 2 []).take (MAX_CATEGORY_LENGTH - 1),
    duration := atoi (fields.getD 3 []),
    age_rating := atoi (fields.getD 4 []),
    views := if fields.length > 5 then atoi (fields.getD 5 []) else 0 }

/-- The loop `while (csv_read_line(file, buffer, sizeof(buffer)))` of `content_load_from_csv`;
every iteration consumes a character of the file, and `fuel` bounds the number of iterations.
Returns `loaded_count` and the catalog. -/
def load_loop : Nat → List Char → ContentCatalog → Int → Int × ContentCatalog
  | 0, _, catalog, loaded_count => (loaded_count, catalog)
  | fuel + 1, file, catalog, loaded_count =>
    match csv_read_line file 1024 with
    | none => (loaded_count, catalog)
    | some (buffer, file) =>
      let fields := csv_parse_line buffer MAX_FIELD_COUNT
      if fields.length ≥ 5 then
        load_loop fuel file (catalog ++ [content_of_fields fields]) (loaded_count + 1)
      else load_loop fuel file catalog loaded_count

/-- The function `content_load_from_csv` on a file that `fopen` has opened, given by its
characters: the header line is skipped and every further line with at least five fields gives
a record.  Returns the number of records loaded and the catalog after the call. -/
def content_load_from_csv (catalog : ContentCatalog) (file : List Char) :
    Int × ContentCatalog :=
  let file :=
    match csv_read_line file 1024 with
    | none => file
    | some (_, file) => file
  load_loop (file.length + 1) file catalog 0

/-- A string that survives `csv_write_line` and `csv_parse_line`: not empty, without comma and
newline, not starting with a space and not ending with a space or a carriage return. -/
def CsvSafe (s : CString) : Prop :=
  s ≠ [] ∧ (∀ c ∈ s, c ≠ ',' ∧ c ≠ '\n') ∧ s.head? ≠ some ' ' ∧
    s.getLast? ≠ some ' ' ∧ s.getLast? ≠ some '\r'

/-- `CsvSafe` is decided by checking its five conditions. -/
instance decidableCsvSafe (s : CString) : Decidable (CsvSafe s) :=
  inferInstanceAs (Decidable (s ≠ [] ∧ (∀ c ∈ s, c ≠ ',' ∧ c ≠ '\n') ∧ s.head? ≠ some ' ' ∧
    s.getLast? ≠ some ' ' ∧ s.getLast? ≠ some '\r'))

/-- The range of a C `int` of 32 bits. -/
def IsCInt (n : Int) : Prop := -2147483648 ≤ n ∧ n ≤ 2147483647

/-- `IsCInt` is decided by its two comparisons. -/
instance decidableIsCInt (n : Int) : Decidable (IsCInt n) :=
  inferInstanceAs (Decidable (-2147483648 ≤ n ∧ n ≤ 2147483647))

/-! ## Scores in binary32 arithmetic (`recommendation.c`) -/

/-- Rounding of a rational number to an integer: the nearest one, and of two nearest ones the
even one. -/
def round_half_even (q : ℚ) : Int :=
  let f : Int := ⌊q⌋
  let r : ℚ := q - f
  if r < 1 / 2 then f
  else if r > 1 / 2 then f + 1
  else if f % 2 = 0 then f
  else f + 1

/-- The `float` (IEEE 754 binary32) nearest to `x`, a tie going to the even significand: for
2^e ≤ |x| < 2^(e+1) the multiples of 2^(e-23) are the binary32 numbers (24 significant bits), and
below 2^(-126) the multiples of 2^(-149).  Magnitudes that round beyond the largest binary32
number are outside the model; the scores computed from 32-bit `int` fields stay far below it. -/
def float_round (x : ℚ) : ℚ :=
  if x = 0 then 0
  else
    let e : Int := max (Int.log 2 |x|) (-126)
    let ulp : ℚ := 2 ^ (e - 23)
    (round_half_even (x / ulp) : ℚ) * ulp

/-- The conversion of an `int` to `float`, as in `(float)content->views`. -/
def float_of_int (n : Int) : ℚ := float_round n

/-- The sum of two `float`s: the exact sum, rounded. -/
def float_add (a b : ℚ) : ℚ := float_round (a + b)

/-- The difference of two `float`s: the exact difference, rounded. -/
def float_sub (a b : ℚ) : ℚ := float_round (a - b)

/-- The product of two `float`s: the exact product, rounded. -/
def float_mul (a b : ℚ) : ℚ := float_round (a * b)

/-- The quotient of two `float`s, the divisor not zero: the exact quotient, rounded. -/
def float_div (a b : ℚ) : ℚ := float_round (a / b)

/-- The function `recommendation_by_popularity`, the score `(float)content->views` being the
binary32 number that the conversion gives. -/
def recommendation_by_popularity_binary32 (qsort : List ContentScore → List ContentScore)
    (content_catalog : ContentCatalog) (max_recommendations : Int) : List Int :=
  if max_recommendations ≤ 0 then []
  else
    let scores :=
      collect_scores
        (fun content => some { content_id := content.id, score := float_of_int content.views })
        content_catalog
    copy_recommendations (qsort scores) max_recommendations

/-- The function `recommendation_calculate_similarity` in binary32 arithmetic: the literals
`0.6f`, `0.2f`, `18.0f` and `1.0f` are the binary32 numbers nearest to them, the `int` values
are converted, and every operation rounds its result.  A `NULL` argument is `none`. -/
def recommendation_calculate_similarity_binary32 (content1 content2 : Option Content) : ℚ :=
  match content1, content2 with
  | some content1, some content2 =>
    let similarity : ℚ := 0
    let similarity : ℚ :=
      if content1.category = content2.category then float_add similarity (float_round (6 / 10))
      else similarity
    let age_diff : ℚ := float_of_int (abs (content1.age_rating - content2.age_rating))
    let max_age_diff : ℚ := float_round 18
    let age_similarity : ℚ :=
      float_mul (float_round (2 / 10)) (float_sub (float_round 1) (float_div age_diff max_age_diff))
    let similarity : ℚ := float_add similarity age_similarity
    let duration_diff : ℚ := float_of_int (abs (content1.duration - content2.duration))
    let max_duration : ℚ :=
      float_of_int
        (if content1.duration > content2.duration then content1.duration
         else content2.duration)
    if max_duration > 0 then
      float_add similarity
        (float_mul (float_round (2 / 10))
          (float_sub (float_round 1) (float_div duration_diff max_duration)))
    else similarity
  | _, _ => 0

/-- The accumulation of `total_similarity` over `watched_ids` for one candidate, in binary32
arithmetic: the sum is rounded after every term, in the order of `watched_ids`. -/
def total_similarity_binary32 (content_catalog : ContentCatalog) (watched_ids : List Int)
    (candidate : Content) : ℚ :=
  watched_ids.foldl
    (fun total id =>
      match content_get_by_id content_catalog id with
      | some watched =>
        float_add total
          (recommendation_calculate_similarity_binary32 (some watched) (some candidate))
      | none => total)
    0

/-- The function `recommendation_by_content_similarity` with the scores in binary32
arithmetic. -/
def recommendation_by_content_similarity_binary32
    (qsort : List ContentScore → List ContentScore)
    (user_manager : UserManager) (content_catalog : ContentCatalog)
    (user_id : Int) (max_recommendations : Int) : List Int :=
  if user_id ≤ 0 ∨ max_recommendations ≤ 0 then []
  else
    let watched_ids := collect_watched_ids user_manager user_id
    if watched_ids.length = 0 then
      recommendation_by_popularity_binary32 qsort content_catalog max_recommendations
    else
      let scores :=
        collect_scores
          (fun candidate =>
            if candidate.id ∈ watched_ids then none
            else
              let avg_similarity : ℚ :=
                if watched_ids.length > 0 then
                  float_div (total_similarity_binary32 content_catalog watched_ids candidate)
                    (float_of_int (watched_ids.length : Int))
                else 0
              some { content_id := candidate.id, score := avg_similarity })
          content_catalog
      copy_recommendations (qsort scores) max_recommendations

/-- The score that `recommendation_by_content_similarity` stores for a candidate, as the
`float` it is: the similarities to the watched items, each computed in binary32 arithmetic,
are added one after the other in the order of `watched`, every sum rounded, and the total is
divided by the number of watched items, the quotient rounded. -/
def average_similarity_binary32 (content_catalog : ContentCatalog) (watched : List Int)
    (candidate : Content) : ℚ :=
  float_div (total_similarity_binary32 content_catalog watched candidate)
    (float_of_int (watched.length : Int))

/-- A catalog with a content of one minute and two long contents of another category, of
10001 and 10000 minutes. -/
def durationCatalog : ContentCatalog :=
  [ { id := 1, title := "w".toList, category := "A".toList, duration := 1, age_rating := 12,
      views := 0 },
    { id := 2, title := "x".toList, category := "B".toList, duration := 10001,
      age_rating := 12, views := 0 },
    { id := 3, title := "y".toList, category := "B".toList, duration := 10000,
      age_rating := 12, views := 0 } ]

/-- The same three contents with the durations of the two long ones exchanged. -/
def durationCatalogSwapped : ContentCatalog :=
  [ { id := 1, title := "w".toList, category := "A".toList, duration := 1, age_rating := 12,
      views := 0 },
    { id := 2, title := "x".toList, category := "B".toList, duration := 10000,
      age_rating := 12, views := 0 },
    { id := 3, title := "y".toList, category := "B".toList, duration := 10001,
      age_rating := 12, views := 0 } ]

/-- A log in which user 1 completes content 1. -/
def durationManager : UserManager :=
  { users := [ { id := 1, username := "ana".toList, favorite_contents := [],
                 interaction_count := 1 } ],
    interactions :=
      [ { user_id := 1, content_id := 1, type := INTERACTION_COMPLETE, timestamp := 0 } ] }

/-! ## Identifier policy -/

/-- The id policy in the words of the specification: `n` is 1 on the empty store and otherwise
1 + the largest id present. -/
def IsMaxPlusOne (ids : List Int) (n : Int) : Prop :=
  (ids = [] → n = 1) ∧ (ids ≠ [] → ∃ m ∈ ids, n = m + 1 ∧ ∀ i ∈ ids, i ≤ m)

/-- A catalog of two records with ids 1 and 3, as left by three additions and the removal of
id 2. -/
def gapCatalog : ContentCatalog :=
  [ { id := 1, title := "A".toList, category := "Drama".toList, duration := 45,
      age_rating := 12, views := 0 },
    { id := 3, title := "B".toList, category := "Drama".toList, duration := 50,
      age_rating := 12, views := 0 } ]

/-- A user store with ids 1 and 3 and an empty log. -/
def gapUsers : UserManager :=
  { users := [ { id := 1, username := "ana".toList, favorite_contents := [],
                 interaction_count := 0 },
               { id := 3, username := "rui".toList, favorite_contents := [],
                 interaction_count := 0 } ],
    interactions := [] }

/-- A list store with ids 1 and 3. -/
def gapLists : ListManager :=
  [ { id := 1, user_id := 1, name := "x".toList, content_ids := [] },
    { id := 3, user_id := 1, name := "y".toList, content_ids := [] } ]

section IdLemmas

theorem foldl_next_id_spec (ids : List Int) (n : Int) :
    let r := ids.foldl (fun next_id id => if id ≥ next_id then id + 1 else next_id) n
    n ≤ r ∧ (∀ i ∈ ids, i < r) ∧ (r = n ∨ ∃ m ∈ ids, r = m + 1) := by
  induction ids generalizing n with
  | nil => simp
  | cons x xs ih =>
    simp only [List.foldl_cons]
    by_cases hx : x ≥ n
    · rw [if_pos hx]
      obtain ⟨h1, h2, h3⟩ := ih (x + 1)
      refine ⟨by omega, ?_, ?_⟩
      · intro i hi
        rcases List.mem_cons.1 hi with rfl | hi
        · omega
        · exact h2 i hi
      · rcases h3 with h3 | ⟨m, hm, h3⟩
        · exact Or.inr ⟨x, List.mem_cons_self _ _, h3⟩
        · exact Or.inr ⟨m, List.mem_cons_of_mem _ hm, h3⟩
    · rw [if_neg hx]
      obtain ⟨h1, h2, h3⟩ := ih n
      refine ⟨h1, ?_, ?_⟩
      · intro i hi
        rcases List.mem_cons.1 hi with rfl | hi
        · omega
        · exact h2 i hi
      · rcases h3 with h3 | ⟨m, hm, h3⟩
        · exact Or.inl h3
        · exact Or.inr ⟨m, List.mem_cons_of_mem _ hm, h3⟩

theorem find_next_id_pos (ids : List Int) : 0 < find_next_id ids := by
  have h := (foldl_next_id_spec ids 1).1
  unfold find_next_id
  omega

theorem find_next_id_gt (ids : List Int) : ∀ i ∈ ids, i < find_next_id ids :=
  (foldl_next_id_spec ids 1).2.1

theorem find_next_id_isMaxPlusOne (ids : List Int) (hpos : ∀ i ∈ ids, 0 < i) :
    IsMaxPlusOne ids (find_next_id ids) := by
  constructor
  · rintro rfl
    rfl
  · intro hne
    rcases (foldl_next_id_spec ids 1).2.2 with h | ⟨m, hm, h⟩
    · obtain ⟨x, hx⟩ := List.exists_mem_of_ne_nil ids hne
      have h1 := find_next_id_gt ids x hx
      have h2 := hpos x hx
      unfold find_next_id at h1
      omega
    · refine ⟨m, hm, h, ?_⟩
      intro i hi
      have h1 := find_next_id_gt ids i hi
      unfold find_next_id at h1
      omega

theorem find_index_map_some {α : Type} (f : α → Int) (l : List α) (id : Int) (k : Nat)
    (h : find_index (l.map f) id = some k) :
    ∃ l1 x l2, l = l1 ++ x :: l2 ∧ f x = id ∧ (∀ y ∈ l1, f y ≠ id) ∧ l.eraseIdx k = l1 ++ l2 := by
  induction l generalizing k with
  | nil => simp [find_index] at h
  | cons a as ih =>
    simp only [List.map_cons, find_index] at h
    by_cases ha : f a = id
    · rw [if_pos ha] at h
      cases h
      exact ⟨[], a, as, rfl, ha, by simp, rfl⟩
    · rw [if_neg ha] at h
      cases hk : find_index (as.map f) id with
      | none => simp [hk] at h
      | some j =>
        simp [hk] at h
        subst h
        obtain ⟨l1, x, l2, e, hx, hl1, he⟩ := ih j hk
        refine ⟨a :: l1, x, l2, by simp [e], hx, ?_, by simp [he]⟩
        intro y hy
        rcases List.mem_cons.1 hy with rfl | hy
        · exact ha
        · exact hl1 y hy

theorem find_index_map_of_mem {α : Type} (f : α → Int) (l : List α) (c : α) (hc : c ∈ l) :
    ∃ k, find_index (l.map f) (f c) = some k := by
  induction l with
  | nil => simp at hc
  | cons a as ih =>
    simp only [List.map_cons, find_index]
    by_cases ha : f a = f c
    · exact ⟨0, by rw [if_pos ha]⟩
    · rcases List.mem_cons.1 hc with rfl | hc
      · exact absurd rfl ha
      · obtain ⟨k, hk⟩ := ih hc
        exact ⟨k + 1, by rw [if_neg ha, hk]; rfl⟩

theorem eraseIdx_then_next_id {α : Type} (f : α → Int) (l : List α) (c : α) (k : Nat)
    (hk : find_index (l.map f) (f c) = some k)
    (hpos : ∀ d ∈ l, 0 < f d) (hnd : (l.map f).Nodup) (hmax : ∀ d ∈ l, f d ≤ f c) :
    (l.eraseIdx k).map f = (l.map f).erase (f c) ∧
    IsMaxPlusOne ((l.eraseIdx k).map f) (find_next_id ((l.eraseIdx k).map f)) ∧
    (find_next_id ((l.eraseIdx k).map f) = f c ↔
      (l.eraseIdx k = [] ∧ f c = 1) ∨ ∃ d ∈ l.eraseIdx k, f d = f c - 1) := by
  obtain ⟨l1, x, l2, e, hx, hl1, he⟩ := find_index_map_some f l (f c) k hk
  rw [he]
  have hsub : ∀ d ∈ l1 ++ l2, d ∈ l := by
    intro d hd
    rw [e]
    rcases List.mem_append.1 hd with h | h
    · exact List.mem_append_left _ h
    · exact List.mem_append_right _ (List.mem_cons_of_mem _ h)
  have hne : ∀ d ∈ l1 ++ l2, f d ≠ f c := by
    intro d hd
    rw [e, List.map_append, List.map_cons, hx] at hnd
    rcases List.mem_append.1 hd with h | h
    · exact hl1 d h
    · have h2 := (List.nodup_cons.1 (List.nodup_append.1 hnd).2.1).1
      intro hfd
      exact h2 (hfd ▸ List.mem_map_of_mem f h)
  have hposr : ∀ i ∈ (l1 ++ l2).map f, 0 < i := by
    intro i hi
    obtain ⟨d, hd, rfl⟩ := List.mem_map.1 hi
    exact hpos d (hsub d hd)
  have hspec := find_next_id_isMaxPlusOne _ hposr
  refine ⟨?_, hspec, ?_⟩
  · have hnot : f c ∉ l1.map f := by
      intro h
      obtain ⟨y, hy, hfy⟩ := List.mem_map.1 h
      exact hl1 y hy hfy
    simp only [e, List.map_append, List.map_cons, hx]
    rw [List.erase_append_right _ hnot, List.erase_cons_head]
  · constructor
    · intro hn
      by_cases hnil : l1 ++ l2 = []
      · left
        refine ⟨hnil, ?_⟩
        rw [← hn, hnil]
        rfl
      · right
        have hnil2 : (l1 ++ l2).map f ≠ [] := by simpa using hnil
        obtain ⟨m, hm, hnm, -⟩ := hspec.2 hnil2
        obtain ⟨d, hd, rfl⟩ := List.mem_map.1 hm
        exact ⟨d, hd, by omega⟩
    · rintro (⟨hnil, h1⟩ | ⟨d, hd, hfd⟩)
      · rw [hnil, h1]
        rfl
      · have hnil2 : (l1 ++ l2).map f ≠ [] := by
          intro h
          rw [List.map_eq_nil_iff] at h
          rw [h] at hd
          simp at hd
        obtain ⟨m, hm, hnm, hle⟩ := hspec.2 hnil2
        obtain ⟨d2, hd2, rfl⟩ := List.mem_map.1 hm
        have h1 := hle (f d) (List.mem_map_of_mem f hd)
        have h2 := hmax d2 (hsub d2 hd2)
        have h3 := hne d2 hd2
        omega

end IdLemmas

/-! ## Sorting and selection lemmas -/

section RankingLemmas

theorem compare_scores_le_zero_iff (a b : ContentScore) :
    compare_scores a b ≤ 0 ↔ b.score ≤ a.score := by
  unfold compare_scores
  by_cases h1 : b.score > a.score
  · rw [if_pos h1]
    constructor
    · intro h; omega
    · intro h; exact absurd h (not_le.2 h1)
  · rw [if_neg h1]
    by_cases h2 : b.score < a.score
    · rw [if_pos h2]
      exact ⟨fun _ => le_of_lt h2, fun _ => by omega⟩
    · rw [if_neg h2]
      exact ⟨fun _ => not_lt.1 h1, fun _ => le_refl _⟩

theorem insertion_qsort_spec : QsortSpec insertion_qsort := by
  intro l
  haveI : IsTotal ContentScore (fun a b => compare_scores a b ≤ 0) :=
    ⟨fun a b => by
      simp only [compare_scores_le_zero_iff]
      exact le_total _ _⟩
  haveI : IsTrans ContentScore (fun a b => compare_scores a b ≤ 0) :=
    ⟨fun a b c => by
      simp only [compare_scores_le_zero_iff]
      exact fun h1 h2 => le_trans h2 h1⟩
  exact ⟨List.perm_insertionSort _ l, List.sorted_insertionSort _ l⟩

theorem perm_map_lift {α β : Type} (f : α → β) :
    ∀ (s : List β) (l : List α), s.Perm (l.map f) →
      ∃ l' : List α, l'.Perm l ∧ l'.map f = s := by
  intro s
  induction s with
  | nil =>
    intro l h
    have hl : l = [] := by
      have := h.length_eq
      simp at this
      exact List.length_eq_zero.1 this.symm
    subst hl
    exact ⟨[], List.Perm.refl _, rfl⟩
  | cons b s ih =>
    intro l h
    have hb : b ∈ l.map f := h.subset (List.mem_cons_self _ _)
    obtain ⟨a, ha, rfl⟩ := List.mem_map.1 hb
    obtain ⟨l1, l2, rfl⟩ := List.append_of_mem ha
    have h2 : (f a :: s).Perm (f a :: (l1 ++ l2).map f) := by
      refine h.trans ?_
      simp only [List.map_append, List.map_cons]
      exact List.perm_middle
    obtain ⟨l', hl', hm⟩ := ih (l1 ++ l2) h2.cons_inv
    exact ⟨a :: l', (hl'.cons a).trans List.perm_middle.symm, by simp [hm]⟩

/-- What sorting with `qsort` and copying the first `m` ids amounts to, for scores computed
from a list of items by `f`. -/
theorem ranked_selection {α : Type} (qsort : List ContentScore → List ContentScore)
    (hq : QsortSpec qsort) (items : List α) (f : α → ContentScore) (m : Int) :
    ∃ sel rest : List α, (sel ++ rest).Perm items ∧
      copy_recommendations (qsort (items.map f)) m = sel.map (fun c => (f c).content_id) ∧
      sel.length = min m.toNat items.length ∧
      (sel ++ rest).Pairwise (fun a b => (f b).score ≤ (f a).score) := by
  obtain ⟨hperm, hsorted⟩ := hq (items.map f)
  obtain ⟨l', hl', hm⟩ := perm_map_lift f _ items hperm
  refine ⟨l'.take m.toNat, l'.drop m.toNat, ?_, ?_, ?_, ?_⟩
  · rw [List.take_append_drop]
    exact hl'
  · unfold copy_recommendations
    rw [← hm, ← List.map_take, List.map_map]
    rfl
  · rw [List.length_take, hl'.length_eq]
  · rw [List.take_append_drop]
    rw [← hm, List.pairwise_map] at hsorted
    exact hsorted.imp (fun h => (compare_scores_le_zero_iff _ _).1 h)

theorem qsort_eq_insertion_qsort (qsort : List ContentScore → List ContentScore)
    (hq : QsortSpec qsort) (l : List ContentScore) (hnd : (l.map (·.score)).Nodup) :
    qsort l = insertion_qsort l := by
  have strict : ∀ (s : List ContentScore), s.Perm l →
      s.Pairwise (fun a b => compare_scores a b ≤ 0) →
      s.Pairwise (fun a b => b.score < a.score) := by
    intro s hs hp
    have hnd2 : (s.map (·.score)).Nodup := (hs.map _).nodup_iff.2 hnd
    rw [List.Nodup, List.pairwise_map] at hnd2
    exact (hp.and hnd2).imp
      (fun h => lt_of_le_of_ne ((compare_scores_le_zero_iff _ _).1 h.1) (Ne.symm h.2))
  haveI : IsAntisymm ContentScore (fun a b => b.score < a.score) :=
    ⟨fun a b h1 h2 => absurd h1 (not_lt.2 (le_of_lt h2))⟩
  obtain ⟨h1, h2⟩ := hq l
  obtain ⟨h3, h4⟩ := insertion_qsort_spec l
  exact List.eq_of_perm_of_sorted (h1.trans h3.symm) (strict _ h1 h2) (strict _ h3 h4)

theorem foldl_collect_scores (step : Content → Option ContentScore) :
    ∀ (catalog : ContentCatalog) (acc : List ContentScore),
      acc.length + catalog.length ≤ 1000 →
      catalog.foldl
        (fun scores content =>
          if scores.length < 1000 then
            match step content with
            | some s => scores ++ [s]
            | none => scores
          else scores) acc = acc ++ catalog.filterMap step := by
  intro catalog
  induction catalog with
  | nil => intro acc _; simp
  | cons c cs ih =>
    intro acc h
    simp only [List.length_cons] at h
    have h1 : acc.length < 1000 := by omega
    simp only [List.foldl_cons, if_pos h1]
    cases hs : step c with
    | none =>
      simp only [List.filterMap_cons, hs]
      exact ih acc (by omega)
    | some s =>
      simp only [List.filterMap_cons, hs]
      rw [ih (acc ++ [s]) (by simp only [List.length_append, List.length_singleton]; omega)]
      simp

theorem collect_scores_eq_filterMap (step : Content → Option ContentScore)
    (catalog : ContentCatalog) (h : catalog.length ≤ 1000) :
    collect_scores step catalog = catalog.filterMap step := by
  unfold collect_scores
  rw [foldl_collect_scores step catalog [] (by simpa using h)]
  rfl

theorem mem_foldl_collect_scores (step : Content → Option ContentScore) :
    ∀ (catalog : ContentCatalog) (acc : List ContentScore) (s : ContentScore),
      s ∈ catalog.foldl
        (fun scores content =>
          if scores.length < 1000 then
            match step content with
            | some s => scores ++ [s]
            | none => scores
          else scores) acc →
      s ∈ acc ∨ ∃ c ∈ catalog, step c = some s := by
  intro catalog
  induction catalog with
  | nil => intro acc s h; exact Or.inl h
  | cons c cs ih =>
    intro acc s h
    simp only [List.foldl_cons] at h
    rcases ih _ s h with h1 | ⟨d, hd, hs⟩
    · by_cases hlen : acc.length < 1000
      · rw [if_pos hlen] at h1
        cases hc : step c with
        | none =>
          rw [hc] at h1
          exact Or.inl h1
        | some t =>
          rw [hc] at h1
          rcases List.mem_append.1 h1 with h2 | h2
          · exact Or.inl h2
          · rw [List.mem_singleton] at h2
            subst h2
            exact Or.inr ⟨c, List.mem_cons_self _ _, hc⟩
      · rw [if_neg hlen] at h1
        exact Or.inl h1
    · exact Or.inr ⟨d, List.mem_cons_of_mem _ hd, hs⟩

theorem mem_collect_scores (step : Content → Option ContentScore) (catalog : ContentCatalog)
    (s : ContentScore) (h : s ∈ collect_scores step catalog) :
    ∃ c ∈ catalog, step c = some s := by
  rcases mem_foldl_collect_scores step catalog [] s h with h1 | h1
  · simp at h1
  · exact h1

theorem mem_copy_recommendations (qsort : List ContentScore → List ContentScore)
    (hq : QsortSpec qsort) (scores : List ContentScore) (m : Int) (id : Int)
    (h : id ∈ copy_recommendations (qsort scores) m) :
    ∃ s ∈ scores, s.content_id = id := by
  unfold copy_recommendations at h
  obtain ⟨s, hs, rfl⟩ := List.mem_map.1 h
  exact ⟨s, (hq scores).1.subset (List.mem_of_mem_take hs), rfl⟩

end RankingLemmas

/-! ## Fallback and similarity lemmas -/

section SimilarityLemmas

theorem foldl_fixed {α β : Type} (f : β → α → β) (b : β) (l : List α)
    (h : ∀ x ∈ l, f b x = b) : l.foldl f b = b := by
  induction l with
  | nil => rfl
  | cons x xs ih =>
    rw [List.foldl_cons, h x (List.mem_cons_self _ _)]
    exact ih (fun y hy => h y (List.mem_cons_of_mem _ hy))

theorem similarity_eq_formula (a b : Content) (ha : 0 ≤ a.duration) :
    recommendation_calculate_similarity (some a) (some b) = similarity_formula a b := by
  have hmax : (if a.duration > b.duration then a.duration else b.duration)
      = max a.duration b.duration := by
    by_cases h : a.duration > b.duration
    · rw [if_pos h, max_eq_left (le_of_lt h)]
    · rw [if_neg h, max_eq_right (not_lt.1 h)]
  have hnn : 0 ≤ max a.duration b.duration := le_max_of_le_left ha
  simp only [recommendation_calculate_similarity, similarity_formula, hmax, zero_add]
  by_cases h0 : max a.duration b.duration = 0
  · have h1 : ¬ (((max a.duration b.duration : Int) : ℚ) > 0) := by
      rw [h0]
      simp
    rw [if_neg h1, if_pos h0, add_zero]
  · have h1 : ((max a.duration b.duration : Int) : ℚ) > 0 := by
      have : 0 < max a.duration b.duration := lt_of_le_of_ne hnn (Ne.symm h0)
      exact_mod_cast this
    rw [if_pos h1, if_neg h0]

theorem similarity_same_category_gt (a b : Content)
    (hda : 0 < a.duration) (hdb : 0 < b.duration)
    (hage : abs (a.age_rating - b.age_rating) ≤ 18) (hcat : a.category = b.category) :
    6 / 10 < recommendation_calculate_similarity (some a) (some b) := by
  rw [similarity_eq_formula a b (le_of_lt hda)]
  have hmpos : 0 < max a.duration b.duration := lt_max_of_lt_left hda
  have hm0 : ¬ max a.duration b.duration = 0 := by omega
  simp only [similarity_formula, if_pos hcat, if_neg hm0]
  have hx1 : ((abs (a.age_rating - b.age_rating) : Int) : ℚ) ≤ 18 := by exact_mod_cast hage
  have hlt : abs (a.duration - b.duration) < max a.duration b.duration := by
    rw [abs_lt]
    constructor
    · rcases le_total a.duration b.duration with h | h
      · rw [max_eq_right h]; omega
      · rw [max_eq_left h]; omega
    · rcases le_total a.duration b.duration with h | h
      · rw [max_eq_right h]; omega
      · rw [max_eq_left h]; omega
  have hmq : (0 : ℚ) < ((max a.duration b.duration : Int) : ℚ) := by exact_mod_cast hmpos
  have hr : ((abs (a.duration - b.duration) : Int) : ℚ)
      / ((max a.duration b.duration : Int) : ℚ) < 1 := by
    rw [div_lt_one hmq]
    exact_mod_cast hlt
  have hq : ((abs (a.age_rating - b.age_rating) : Int) : ℚ) / 18 ≤ 1 := by
    rw [div_le_one (by norm_num)]
    exact hx1
  linarith

theorem similarity_other_category_le (a c : Content)
    (hda : 0 < a.duration) (hcat : a.category ≠ c.category) :
    recommendation_calculate_similarity (some a) (some c) ≤ 4 / 10 := by
  rw [similarity_eq_formula a c (le_of_lt hda)]
  have hmpos : 0 < max a.duration c.duration := lt_max_of_lt_left hda
  have hm0 : ¬ max a.duration c.duration = 0 := by omega
  simp only [similarity_formula, if_neg hcat, if_neg hm0]
  have hmq : (0 : ℚ) < ((max a.duration c.duration : Int) : ℚ) := by exact_mod_cast hmpos
  have hx0 : (0 : ℚ) ≤ ((abs (a.age_rating - c.age_rating) : Int) : ℚ) := by
    exact_mod_cast abs_nonneg (a.age_rating - c.age_rating)
  have hy0 : (0 : ℚ) ≤ ((abs (a.duration - c.duration) : Int) : ℚ) := by
    exact_mod_cast abs_nonneg (a.duration - c.duration)
  have hr : 0 ≤ ((abs (a.duration - c.duration) : Int) : ℚ)
      / ((max a.duration c.duration : Int) : ℚ) := div_nonneg hy0 (le_of_lt hmq)
  have hq : 0 ≤ ((abs (a.age_rating - c.age_rating) : Int) : ℚ) / 18 :=
    div_nonneg hx0 (by norm_num)
  linarith

end SimilarityLemmas

/-! ## Watched-set lemmas -/

section WatchedLemmas

theorem foldl_watched_ids_spec (user_id : Int) :
    ∀ (log : List Interaction) (acc : List Int), acc.Nodup →
      (log.foldl
        (fun watched_ids interaction =>
          if watched_ids.length < 100 then
            if interaction.user_id = user_id ∧ interaction.type = INTERACTION_COMPLETE then
              if interaction.content_id ∈ watched_ids then watched_ids
              else watched_ids ++ [interaction.content_id]
            else watched_ids
          else watched_ids) acc).Nodup ∧
      (∃ t, log.foldl
        (fun watched_ids interaction =>
          if watched_ids.length < 100 then
            if interaction.user_id = user_id ∧ interaction.type = INTERACTION_COMPLETE then
              if interaction.content_id ∈ watched_ids then watched_ids
              else watched_ids ++ [interaction.content_id]
            else watched_ids
          else watched_ids) acc = acc ++ t ∧
        (∀ w ∈ t, ∃ it ∈ log, it.user_id = user_id ∧ it.type = INTERACTION_COMPLETE ∧
          it.content_id = w) ∧
        (∀ it ∈ log, it.user_id = user_id → it.type = INTERACTION_COMPLETE →
          it.content_id ∈ acc ++ t ∨ 100 ≤ (acc ++ t).length)) := by
  intro log
  induction log with
  | nil =>
    intro acc hacc
    exact ⟨hacc, [], by simp, by simp, by simp⟩
  | cons x xs ih =>
    intro acc hacc
    simp only [List.foldl_cons]
    have key : ∀ acc', acc'.Nodup → (∃ u, acc' = acc ++ u ∧
        (∀ w ∈ u, x.content_id = w ∧ x.user_id = user_id ∧ x.type = INTERACTION_COMPLETE)) →
        ((x.user_id = user_id → x.type = INTERACTION_COMPLETE →
            x.content_id ∈ acc' ∨ 100 ≤ acc'.length)) →
        (xs.foldl
          (fun watched_ids interaction =>
            if watched_ids.length < 100 then
              if interaction.user_id = user_id ∧ interaction.type = INTERACTION_COMPLETE then
                if interaction.content_id ∈ watched_ids then watched_ids
                else watched_ids ++ [interaction.content_id]
              else watched_ids
            else watched_ids) acc').Nodup ∧
        (∃ t, xs.foldl
          (fun watched_ids interaction =>
            if watched_ids.length < 100 then
              if interaction.user_id = user_id ∧ interaction.type = INTERACTION_COMPLETE then
                if interaction.content_id ∈ watched_ids then watched_ids
                else watched_ids ++ [interaction.content_id]
              else watched_ids
            else watched_ids) acc' = acc ++ t ∧
          (∀ w ∈ t, ∃ it ∈ x :: xs, it.user_id = user_id ∧ it.type = INTERACTION_COMPLETE ∧
            it.content_id = w) ∧
          (∀ it ∈ x :: xs, it.user_id = user_id → it.type = INTERACTION_COMPLETE →
            it.content_id ∈ acc ++ t ∨ 100 ≤ (acc ++ t).length)) := by
      intro acc' hnd ⟨u, hu, hux⟩ hx
      obtain ⟨h1, t, h2, h3, h4⟩ := ih acc' hnd
      refine ⟨h1, u ++ t, by rw [h2, hu, List.append_assoc], ?_, ?_⟩
      · intro w hw
        rcases List.mem_append.1 hw with hw | hw
        · obtain ⟨e1, e2, e3⟩ := hux w hw
          exact ⟨x, List.mem_cons_self _ _, e2, e3, e1⟩
        · obtain ⟨it, hit, e⟩ := h3 w hw
          exact ⟨it, List.mem_cons_of_mem _ hit, e⟩
      · intro it hit e1 e2
        rw [← List.append_assoc, ← hu]
        rcases List.mem_cons.1 hit with rfl | hit
        · rcases hx e1 e2 with h | h
          · exact Or.inl (List.mem_append_left _ h)
          · right
            rw [List.length_append]
            omega
        · exact h4 it hit e1 e2
    by_cases hlen : acc.length < 100
    · rw [if_pos hlen]
      by_cases hc : x.user_id = user_id ∧ x.type = INTERACTION_COMPLETE
      · rw [if_pos hc]
        by_cases hmem : x.content_id ∈ acc
        · rw [if_pos hmem]
          exact key acc hacc ⟨[], by simp, by simp⟩ (fun _ _ => Or.inl hmem)
        · rw [if_neg hmem]
          refine key (acc ++ [x.content_id]) ?_ ⟨[x.content_id], rfl, ?_⟩ ?_
          · refine List.Nodup.append hacc (List.nodup_singleton _) ?_
            intro a ha hb
            rw [List.mem_singleton] at hb
            exact hmem (hb ▸ ha)
          · intro w hw
            rw [List.mem_singleton] at hw
            exact ⟨hw.symm, hc.1, hc.2⟩
          · intro _ _
            exact Or.inl (by simp)
      · rw [if_neg hc]
        exact key acc hacc ⟨[], by simp, by simp⟩ (fun e1 e2 => absurd ⟨e1, e2⟩ hc)
    · rw [if_neg hlen]
      exact key acc hacc ⟨[], by simp, by simp⟩ (fun _ _ => Or.inr (by omega))

theorem collect_watched_ids_perm (user_manager : UserManager) (user_id : Int)
    (h100 : (watched_set user_manager user_id).length ≤ 100) :
    (collect_watched_ids user_manager user_id).Perm (watched_set user_manager user_id) := by
  obtain ⟨hnd, t, ht, hsub, hall⟩ :=
    foldl_watched_ids_spec user_id user_manager.interactions [] List.nodup_nil
  have hcoll : collect_watched_ids user_manager user_id = t := by
    unfold collect_watched_ids
    rw [ht]
    rfl
  rw [ht] at hnd
  simp only [List.nil_append] at hnd hall
  rw [hcoll]
  have hmemW : ∀ w, w ∈ watched_set user_manager user_id ↔
      ∃ it ∈ user_manager.interactions, it.user_id = user_id ∧
        it.type = INTERACTION_COMPLETE ∧ it.content_id = w := by
    intro w
    unfold watched_set
    rw [List.mem_dedup, List.mem_map]
    constructor
    · rintro ⟨it, hit, rfl⟩
      rw [List.mem_filter] at hit
      have := hit.2
      simp only [decide_eq_true_eq] at this
      exact ⟨it, hit.1, this.1, this.2, rfl⟩
    · rintro ⟨it, hit, e1, e2, rfl⟩
      refine ⟨it, ?_, rfl⟩
      rw [List.mem_filter]
      exact ⟨hit, by simp [e1, e2]⟩
  have hWnd : (watched_set user_manager user_id).Nodup := List.nodup_dedup _
  have hsubset : t ⊆ watched_set user_manager user_id := by
    intro w hw
    exact (hmemW w).2 (hsub w hw)
  have hsp : t.Subperm (watched_set user_manager user_id) := hnd.subperm hsubset
  by_cases hfull : 100 ≤ t.length
  · exact hsp.perm_of_length_le (by omega)
  · rw [List.perm_ext_iff_of_nodup hnd hWnd]
    intro w
    constructor
    · exact fun hw => hsubset hw
    · intro hw
      obtain ⟨it, hit, e1, e2, rfl⟩ := (hmemW w).1 hw
      rcases hall it hit e1 e2 with h | h
      · exact h
      · exact absurd h hfull

theorem foldl_total_similarity (content_catalog : ContentCatalog) (candidate : Content) :
    ∀ (ws : List Int) (t0 : ℚ),
      ws.foldl
        (fun total id =>
          match content_get_by_id content_catalog id with
          | some watched =>
            total + recommendation_calculate_similarity (some watched) (some candidate)
          | none => total) t0 =
      t0 + (ws.map (fun w =>
        recommendation_calculate_similarity (content_get_by_id content_catalog w)
          (some candidate))).sum := by
  intro ws
  induction ws with
  | nil => intro t0; simp
  | cons w ws ih =>
    intro t0
    simp only [List.foldl_cons, List.map_cons, List.sum_cons]
    rw [ih]
    cases hget : content_get_by_id content_catalog w with
    | none =>
      simp only [recommendation_calculate_similarity]
      ring
    | some x => ring

theorem average_similarity_perm (content_catalog : ContentCatalog) (w1 w2 : List Int)
    (h : w1.Perm w2) (candidate : Content) :
    average_similarity content_catalog w1 candidate =
      average_similarity content_catalog w2 candidate := by
  unfold average_similarity
  rw [(h.map _).sum_eq, h.length_eq]

theorem filterMap_ite_none {α β : Type} (p : α → Prop) [DecidablePred p] (f : α → β)
    (l : List α) :
    l.filterMap (fun c => if p c then none else some (f c)) =
      (l.filter (fun c => ¬ p c)).map f := by
  induction l with
  | nil => rfl
  | cons a as ih =>
    by_cases h : p a
    · simp [List.filterMap_cons, List.filter_cons, h, ih]
    · simp [List.filterMap_cons, List.filter_cons, h, ih]

theorem content_similarity_eq (qsort : List ContentScore → List ContentScore)
    (user_manager : UserManager) (content_catalog : ContentCatalog) (user_id m : Int)
    (hu : 0 < user_id) (hm : 0 < m)
    (hne : watched_set user_manager user_id ≠ [])
    (h100 : (watched_set user_manager user_id).length ≤ 100)
    (hcat : content_catalog.length ≤ 1000) :
    recommendation_by_content_similarity qsort user_manager content_catalog user_id m =
      copy_recommendations
        (qsort ((content_catalog.filter
            (fun c => c.id ∉ watched_set user_manager user_id)).map
          (fun c => ({ content_id := c.id,
                       score := average_similarity content_catalog
                         (watched_set user_manager user_id) c } : ContentScore)))) m := by
  have hg : ¬ (user_id ≤ 0 ∨ m ≤ 0) := by omega
  have hperm := collect_watched_ids_perm user_manager user_id h100
  have hlen : ¬ (collect_watched_ids user_manager user_id).length = 0 := by
    rw [hperm.length_eq]
    intro h
    exact hne (List.length_eq_zero.1 h)
  have hpos : (collect_watched_ids user_manager user_id).length > 0 := by omega
  simp only [recommendation_by_content_similarity, if_neg hg, if_neg hlen, if_pos hpos]
  rw [collect_scores_eq_filterMap _ _ hcat]
  have hstep : (fun candidate : Content =>
      if candidate.id ∈ collect_watched_ids user_manager user_id then none
      else some ({ content_id := candidate.id,
                   score := total_similarity content_catalog
                       (collect_watched_ids user_manager user_id) candidate /
                     ((collect_watched_ids user_manager user_id).length : ℚ) }
                 : ContentScore)) =
      (fun candidate : Content =>
      if candidate.id ∈ watched_set user_manager user_id then none
      else some ({ content_id := candidate.id,
                   score := average_similarity content_catalog
                     (watched_set user_manager user_id) candidate } : ContentScore)) := by
    funext candidate
    have hmem : candidate.id ∈ collect_watched_ids user_manager user_id ↔
        candidate.id ∈ watched_set user_manager user_id := hperm.mem_iff
    have hscore : total_similarity content_catalog
          (collect_watched_ids user_manager user_id) candidate /
            ((collect_watched_ids user_manager user_id).length : ℚ) =
        average_similarity content_catalog (watched_set user_manager user_id) candidate := by
      rw [← average_similarity_perm content_catalog _ _ hperm candidate]
      unfold total_similarity average_similarity
      rw [foldl_total_similarity, zero_add]
    rw [hscore]
    by_cases h : candidate.id ∈ watched_set user_manager user_id
    · rw [if_pos h, if_pos (hmem.2 h)]
    · rw [if_neg h, if_neg (fun h2 => h (hmem.1 h2))]
  rw [hstep, filterMap_ite_none]

end WatchedLemmas

/-! ## Category-sort lemmas -/

section SortLemmas

theorem getElem?_mid {α : Type} (pre : List α) (x : α) (post : List α) :
    (pre ++ x :: post)[pre.length]? = some x := by
  rw [List.getElem?_append_right (le_refl _), Nat.sub_self, List.getElem?_cons_zero]

theorem select_max_cons (x y : CString × Int) (ys : List (CString × Int)) :
    select_max x (y :: ys) =
      if y.2 > x.2 then ((select_max y ys).1, x :: (select_max y ys).2)
      else ((select_max x ys).1, y :: (select_max x ys).2) := by
  rw [select_max]

theorem set_mid {α : Type} (pre : List α) (x v : α) (post : List α) :
    (pre ++ x :: post).set pre.length v = pre ++ v :: post := by
  simp

theorem select_max_length (x : CString × Int) (ys : List (CString × Int)) :
    (select_max x ys).2.length = ys.length := by
  induction ys generalizing x with
  | nil => rfl
  | cons y ys ih =>
    rw [select_max_cons]
    by_cases h : y.2 > x.2
    · rw [if_pos h]
      simp [ih]
    · rw [if_neg h]
      simp [ih]

theorem swap_if_greater_mid (pre done ys : List (CString × Int)) (x y : CString × Int) :
    swap_if_greater (pre ++ x :: (done ++ y :: ys)) pre.length (pre.length + 1 + done.length) =
      if y.2 > x.2 then pre ++ y :: (done ++ x :: ys) else pre ++ x :: (done ++ y :: ys) := by
  have hi : (pre ++ x :: (done ++ y :: ys))[pre.length]? = some x := getElem?_mid _ _ _
  have hlen : (pre ++ x :: done).length = pre.length + 1 + done.length := by
    simp only [List.length_append, List.length_cons]
    omega
  have hassoc : pre ++ x :: (done ++ y :: ys) = (pre ++ x :: done) ++ y :: ys := by simp
  have hj : (pre ++ x :: (done ++ y :: ys))[pre.length + 1 + done.length]? = some y := by
    rw [hassoc, ← hlen]
    exact getElem?_mid _ _ _
  unfold swap_if_greater
  rw [hi, hj]
  by_cases h : y.2 > x.2
  · simp only [if_pos h]
    rw [set_mid]
    have hassoc2 : pre ++ y :: (done ++ y :: ys) = (pre ++ y :: done) ++ y :: ys := by simp
    have hlen2 : (pre ++ y :: done).length = pre.length + 1 + done.length := by
      simp only [List.length_append, List.length_cons]
      omega
    rw [hassoc2, ← hlen2, set_mid]
    simp
  · simp only [if_neg h]

theorem inner_loop_eq (pre : List (CString × Int)) :
    ∀ (todo done : List (CString × Int)) (x : CString × Int),
      (List.range' (pre.length + 1 + done.length) todo.length).foldl
          (fun cats j => swap_if_greater cats pre.length j) (pre ++ x :: (done ++ todo)) =
        pre ++ (select_max x todo).1 :: (done ++ (select_max x todo).2) := by
  intro todo
  induction todo with
  | nil =>
    intro done x
    simp [select_max]
  | cons y ys ih =>
    intro done x
    rw [List.length_cons, List.range'_succ, List.foldl_cons, swap_if_greater_mid]
    have hstart : pre.length + 1 + done.length + 1 = pre.length + 1 + (done ++ [x]).length := by
      simp only [List.length_append, List.length_singleton]
      omega
    have hstart2 : pre.length + 1 + done.length + 1 = pre.length + 1 + (done ++ [y]).length := by
      simp only [List.length_append, List.length_singleton]
      omega
    by_cases h : y.2 > x.2
    · rw [if_pos h]
      have e : pre ++ y :: (done ++ x :: ys) = pre ++ y :: ((done ++ [x]) ++ ys) := by simp
      rw [e, hstart, ih (done ++ [x]) y, select_max_cons, if_pos h]
      simp
    · rw [if_neg h]
      have e : pre ++ x :: (done ++ y :: ys) = pre ++ x :: ((done ++ [y]) ++ ys) := by simp
      rw [e, hstart2, ih (done ++ [y]) x, select_max_cons, if_neg h]
      simp

theorem outer_loop_eq (n : Nat) :
    ∀ (k : Nat) (pre rest : List (CString × Int)),
      rest.length = k + 1 → (pre ++ rest).length = n →
      (List.range' pre.length k).foldl
          (fun cats i =>
            (List.range' (i + 1) (n - (i + 1))).foldl
              (fun cats j => swap_if_greater cats i j) cats)
          (pre ++ rest) =
        pre ++ exchange_sort k rest := by
  intro k
  induction k with
  | zero =>
    intro pre rest _ _
    simp [exchange_sort]
  | succ k ih =>
    intro pre rest hrest hn
    cases rest with
    | nil => simp at hrest
    | cons x xs =>
      have hxs : xs.length = k + 1 := by simpa using hrest
      have hcount : n - (pre.length + 1) = xs.length := by
        simp only [List.length_append, List.length_cons] at hn
        omega
      rw [List.range'_succ, List.foldl_cons, hcount]
      have hinner := inner_loop_eq pre xs [] x
      simp only [List.length_nil, Nat.add_zero, List.nil_append] at hinner
      rw [hinner]
      have e : pre ++ (select_max x xs).1 :: (select_max x xs).2 =
          (pre ++ [(select_max x xs).1]) ++ (select_max x xs).2 := by simp
      have hl : pre.length + 1 = (pre ++ [(select_max x xs).1]).length := by simp
      rw [e, hl, ih _ _ (by rw [select_max_length, hxs])
        (by rw [← e]; simpa [select_max_length] using hn)]
      simp [exchange_sort]

theorem sort_categories_eq (categories : List (CString × Int)) :
    sort_categories categories = exchange_sort (categories.length - 1) categories := by
  unfold sort_categories
  cases categories with
  | nil => simp [exchange_sort]
  | cons x xs =>
    have h := outer_loop_eq (x :: xs).length ((x :: xs).length - 1) [] (x :: xs)
      (by simp) (by simp)
    simp only [List.length_nil, List.nil_append] at h
    rw [List.range_eq_range']
    exact h

theorem select_max_perm (x : CString × Int) (ys : List (CString × Int)) :
    ((select_max x ys).1 :: (select_max x ys).2).Perm (x :: ys) := by
  induction ys generalizing x with
  | nil => exact List.Perm.refl _
  | cons y ys ih =>
    rw [select_max_cons]
    by_cases h : y.2 > x.2
    · rw [if_pos h]
      exact (List.Perm.swap _ _ _).trans ((ih y).cons x)
    · rw [if_neg h]
      exact ((List.Perm.swap _ _ _).trans ((ih x).cons y)).trans (List.Perm.swap _ _ _)

theorem select_max_ge (x : CString × Int) (ys : List (CString × Int)) :
    x.2 ≤ (select_max x ys).1.2 ∧ ∀ z ∈ (select_max x ys).2, z.2 ≤ (select_max x ys).1.2 := by
  induction ys generalizing x with
  | nil => simp [select_max]
  | cons y ys ih =>
    rw [select_max_cons]
    by_cases h : y.2 > x.2
    · rw [if_pos h]
      obtain ⟨h1, h2⟩ := ih y
      refine ⟨by simp only; omega, ?_⟩
      intro z hz
      rcases List.mem_cons.1 hz with rfl | hz
      · simp only; omega
      · exact h2 z hz
    · rw [if_neg h]
      obtain ⟨h1, h2⟩ := ih x
      refine ⟨h1, ?_⟩
      intro z hz
      rcases List.mem_cons.1 hz with rfl | hz
      · simp only; omega
      · exact h2 z hz

theorem select_max_of_ge (x : CString × Int) (ys : List (CString × Int))
    (h : ∀ z ∈ ys, z.2 ≤ x.2) : select_max x ys = (x, ys) := by
  induction ys with
  | nil => rfl
  | cons y ys ih =>
    have hy : ¬ y.2 > x.2 := by
      have := h y (List.mem_cons_self _ _)
      omega
    rw [select_max_cons, if_neg hy, ih (fun z hz => h z (List.mem_cons_of_mem _ hz))]

theorem exchange_sort_cons (n : Nat) (x : CString × Int) (xs : List (CString × Int)) :
    exchange_sort (n + 1) (x :: xs) =
      (select_max x xs).1 :: exchange_sort n (select_max x xs).2 := rfl

theorem exchange_sort_perm (n : Nat) (l : List (CString × Int)) :
    (exchange_sort n l).Perm l := by
  induction n generalizing l with
  | zero => exact List.Perm.refl _
  | succ n ih =>
    cases l with
    | nil => exact List.Perm.refl _
    | cons x xs =>
      simp only [exchange_sort]
      exact ((ih _).cons _).trans (select_max_perm x xs)

theorem exchange_sort_sorted (n : Nat) (l : List (CString × Int)) (h : l.length ≤ n + 1) :
    (exchange_sort n l).Pairwise (fun a b => b.2 ≤ a.2) := by
  induction n generalizing l with
  | zero =>
    cases l with
    | nil => exact List.Pairwise.nil
    | cons x xs =>
      have : xs = [] := by
        simp only [List.length_cons] at h
        exact List.length_eq_zero.1 (by omega)
      subst this
      simp [exchange_sort]
  | succ n ih =>
    cases l with
    | nil => exact List.Pairwise.nil
    | cons x xs =>
      simp only [exchange_sort]
      rw [List.pairwise_cons]
      constructor
      · intro z hz
        exact (select_max_ge x xs).2 z ((exchange_sort_perm n _).subset hz)
      · apply ih
        rw [select_max_length]
        simpa using h

theorem select_max_keeps (X : CString × Int) (after : List (CString × Int))
    (hafter : ∀ z ∈ after, z.2 ≤ X.2) :
    ∀ (bs : List (CString × Int)) (c : CString × Int),
      ((select_max c (bs ++ X :: after)).1 = X ∧
        ∀ z ∈ after, z ∈ (select_max c (bs ++ X :: after)).2) ∨
      ∃ r1, (select_max c (bs ++ X :: after)).2 = r1 ++ X :: after := by
  intro bs
  induction bs with
  | nil =>
    intro c
    simp only [List.nil_append]
    rw [select_max_cons]
    by_cases h : X.2 > c.2
    · rw [if_pos h, select_max_of_ge X after hafter]
      exact Or.inl ⟨rfl, fun z hz => List.mem_cons_of_mem _ hz⟩
    · rw [if_neg h, select_max_of_ge c after (fun z hz => by have := hafter z hz; omega)]
      exact Or.inr ⟨[], rfl⟩
  | cons b bs ih =>
    intro c
    simp only [List.cons_append]
    rw [select_max_cons]
    by_cases h : b.2 > c.2
    · rw [if_pos h]
      rcases ih b with ⟨h1, h2⟩ | ⟨r1, h1⟩
      · exact Or.inl ⟨h1, fun z hz => List.mem_cons_of_mem _ (h2 z hz)⟩
      · exact Or.inr ⟨c :: r1, by simp [h1]⟩
    · rw [if_neg h]
      rcases ih c with ⟨h1, h2⟩ | ⟨r1, h1⟩
      · exact Or.inl ⟨h1, fun z hz => List.mem_cons_of_mem _ (h2 z hz)⟩
      · exact Or.inr ⟨b :: r1, by simp [h1]⟩

theorem exchange_sort_keeps (X : CString × Int) (after : List (CString × Int))
    (hafter : ∀ z ∈ after, z.2 ≤ X.2) :
    ∀ (n : Nat) (before : List (CString × Int)),
      ∃ s1 s2, exchange_sort n (before ++ X :: after) = s1 ++ X :: s2 ∧
        ∀ z ∈ after, z ∈ s2 := by
  intro n
  induction n with
  | zero =>
    intro before
    exact ⟨before, after, rfl, fun z hz => hz⟩
  | succ n ih =>
    intro before
    cases before with
    | nil =>
      rw [List.nil_append, exchange_sort_cons, select_max_of_ge X after hafter]
      exact ⟨[], exchange_sort n after, rfl,
        fun z hz => (exchange_sort_perm n after).symm.subset hz⟩
    | cons b bs =>
      rw [List.cons_append, exchange_sort_cons]
      rcases select_max_keeps X after hafter bs b with ⟨h1, h2⟩ | ⟨r1, h1⟩
      · rw [h1]
        exact ⟨[], exchange_sort n _, rfl,
          fun z hz => (exchange_sort_perm n _).symm.subset (h2 z hz)⟩
      · rw [h1]
        obtain ⟨s1, s2, e, hs⟩ := ih r1
        exact ⟨(select_max b (bs ++ X :: after)).1 :: s1, s2, by rw [e]; rfl, hs⟩

end SortLemmas

/-! ## Tally lemmas -/

section TallyLemmas

theorem foldl_invariant {α β : Type} (P : β → Prop) (f : β → α → β) (l : List α) (b : β)
    (hb : P b) (hstep : ∀ b, P b → ∀ x ∈ l, P (f b x)) : P (l.foldl f b) := by
  induction l generalizing b with
  | nil => exact hb
  | cons x xs ih =>
    rw [List.foldl_cons]
    exact ih (f b x) (hstep b hb x (List.mem_cons_self _ _))
      (fun b' hb' y hy => hstep b' hb' y (List.mem_cons_of_mem _ hy))

theorem content_get_by_id_some (catalog : ContentCatalog) (id : Int) (c : Content)
    (h : content_get_by_id catalog id = some c) : c ∈ catalog ∧ c.id = id ∧ 0 < id := by
  unfold content_get_by_id at h
  by_cases hid : id ≤ 0
  · rw [if_pos hid] at h
    cases h
  · rw [if_neg hid] at h
    refine ⟨List.mem_of_find?_eq_some h, ?_, by omega⟩
    have := List.find?_some h
    simpa using this

theorem content_get_by_id_ne_none (catalog : ContentCatalog) (c : Content) (hc : c ∈ catalog)
    (hpos : 0 < c.id) : content_get_by_id catalog c.id ≠ none := by
  unfold content_get_by_id
  have hid : ¬ c.id ≤ 0 := by omega
  rw [if_neg hid]
  intro h
  rw [List.find?_eq_none] at h
  have := h c hc
  simp at this

theorem find_category_cons (x : CString × Int) (xs : List (CString × Int))
    (category : CString) :
    find_category (x :: xs) category =
      if x.1 = category then some 0 else (find_category xs category).map (· + 1) := rfl

theorem find_category_some (cats : List (CString × Int)) (name : CString) (j : Nat)
    (h : find_category cats name = some j) :
    ∃ l1 e l2, cats = l1 ++ e :: l2 ∧ l1.length = j ∧ e.1 = name ∧ ∀ z ∈ l1, z.1 ≠ name := by
  induction cats generalizing j with
  | nil => simp [find_category] at h
  | cons a as ih =>
    simp only [find_category] at h
    by_cases ha : a.1 = name
    · rw [if_pos ha] at h
      cases h
      exact ⟨[], a, as, rfl, rfl, ha, by simp⟩
    · rw [if_neg ha] at h
      cases hk : find_category as name with
      | none => simp [hk] at h
      | some k =>
        simp [hk] at h
        subst h
        obtain ⟨l1, e, l2, e1, e2, e3, e4⟩ := ih k hk
        refine ⟨a :: l1, e, l2, by simp [e1], by simp [e2], e3, ?_⟩
        intro z hz
        rcases List.mem_cons.1 hz with rfl | hz
        · exact ha
        · exact e4 z hz

theorem find_category_none (cats : List (CString × Int)) (name : CString)
    (h : find_category cats name = none) : ∀ e ∈ cats, e.1 ≠ name := by
  induction cats with
  | nil => simp
  | cons a as ih =>
    simp only [find_category] at h
    by_cases ha : a.1 = name
    · rw [if_pos ha] at h
      cases h
    · rw [if_neg ha] at h
      have hk : find_category as name = none := by
        cases hk : find_category as name with
        | none => rfl
        | some k => simp [hk] at h
      intro e he
      rcases List.mem_cons.1 he with rfl | he
      · exact ha
      · exact ih hk e he

theorem find_category_append (l1 l2 : List (CString × Int)) (name : CString)
    (h : ∀ z ∈ l1, z.1 ≠ name) :
    find_category (l1 ++ l2) name = (find_category l2 name).map (· + l1.length) := by
  induction l1 with
  | nil => simp
  | cons a as ih =>
    have ha : ¬ a.1 = name := h a (List.mem_cons_self _ _)
    rw [List.cons_append, find_category_cons, if_neg ha,
      ih (fun z hz => h z (List.mem_cons_of_mem _ hz))]
    cases find_category l2 name with
    | none => rfl
    | some k =>
      simp only [Option.map_some', List.length_cons]
      congr 1

theorem find_category_of_mem (cats : List (CString × Int)) (e : CString × Int) (he : e ∈ cats) :
    ∃ j, find_category cats e.1 = some j := by
  cases h : find_category cats e.1 with
  | none => exact absurd rfl (find_category_none cats e.1 h e he)
  | some j => exact ⟨j, rfl⟩

theorem increment_count_map_fst (cats : List (CString × Int)) (j : Nat) :
    (increment_count cats j).map (·.1) = cats.map (·.1) := by
  induction cats generalizing j with
  | nil => rfl
  | cons a as ih =>
    cases j with
    | zero => simp [increment_count]
    | succ j => simp [increment_count, ih]

theorem mem_increment_count (cats : List (CString × Int)) (j : Nat) (e' : CString × Int)
    (h : e' ∈ increment_count cats j) : ∃ e ∈ cats, e'.1 = e.1 ∧ e.2 ≤ e'.2 := by
  induction cats generalizing j with
  | nil => simp [increment_count] at h
  | cons a as ih =>
    cases j with
    | zero =>
      simp only [increment_count] at h
      rcases List.mem_cons.1 h with rfl | h
      · exact ⟨a, List.mem_cons_self _ _, rfl, by simp⟩
      · exact ⟨e', List.mem_cons_of_mem _ h, rfl, le_refl _⟩
    | succ j =>
      simp only [increment_count] at h
      rcases List.mem_cons.1 h with rfl | h
      · exact ⟨e', List.mem_cons_self _ _, rfl, le_refl _⟩
      · obtain ⟨e, he, h1, h2⟩ := ih j h
        exact ⟨e, List.mem_cons_of_mem _ he, h1, h2⟩

theorem increment_count_length (cats : List (CString × Int)) (j : Nat) :
    (increment_count cats j).length = cats.length := by
  have := congrArg List.length (increment_count_map_fst cats j)
  simpa using this

/-- Every way the tally step can go, as a case split for the invariants below. -/
theorem tally_step_cases (content_catalog : ContentCatalog) (user_id : Int)
    (cats : List (CString × Int)) (it : Interaction) :
    tally_step content_catalog user_id cats it = cats ∨
    (it.user_id = user_id ∧
      (it.type = INTERACTION_PLAY ∨ it.type = INTERACTION_COMPLETE) ∧
      ∃ content, content_get_by_id content_catalog it.content_id = some content ∧
        ((∃ j, find_category cats content.category = some j ∧
            tally_step content_catalog user_id cats it = increment_count cats j) ∨
         (find_category cats content.category = none ∧
            tally_step content_catalog user_id cats it =
              cats ++ [(content.category.take (MAX_CATEGORY_LENGTH - 1), 1)]))) := by
  by_cases hc : it.user_id = user_id ∧
      (it.type = INTERACTION_PLAY ∨ it.type = INTERACTION_COMPLETE)
  · cases hget : content_get_by_id content_catalog it.content_id with
    | none =>
      left
      simp only [tally_step, if_pos hc, hget]
    | some content =>
      cases hfind : find_category cats content.category with
      | some j =>
        refine Or.inr ⟨hc.1, hc.2, content, rfl, Or.inl ⟨j, hfind, ?_⟩⟩
        simp only [tally_step, if_pos hc, hget, hfind]
      | none =>
        by_cases hlen : cats.length < 100
        · refine Or.inr ⟨hc.1, hc.2, content, rfl, Or.inr ⟨hfind, ?_⟩⟩
          simp only [tally_step, if_pos hc, hget, hfind, if_pos hlen]
        · left
          simp only [tally_step, if_pos hc, hget, hfind, if_neg hlen]
  · left
    simp only [tally_step, if_neg hc]

theorem tally_counts_pos (user_manager : UserManager) (content_catalog : ContentCatalog)
    (user_id : Int) : ∀ e ∈ tally_categories user_manager content_catalog user_id, 1 ≤ e.2 := by
  unfold tally_categories
  apply foldl_invariant (fun cats : List (CString × Int) => ∀ e ∈ cats, 1 ≤ e.2)
  · simp
  · intro cats hcats it _
    rcases tally_step_cases content_catalog user_id cats it with h | ⟨-, -, content, -, h⟩
    · rw [h]
      exact hcats
    · rcases h with ⟨j, -, h⟩ | ⟨-, h⟩
      · rw [h]
        intro e' he'
        obtain ⟨e, he, -, h2⟩ := mem_increment_count cats j e' he'
        have := hcats e he
        omega
      · rw [h]
        intro e he
        rcases List.mem_append.1 he with he | he
        · exact hcats e he
        · rw [List.mem_singleton] at he
          subst he
          exact le_refl _

theorem tally_names_seen (user_manager : UserManager) (content_catalog : ContentCatalog)
    (user_id : Int) :
    ∀ e ∈ tally_categories user_manager content_catalog user_id,
      ∃ it ∈ user_manager.interactions, it.user_id = user_id ∧
        (it.type = INTERACTION_PLAY ∨ it.type = INTERACTION_COMPLETE) ∧
        ∃ seen, content_get_by_id content_catalog it.content_id = some seen ∧
          e.1 = seen.category.take (MAX_CATEGORY_LENGTH - 1) := by
  unfold tally_categories
  apply foldl_invariant (fun cats : List (CString × Int) => ∀ e ∈ cats,
      ∃ it ∈ user_manager.interactions, it.user_id = user_id ∧
        (it.type = INTERACTION_PLAY ∨ it.type = INTERACTION_COMPLETE) ∧
        ∃ seen, content_get_by_id content_catalog it.content_id = some seen ∧
          e.1 = seen.category.take (MAX_CATEGORY_LENGTH - 1))
  · simp
  · intro cats hcats it hit
    rcases tally_step_cases content_catalog user_id cats it with h | ⟨hu, ht, content, hget, h⟩
    · rw [h]
      exact hcats
    · rcases h with ⟨j, -, h⟩ | ⟨-, h⟩
      · rw [h]
        intro e' he'
        obtain ⟨e, he, h1, -⟩ := mem_increment_count cats j e' he'
        rw [h1]
        exact hcats e he
      · rw [h]
        intro e he
        rcases List.mem_append.1 he with he | he
        · exact hcats e he
        · rw [List.mem_singleton] at he
          subst he
          exact ⟨it, hit, hu, ht, content, hget, rfl⟩

theorem tally_names_nodup (user_manager : UserManager) (content_catalog : ContentCatalog)
    (user_id : Int) (hwf : WellFormedCatalog content_catalog) :
    ((tally_categories user_manager content_catalog user_id).map (·.1)).Nodup := by
  unfold tally_categories
  apply foldl_invariant (fun cats : List (CString × Int) => (cats.map (·.1)).Nodup)
  · simp
  · intro cats hcats it _
    rcases tally_step_cases content_catalog user_id cats it with h | ⟨-, -, content, hget, h⟩
    · rw [h]
      exact hcats
    · rcases h with ⟨j, -, h⟩ | ⟨hnone, h⟩
      · rw [h, increment_count_map_fst]
        exact hcats
      · rw [h, List.map_append]
        have hmem := (content_get_by_id_some _ _ _ hget).1
        have hlen := (hwf content hmem).2
        have htake : content.category.take (MAX_CATEGORY_LENGTH - 1) = content.category :=
          List.take_of_length_le (by omega)
        refine List.Nodup.append hcats (List.nodup_singleton _) ?_
        intro a ha hb
        simp only [List.map_cons, List.map_nil, List.mem_singleton] at hb
        obtain ⟨e, he, rfl⟩ := List.mem_map.1 ha
        rw [htake] at hb
        exact find_category_none cats content.category hnone e he hb

theorem tally_step_length_le (content_catalog : ContentCatalog) (user_id : Int)
    (cats : List (CString × Int)) (it : Interaction) :
    cats.length ≤ (tally_step content_catalog user_id cats it).length := by
  rcases tally_step_cases content_catalog user_id cats it with h | ⟨-, -, content, -, h⟩
  · rw [h]
  · rcases h with ⟨j, -, h⟩ | ⟨-, h⟩
    · rw [h, increment_count_length]
    · rw [h, List.length_append]
      omega

theorem tally_step_ne_nil (content_catalog : ContentCatalog) (user_id : Int)
    (cats : List (CString × Int)) (it : Interaction)
    (hu : it.user_id = user_id)
    (ht : it.type = INTERACTION_PLAY ∨ it.type = INTERACTION_COMPLETE)
    (hget : content_get_by_id content_catalog it.content_id ≠ none) :
    0 < (tally_step content_catalog user_id cats it).length := by
  have hmono := tally_step_length_le content_catalog user_id cats it
  by_cases hne : 0 < cats.length
  · omega
  · have hnil : cats = [] := List.length_eq_zero.1 (by omega)
    subst hnil
    cases hg : content_get_by_id content_catalog it.content_id with
    | none => exact absurd hg hget
    | some content =>
      simp [tally_step, hu, ht, hg, find_category]

theorem tally_ne_nil (user_manager : UserManager) (content_catalog : ContentCatalog)
    (user_id : Int)
    (h : ∃ it ∈ user_manager.interactions, it.user_id = user_id ∧
      (it.type = INTERACTION_PLAY ∨ it.type = INTERACTION_COMPLETE) ∧
      content_get_by_id content_catalog it.content_id ≠ none) :
    tally_categories user_manager content_catalog user_id ≠ [] := by
  obtain ⟨it, hit, hu, ht, hget⟩ := h
  obtain ⟨l1, l2, hl⟩ := List.append_of_mem hit
  unfold tally_categories
  rw [hl, List.foldl_append, List.foldl_cons]
  have hpos : 0 < (l2.foldl (tally_step content_catalog user_id)
      (tally_step content_catalog user_id
        (l1.foldl (tally_step content_catalog user_id) []) it)).length := by
    apply foldl_invariant (fun cats : List (CString × Int) => 0 < cats.length)
    · exact tally_step_ne_nil content_catalog user_id _ it hu ht hget
    · intro cats hcats x _
      have := tally_step_length_le content_catalog user_id cats x
      omega
  intro hnil
  rw [hnil] at hpos
  simp at hpos

end TallyLemmas

/-! ## Membership lemmas for the category strategy -/

section CategoryLemmas

theorem has_watched_eq_one_iff (user_manager : UserManager) (user_id content_id : Int) :
    recommendation_has_watched user_manager user_id content_id = 1 ↔
      0 < user_id ∧ 0 < content_id ∧
      ∃ it ∈ user_manager.interactions, it.user_id = user_id ∧ it.content_id = content_id ∧
        (it.type = INTERACTION_COMPLETE ∨ it.type = INTERACTION_PLAY) := by
  unfold recommendation_has_watched
  by_cases hg : user_id ≤ 0 ∨ content_id ≤ 0
  · rw [if_pos hg]
    constructor
    · intro h
      cases h
    · rintro ⟨h1, h2, -⟩
      omega
  · rw [if_neg hg]
    by_cases hany : user_manager.interactions.any
        (fun interaction =>
          decide (interaction.user_id = user_id ∧ interaction.content_id = content_id ∧
            (interaction.type = INTERACTION_COMPLETE ∨ interaction.type = INTERACTION_PLAY)))
        = true
    · rw [if_pos hany]
      rw [List.any_eq_true] at hany
      obtain ⟨it, hit, hp⟩ := hany
      simp only [decide_eq_true_eq] at hp
      exact ⟨fun _ => ⟨by omega, by omega, it, hit, hp⟩, fun _ => rfl⟩
    · rw [if_neg hany]
      constructor
      · intro h
        cases h
      · rintro ⟨-, -, it, hit, hp⟩
        exfalso
        apply hany
        rw [List.any_eq_true]
        exact ⟨it, hit, by simpa using hp⟩

theorem mem_by_popularity (qsort : List ContentScore → List ContentScore)
    (hq : QsortSpec qsort) (content_catalog : ContentCatalog) (m id : Int)
    (h : id ∈ recommendation_by_popularity qsort content_catalog m) :
    ∃ c ∈ content_catalog, c.id = id := by
  unfold recommendation_by_popularity at h
  by_cases hg : m ≤ 0
  · rw [if_pos hg] at h
    simp at h
  · rw [if_neg hg] at h
    obtain ⟨s, hs, rfl⟩ := mem_copy_recommendations qsort hq _ m id h
    obtain ⟨c, hc, hstep⟩ := mem_collect_scores _ _ s hs
    simp only [Option.some.injEq] at hstep
    exact ⟨c, hc, by rw [← hstep]⟩

theorem mem_by_category (qsort : List ContentScore → List ContentScore)
    (hq : QsortSpec qsort) (user_manager : UserManager) (content_catalog : ContentCatalog)
    (user_id m id : Int)
    (htally : tally_categories user_manager content_catalog user_id ≠ [])
    (h : id ∈ recommendation_by_category qsort user_manager content_catalog user_id m) :
    ∃ c ∈ content_catalog, c.id = id ∧
      recommendation_has_watched user_manager user_id c.id = 0 ∧
      ∃ e ∈ tally_categories user_manager content_catalog user_id, e.1 = c.category := by
  unfold recommendation_by_category at h
  by_cases hg : user_id ≤ 0 ∨ m ≤ 0
  · rw [if_pos hg] at h
    simp at h
  · have hlen : ¬ (tally_categories user_manager content_catalog user_id).length = 0 :=
      fun hl => htally (List.length_eq_zero.1 hl)
    simp only [if_neg hg, if_neg hlen] at h
    obtain ⟨s, hs, rfl⟩ := mem_copy_recommendations qsort hq _ m id h
    obtain ⟨c, hc, hstep⟩ := mem_collect_scores _ _ s hs
    unfold category_candidate_score at hstep
    by_cases hw : recommendation_has_watched user_manager user_id c.id = 0
    · rw [if_pos hw] at hstep
      cases hfind : find_category
          (sort_categories (tally_categories user_manager content_catalog user_id))
          c.category with
      | none =>
        rw [hfind] at hstep
        cases hstep
      | some j =>
        rw [hfind] at hstep
        simp only [Option.some.injEq] at hstep
        obtain ⟨l1, e, l2, e1, -, e3, -⟩ := find_category_some _ _ _ hfind
        have he : e ∈ tally_categories user_manager content_catalog user_id := by
          have hperm := exchange_sort_perm
            ((tally_categories user_manager content_catalog user_id).length - 1)
            (tally_categories user_manager content_catalog user_id)
          rw [← sort_categories_eq] at hperm
          apply hperm.subset
          rw [e1]
          simp
        exact ⟨c, hc, by rw [← hstep], hw, e, he, e3⟩
    · rw [if_neg hw] at hstep
      cases hstep

theorem foldl_collect_scores_take (step : Content → Option ContentScore) :
    ∀ (catalog : ContentCatalog) (acc : List ContentScore), acc.length ≤ 1000 →
      catalog.foldl
        (fun scores content =>
          if scores.length < 1000 then
            match step content with
            | some s => scores ++ [s]
            | none => scores
          else scores) acc =
        acc ++ (catalog.filterMap step).take (1000 - acc.length) := by
  intro catalog
  induction catalog with
  | nil => intro acc _; simp
  | cons c cs ih =>
    intro acc h
    simp only [List.foldl_cons]
    by_cases hlen : acc.length < 1000
    · rw [if_pos hlen]
      cases hs : step c with
      | none =>
        simp only [List.filterMap_cons, hs]
        exact ih acc h
      | some s =>
        simp only [List.filterMap_cons, hs]
        rw [ih (acc ++ [s]) (by simp only [List.length_append, List.length_singleton]; omega)]
        have e : 1000 - acc.length = (1000 - (acc ++ [s]).length) + 1 := by
          simp only [List.length_append, List.length_singleton]
          omega
        rw [e, List.take_succ_cons]
        simp
    · rw [if_neg hlen]
      have e : 1000 - acc.length = 0 := by omega
      rw [e, List.take_zero, List.append_nil]
      apply foldl_fixed
      intro x _
      rw [if_neg hlen]

theorem collect_scores_eq_take (step : Content → Option ContentScore)
    (catalog : ContentCatalog) :
    collect_scores step catalog = (catalog.filterMap step).take 1000 := by
  unfold collect_scores
  rw [foldl_collect_scores_take step catalog [] (by simp)]
  rfl

theorem filterMap_eq_filter_map {α β : Type} (step : α → Option β) (d : α → β) (l : List α) :
    l.filterMap step = (l.filter (fun c => (step c).isSome)).map (fun c => (step c).getD (d c)) := by
  induction l with
  | nil => rfl
  | cons a as ih =>
    cases h : step a with
    | none => simp [List.filterMap_cons, List.filter_cons, h, ih]
    | some b => simp [List.filterMap_cons, List.filter_cons, h, ih]

theorem find_category_mid (l1 : List (CString × Int)) (e : CString × Int)
    (l2 : List (CString × Int)) (h : ∀ z ∈ l1, z.1 ≠ e.1) :
    find_category (l1 ++ e :: l2) e.1 = some l1.length := by
  rw [find_category_append l1 (e :: l2) e.1 h, find_category_cons, if_pos rfl]
  simp

theorem getD_mid {α : Type} (pre : List α) (x : α) (post : List α) (d : α) :
    (pre ++ x :: post).getD pre.length d = x := by
  rw [List.getD_eq_getElem?_getD, getElem?_mid]
  rfl

theorem category_score_lt (cats s1 s2 s3 : List (CString × Int)) (x y : CString × Int)
    (hsorted : cats.Pairwise (fun a b => b.2 ≤ a.2)) (hpos : ∀ e ∈ cats, 1 ≤ e.2)
    (hc : cats = s1 ++ x :: (s2 ++ y :: s3)) :
    category_score cats (s1.length + 1 + s2.length) < category_score cats s1.length := by
  have hx : cats.getD s1.length ([], 0) = x := by
    rw [hc]
    exact getD_mid _ _ _ _
  have hy : cats.getD (s1.length + 1 + s2.length) ([], 0) = y := by
    have e : s1 ++ x :: (s2 ++ y :: s3) = (s1 ++ x :: s2) ++ y :: s3 := by simp
    have hl : (s1 ++ x :: s2).length = s1.length + 1 + s2.length := by
      simp only [List.length_append, List.length_cons]
      omega
    rw [hc, e, ← hl]
    exact getD_mid _ _ _ _
  have hyx : y.2 ≤ x.2 := by
    rw [hc, List.pairwise_append] at hsorted
    have h2 := (List.pairwise_cons.1 hsorted.2.1).1
    exact h2 y (by simp)
  have hhead : 1 ≤ (cats.getD 0 ([], 0)).2 := by
    cases hcs : cats with
    | nil =>
      rw [hcs] at hc
      simp at hc
    | cons h t =>
      have := hpos h (by rw [hcs]; exact List.mem_cons_self _ _)
      simpa using this
  unfold category_score
  rw [hx, hy]
  have hh0 : (cats.getD 0 ([], 0)).2 > 0 := by omega
  rw [if_pos hh0]
  have hq : (0 : ℚ) < (((cats.getD 0 ([], 0)).2 : Int) : ℚ) := by exact_mod_cast hh0
  have hdiv : ((y.2 : Int) : ℚ) / (((cats.getD 0 ([], 0)).2 : Int) : ℚ) ≤
      ((x.2 : Int) : ℚ) / (((cats.getD 0 ([], 0)).2 : Int) : ℚ) :=
    div_le_div_of_nonneg_right (by exact_mod_cast hyx) (le_of_lt hq)
  have hidx : ((((cats.length : Int) - ((s1.length + 1 + s2.length : Nat) : Int) : Int)) : ℚ) <
      ((((cats.length : Int) - ((s1.length : Nat) : Int) : Int)) : ℚ) := by
    have : (cats.length : Int) - ((s1.length + 1 + s2.length : Nat) : Int) <
        (cats.length : Int) - ((s1.length : Nat) : Int) := by omega
    exact_mod_cast this
  linarith

theorem sort_categories_perm (categories : List (CString × Int)) :
    (sort_categories categories).Perm categories := by
  rw [sort_categories_eq]
  exact exchange_sort_perm _ _

theorem sort_categories_sorted (categories : List (CString × Int)) :
    (sort_categories categories).Pairwise (fun a b => b.2 ≤ a.2) := by
  rw [sort_categories_eq]
  exact exchange_sort_sorted _ _ (by omega)

theorem by_category_eq (qsort : List ContentScore → List ContentScore)
    (user_manager : UserManager) (content_catalog : ContentCatalog) (user_id m : Int)
    (hg : ¬ (user_id ≤ 0 ∨ m ≤ 0))
    (htally : tally_categories user_manager content_catalog user_id ≠ []) :
    recommendation_by_category qsort user_manager content_catalog user_id m =
      copy_recommendations
        (qsort
          (((content_catalog.filter
              (fun c => (category_candidate_score user_manager user_id
                (sort_categories (tally_categories user_manager content_catalog user_id))
                c).isSome)).take 1000).map
            (fun c => (category_candidate_score user_manager user_id
                (sort_categories (tally_categories user_manager content_catalog user_id))
                c).getD { content_id := c.id, score := 0 }))) m := by
  have hlen : ¬ (tally_categories user_manager content_catalog user_id).length = 0 :=
    fun hl => htally (List.length_eq_zero.1 hl)
  simp only [recommendation_by_category, if_neg hg, if_neg hlen]
  rw [collect_scores_eq_take,
    filterMap_eq_filter_map _ (fun c => ({ content_id := c.id, score := 0 } : ContentScore)),
    List.map_take]

theorem nodup_names_mid (l1 : List (CString × Int)) (e : CString × Int)
    (l2 : List (CString × Int)) (h : ((l1 ++ e :: l2).map (·.1)).Nodup) :
    ∀ z ∈ l1, z.1 ≠ e.1 := by
  intro z hz hze
  rw [List.map_append, List.map_cons, List.nodup_append] at h
  exact h.2.2 (List.mem_map_of_mem (·.1) hz) (by rw [hze]; exact List.mem_cons_self _ _)

theorem category_candidate_score_getD (user_manager : UserManager) (user_id : Int)
    (categories : List (CString × Int)) (c : Content) (d : ContentScore)
    (h : (category_candidate_score user_manager user_id categories c).isSome = true) :
    ∃ j, find_category categories c.category = some j ∧
      (category_candidate_score user_manager user_id categories c).getD d =
        { content_id := c.id, score := category_score categories j } := by
  unfold category_candidate_score at h ⊢
  by_cases hw : recommendation_has_watched user_manager user_id c.id = 0
  · rw [if_pos hw] at h ⊢
    cases hfind : find_category categories c.category with
    | none =>
      rw [hfind] at h
      simp at h
    | some j => exact ⟨j, rfl, rfl⟩
  · rw [if_neg hw] at h
    simp at h

theorem by_category_test_user1 :
    recommendation_by_category insertion_qsort testManager testCatalog 1 5 = [2] := by
  have hg : ¬ ((1 : Int) ≤ 0 ∨ (5 : Int) ≤ 0) := by decide
  have h1 : tally_categories testManager testCatalog 1 =
      [("Ação".toList, 1), ("Comédia".toList, 1)] := by decide
  have h2 : sort_categories [("Ação".toList, 1), ("Comédia".toList, 1)] =
      [("Ação".toList, 1), ("Comédia".toList, 1)] := by decide
  have hlen : ¬ ([("Ação".toList, (1 : Int)), ("Comédia".toList, 1)].length = 0) := by decide
  simp only [recommendation_by_category, if_neg hg, h1, if_neg hlen, h2]
  have h3 : collect_scores
      (category_candidate_score testManager 1 [("Ação".toList, 1), ("Comédia".toList, 1)])
      testCatalog =
      [ { content_id := 2,
          score := category_score [("Ação".toList, 1), ("Comédia".toList, 1)] 0 } ] := rfl
  rw [h3]
  rfl

end CategoryLemmas

/-! ## Evaluations on the blend stores and watched-set membership -/

section BlendStoreLemmas

theorem mem_watched_set (user_manager : UserManager) (user_id w : Int) :
    w ∈ watched_set user_manager user_id ↔
      ∃ it ∈ user_manager.interactions, it.user_id = user_id ∧
        it.type = INTERACTION_COMPLETE ∧ it.content_id = w := by
  unfold watched_set
  rw [List.mem_dedup, List.mem_map]
  constructor
  · rintro ⟨it, hit, rfl⟩
    rw [List.mem_filter] at hit
    have := hit.2
    simp only [decide_eq_true_eq] at this
    exact ⟨it, hit.1, this.1, this.2, rfl⟩
  · rintro ⟨it, hit, e1, e2, rfl⟩
    refine ⟨it, ?_, rfl⟩
    rw [List.mem_filter]
    exact ⟨hit, by simp [e1, e2]⟩

theorem has_watched_zero_or_one (user_manager : UserManager) (user_id content_id : Int) :
    recommendation_has_watched user_manager user_id content_id = 0 ∨
      recommendation_has_watched user_manager user_id content_id = 1 := by
  unfold recommendation_has_watched
  split
  · exact Or.inl rfl
  · split
    · exact Or.inr rfl
    · exact Or.inl rfl

theorem blend_similarity_test (m : Int) (hm : 0 < m) :
    recommendation_by_content_similarity insertion_qsort blendManager blendCatalog 1 m =
      copy_recommendations
        [ { content_id := 2, score := 1 }, { content_id := 3, score := 49 / 50 } ] m := by
  rw [content_similarity_eq insertion_qsort blendManager blendCatalog 1 m (by decide) hm
    (by decide) (by decide) (by decide)]
  have hW : watched_set blendManager 1 = [1] := by decide
  rw [hW]
  have hmap : (blendCatalog.filter (fun c => c.id ∉ ([1] : List Int))).map
      (fun c => ({ content_id := c.id,
                   score := average_similarity blendCatalog [1] c } : ContentScore)) =
      [ { content_id := 2, score := average_similarity blendCatalog [1]
            { id := 2, title := "x".toList, category := "A".toList, duration := 100,
              age_rating := 12, views := 20 } },
        { content_id := 3, score := average_similarity blendCatalog [1]
            { id := 3, title := "b".toList, category := "A".toList, duration := 90,
              age_rating := 12, views := 10 } } ] := rfl
  rw [hmap]
  have hget : content_get_by_id blendCatalog 1 =
      some { id := 1, title := "w".toList, category := "A".toList, duration := 100,
             age_rating := 12, views := 50 } := by decide
  have e1 : average_similarity blendCatalog [1]
      { id := 2, title := "x".toList, category := "A".toList, duration := 100,
        age_rating := 12, views := 20 } = 1 := by
    simp only [average_similarity, List.map_cons, List.map_nil, hget]
    rw [similarity_eq_formula _ _ (by decide)]
    simp only [similarity_formula]
    norm_num
  have e2 : average_similarity blendCatalog [1]
      { id := 3, title := "b".toList, category := "A".toList, duration := 90,
        age_rating := 12, views := 10 } = 49 / 50 := by
    simp only [average_similarity, List.map_cons, List.map_nil, hget]
    rw [similarity_eq_formula _ _ (by decide)]
    simp only [similarity_formula]
    norm_num
  rw [e1, e2]
  have h4 : insertion_qsort
      [ { content_id := 2, score := 1 }, { content_id := 3, score := 49 / 50 } ] =
      [ { content_id := 2, score := 1 }, { content_id := 3, score := 49 / 50 } ] := by
    simp only [insertion_qsort, List.insertionSort, List.orderedInsert, compare_scores]
    norm_num
  rw [h4]

end BlendStoreLemmas

/-! ## Merge lemmas for the personalized blend -/

section MergeLemmas

theorem add_or_insert_ids (comb : List ContentScore) (x : Int) (c : ℚ) :
    (add_or_insert comb x c).map (·.content_id) =
      if x ∈ comb.map (·.content_id) then comb.map (·.content_id)
      else comb.map (·.content_id) ++ [x] := by
  induction comb with
  | nil => simp [add_or_insert]
  | cons s rest ih =>
    by_cases h : s.content_id = x
    · simp [add_or_insert, h]
    · have h2 : ¬ x = s.content_id := fun e => h e.symm
      simp only [add_or_insert, if_neg h, List.map_cons, ih, List.mem_cons, h2, false_or]
      split <;> simp

theorem add_or_insert_of_not_mem (comb : List ContentScore) (x : Int) (c : ℚ)
    (h : x ∉ comb.map (·.content_id)) :
    add_or_insert comb x c = comb ++ [{ content_id := x, score := c }] := by
  induction comb with
  | nil => rfl
  | cons s rest ih =>
    have h1 : ¬ s.content_id = x := by
      intro e
      exact h (by simp [e])
    have h2 : x ∉ rest.map (·.content_id) := by
      intro e
      exact h (by simp only [List.map_cons]; exact List.mem_cons_of_mem _ e)
    simp only [add_or_insert, if_neg h1, ih h2, List.cons_append]

theorem score_of_add_or_insert (comb : List ContentScore) (x y : Int) (c : ℚ) :
    score_of (add_or_insert comb x c) y = score_of comb y + (if y = x then c else 0) := by
  induction comb with
  | nil =>
    by_cases h : y = x
    · simp [add_or_insert, score_of, h]
    · have h2 : ¬ x = y := fun e => h e.symm
      simp [add_or_insert, score_of, h, h2]
  | cons s rest ih =>
    by_cases hs : s.content_id = x
    · by_cases hy : y = x
      · simp [add_or_insert, score_of, hs, hy]
      · have h2 : ¬ x = y := fun e => hy e.symm
        simp [add_or_insert, score_of, hs, hy, h2]
    · by_cases hy : s.content_id = y
      · have h3 : ¬ y = x := fun e => hs (hy.trans e)
        simp [add_or_insert, score_of, hs, hy, h3]
      · simp only [add_or_insert, if_neg hs, score_of, if_neg hy, ih]

theorem score_of_of_mem (comb : List ContentScore) (s : ContentScore)
    (hnd : (comb.map (·.content_id)).Nodup) (hs : s ∈ comb) :
    score_of comb s.content_id = s.score := by
  induction comb with
  | nil => simp at hs
  | cons t rest ih =>
    rw [List.map_cons, List.nodup_cons] at hnd
    rcases List.mem_cons.1 hs with rfl | hs
    · simp [score_of]
    · have hne : ¬ t.content_id = s.content_id := by
        intro e
        exact hnd.1 (e ▸ List.mem_map_of_mem (·.content_id) hs)
      simp only [score_of, if_neg hne]
      exact ih hnd.2 hs

theorem score_of_eq_zero (comb : List ContentScore) (y : Int)
    (h : y ∉ comb.map (·.content_id)) : score_of comb y = 0 := by
  induction comb with
  | nil => rfl
  | cons t rest ih =>
    have h1 : ¬ t.content_id = y := by
      intro e
      exact h (by simp [e])
    have h2 : y ∉ rest.map (·.content_id) := by
      intro e
      exact h (by simp only [List.map_cons]; exact List.mem_cons_of_mem _ e)
    simp only [score_of, if_neg h1, ih h2]

theorem merge_fold_ids_mem (w : ℚ) (n : Nat) (y : Int) :
    ∀ (xs : List Int) (k : Nat) (comb : List ContentScore),
      y ∈ ((xs.enumFrom k).foldl
          (fun combined p => add_or_insert combined p.2 (rank_weight w n p.1)) comb).map
        (·.content_id) ↔ y ∈ comb.map (·.content_id) ∨ y ∈ xs := by
  intro xs
  induction xs with
  | nil => intro k comb; simp
  | cons x xs ih =>
    intro k comb
    rw [List.enumFrom_cons, List.foldl_cons, ih, add_or_insert_ids]
    by_cases h : x ∈ comb.map (·.content_id)
    · rw [if_pos h]
      constructor
      · rintro (h1 | h1)
        · exact Or.inl h1
        · exact Or.inr (List.mem_cons_of_mem _ h1)
      · rintro (h1 | h1)
        · exact Or.inl h1
        · rcases List.mem_cons.1 h1 with rfl | h1
          · exact Or.inl h
          · exact Or.inr h1
    · rw [if_neg h]
      simp only [List.mem_append, List.mem_singleton, List.mem_cons]
      tauto

theorem merge_fold_ids_nodup (w : ℚ) (n : Nat) :
    ∀ (xs : List Int) (k : Nat) (comb : List ContentScore),
      (comb.map (·.content_id)).Nodup →
      (((xs.enumFrom k).foldl
          (fun combined p => add_or_insert combined p.2 (rank_weight w n p.1)) comb).map
        (·.content_id)).Nodup := by
  intro xs
  induction xs with
  | nil => intro k comb h; exact h
  | cons x xs ih =>
    intro k comb h
    rw [List.enumFrom_cons, List.foldl_cons]
    apply ih
    rw [add_or_insert_ids]
    by_cases hx : x ∈ comb.map (·.content_id)
    · rw [if_pos hx]
      exact h
    · rw [if_neg hx]
      refine List.Nodup.append h (List.nodup_singleton _) ?_
      intro a ha hb
      rw [List.mem_singleton] at hb
      have hb2 : a = x := hb
      exact hx (hb2 ▸ ha)

theorem merge_fold_score (w : ℚ) (n : Nat) (y : Int) :
    ∀ (xs : List Int) (k : Nat) (comb : List ContentScore), xs.Nodup →
      score_of ((xs.enumFrom k).foldl
          (fun combined p => add_or_insert combined p.2 (rank_weight w n p.1)) comb) y =
        score_of comb y + (if y ∈ xs then rank_weight w n (k + xs.indexOf y) else 0) := by
  intro xs
  induction xs with
  | nil => intro k comb _; simp
  | cons x xs ih =>
    intro k comb hnd
    rw [List.nodup_cons] at hnd
    rw [List.enumFrom_cons, List.foldl_cons, ih _ _ hnd.2, score_of_add_or_insert]
    by_cases hy : y = x
    · subst hy
      have h1 : y ∈ y :: xs := List.mem_cons_self _ _
      rw [if_pos rfl, if_neg hnd.1, if_pos h1, List.indexOf_cons_self]
      simp
    · by_cases hmem : y ∈ xs
      · have h1 : y ∈ x :: xs := List.mem_cons_of_mem _ hmem
        rw [if_neg hy, if_pos hmem, if_pos h1, List.indexOf_cons_ne _ (fun e => hy e.symm)]
        have e : k + 1 + List.indexOf y xs = k + (List.indexOf y xs).succ := by omega
        rw [e]
        simp
      · have h1 : y ∉ x :: xs := by
          intro h
          rcases List.mem_cons.1 h with h | h
          · exact hy h
          · exact hmem h
        rw [if_neg hy, if_neg hmem, if_neg h1]
        ring

theorem similarity_fold_eq (n : Nat) :
    ∀ (xs : List Int) (k : Nat) (comb : List ContentScore),
      (xs.enumFrom k).foldl
          (fun combined p =>
            combined ++ [({ content_id := p.2, score := rank_weight 3 n p.1 } : ContentScore)])
          comb =
        comb ++ (xs.enumFrom k).map
          (fun p => ({ content_id := p.2, score := rank_weight 3 n p.1 } : ContentScore)) := by
  intro xs
  induction xs with
  | nil => intro k comb; simp
  | cons x xs ih =>
    intro k comb
    rw [List.enumFrom_cons, List.foldl_cons, ih]
    simp

theorem add_similarity_scores_ids (similarity_recs : List Int) :
    (add_similarity_scores similarity_recs).map (·.content_id) = similarity_recs := by
  unfold add_similarity_scores
  rw [List.enum_eq_enumFrom, similarity_fold_eq, List.nil_append, List.map_map]
  exact List.enumFrom_map_snd 0 similarity_recs

theorem similarity_fold_eq_merge_fold (n : Nat) :
    ∀ (xs : List Int) (k : Nat) (comb : List ContentScore),
      (comb.map (·.content_id) ++ xs).Nodup →
      (xs.enumFrom k).foldl
          (fun combined p =>
            combined ++ [({ content_id := p.2, score := rank_weight 3 n p.1 } : ContentScore)])
          comb =
        (xs.enumFrom k).foldl
          (fun combined p => add_or_insert combined p.2 (rank_weight 3 n p.1)) comb := by
  intro xs
  induction xs with
  | nil => intro k comb _; rfl
  | cons x xs ih =>
    intro k comb hnd
    have hx : x ∉ comb.map (·.content_id) := by
      intro h
      rw [List.nodup_append] at hnd
      exact hnd.2.2 h (List.mem_cons_self _ _)
    rw [List.enumFrom_cons, List.foldl_cons, List.foldl_cons,
      add_or_insert_of_not_mem comb x _ hx]
    apply ih
    simpa using hnd

theorem add_similarity_scores_eq_merge_into (similarity_recs : List Int)
    (hnd : similarity_recs.Nodup) :
    add_similarity_scores similarity_recs = merge_into 3 similarity_recs [] := by
  unfold add_similarity_scores merge_into
  rw [List.enum_eq_enumFrom]
  exact similarity_fold_eq_merge_fold _ _ 0 [] (by simpa using hnd)

theorem rank_contribution_eq (w : ℚ) (recs : List Int) (x : Int) :
    rank_contribution w recs x =
      if x ∈ recs then rank_weight w recs.length (0 + recs.indexOf x) else 0 := by
  unfold rank_contribution rank_weight
  by_cases h : x ∈ recs
  · rw [if_pos h, if_pos h]
    push_cast
    ring
  · rw [if_neg h, if_neg h]

theorem merge_into_score (w : ℚ) (recs : List Int) (comb : List ContentScore) (y : Int)
    (hnd : recs.Nodup) :
    score_of (merge_into w recs comb) y = score_of comb y + rank_contribution w recs y := by
  unfold merge_into
  rw [List.enum_eq_enumFrom, merge_fold_score w recs.length y recs 0 comb hnd,
    rank_contribution_eq]

theorem merge_into_ids_mem (w : ℚ) (recs : List Int) (comb : List ContentScore) (y : Int) :
    y ∈ (merge_into w recs comb).map (·.content_id) ↔
      y ∈ comb.map (·.content_id) ∨ y ∈ recs := by
  unfold merge_into
  rw [List.enum_eq_enumFrom]
  exact merge_fold_ids_mem w recs.length y recs 0 comb

theorem merge_into_ids_nodup (w : ℚ) (recs : List Int) (comb : List ContentScore)
    (h : (comb.map (·.content_id)).Nodup) :
    ((merge_into w recs comb).map (·.content_id)).Nodup := by
  unfold merge_into
  rw [List.enum_eq_enumFrom]
  exact merge_fold_ids_nodup w recs.length recs 0 comb h

theorem merge_recommendations_ids_mem (S C P : List Int) (y : Int) :
    y ∈ (merge_recommendations S C P).map (·.content_id) ↔ y ∈ S ∨ y ∈ C ∨ y ∈ P := by
  unfold merge_recommendations
  rw [merge_into_ids_mem, merge_into_ids_mem, add_similarity_scores_ids]
  tauto

theorem merge_recommendations_ids_nodup (S C P : List Int) (hS : S.Nodup) :
    ((merge_recommendations S C P).map (·.content_id)).Nodup := by
  unfold merge_recommendations
  apply merge_into_ids_nodup
  apply merge_into_ids_nodup
  rw [add_similarity_scores_ids]
  exact hS

theorem merge_recommendations_score (S C P : List Int) (hS : S.Nodup) (hC : C.Nodup)
    (hP : P.Nodup) (y : Int) :
    score_of (merge_recommendations S C P) y = blend_score S C P y := by
  unfold merge_recommendations blend_score
  rw [merge_into_score 1 P _ y hP, merge_into_score 2 C _ y hC,
    add_similarity_scores_eq_merge_into S hS, merge_into_score 3 S [] y hS]
  simp [score_of]

theorem merge_recommendations_eq_map (S C P : List Int) (hS : S.Nodup) (hC : C.Nodup)
    (hP : P.Nodup) :
    merge_recommendations S C P =
      ((merge_recommendations S C P).map (·.content_id)).map
        (fun x => ({ content_id := x, score := blend_score S C P x } : ContentScore)) := by
  rw [List.map_map]
  conv_lhs => rw [← List.map_id (merge_recommendations S C P)]
  apply List.map_congr_left
  intro s hs
  have h := score_of_of_mem _ s (merge_recommendations_ids_nodup S C P hS) hs
  rw [merge_recommendations_score S C P hS hC hP] at h
  simp only [id, Function.comp, h]

end MergeLemmas

/-! ## Lemmas on the personalized strategy -/

section PersonalizedLemmas

theorem blend_category_test (m : Int) (hm : 0 < m) :
    recommendation_by_category insertion_qsort blendManager blendCatalog 1 m =
      copy_recommendations [ { content_id := 3, score := 2 } ] m := by
  have hg : ¬ ((1 : Int) ≤ 0 ∨ m ≤ 0) := by omega
  have h1 : tally_categories blendManager blendCatalog 1 = [("A".toList, 2)] := by decide
  have h2 : sort_categories [("A".toList, (2 : Int))] = [("A".toList, 2)] := by decide
  have hlen : ¬ ([("A".toList, (2 : Int))].length = 0) := by decide
  simp only [recommendation_by_category, if_neg hg, h1, if_neg hlen, h2]
  have h3 : collect_scores (category_candidate_score blendManager 1 [("A".toList, 2)])
      blendCatalog =
      [ { content_id := 3, score := category_score [("A".toList, 2)] 0 } ] := rfl
  have e1 : category_score [("A".toList, 2)] 0 = 2 := by norm_num [category_score]
  rw [h3, e1]
  rfl

theorem blend_sublists_cap_ten :
    recommendation_by_content_similarity insertion_qsort blendManager blendCatalog 1
        MAX_RECOMMENDATIONS = [2, 3] ∧
    recommendation_by_category insertion_qsort blendManager blendCatalog 1
        MAX_RECOMMENDATIONS = [3] ∧
    recommendation_by_popularity insertion_qsort blendCatalog MAX_RECOMMENDATIONS
        = [1, 2, 3] := by
  refine ⟨?_, ?_, by decide⟩
  · rw [blend_similarity_test MAX_RECOMMENDATIONS (by decide)]
    rfl
  · rw [blend_category_test MAX_RECOMMENDATIONS (by decide)]
    rfl

theorem blend_sublists_cap_one :
    recommendation_by_content_similarity insertion_qsort blendManager blendCatalog 1 1
        = [2] ∧
    recommendation_by_category insertion_qsort blendManager blendCatalog 1 1 = [3] ∧
    recommendation_by_popularity insertion_qsort blendCatalog 1 = [1] := by
  refine ⟨?_, ?_, by decide⟩
  · rw [blend_similarity_test 1 (by decide)]
    rfl
  · rw [blend_category_test 1 (by decide)]
    rfl

theorem merge_blend_cap_ten :
    merge_recommendations [2, 3] [3] [1, 2, 3] =
      [ { content_id := 2, score := 11 / 3 }, { content_id := 3, score := 23 / 6 },
        { content_id := 1, score := 1 } ] := by
  simp only [merge_recommendations, merge_into, add_similarity_scores, List.enum,
    List.enumFrom, List.foldl, add_or_insert, rank_weight, List.length_cons, List.length_nil,
    List.nil_append, List.cons_append]
  norm_num

theorem merge_blend_cap_one :
    merge_recommendations [2] [3] [1] =
      [ { content_id := 2, score := 3 }, { content_id := 3, score := 2 },
        { content_id := 1, score := 1 } ] := by
  simp only [merge_recommendations, merge_into, add_similarity_scores, List.enum,
    List.enumFrom, List.foldl, add_or_insert, rank_weight, List.length_cons, List.length_nil,
    List.nil_append, List.cons_append]
  norm_num

theorem sort_blend_cap_ten :
    insertion_qsort
      [ { content_id := 2, score := 11 / 3 }, { content_id := 3, score := 23 / 6 },
        { content_id := 1, score := 1 } ] =
      [ { content_id := 3, score := 23 / 6 }, { content_id := 2, score := 11 / 3 },
        { content_id := 1, score := 1 } ] := by
  simp only [insertion_qsort, List.insertionSort, List.orderedInsert, compare_scores]
  norm_num

theorem sort_blend_cap_one :
    insertion_qsort
      [ { content_id := 2, score := 3 }, { content_id := 3, score := 2 },
        { content_id := 1, score := 1 } ] =
      [ { content_id := 2, score := 3 }, { content_id := 3, score := 2 },
        { content_id := 1, score := 1 } ] := by
  simp only [insertion_qsort, List.insertionSort, List.orderedInsert, compare_scores]
  norm_num

theorem personalized_eq (qsort : List ContentScore → List ContentScore)
    (user_manager : UserManager) (content_catalog : ContentCatalog) (user_id m : Int)
    (hu : 0 < user_id) (hm : 0 < m) :
    recommendation_personalized qsort user_manager content_catalog user_id m =
      copy_recommendations
        (qsort (merge_recommendations
          (recommendation_by_content_similarity qsort user_manager content_catalog user_id
            MAX_RECOMMENDATIONS)
          (recommendation_by_category qsort user_manager content_catalog user_id
            MAX_RECOMMENDATIONS)
          (recommendation_by_popularity qsort content_catalog MAX_RECOMMENDATIONS))) m := by
  have hg : ¬ (user_id ≤ 0 ∨ m ≤ 0) := by omega
  simp only [recommendation_personalized, if_neg hg]

theorem mem_by_similarity (qsort : List ContentScore → List ContentScore)
    (hq : QsortSpec qsort) (user_manager : UserManager) (content_catalog : ContentCatalog)
    (user_id m id : Int)
    (h : id ∈ recommendation_by_content_similarity qsort user_manager content_catalog
      user_id m) :
    ∃ c ∈ content_catalog, c.id = id := by
  unfold recommendation_by_content_similarity at h
  by_cases hg : user_id ≤ 0 ∨ m ≤ 0
  · rw [if_pos hg] at h
    simp at h
  · rw [if_neg hg] at h
    by_cases hlen : (collect_watched_ids user_manager user_id).length = 0
    · simp only [if_pos hlen] at h
      exact mem_by_popularity qsort hq content_catalog m id h
    · simp only [if_neg hlen] at h
      obtain ⟨s, hs, rfl⟩ := mem_copy_recommendations qsort hq _ m _ h
      obtain ⟨c, hc, hstep⟩ := mem_collect_scores _ _ s hs
      by_cases hw : c.id ∈ collect_watched_ids user_manager user_id
      · rw [if_pos hw] at hstep
        cases hstep
      · rw [if_neg hw] at hstep
        simp only [Option.some.injEq] at hstep
        exact ⟨c, hc, by rw [← hstep]⟩

theorem mem_by_category_catalog (qsort : List ContentScore → List ContentScore)
    (hq : QsortSpec qsort) (user_manager : UserManager) (content_catalog : ContentCatalog)
    (user_id m id : Int)
    (h : id ∈ recommendation_by_category qsort user_manager content_catalog user_id m) :
    ∃ c ∈ content_catalog, c.id = id := by
  by_cases htally : tally_categories user_manager content_catalog user_id = []
  · have hfall : recommendation_by_category qsort user_manager content_catalog user_id m =
        if user_id ≤ 0 ∨ m ≤ 0 then []
        else recommendation_by_popularity qsort content_catalog m := by
      simp only [recommendation_by_category, htally, List.length_nil, if_true]
    rw [hfall] at h
    by_cases hg : user_id ≤ 0 ∨ m ≤ 0
    · rw [if_pos hg] at h
      simp at h
    · rw [if_neg hg] at h
      exact mem_by_popularity qsort hq content_catalog m id h
  · obtain ⟨c, hc, hcid, -, -⟩ :=
      mem_by_category qsort hq user_manager content_catalog user_id m id htally h
    exact ⟨c, hc, hcid⟩

theorem copy_recommendations_length (qsort : List ContentScore → List ContentScore)
    (hq : QsortSpec qsort) (scores : List ContentScore) (m : Int) :
    (copy_recommendations (qsort scores) m).length = min m.toNat scores.length := by
  unfold copy_recommendations
  rw [List.length_map, List.length_take, (hq scores).1.length_eq]

theorem popularity_ne_nil (qsort : List ContentScore → List ContentScore)
    (hq : QsortSpec qsort) (content_catalog : ContentCatalog) (k : Int) (hk : 0 < k)
    (hne : content_catalog ≠ []) :
    recommendation_by_popularity qsort content_catalog k ≠ [] := by
  have hg : ¬ k ≤ 0 := by omega
  simp only [recommendation_by_popularity, if_neg hg]
  intro h
  have hlen := copy_recommendations_length qsort hq
    (collect_scores
      (fun content => some ({ content_id := content.id, score := (content.views : ℚ) }
        : ContentScore)) content_catalog) k
  rw [h, collect_scores_eq_take] at hlen
  cases content_catalog with
  | nil => exact hne rfl
  | cons c cs =>
    simp only [List.filterMap_cons, List.length_nil, List.length_take, List.length_cons] at hlen
    omega

end PersonalizedLemmas

/-! ## User-store lemmas -/

section UserLemmas

theorem user_get_by_id_some (manager : UserManager) (user_id : Int) (usr : User)
    (h : user_get_by_id manager user_id = some usr) :
    0 < user_id ∧ usr.id = user_id ∧
      ∃ l1 l2, manager.users = l1 ++ usr :: l2 ∧ ∀ v ∈ l1, v.id ≠ user_id := by
  unfold user_get_by_id at h
  by_cases hid : user_id ≤ 0
  · rw [if_pos hid] at h
    cases h
  · rw [if_neg hid] at h
    rw [List.find?_eq_some] at h
    obtain ⟨hp, l1, l2, e, hl1⟩ := h
    refine ⟨by omega, by simpa using hp, l1, l2, e, ?_⟩
    intro v hv
    simpa using hl1 v hv

theorem user_get_by_id_of_decomp (users l1 l2 : List User) (log : List Interaction)
    (usr : User) (user_id : Int) (hpos : 0 < user_id) (e : users = l1 ++ usr :: l2)
    (hid : usr.id = user_id) (hl1 : ∀ v ∈ l1, v.id ≠ user_id) :
    user_get_by_id { users := users, interactions := log } user_id = some usr := by
  unfold user_get_by_id
  have hg : ¬ user_id ≤ 0 := by omega
  rw [if_neg hg, List.find?_eq_some]
  refine ⟨by simpa using hid, l1, l2, e, ?_⟩
  intro v hv
  simpa using hl1 v hv

theorem user_get_by_id_ne_none_iff (manager : UserManager) (user_id : Int) :
    user_get_by_id manager user_id ≠ none ↔
      0 < user_id ∧ ∃ v ∈ manager.users, v.id = user_id := by
  constructor
  · intro h
    cases hget : user_get_by_id manager user_id with
    | none => exact absurd hget h
    | some usr =>
      obtain ⟨h1, h2, l1, l2, e, -⟩ := user_get_by_id_some manager user_id usr hget
      exact ⟨h1, usr, by rw [e]; simp, h2⟩
  · rintro ⟨hpos, v, hv, hvid⟩ h
    unfold user_get_by_id at h
    have hg : ¬ user_id ≤ 0 := by omega
    rw [if_neg hg, List.find?_eq_none] at h
    have := h v hv
    simp [hvid] at this

theorem modify_user_cons (u : User) (us : List User) (user_id : Int) (f : User → User) :
    modify_user (u :: us) user_id f =
      if u.id = user_id then f u :: us else u :: modify_user us user_id f := rfl

theorem find_index_cons (x : Int) (xs : List Int) (id : Int) :
    find_index (x :: xs) id = if x = id then some 0 else (find_index xs id).map (· + 1) := rfl

theorem modify_user_of_decomp (l1 l2 : List User) (usr : User) (user_id : Int)
    (f : User → User) (hid : usr.id = user_id) (hl1 : ∀ v ∈ l1, v.id ≠ user_id) :
    modify_user (l1 ++ usr :: l2) user_id f = l1 ++ f usr :: l2 := by
  induction l1 with
  | nil => simp [modify_user, hid]
  | cons a as ih =>
    have ha : ¬ a.id = user_id := hl1 a (List.mem_cons_self _ _)
    rw [List.cons_append, modify_user_cons, if_neg ha,
      ih (fun v hv => hl1 v (List.mem_cons_of_mem _ hv))]
    rfl

theorem find_index_of_decomp (l1 l2 : List User) (usr : User) (user_id : Int)
    (hid : usr.id = user_id) (hl1 : ∀ v ∈ l1, v.id ≠ user_id) :
    find_index ((l1 ++ usr :: l2).map (·.id)) user_id = some l1.length := by
  induction l1 with
  | nil => simp [find_index, hid]
  | cons a as ih =>
    have ha : ¬ a.id = user_id := hl1 a (List.mem_cons_self _ _)
    rw [List.cons_append, List.map_cons, find_index_cons, if_neg ha,
      ih (fun v hv => hl1 v (List.mem_cons_of_mem _ hv))]
    rfl

theorem eraseIdx_mid {α : Type} (l1 : List α) (x : α) (l2 : List α) :
    (l1 ++ x :: l2).eraseIdx l1.length = l1 ++ l2 := by
  induction l1 with
  | nil => rfl
  | cons a as ih => simp [ih]

theorem remove_interactions_loop_perm (user_id : Int) :
    ∀ (n : Nat) (pre rest : List Interaction), rest.length ≤ n →
      (∀ x ∈ pre, x.user_id ≠ user_id) →
      (remove_interactions_loop user_id n (pre ++ rest) pre.length).Perm
        (pre ++ rest.filter (fun it => it.user_id ≠ user_id)) := by
  intro n
  induction n with
  | zero =>
    intro pre rest hlen _
    have : rest = [] := List.length_eq_zero.1 (by omega)
    subst this
    simp [remove_interactions_loop]
  | succ n ih =>
    intro pre rest hlen hpre
    cases rest with
    | nil =>
      have hnone : (pre ++ ([] : List Interaction))[pre.length]? = none := by simp
      simp only [remove_interactions_loop, hnone, List.filter_nil]
      exact List.Perm.refl _
    | cons x r =>
      have hget : (pre ++ x :: r)[pre.length]? = some x := getElem?_mid pre x r
      rcases List.eq_nil_or_concat r with hr | ⟨r', last, hr⟩
      · subst hr
        have hlast : (pre ++ [x]).getLast? = some x := List.getLast?_concat pre
        by_cases hx : x.user_id = user_id
        · simp only [remove_interactions_loop, hget, hlast, if_pos hx, set_mid,
            List.dropLast_concat]
          have h := ih pre [] (by simp) hpre
          simp only [List.append_nil, List.filter_nil] at h
          have hf : [x].filter (fun it => decide (it.user_id ≠ user_id)) = [] := by
            simp [hx]
          rw [hf, List.append_nil]
          exact h
        · simp only [remove_interactions_loop, hget, hlast, if_neg hx]
          have h := ih (pre ++ [x]) [] (by simp)
            (by
              intro y hy
              rcases List.mem_append.1 hy with hy | hy
              · exact hpre y hy
              · rw [List.mem_singleton] at hy
                rw [hy]
                exact hx)
          simp only [List.append_nil, List.filter_nil, List.length_append,
            List.length_singleton] at h
          have hf : [x].filter (fun it => decide (it.user_id ≠ user_id)) = [x] := by
            simp [hx]
          rw [hf]
          exact h
      · rw [List.concat_eq_append] at hr
        subst hr
        have hassoc : pre ++ x :: (r' ++ [last]) = (pre ++ x :: r') ++ [last] := by simp
        have hlast : (pre ++ x :: (r' ++ [last])).getLast? = some last := by
          rw [hassoc]
          exact List.getLast?_concat _
        by_cases hx : x.user_id = user_id
        · have hset : ((pre ++ x :: (r' ++ [last])).set pre.length last).dropLast =
              pre ++ last :: r' := by
            rw [set_mid]
            have e : pre ++ last :: (r' ++ [last]) = (pre ++ last :: r') ++ [last] := by simp
            rw [e, List.dropLast_concat]
          simp only [remove_interactions_loop, hget, hlast, if_pos hx, hset]
          have h := ih pre (last :: r')
            (by simp only [List.length_cons, List.length_append, List.length_singleton] at hlen ⊢
                omega) hpre
          refine h.trans (List.Perm.append_left pre ?_)
          have hf : (x :: (r' ++ [last])).filter (fun it => decide (it.user_id ≠ user_id)) =
              (r' ++ [last]).filter (fun it => decide (it.user_id ≠ user_id)) := by
            simp [List.filter_cons, hx]
          rw [hf]
          exact (List.perm_append_singleton last r').symm.filter _
        · simp only [remove_interactions_loop, hget, hlast, if_neg hx]
          have h := ih (pre ++ [x]) (r' ++ [last])
            (by simp only [List.length_cons, List.length_append, List.length_singleton] at hlen ⊢
                omega)
            (by
              intro y hy
              rcases List.mem_append.1 hy with hy | hy
              · exact hpre y hy
              · rw [List.mem_singleton] at hy
                rw [hy]
                exact hx)
          have e1 : (pre ++ [x]) ++ (r' ++ [last]) = pre ++ x :: (r' ++ [last]) := by simp
          have e2 : (pre ++ [x]).length = pre.length + 1 := by simp
          rw [e1, e2] at h
          refine h.trans ?_
          have hf : (x :: (r' ++ [last])).filter (fun it => decide (it.user_id ≠ user_id)) =
              x :: (r' ++ [last]).filter (fun it => decide (it.user_id ≠ user_id)) := by
            simp [List.filter_cons, hx]
          rw [hf]
          simp

theorem foldl_count_eq (user_id : Int) :
    ∀ (log : List Interaction) (count : Int),
      log.foldl
        (fun count interaction => if interaction.user_id = user_id then count + 1 else count)
        count =
      count + ((log.filter (fun it => it.user_id = user_id)).length : Int) := by
  intro log
  induction log with
  | nil => intro count; simp
  | cons x xs ih =>
    intro count
    rw [List.foldl_cons, ih]
    by_cases hx : x.user_id = user_id
    · simp only [if_pos hx, List.filter_cons, hx, decide_True, if_true, List.length_cons]
      push_cast
      ring
    · simp only [if_neg hx, List.filter_cons, hx, decide_False]
      simp

theorem user_get_interaction_count_eq (manager : UserManager) (user_id : Int)
    (hpos : 0 < user_id) :
    user_get_interaction_count manager user_id =
      ((manager.interactions.filter (fun it => it.user_id = user_id)).length : Int) := by
  have hg : ¬ user_id ≤ 0 := by omega
  simp only [user_get_interaction_count, if_neg hg, foldl_count_eq, zero_add]

theorem user_add_favorite_of_decomp (l1 l2 : List User) (log : List Interaction)
    (usr : User) (user_id content_id : Int) (hu : 0 < user_id) (hc : 0 < content_id)
    (hid : usr.id = user_id) (hl1 : ∀ v ∈ l1, v.id ≠ user_id) :
    user_add_favorite { users := l1 ++ usr :: l2, interactions := log } user_id content_id =
      if content_id ∈ usr.favorite_contents then
        (1, { users := l1 ++ usr :: l2, interactions := log })
      else if usr.favorite_contents.length ≥ 100 then
        (0, { users := l1 ++ usr :: l2, interactions := log })
      else
        (1, { users := l1 ++
                { usr with favorite_contents := usr.favorite_contents ++ [content_id] } :: l2,
              interactions := log }) := by
  have hg : ¬ (user_id ≤ 0 ∨ content_id ≤ 0) := by omega
  have hget := user_get_by_id_of_decomp (l1 ++ usr :: l2) l1 l2 log usr user_id hu rfl hid hl1
  simp only [user_add_favorite, if_neg hg, hget]
  by_cases h1 : content_id ∈ usr.favorite_contents
  · simp only [if_pos h1]
  · simp only [if_neg h1]
    by_cases h2 : usr.favorite_contents.length ≥ 100
    · simp only [if_pos h2]
    · simp only [if_neg h2]
      rw [modify_user_of_decomp l1 l2 usr user_id _ hid hl1]

theorem user_register_interaction_of_decomp (l1 l2 : List User) (log : List Interaction)
    (usr : User) (user_id content_id : Int) (type : InteractionType) (now : Int)
    (hu : 0 < user_id) (hc : 0 < content_id)
    (hid : usr.id = user_id) (hl1 : ∀ v ∈ l1, v.id ≠ user_id) :
    user_register_interaction { users := l1 ++ usr :: l2, interactions := log }
        user_id content_id type now =
      (1, { users := l1 ++
              { usr with
                interaction_count := usr.interaction_count + 1,
                favorite_contents :=
                  if type = INTERACTION_FAVORITE ∧ content_id ∉ usr.favorite_contents ∧
                      usr.favorite_contents.length < 100 then
                    usr.favorite_contents ++ [content_id]
                  else usr.favorite_contents } :: l2,
            interactions := log ++
              [{ user_id := user_id, content_id := content_id, type := type,
                 timestamp := now }] }) := by
  have hg : ¬ (user_id ≤ 0 ∨ content_id ≤ 0) := by omega
  have hget := user_get_by_id_of_decomp (l1 ++ usr :: l2) l1 l2 log usr user_id hu rfl hid hl1
  simp only [user_register_interaction, if_neg hg, hget]
  rw [modify_user_of_decomp l1 l2 usr user_id _ hid hl1]
  by_cases ht : type = INTERACTION_FAVORITE
  · rw [if_pos ht]
    rw [user_add_favorite_of_decomp l1 l2 _
      { usr with interaction_count := usr.interaction_count + 1 } user_id content_id hu hc
      hid hl1]
    by_cases h1 : content_id ∈ usr.favorite_contents
    · simp [h1]
    · by_cases h2 : usr.favorite_contents.length ≥ 100
      · have h3 : ¬ usr.favorite_contents.length < 100 := by omega
        simp [h1, h2, h3]
      · have h3 : usr.favorite_contents.length < 100 := by omega
        have h4 : ¬ 100 ≤ usr.favorite_contents.length := by omega
        simp [h1, h3, h4, ht]
  · rw [if_neg ht]
    simp [ht]

theorem user_register_interaction_cases (manager : UserManager) (user_id content_id : Int)
    (type : InteractionType) (now : Int) :
    (user_register_interaction manager user_id content_id type now = (0, manager) ∧
      ¬ (0 < user_id ∧ 0 < content_id ∧ ∃ v ∈ manager.users, v.id = user_id)) ∨
    (0 < user_id ∧ 0 < content_id ∧
      ∃ l1 usr l2, manager.users = l1 ++ usr :: l2 ∧ usr.id = user_id ∧
        (∀ v ∈ l1, v.id ≠ user_id) ∧
        user_get_by_id manager user_id = some usr ∧
        user_register_interaction manager user_id content_id type now =
          (1, { users := l1 ++
                  { usr with
                    interaction_count := usr.interaction_count + 1,
                    favorite_contents :=
                      if type = INTERACTION_FAVORITE ∧ content_id ∉ usr.favorite_contents ∧
                          usr.favorite_contents.length < 100 then
                        usr.favorite_contents ++ [content_id]
                      else usr.favorite_contents } :: l2,
                interactions := manager.interactions ++
                  [{ user_id := user_id, content_id := content_id, type := type,
                     timestamp := now }] })) := by
  by_cases hg : user_id ≤ 0 ∨ content_id ≤ 0
  · left
    refine ⟨by simp only [user_register_interaction, if_pos hg], ?_⟩
    rintro ⟨h1, h2, -⟩
    omega
  · cases hget : user_get_by_id manager user_id with
    | none =>
      left
      refine ⟨by simp only [user_register_interaction, if_neg hg, hget], ?_⟩
      rintro ⟨h1, -, h3⟩
      exact (user_get_by_id_ne_none_iff manager user_id).2 ⟨h1, h3⟩ hget
    | some usr =>
      right
      obtain ⟨hpos, hid, l1, l2, e, hl1⟩ := user_get_by_id_some manager user_id usr hget
      refine ⟨hpos, by omega, l1, usr, l2, e, hid, hl1, rfl, ?_⟩
      obtain ⟨users, log⟩ := manager
      simp only at e
      subst e
      exact user_register_interaction_of_decomp l1 l2 log usr user_id content_id type now
        hpos (by omega) hid hl1

end UserLemmas

/-! ## Content-store lemmas -/

section ContentStoreLemmas

theorem modify_content_cons (c : Content) (cs : List Content) (id : Int) (f : Content → Content) :
    modify_content (c :: cs) id f =
      if c.id = id then f c :: cs else c :: modify_content cs id f := rfl

theorem modify_content_of_decomp (l1 l2 : List Content) (c : Content) (id : Int)
    (f : Content → Content) (hid : c.id = id) (hl1 : ∀ d ∈ l1, d.id ≠ id) :
    modify_content (l1 ++ c :: l2) id f = l1 ++ f c :: l2 := by
  induction l1 with
  | nil => simp [modify_content, hid]
  | cons a as ih =>
    have ha : ¬ a.id = id := hl1 a (List.mem_cons_self _ _)
    rw [List.cons_append, modify_content_cons, if_neg ha,
      ih (fun d hd => hl1 d (List.mem_cons_of_mem _ hd))]
    rfl

theorem content_get_by_id_decomp (catalog : ContentCatalog) (id : Int) (c : Content)
    (h : content_get_by_id catalog id = some c) :
    0 < id ∧ c.id = id ∧ ∃ l1 l2, catalog = l1 ++ c :: l2 ∧ ∀ d ∈ l1, d.id ≠ id := by
  unfold content_get_by_id at h
  by_cases hid : id ≤ 0
  · rw [if_pos hid] at h
    cases h
  · rw [if_neg hid, List.find?_eq_some] at h
    obtain ⟨hp, l1, l2, e, hl1⟩ := h
    refine ⟨by omega, by simpa using hp, l1, l2, e, ?_⟩
    intro d hd
    simpa using hl1 d hd

theorem content_get_by_id_of_decomp (l1 l2 : List Content) (c : Content) (id : Int)
    (hpos : 0 < id) (hid : c.id = id) (hl1 : ∀ d ∈ l1, d.id ≠ id) :
    content_get_by_id (l1 ++ c :: l2) id = some c := by
  unfold content_get_by_id
  have hg : ¬ id ≤ 0 := by omega
  rw [if_neg hg, List.find?_eq_some]
  refine ⟨by simpa using hid, l1, l2, rfl, ?_⟩
  intro d hd
  simpa using hl1 d hd

theorem content_get_by_id_eq_none_iff (catalog : ContentCatalog) (id : Int) :
    content_get_by_id catalog id = none ↔ ¬ (0 < id ∧ ∃ c ∈ catalog, c.id = id) := by
  unfold content_get_by_id
  by_cases hid : id ≤ 0
  · rw [if_pos hid]
    constructor
    · rintro - ⟨h, -⟩
      omega
    · intro _
      rfl
  · rw [if_neg hid, List.find?_eq_none]
    constructor
    · rintro h ⟨-, c, hc, hcid⟩
      have := h c hc
      simp [hcid] at this
    · intro h c hc
      have : ¬ c.id = id := fun hcid => h ⟨by omega, c, hc, hcid⟩
      simpa using this

theorem content_edit_of_decomp (l1 l2 : List Content) (c : Content) (id : Int)
    (title category : Option CString) (duration age_rating : Int)
    (hpos : 0 < id) (hid : c.id = id) (hl1 : ∀ d ∈ l1, d.id ≠ id) :
    content_edit (l1 ++ c :: l2) id title category duration age_rating =
      (1, l1 ++ edit_fields title category duration age_rating c :: l2) := by
  have hg : ¬ id ≤ 0 := by omega
  have hget := content_get_by_id_of_decomp l1 l2 c id hpos hid hl1
  unfold content_get_by_id at hget
  rw [if_neg hg] at hget
  simp only [content_edit, if_neg hg, hget]
  rw [modify_content_of_decomp l1 l2 c id _ hid hl1]

theorem content_edit_of_none (catalog : ContentCatalog) (id : Int)
    (title category : Option CString) (duration age_rating : Int)
    (h : content_get_by_id catalog id = none) :
    content_edit catalog id title category duration age_rating = (0, catalog) := by
  unfold content_get_by_id at h
  by_cases hg : id ≤ 0
  · simp only [content_edit, if_pos hg]
  · rw [if_neg hg] at h
    simp only [content_edit, if_neg hg, h]

theorem edit_fields_id (title category : Option CString) (duration age_rating : Int)
    (c : Content) : (edit_fields title category duration age_rating c).id = c.id := by
  unfold edit_fields
  cases title <;> cases category <;> by_cases h1 : duration > 0 <;>
    by_cases h2 : age_rating ≥ 0 <;> simp [h1, h2]

theorem edit_fields_views (title category : Option CString) (duration age_rating : Int)
    (c : Content) : (edit_fields title category duration age_rating c).views = c.views := by
  unfold edit_fields
  cases title <;> cases category <;> by_cases h1 : duration > 0 <;>
    by_cases h2 : age_rating ≥ 0 <;> simp [h1, h2]

theorem edit_fields_duration (title category : Option CString) (duration age_rating : Int)
    (c : Content) :
    (edit_fields title category duration age_rating c).duration =
      if duration > 0 then duration else c.duration := by
  unfold edit_fields
  cases title <;> cases category <;> by_cases h1 : duration > 0 <;>
    by_cases h2 : age_rating ≥ 0 <;> simp [h1, h2]

theorem edit_fields_age_rating (title category : Option CString) (duration age_rating : Int)
    (c : Content) :
    (edit_fields title category duration age_rating c).age_rating =
      if age_rating ≥ 0 then age_rating else c.age_rating := by
  unfold edit_fields
  cases title <;> cases category <;> by_cases h1 : duration > 0 <;>
    by_cases h2 : age_rating ≥ 0 <;> simp [h1, h2]

theorem edit_fields_title (title category : Option CString) (duration age_rating : Int)
    (c : Content) :
    (edit_fields title category duration age_rating c).title =
      match title with
      | some t => t.take (MAX_TITLE_LENGTH - 1)
      | none => c.title := by
  unfold edit_fields
  cases title <;> cases category <;> by_cases h1 : duration > 0 <;>
    by_cases h2 : age_rating ≥ 0 <;> simp [h1, h2]

theorem edit_fields_category (title category : Option CString) (duration age_rating : Int)
    (c : Content) :
    (edit_fields title category duration age_rating c).category =
      match category with
      | some t => t.take (MAX_CATEGORY_LENGTH - 1)
      | none => c.category := by
  unfold edit_fields
  cases title <;> cases category <;> by_cases h1 : duration > 0 <;>
    by_cases h2 : age_rating ≥ 0 <;> simp [h1, h2]

end ContentStoreLemmas

/-! ## Search lemmas -/

section SearchLemmas

theorem strstr_iff (haystack needle : CString) :
    strstr haystack needle = true ↔ needle <:+: haystack := by
  induction haystack with
  | nil =>
    cases needle with
    | nil => simp [strstr]
    | cons a as => simp [strstr]
  | cons c rest ih =>
    rw [strstr, Bool.or_eq_true, ih, List.isPrefixOf_iff_prefix, List.infix_cons_iff]

theorem foldl_search_loop (test : Content → Bool) (max_results : Int) :
    ∀ (catalog : ContentCatalog) (acc : List Int), acc.length ≤ max_results.toNat →
      catalog.foldl
        (fun results content =>
          if (results.length : Int) < max_results then
            if test content then results ++ [content.id] else results
          else results) acc =
        acc ++ ((catalog.filter test).map (·.id)).take (max_results.toNat - acc.length) := by
  intro catalog
  induction catalog with
  | nil => intro acc _; simp
  | cons c cs ih =>
    intro acc h
    simp only [List.foldl_cons]
    by_cases hlen : (acc.length : Int) < max_results
    · rw [if_pos hlen]
      have hlt : acc.length < max_results.toNat := by omega
      by_cases ht : test c = true
      · rw [if_pos ht, ih (acc ++ [c.id])
          (by simp only [List.length_append, List.length_singleton]; omega)]
        have e : max_results.toNat - acc.length =
            (max_results.toNat - (acc ++ [c.id]).length) + 1 := by
          simp only [List.length_append, List.length_singleton]
          omega
        rw [e, List.filter_cons, if_pos ht, List.map_cons, List.take_succ_cons]
        simp
      · rw [if_neg ht, ih acc h, List.filter_cons, if_neg ht]
    · rw [if_neg hlen]
      have e : max_results.toNat - acc.length = 0 := by omega
      rw [e, List.take_zero, List.append_nil]
      apply foldl_fixed
      intro x _
      rw [if_neg hlen]

theorem search_loop_eq (test : Content → Bool) (catalog : ContentCatalog) (max_results : Int) :
    search_loop test catalog max_results = first_matches test catalog max_results := by
  unfold search_loop first_matches
  rw [foldl_search_loop test max_results catalog [] (by simp)]
  simp

theorem first_matches_congr (test1 test2 : Content → Bool) (catalog : ContentCatalog) (k : Int)
    (h : ∀ c ∈ catalog, test1 c = test2 c) :
    first_matches test1 catalog k = first_matches test2 catalog k := by
  unfold first_matches
  rw [List.filter_congr h]

theorem first_matches_all (test : Content → Bool) (catalog : ContentCatalog) (k : Int)
    (h : ((catalog.filter test).length : Int) ≤ k) :
    first_matches test catalog k = (catalog.filter test).map (·.id) := by
  unfold first_matches
  apply List.take_of_length_le
  rw [List.length_map]
  omega

theorem take_bound {α : Type} (l : List α) (n : Nat) (h : l.length < n) : l.take (n - 1) = l :=
  List.take_of_length_le (by omega)

end SearchLemmas

/-! ## Lemmas on sequences of calls on the user store -/

section CallLemmas

theorem user_add_cases (manager : UserManager) (username : CString) :
    (user_add manager username = (-1, manager) ∧
      (username = [] ∨ ∃ u ∈ manager.users, u.username = username)) ∨
    (¬ (username = [] ∨ ∃ u ∈ manager.users, u.username = username) ∧
      user_add manager username =
        (find_next_id (manager.users.map (·.id)),
         { users := manager.users ++
             [{ id := find_next_id (manager.users.map (·.id)),
                username := username.take (MAX_USERNAME_LENGTH - 1),
                favorite_contents := [],
                interaction_count := 0 }],
           interactions := manager.interactions })) := by
  by_cases h0 : username.length = 0
  · left
    exact ⟨by simp only [user_add, if_pos h0], Or.inl (List.length_eq_zero.1 h0)⟩
  · by_cases hany : manager.users.any (fun u => u.username = username) = true
    · left
      refine ⟨by simp only [user_add, if_neg h0, if_pos hany], Or.inr ?_⟩
      rw [List.any_eq_true] at hany
      obtain ⟨u, hu, hname⟩ := hany
      exact ⟨u, hu, by simpa using hname⟩
    · right
      refine ⟨?_, by simp only [user_add, if_neg h0, if_neg hany]⟩
      rintro (h | ⟨u, hu, hname⟩)
      · exact h0 (by rw [h]; rfl)
      · apply hany
        rw [List.any_eq_true]
        exact ⟨u, hu, by simpa using hname⟩

theorem user_add_favorite_shape (manager : UserManager) (user_id content_id : Int) :
    (user_add_favorite manager user_id content_id).2 = manager ∨
    ∃ l1 usr l2, manager.users = l1 ++ usr :: l2 ∧ usr.favorite_contents.length < 100 ∧
      (user_add_favorite manager user_id content_id).2 =
        { users := l1 ++
            { usr with favorite_contents := usr.favorite_contents ++ [content_id] } :: l2,
          interactions := manager.interactions } := by
  by_cases hg : user_id ≤ 0 ∨ content_id ≤ 0
  · left
    simp only [user_add_favorite, if_pos hg]
  · cases hget : user_get_by_id manager user_id with
    | none =>
      left
      simp only [user_add_favorite, if_neg hg, hget]
    | some usr =>
      obtain ⟨hpos, hid, l1, l2, e, hl1⟩ := user_get_by_id_some manager user_id usr hget
      obtain ⟨users, log⟩ := manager
      simp only at e
      subst e
      rw [user_add_favorite_of_decomp l1 l2 log usr user_id content_id hpos (by omega) hid hl1]
      by_cases h1 : content_id ∈ usr.favorite_contents
      · left
        rw [if_pos h1]
      · rw [if_neg h1]
        by_cases h2 : usr.favorite_contents.length ≥ 100
        · left
          rw [if_pos h2]
        · right
          rw [if_neg h2]
          exact ⟨l1, usr, l2, rfl, by omega, rfl⟩

theorem user_remove_favorite_shape (manager : UserManager) (user_id content_id : Int) :
    (user_remove_favorite manager user_id content_id).2 = manager ∨
    ∃ l1 usr l2 index, manager.users = l1 ++ usr :: l2 ∧
      (user_remove_favorite manager user_id content_id).2 =
        { users := l1 ++
            { usr with favorite_contents := usr.favorite_contents.eraseIdx index } :: l2,
          interactions := manager.interactions } := by
  by_cases hg : user_id ≤ 0 ∨ content_id ≤ 0
  · left
    simp only [user_remove_favorite, if_pos hg]
  · cases hget : user_get_by_id manager user_id with
    | none =>
      left
      simp only [user_remove_favorite, if_neg hg, hget]
    | some usr =>
      obtain ⟨hpos, hid, l1, l2, e, hl1⟩ := user_get_by_id_some manager user_id usr hget
      cases hfind : find_index usr.favorite_contents content_id with
      | none =>
        left
        simp only [user_remove_favorite, if_neg hg, hget, hfind]
      | some index =>
        right
        refine ⟨l1, usr, l2, index, e, ?_⟩
        simp only [user_remove_favorite, if_neg hg, hget, hfind]
        rw [e, modify_user_of_decomp l1 l2 usr user_id _ hid hl1]

theorem user_remove_users_sublist (manager : UserManager) (user_id : Int) :
    (user_remove manager user_id).2.users.Sublist manager.users := by
  by_cases hg : user_id ≤ 0
  · simp only [user_remove, if_pos hg]
    exact List.Sublist.refl _
  · cases hfind : find_index (manager.users.map (·.id)) user_id with
    | none =>
      simp only [user_remove, if_neg hg, hfind]
      exact List.Sublist.refl _
    | some index =>
      simp only [user_remove, if_neg hg, hfind]
      exact List.eraseIdx_sublist _ _

/-- Every call either leaves the user sequence as it was, or appends a user without favorites,
or yields a subsequence, or replaces one record by a record with the same name whose favorites
stay within the bound. -/
theorem apply_call_users (manager : UserManager) (call : UserCall) :
    (apply_call manager call).users = manager.users ∨
    (∃ username, call = UserCall.add username ∧
      ¬ (username = [] ∨ ∃ u ∈ manager.users, u.username = username) ∧
      ∃ new, (apply_call manager call).users = manager.users ++ [new] ∧
        new.username = username.take (MAX_USERNAME_LENGTH - 1) ∧ new.favorite_contents = []) ∨
    (∃ user_id, call = UserCall.remove user_id ∧
      (apply_call manager call).users.Sublist manager.users) ∨
    (∃ l1 usr l2 usr', manager.users = l1 ++ usr :: l2 ∧
      (apply_call manager call).users = l1 ++ usr' :: l2 ∧ usr'.username = usr.username ∧
      (usr.favorite_contents.length ≤ 100 → usr'.favorite_contents.length ≤ 100)) := by
  cases call with
  | add username =>
    rcases user_add_cases manager username with ⟨h, -⟩ | ⟨hno, h⟩
    · left
      simp only [apply_call, h]
    · right; left
      exact ⟨username, rfl, hno, _, congrArg (fun p => p.2.users) h, rfl, rfl⟩
  | remove user_id =>
    right; right; left
    exact ⟨user_id, rfl, user_remove_users_sublist manager user_id⟩
  | register_interaction user_id content_id type now =>
    rcases user_register_interaction_cases manager user_id content_id type now with
      ⟨h0, -⟩ | ⟨-, -, l1, usr, l2, e, -, -, -, h1⟩
    · left
      simp only [apply_call, h0]
    · right; right; right
      have hu := congrArg (fun p => p.2.users) h1
      simp only at hu
      refine ⟨l1, usr, l2, _, e, hu, rfl, ?_⟩
      intro hle
      simp only
      split
      · rename_i hc
        simp only [List.length_append, List.length_singleton]
        omega
      · exact hle
  | add_favorite user_id content_id =>
    rcases user_add_favorite_shape manager user_id content_id with h | ⟨l1, usr, l2, e, hlt, h⟩
    · left
      simp only [apply_call, h]
    · right; right; right
      refine ⟨l1, usr, l2, _, e, congrArg UserManager.users h, rfl, ?_⟩
      intro _
      simp only [List.length_append, List.length_singleton]
      omega
  | remove_favorite user_id content_id =>
    rcases user_remove_favorite_shape manager user_id content_id with
      h | ⟨l1, usr, l2, index, e, h⟩
    · left
      simp only [apply_call, h]
    · right; right; right
      refine ⟨l1, usr, l2, _, e, congrArg UserManager.users h, rfl, ?_⟩
      intro hle
      have := (List.eraseIdx_sublist usr.favorite_contents index).length_le
      simp only
      omega

theorem apply_call_favorites_bound (manager : UserManager) (call : UserCall)
    (h : ∀ u ∈ manager.users, u.favorite_contents.length ≤ 100) :
    ∀ u ∈ (apply_call manager call).users, u.favorite_contents.length ≤ 100 := by
  rcases apply_call_users manager call with
    e | ⟨_, -, -, new, e, -, hnew⟩ | ⟨_, -, hsub⟩ | ⟨l1, usr, l2, usr', e1, e2, -, hb⟩
  · rw [e]
    exact h
  · rw [e]
    intro u hu
    rcases List.mem_append.1 hu with hu | hu
    · exact h u hu
    · rw [List.mem_singleton] at hu
      rw [hu, hnew]
      simp
  · intro u hu
    exact h u (hsub.subset hu)
  · rw [e2]
    rw [e1] at h
    intro u hu
    rcases List.mem_append.1 hu with hu | hu
    · exact h u (List.mem_append_left _ hu)
    · rcases List.mem_cons.1 hu with hu | hu
      · rw [hu]
        exact hb (h usr (by simp))
      · exact h u (List.mem_append_right _ (List.mem_cons_of_mem _ hu))

theorem foldl_calls_favorites_bound (calls : List UserCall) (manager : UserManager)
    (h : ∀ u ∈ manager.users, u.favorite_contents.length ≤ 100) :
    ∀ u ∈ (calls.foldl apply_call manager).users, u.favorite_contents.length ≤ 100 := by
  induction calls generalizing manager with
  | nil => exact h
  | cons call rest ih =>
    rw [List.foldl_cons]
    exact ih _ (apply_call_favorites_bound manager call h)

theorem apply_call_usernames_nodup (manager : UserManager) (call : UserCall)
    (hshort : ∀ username, call = UserCall.add username → username.length < MAX_USERNAME_LENGTH)
    (h : (manager.users.map (·.username)).Nodup) :
    ((apply_call manager call).users.map (·.username)).Nodup := by
  rcases apply_call_users manager call with
    e | ⟨username, hcall, hno, new, e, hname, -⟩ | ⟨_, -, hsub⟩ |
    ⟨l1, usr, l2, usr', e1, e2, hname, -⟩
  · rw [e]
    exact h
  · rw [e, List.map_append, List.map_singleton]
    have hlen := hshort username hcall
    rw [hname, take_bound username MAX_USERNAME_LENGTH hlen]
    rw [List.nodup_append]
    refine ⟨h, List.nodup_singleton _, ?_⟩
    intro a ha hb
    rw [List.mem_singleton] at hb
    rw [List.mem_map] at ha
    obtain ⟨u, hu, hua⟩ := ha
    exact hno (Or.inr ⟨u, hu, by rw [hua, hb]⟩)
  · exact h.sublist (hsub.map _)
  · rw [e2]
    rw [e1] at h
    simpa [hname] using h

theorem foldl_calls_usernames_nodup (calls : List UserCall) (manager : UserManager)
    (hshort : ∀ username, UserCall.add username ∈ calls →
      username.length < MAX_USERNAME_LENGTH)
    (h : (manager.users.map (·.username)).Nodup) :
    ((calls.foldl apply_call manager).users.map (·.username)).Nodup := by
  induction calls generalizing manager with
  | nil => exact h
  | cons call rest ih =>
    rw [List.foldl_cons]
    apply ih
    · intro username hmem
      exact hshort username (List.mem_cons_of_mem _ hmem)
    · apply apply_call_usernames_nodup manager call _ h
      intro username hcall
      exact hshort username (by rw [hcall]; exact List.mem_cons_self _ _)

/-- The duplicate check of `user_add` keeps the user names distinct as long as every name added
is shorter than the field `username[50]`. -/
theorem usernames_nodup_of_short_names (calls : List UserCall)
    (hshort : ∀ username, UserCall.add username ∈ calls →
      username.length < MAX_USERNAME_LENGTH) :
    ((run_calls calls).users.map (·.username)).Nodup :=
  foldl_calls_usernames_nodup calls _ hshort (by simp)

end CallLemmas

/-! ## Lemmas on type names, similarity bounds and the report -/

section NameLemmas

theorem similarity_unfold (a b : Content) :
    recommendation_calculate_similarity (some a) (some b) =
      if (((if a.duration > b.duration then a.duration else b.duration : Int) : ℚ)) > 0 then
        (if a.category = b.category then (0 : ℚ) + 6 / 10 else 0) +
          2 / 10 * (1 - ((abs (a.age_rating - b.age_rating) : Int) : ℚ) / 18) +
          2 / 10 * (1 - ((abs (a.duration - b.duration) : Int) : ℚ) /
            (((if a.duration > b.duration then a.duration else b.duration : Int) : ℚ)))
      else
        (if a.category = b.category then (0 : ℚ) + 6 / 10 else 0) +
          2 / 10 * (1 - ((abs (a.age_rating - b.age_rating) : Int) : ℚ) / 18) := rfl

theorem similarity_comm (a b : Content) :
    recommendation_calculate_similarity (some a) (some b) =
      recommendation_calculate_similarity (some b) (some a) := by
  rw [similarity_unfold, similarity_unfold]
  have hage : abs (a.age_rating - b.age_rating) = abs (b.age_rating - a.age_rating) :=
    abs_sub_comm _ _
  have hdur : abs (a.duration - b.duration) = abs (b.duration - a.duration) :=
    abs_sub_comm _ _
  have hmax : (if a.duration > b.duration then a.duration else b.duration) =
      (if b.duration > a.duration then b.duration else a.duration) := by
    split_ifs <;> omega
  have hcat : (if a.category = b.category then (0 : ℚ) + 6 / 10 else 0) =
      (if b.category = a.category then (0 : ℚ) + 6 / 10 else 0) := by
    by_cases hc : a.category = b.category
    · rw [if_pos hc, if_pos hc.symm]
    · rw [if_neg hc, if_neg (fun h => hc h.symm)]
  rw [hage, hdur, hmax, hcat]

theorem similarity_le_one (a b : Content) :
    recommendation_calculate_similarity (some a) (some b) ≤ 1 := by
  rw [similarity_unfold]
  have hx0 : (0 : ℚ) ≤ ((abs (a.age_rating - b.age_rating) : Int) : ℚ) := by
    exact_mod_cast abs_nonneg (a.age_rating - b.age_rating)
  have hy0 : (0 : ℚ) ≤ ((abs (a.duration - b.duration) : Int) : ℚ) := by
    exact_mod_cast abs_nonneg (a.duration - b.duration)
  have hq : 0 ≤ ((abs (a.age_rating - b.age_rating) : Int) : ℚ) / 18 :=
    div_nonneg hx0 (by norm_num)
  have hcat : (if a.category = b.category then (0 : ℚ) + 6 / 10 else 0) ≤ 6 / 10 := by
    split_ifs <;> norm_num
  by_cases hm : (((if a.duration > b.duration then a.duration else b.duration : Int) : ℚ)) > 0
  · rw [if_pos hm]
    have hr : 0 ≤ ((abs (a.duration - b.duration) : Int) : ℚ) /
        (((if a.duration > b.duration then a.duration else b.duration : Int) : ℚ)) :=
      div_nonneg hy0 (le_of_lt hm)
    linarith
  · rw [if_neg hm]
    linarith

theorem similarity_self (a : Content) (hd : 0 < a.duration) :
    recommendation_calculate_similarity (some a) (some a) = 1 := by
  rw [similarity_unfold]
  have hm : (((if a.duration > a.duration then a.duration else a.duration : Int) : ℚ)) > 0 := by
    rw [if_neg (lt_irrefl _)]
    exact_mod_cast hd
  rw [if_pos hm]
  simp only [sub_self, abs_zero, Int.cast_zero, zero_div, if_true]
  norm_num

/-- The string that `user_interaction_type_from_string` compares with the four names is a name
exactly when the upper-cased argument is. -/
theorem upper_str_eq_iff (str name : CString) (hname : name.length < 19) :
    (str.take (if str.length ≥ MAX_INTERACTION_TYPE_LENGTH then MAX_INTERACTION_TYPE_LENGTH - 1
        else str.length)).map toupper = name ↔ str.map toupper = name := by
  unfold MAX_INTERACTION_TYPE_LENGTH
  by_cases hlen : str.length ≥ 20
  · rw [if_pos hlen]
    constructor
    · intro h
      have := congrArg List.length h
      simp only [List.length_map, List.length_take] at this
      omega
    · intro h
      have := congrArg List.length h
      simp only [List.length_map] at this
      omega
  · rw [if_neg hlen, List.take_length]

theorem from_string_eq (str : CString) :
    user_interaction_type_from_string str =
      if str.map toupper = "PLAY".toList then INTERACTION_PLAY
      else if str.map toupper = "PAUSE".toList then INTERACTION_PAUSE
      else if str.map toupper = "COMPLETE".toList then INTERACTION_COMPLETE
      else if str.map toupper = "FAVORITE".toList then INTERACTION_FAVORITE
      else INTERACTION_PLAY := by
  unfold user_interaction_type_from_string
  simp only [upper_str_eq_iff str "PLAY".toList (by decide),
    upper_str_eq_iff str "PAUSE".toList (by decide),
    upper_str_eq_iff str "COMPLETE".toList (by decide),
    upper_str_eq_iff str "FAVORITE".toList (by decide)]

end NameLemmas

/-! ## Distinctness of the recommended ids -/

section NodupLemmas

theorem filterMap_ids_sublist (step : Content → Option ContentScore)
    (hstep : ∀ c s, step c = some s → s.content_id = c.id) (catalog : ContentCatalog) :
    ((catalog.filterMap step).map (·.content_id)).Sublist (catalog.map (·.id)) := by
  induction catalog with
  | nil => exact List.Sublist.refl _
  | cons c cs ih =>
    cases hs : step c with
    | none =>
      simp only [List.filterMap_cons, hs, List.map_cons]
      exact ih.cons _
    | some s =>
      simp only [List.filterMap_cons, hs, List.map_cons]
      rw [hstep c s hs]
      exact ih.cons₂ _

theorem collect_scores_ids_nodup (step : Content → Option ContentScore)
    (hstep : ∀ c s, step c = some s → s.content_id = c.id) (catalog : ContentCatalog)
    (hnd : (catalog.map (·.id)).Nodup) :
    ((collect_scores step catalog).map (·.content_id)).Nodup := by
  rw [collect_scores_eq_take, List.map_take]
  exact (hnd.sublist (filterMap_ids_sublist step hstep catalog)).sublist (List.take_sublist _ _)

theorem copy_recommendations_nodup (qsort : List ContentScore → List ContentScore)
    (hq : QsortSpec qsort) (scores : List ContentScore) (m : Int)
    (hnd : (scores.map (·.content_id)).Nodup) :
    (copy_recommendations (qsort scores) m).Nodup := by
  unfold copy_recommendations
  rw [List.map_take]
  have hperm : ((qsort scores).map (·.content_id)).Perm (scores.map (·.content_id)) :=
    (hq scores).1.map _
  exact (hperm.nodup_iff.2 hnd).sublist (List.take_sublist _ _)

theorem by_popularity_nodup (qsort : List ContentScore → List ContentScore)
    (hq : QsortSpec qsort) (content_catalog : ContentCatalog) (m : Int)
    (hnd : (content_catalog.map (·.id)).Nodup) :
    (recommendation_by_popularity qsort content_catalog m).Nodup := by
  unfold recommendation_by_popularity
  by_cases hm : m ≤ 0
  · rw [if_pos hm]
    exact List.nodup_nil
  · rw [if_neg hm]
    apply copy_recommendations_nodup qsort hq
    apply collect_scores_ids_nodup _ _ _ hnd
    intro c s hs
    cases hs
    rfl

theorem by_similarity_nodup (qsort : List ContentScore → List ContentScore)
    (hq : QsortSpec qsort) (user_manager : UserManager) (content_catalog : ContentCatalog)
    (user_id m : Int) (hnd : (content_catalog.map (·.id)).Nodup) :
    (recommendation_by_content_similarity qsort user_manager content_catalog user_id
      m).Nodup := by
  unfold recommendation_by_content_similarity
  by_cases hg : user_id ≤ 0 ∨ m ≤ 0
  · rw [if_pos hg]
    exact List.nodup_nil
  · rw [if_neg hg]
    simp only
    by_cases hw : (collect_watched_ids user_manager user_id).length = 0
    · rw [if_pos hw]
      exact by_popularity_nodup qsort hq content_catalog m hnd
    · rw [if_neg hw]
      apply copy_recommendations_nodup qsort hq
      apply collect_scores_ids_nodup _ _ _ hnd
      intro c s hs
      by_cases hc : c.id ∈ collect_watched_ids user_manager user_id
      · rw [if_pos hc] at hs
        cases hs
      · rw [if_neg hc] at hs
        cases hs
        rfl

theorem category_candidate_score_id (user_manager : UserManager) (user_id : Int)
    (categories : List (CString × Int)) (c : Content) (s : ContentScore)
    (hs : category_candidate_score user_manager user_id categories c = some s) :
    s.content_id = c.id := by
  unfold category_candidate_score at hs
  by_cases hw : recommendation_has_watched user_manager user_id c.id = 0
  · rw [if_pos hw] at hs
    cases hf : find_category categories c.category with
    | none =>
      rw [hf] at hs
      cases hs
    | some k =>
      rw [hf] at hs
      cases hs
      rfl
  · rw [if_neg hw] at hs
    cases hs

theorem by_category_nodup (qsort : List ContentScore → List ContentScore)
    (hq : QsortSpec qsort) (user_manager : UserManager) (content_catalog : ContentCatalog)
    (user_id m : Int) (hnd : (content_catalog.map (·.id)).Nodup) :
    (recommendation_by_category qsort user_manager content_catalog user_id m).Nodup := by
  unfold recommendation_by_category
  by_cases hg : user_id ≤ 0 ∨ m ≤ 0
  · rw [if_pos hg]
    exact List.nodup_nil
  · rw [if_neg hg]
    simp only
    by_cases ht : (tally_categories user_manager content_catalog user_id).length = 0
    · rw [if_pos ht]
      exact by_popularity_nodup qsort hq content_catalog m hnd
    · rw [if_neg ht]
      apply copy_recommendations_nodup qsort hq
      apply collect_scores_ids_nodup _ _ _ hnd
      intro c s hs
      exact category_candidate_score_id user_manager user_id _ c s hs

theorem personalized_nodup (qsort : List ContentScore → List ContentScore)
    (hq : QsortSpec qsort) (user_manager : UserManager) (content_catalog : ContentCatalog)
    (user_id m : Int) (hnd : (content_catalog.map (·.id)).Nodup) :
    (recommendation_personalized qsort user_manager content_catalog user_id m).Nodup := by
  by_cases hg : user_id ≤ 0 ∨ m ≤ 0
  · simp only [recommendation_personalized, if_pos hg]
    exact List.nodup_nil
  · rw [personalized_eq qsort user_manager content_catalog user_id m (by omega) (by omega)]
    apply copy_recommendations_nodup qsort hq
    exact merge_recommendations_ids_nodup _ _ _
      (by_similarity_nodup qsort hq user_manager content_catalog user_id _ hnd)

theorem mem_personalized_catalog (qsort : List ContentScore → List ContentScore)
    (hq : QsortSpec qsort) (user_manager : UserManager) (content_catalog : ContentCatalog)
    (user_id m id : Int)
    (h : id ∈ recommendation_personalized qsort user_manager content_catalog user_id m) :
    ∃ c ∈ content_catalog, c.id = id := by
  by_cases hg : user_id ≤ 0 ∨ m ≤ 0
  · simp only [recommendation_personalized, if_pos hg] at h
    cases h
  · rw [personalized_eq qsort user_manager content_catalog user_id m (by omega) (by omega)] at h
    obtain ⟨s, hs, rfl⟩ := mem_copy_recommendations qsort hq _ m _ h
    have hmem := (merge_recommendations_ids_mem _ _ _ _).1
      (List.mem_map_of_mem (·.content_id) hs)
    rcases hmem with h1 | h1 | h1
    · exact mem_by_similarity qsort hq _ _ _ _ _ h1
    · exact mem_by_category_catalog qsort hq _ _ _ _ _ h1
    · exact mem_by_popularity qsort hq _ _ _ h1

end NodupLemmas

/-! ## Lemmas on sequences of calls on the catalog -/

section CatalogCallLemmas

theorem content_increment_views_of_decomp (l1 l2 : List Content) (c : Content) (id : Int)
    (hpos : 0 < id) (hid : c.id = id) (hl1 : ∀ d ∈ l1, d.id ≠ id) :
    content_increment_views (l1 ++ c :: l2) id =
      (1, l1 ++ { c with views := c.views + 1 } :: l2) := by
  have hg : ¬ id ≤ 0 := by omega
  have hget := content_get_by_id_of_decomp l1 l2 c id hpos hid hl1
  simp only [content_increment_views, if_neg hg, hget]
  rw [modify_content_of_decomp l1 l2 c id _ hid hl1]

theorem content_increment_views_of_none (catalog : ContentCatalog) (id : Int)
    (h : content_get_by_id catalog id = none) :
    content_increment_views catalog id = (0, catalog) := by
  by_cases hg : id ≤ 0
  · simp only [content_increment_views, if_pos hg]
  · simp only [content_increment_views, if_neg hg, h]

/-- Every call either leaves the catalog as it was, or appends a record with a fresh id, or
erases one record, or replaces one record by a record with the same id. -/
theorem apply_catalog_call_shape (catalog : ContentCatalog) (call : CatalogCall) :
    apply_catalog_call catalog call = catalog ∨
    (∃ title category duration age_rating,
      call = CatalogCall.add title category duration age_rating ∧
      0 < duration ∧ 0 ≤ age_rating ∧
      apply_catalog_call catalog call = catalog ++
        [{ id := find_next_id (catalog.map (·.id)),
           title := title.take (MAX_TITLE_LENGTH - 1),
           category := category.take (MAX_CATEGORY_LENGTH - 1),
           duration := duration, age_rating := age_rating, views := 0 }]) ∨
    (∃ id l1 c l2, call = CatalogCall.remove id ∧ catalog = l1 ++ c :: l2 ∧ c.id = id ∧
      apply_catalog_call catalog call = l1 ++ l2) ∨
    (∃ l1 c l2 c', catalog = l1 ++ c :: l2 ∧
      apply_catalog_call catalog call = l1 ++ c' :: l2 ∧ c'.id = c.id ∧
      (0 < c.duration → 0 < c'.duration) ∧ (0 ≤ c.age_rating → 0 ≤ c'.age_rating) ∧
      (0 ≤ c.views → 0 ≤ c'.views) ∧
      ((∀ id, call ≠ CatalogCall.increment_views id) → c'.views = c.views)) := by
  cases call with
  | add title category duration age_rating =>
    by_cases hg : duration ≤ 0 ∨ age_rating < 0
    · left
      simp only [apply_catalog_call, content_add, if_pos hg]
    · right; left
      refine ⟨title, category, duration, age_rating, rfl, by omega, by omega, ?_⟩
      simp only [apply_catalog_call, content_add, if_neg hg]
  | remove id =>
    by_cases hg : id ≤ 0
    · left
      simp only [apply_catalog_call, content_remove, if_pos hg]
    · cases hfind : find_index (catalog.map (·.id)) id with
      | none =>
        left
        simp only [apply_catalog_call, content_remove, if_neg hg, hfind]
      | some index =>
        right; right; left
        obtain ⟨l1, c, l2, e, hcid, -, herase⟩ :=
          find_index_map_some (·.id) catalog id index hfind
        refine ⟨id, l1, c, l2, rfl, e, hcid, ?_⟩
        simp only [apply_catalog_call, content_remove, if_neg hg, hfind]
        exact herase
  | edit id title category duration age_rating =>
    cases hget : content_get_by_id catalog id with
    | none =>
      left
      simp only [apply_catalog_call,
        content_edit_of_none catalog id title category duration age_rating hget]
    | some c =>
      right; right; right
      obtain ⟨hpos, hid, l1, l2, e, hl1⟩ := content_get_by_id_decomp catalog id c hget
      subst e
      refine ⟨l1, c, l2, edit_fields title category duration age_rating c, rfl, ?_,
        edit_fields_id _ _ _ _ _, ?_, ?_, ?_, ?_⟩
      · simp only [apply_catalog_call,
          content_edit_of_decomp l1 l2 c id title category duration age_rating hpos hid hl1]
      · intro h
        rw [edit_fields_duration]
        split_ifs <;> omega
      · intro h
        rw [edit_fields_age_rating]
        split_ifs <;> omega
      · intro h
        rw [edit_fields_views]
        exact h
      · intro _
        exact edit_fields_views _ _ _ _ _
  | increment_views id =>
    cases hget : content_get_by_id catalog id with
    | none =>
      left
      simp only [apply_catalog_call, content_increment_views_of_none catalog id hget]
    | some c =>
      right; right; right
      obtain ⟨hpos, hid, l1, l2, e, hl1⟩ := content_get_by_id_decomp catalog id c hget
      subst e
      refine ⟨l1, c, l2, { c with views := c.views + 1 }, rfl, ?_, rfl, fun h => h,
        fun h => h, ?_, ?_⟩
      · simp only [apply_catalog_call,
          content_increment_views_of_decomp l1 l2 c id hpos hid hl1]
      · intro h
        simp only
        omega
      · intro h
        exact absurd rfl (h id)

theorem apply_catalog_call_invariant (catalog : ContentCatalog) (call : CatalogCall)
    (hids : (catalog.map (·.id)).Pairwise (· < ·))
    (hrec : ∀ c ∈ catalog, 0 < c.id ∧ 0 < c.duration ∧ 0 ≤ c.age_rating ∧ 0 ≤ c.views) :
    ((apply_catalog_call catalog call).map (·.id)).Pairwise (· < ·) ∧
    ∀ c ∈ apply_catalog_call catalog call,
      0 < c.id ∧ 0 < c.duration ∧ 0 ≤ c.age_rating ∧ 0 ≤ c.views := by
  rcases apply_catalog_call_shape catalog call with
    e | ⟨title, category, duration, age_rating, -, hd, ha, e⟩ | ⟨id, l1, c, l2, -, e1, -, e2⟩ |
    ⟨l1, c, l2, c', e1, e2, hid, h1, h2, h3, -⟩
  · rw [e]
    exact ⟨hids, hrec⟩
  · rw [e]
    constructor
    · rw [List.map_append, List.pairwise_append]
      refine ⟨hids, List.pairwise_singleton _ _, ?_⟩
      intro a ha' b hb
      rw [List.map_singleton, List.mem_singleton] at hb
      rw [hb]
      exact find_next_id_gt _ a ha'
    · intro r hr
      rcases List.mem_append.1 hr with hr | hr
      · exact hrec r hr
      · rw [List.mem_singleton] at hr
        rw [hr]
        exact ⟨find_next_id_pos _, hd, ha, le_refl _⟩
  · rw [e2]
    have hsub : (l1 ++ l2).Sublist catalog := by
      rw [e1]
      exact List.Sublist.append_left (List.sublist_cons_self c l2) l1
    exact ⟨hids.sublist (hsub.map _), fun r hr => hrec r (hsub.subset hr)⟩
  · rw [e2]
    rw [e1] at hids hrec
    constructor
    · simpa [hid] using hids
    · intro r hr
      rcases List.mem_append.1 hr with hr | hr
      · exact hrec r (List.mem_append_left _ hr)
      · rcases List.mem_cons.1 hr with hr | hr
        · have hc := hrec c (by simp)
          rw [hr]
          exact ⟨by rw [hid]; exact hc.1, h1 hc.2.1, h2 hc.2.2.1, h3 hc.2.2.2⟩
        · exact hrec r (List.mem_append_right _ (List.mem_cons_of_mem _ hr))

theorem foldl_catalog_calls_invariant (calls : List CatalogCall) (catalog : ContentCatalog)
    (hids : (catalog.map (·.id)).Pairwise (· < ·))
    (hrec : ∀ c ∈ catalog, 0 < c.id ∧ 0 < c.duration ∧ 0 ≤ c.age_rating ∧ 0 ≤ c.views) :
    ((calls.foldl apply_catalog_call catalog).map (·.id)).Pairwise (· < ·) ∧
    ∀ c ∈ calls.foldl apply_catalog_call catalog,
      0 < c.id ∧ 0 < c.duration ∧ 0 ≤ c.age_rating ∧ 0 ≤ c.views := by
  induction calls generalizing catalog with
  | nil => exact ⟨hids, hrec⟩
  | cons call rest ih =>
    rw [List.foldl_cons]
    have h := apply_catalog_call_invariant catalog call hids hrec
    exact ih _ h.1 h.2

theorem run_catalog_calls_invariant (calls : List CatalogCall) :
    ((run_catalog_calls calls).map (·.id)).Pairwise (· < ·) ∧
    ∀ c ∈ run_catalog_calls calls,
      0 < c.id ∧ 0 < c.duration ∧ 0 ≤ c.age_rating ∧ 0 ≤ c.views :=
  foldl_catalog_calls_invariant calls [] (by simp) (by simp)

theorem pairwise_lt_nodup (ids : List Int) (h : ids.Pairwise (· < ·)) : ids.Nodup :=
  h.imp (fun hab => ne_of_lt hab)

/-- Lookup in two catalogs that differ in one record of the same id. -/
theorem content_get_by_id_replace (l1 l2 : List Content) (x y : Content) (id : Int)
    (hxy : y.id = x.id) (old new : Content)
    (hold : content_get_by_id (l1 ++ x :: l2) id = some old)
    (hnew : content_get_by_id (l1 ++ y :: l2) id = some new) :
    (old = x ∧ new = y) ∨ old = new := by
  unfold content_get_by_id at hold hnew
  by_cases hg : id ≤ 0
  · rw [if_pos hg] at hold
    cases hold
  · rw [if_neg hg] at hold hnew
    rw [List.find?_append] at hold hnew
    cases h1 : l1.find? (fun c => decide (c.id = id)) with
    | some r =>
      rw [h1] at hold hnew
      simp only [Option.or_some] at hold hnew
      right
      rw [← Option.some_inj.1 hold, ← Option.some_inj.1 hnew]
    | none =>
      rw [h1] at hold hnew
      simp only [Option.none_or, List.find?_cons] at hold hnew
      by_cases hx : x.id = id
      · have hy : y.id = id := by rw [hxy, hx]
        simp only [hx, hy, decide_True] at hold hnew
        left
        exact ⟨(Option.some_inj.1 hold).symm, (Option.some_inj.1 hnew).symm⟩
      · have hy : ¬ y.id = id := by rw [hxy]; exact hx
        simp only [hx, hy, decide_False] at hold hnew
        right
        rw [hold] at hnew
        exact Option.some_inj.1 hnew

/-- Lookup after the erasure of one record, in a catalog with pairwise-distinct ids. -/
theorem content_get_by_id_erase (l1 l2 : List Content) (c : Content) (id : Int)
    (hnd : ((l1 ++ c :: l2).map (·.id)).Nodup) (old new : Content)
    (hold : content_get_by_id (l1 ++ c :: l2) id = some old)
    (hnew : content_get_by_id (l1 ++ l2) id = some new) : old = new := by
  obtain ⟨hpos, hnid, hnmem⟩ : 0 < id ∧ new.id = id ∧ new ∈ l1 ++ l2 := by
    obtain ⟨h1, h2, h3⟩ := content_get_by_id_some _ _ _ hnew
    exact ⟨h3, h2, h1⟩
  have hcne : ¬ c.id = id := by
    intro hc
    rw [List.map_append, List.map_cons] at hnd
    rcases List.mem_append.1 hnmem with h | h
    · have := (List.nodup_append.1 hnd).2.2
      exact this (List.mem_map_of_mem (·.id) h)
        (by rw [hnid, ← hc]; exact List.mem_cons_self _ _) 
    · have h2 := (List.nodup_cons.1 (List.nodup_append.1 hnd).2.1).1
      apply h2
      rw [hc, ← hnid]
      exact List.mem_map_of_mem (·.id) h
  unfold content_get_by_id at hold hnew
  have hg : ¬ id ≤ 0 := by omega
  rw [if_neg hg, List.find?_append] at hold hnew
  rw [List.find?_cons] at hold
  simp only [hcne, decide_False] at hold
  rw [hold] at hnew
  exact Option.some_inj.1 hnew

theorem content_get_by_id_append (catalog : ContentCatalog) (r : Content) (id : Int)
    (old : Content) (hold : content_get_by_id catalog id = some old) :
    content_get_by_id (catalog ++ [r]) id = some old := by
  unfold content_get_by_id at hold ⊢
  by_cases hg : id ≤ 0
  · rw [if_pos hg] at hold
    cases hold
  · rw [if_neg hg] at hold ⊢
    rw [List.find?_append, hold]
    rfl

theorem apply_catalog_call_views (catalog : ContentCatalog) (call : CatalogCall)
    (hnd : (catalog.map (·.id)).Nodup)
    (hcall : ∀ id, call ≠ CatalogCall.increment_views id) (id : Int) (old new : Content)
    (hold : content_get_by_id catalog id = some old)
    (hnew : content_get_by_id (apply_catalog_call catalog call) id = some new) :
    new.views = old.views := by
  rcases apply_catalog_call_shape catalog call with
    e | ⟨title, category, duration, age_rating, -, -, -, e⟩ | ⟨rid, l1, c, l2, -, e1, -, e2⟩ |
    ⟨l1, c, l2, c', e1, e2, hid, -, -, -, hv⟩
  · rw [e, hold] at hnew
    rw [Option.some_inj.1 hnew]
  · rw [e, content_get_by_id_append catalog _ id old hold] at hnew
    rw [Option.some_inj.1 hnew]
  · rw [e2] at hnew
    rw [e1] at hold hnd
    rw [content_get_by_id_erase l1 l2 c id hnd old new hold hnew]
  · rw [e2] at hnew
    rw [e1] at hold
    rcases content_get_by_id_replace l1 l2 c c' id hid old new hold hnew with ⟨h1, h2⟩ | h
    · rw [h1, h2]
      exact hv hcall
    · rw [h]

end CatalogCallLemmas

/-! ## The interaction counters along sequences of calls -/

section CounterLemmas

theorem user_remove_shape (manager : UserManager) (user_id : Int) :
    user_remove manager user_id = (0, manager) ∨
    ∃ l1 usr l2, manager.users = l1 ++ usr :: l2 ∧ usr.id = user_id ∧
      (user_remove manager user_id).1 = 1 ∧
      (user_remove manager user_id).2.users = l1 ++ l2 ∧
      (user_remove manager user_id).2.interactions.Perm
        (manager.interactions.filter (fun it => it.user_id ≠ user_id)) := by
  by_cases hg : user_id ≤ 0
  · left
    simp only [user_remove, if_pos hg]
  · cases hfind : find_index (manager.users.map (·.id)) user_id with
    | none =>
      left
      simp only [user_remove, if_neg hg, hfind]
    | some index =>
      right
      obtain ⟨l1, usr, l2, e, hid, -, herase⟩ :=
        find_index_map_some (·.id) manager.users user_id index hfind
      have hperm : (remove_interactions_loop user_id manager.interactions.length
          manager.interactions 0).Perm
          (manager.interactions.filter (fun it => it.user_id ≠ user_id)) := by
        have h := remove_interactions_loop_perm user_id manager.interactions.length []
          manager.interactions (le_refl _) (by simp)
        simpa using h
      have hrem : user_remove manager user_id =
          (1, { users := manager.users.eraseIdx index,
                interactions := remove_interactions_loop user_id manager.interactions.length
                  manager.interactions 0 }) := by
        simp only [user_remove, if_neg hg, hfind]
      rw [hrem]
      exact ⟨l1, usr, l2, e, hid, rfl, herase, hperm⟩

/-- What one call does to the user sequence and to the log. -/
theorem apply_call_shape (manager : UserManager) (call : UserCall) :
    apply_call manager call = manager ∨
    (∃ new, (apply_call manager call).users = manager.users ++ [new] ∧
      (apply_call manager call).interactions = manager.interactions ∧
      new.id = find_next_id (manager.users.map (·.id)) ∧ new.interaction_count = 0) ∨
    (∃ user_id l1 usr l2, manager.users = l1 ++ usr :: l2 ∧ usr.id = user_id ∧
      (apply_call manager call).users = l1 ++ l2 ∧
      (apply_call manager call).interactions.Perm
        (manager.interactions.filter (fun it => it.user_id ≠ user_id))) ∨
    (∃ l1 usr l2 usr' entry, manager.users = l1 ++ usr :: l2 ∧
      (apply_call manager call).users = l1 ++ usr' :: l2 ∧ usr'.id = usr.id ∧
      usr'.interaction_count = usr.interaction_count + 1 ∧ entry.user_id = usr.id ∧
      (apply_call manager call).interactions = manager.interactions ++ [entry]) ∨
    (∃ l1 usr l2 usr', manager.users = l1 ++ usr :: l2 ∧
      (apply_call manager call).users = l1 ++ usr' :: l2 ∧ usr'.id = usr.id ∧
      usr'.interaction_count = usr.interaction_count ∧
      (apply_call manager call).interactions = manager.interactions) := by
  cases call with
  | add username =>
    rcases user_add_cases manager username with ⟨h, -⟩ | ⟨-, h⟩
    · left
      simp only [apply_call, h]
    · right; left
      have hu := congrArg (fun p => p.2.users) h
      have hl := congrArg (fun p => p.2.interactions) h
      simp only at hu hl
      exact ⟨_, hu, hl, rfl, rfl⟩
  | remove user_id =>
    rcases user_remove_shape manager user_id with h | ⟨l1, usr, l2, e, hid, -, hu, hl⟩
    · left
      simp only [apply_call, h]
    · right; right; left
      exact ⟨user_id, l1, usr, l2, e, hid, hu, hl⟩
  | register_interaction user_id content_id type now =>
    rcases user_register_interaction_cases manager user_id content_id type now with
      ⟨h0, -⟩ | ⟨-, -, l1, usr, l2, e, hid, -, -, h1⟩
    · left
      simp only [apply_call, h0]
    · right; right; right; left
      have hu := congrArg (fun p => p.2.users) h1
      have hl := congrArg (fun p => p.2.interactions) h1
      simp only at hu hl
      exact ⟨l1, usr, l2, _, _, e, hu, rfl, rfl, hid.symm, hl⟩
  | add_favorite user_id content_id =>
    rcases user_add_favorite_shape manager user_id content_id with h | ⟨l1, usr, l2, e, -, h⟩
    · left
      simp only [apply_call, h]
    · right; right; right; right
      have hu := congrArg UserManager.users h
      have hl := congrArg UserManager.interactions h
      simp only at hu hl
      exact ⟨l1, usr, l2, _, e, hu, rfl, rfl, hl⟩
  | remove_favorite user_id content_id =>
    rcases user_remove_favorite_shape manager user_id content_id with
      h | ⟨l1, usr, l2, index, e, h⟩
    · left
      simp only [apply_call, h]
    · right; right; right; right
      have hu := congrArg UserManager.users h
      have hl := congrArg UserManager.interactions h
      simp only at hu hl
      exact ⟨l1, usr, l2, _, e, hu, rfl, rfl, hl⟩

theorem mem_replace {α : Type} (l1 l2 : List α) (x y z : α) (h : z ∈ l1 ++ y :: l2) :
    z = y ∨ (z ∈ l1 ++ x :: l2 ∧ (z ∈ l1 ∨ z ∈ l2)) := by
  rcases List.mem_append.1 h with h | h
  · exact Or.inr ⟨List.mem_append_left _ h, Or.inl h⟩
  · rcases List.mem_cons.1 h with h | h
    · exact Or.inl h
    · exact Or.inr ⟨List.mem_append_right _ (List.mem_cons_of_mem _ h), Or.inr h⟩

theorem ne_id_of_mem_sides (l1 l2 : List User) (x z : User)
    (hnd : ((l1 ++ x :: l2).map (·.id)).Nodup) (hz : z ∈ l1 ∨ z ∈ l2) : z.id ≠ x.id := by
  rw [List.map_append, List.map_cons] at hnd
  intro heq
  rcases hz with h | h
  · have := (List.nodup_append.1 hnd).2.2
    exact this (List.mem_map_of_mem (·.id) h) (by rw [heq]; exact List.mem_cons_self _ _)
  · have h2 := (List.nodup_cons.1 (List.nodup_append.1 hnd).2.1).1
    apply h2
    rw [← heq]
    exact List.mem_map_of_mem (·.id) h

theorem apply_call_counters (manager : UserManager) (call : UserCall)
    (hids : (manager.users.map (·.id)).Pairwise (· < ·))
    (hpos : ∀ u ∈ manager.users, 0 < u.id)
    (hcount : ∀ u ∈ manager.users, u.interaction_count =
      ((manager.interactions.filter (fun it => it.user_id = u.id)).length : Int))
    (hlog : ∀ it ∈ manager.interactions, ∃ u ∈ manager.users, u.id = it.user_id) :
    ((apply_call manager call).users.map (·.id)).Pairwise (· < ·) ∧
    (∀ u ∈ (apply_call manager call).users, 0 < u.id) ∧
    (∀ u ∈ (apply_call manager call).users, u.interaction_count =
      (((apply_call manager call).interactions.filter
        (fun it => it.user_id = u.id)).length : Int)) ∧
    (∀ it ∈ (apply_call manager call).interactions,
      ∃ u ∈ (apply_call manager call).users, u.id = it.user_id) := by
  have hnd : (manager.users.map (·.id)).Nodup := pairwise_lt_nodup _ hids
  rcases apply_call_shape manager call with
    e | ⟨new, hu, hl, hnid, hnic⟩ | ⟨user_id, l1, usr, l2, e, hid, hu, hl⟩ |
    ⟨l1, usr, l2, usr', entry, e, hu, hid, hic, hent, hl⟩ |
    ⟨l1, usr, l2, usr', e, hu, hid, hic, hl⟩
  · rw [e]
    exact ⟨hids, hpos, hcount, hlog⟩
  · rw [hu, hl]
    refine ⟨?_, ?_, ?_, ?_⟩
    · rw [List.map_append, List.pairwise_append]
      refine ⟨hids, List.pairwise_singleton _ _, ?_⟩
      intro a ha b hb
      rw [List.map_singleton, List.mem_singleton] at hb
      rw [hb, hnid]
      exact find_next_id_gt _ a ha
    · intro u hmem
      rcases List.mem_append.1 hmem with h | h
      · exact hpos u h
      · rw [List.mem_singleton] at h
        rw [h, hnid]
        exact find_next_id_pos _
    · intro u hmem
      rcases List.mem_append.1 hmem with h | h
      · exact hcount u h
      · rw [List.mem_singleton] at h
        rw [h, hnic]
        have hnil : manager.interactions.filter (fun it => decide (it.user_id = new.id))
            = [] := by
          rw [List.filter_eq_nil_iff]
          intro it hit
          obtain ⟨v, hv, hvid⟩ := hlog it hit
          have hlt := find_next_id_gt _ v.id (List.mem_map_of_mem (·.id) hv)
          have : ¬ it.user_id = new.id := by
            rw [hnid, ← hvid]
            omega
          simpa using this
        rw [hnil]
        rfl
    · intro it hit
      obtain ⟨v, hv, hvid⟩ := hlog it hit
      exact ⟨v, List.mem_append_left _ hv, hvid⟩
  · rw [hu]
    have hsub : (l1 ++ l2).Sublist manager.users := by
      rw [e]
      exact List.Sublist.append_left (List.sublist_cons_self usr l2) l1
    rw [e] at hnd
    refine ⟨hids.sublist (hsub.map _), fun u hmem => hpos u (hsub.subset hmem), ?_, ?_⟩
    · intro u hmem
      have hne : u.id ≠ user_id := by
        rw [← hid]
        exact ne_id_of_mem_sides l1 l2 usr u hnd (List.mem_append.1 hmem)
      rw [hcount u (hsub.subset hmem)]
      have h := (hl.filter (fun it => it.user_id = u.id)).length_eq
      simp only at h
      rw [h, List.filter_filter]
      congr 2
      apply List.filter_congr
      intro it _
      by_cases hit : it.user_id = u.id
      · simp [hit, hne]
      · simp [hit]
    · intro it hit
      have hit2 := hl.subset hit
      rw [List.mem_filter] at hit2
      obtain ⟨hmemlog, hneq⟩ := hit2
      have hneq2 : it.user_id ≠ user_id := by simpa using hneq
      obtain ⟨v, hv, hvid⟩ := hlog it hmemlog
      rw [e] at hv
      rcases List.mem_append.1 hv with h | h
      · exact ⟨v, List.mem_append_left _ h, hvid⟩
      · rcases List.mem_cons.1 h with h | h
        · exfalso
          apply hneq2
          rw [← hvid, h, hid]
        · exact ⟨v, List.mem_append_right _ h, hvid⟩
  · rw [hu, hl]
    rw [e] at hids hpos hcount hnd
    refine ⟨by simpa [hid] using hids, ?_, ?_, ?_⟩
    · intro u hmem
      rcases mem_replace l1 l2 usr usr' u hmem with h | ⟨h, -⟩
      · rw [h, hid]
        exact hpos usr (by simp)
      · exact hpos u h
    · intro u hmem
      rcases mem_replace l1 l2 usr usr' u hmem with h | ⟨h, hside⟩
      · rw [h, hic, hid, hcount usr (by simp), List.filter_append]
        have h1 : [entry].filter (fun it => decide (it.user_id = usr.id)) = [entry] := by
          simp [hent]
        rw [h1]
        simp
      · have hne := ne_id_of_mem_sides l1 l2 usr u hnd hside
        rw [hcount u h, List.filter_append]
        have h1 : [entry].filter (fun it => decide (it.user_id = u.id)) = [] := by
          have : ¬ entry.user_id = u.id := by
            rw [hent]
            exact fun h2 => hne h2.symm
          simp [this]
        rw [h1, List.append_nil]
    · intro it hit
      rcases List.mem_append.1 hit with h | h
      · obtain ⟨v, hv, hvid⟩ := hlog it h
        rw [e] at hv
        rcases List.mem_append.1 hv with h2 | h2
        · exact ⟨v, List.mem_append_left _ h2, hvid⟩
        · rcases List.mem_cons.1 h2 with h2 | h2
          · exact ⟨usr', by simp, by rw [hid, ← h2, hvid]⟩
          · exact ⟨v, List.mem_append_right _ (List.mem_cons_of_mem _ h2), hvid⟩
      · rw [List.mem_singleton] at h
        exact ⟨usr', by simp, by rw [h, hent, hid]⟩
  · rw [hu, hl]
    rw [e] at hids hpos hcount hnd
    refine ⟨by simpa [hid] using hids, ?_, ?_, ?_⟩
    · intro u hmem
      rcases mem_replace l1 l2 usr usr' u hmem with h | ⟨h, -⟩
      · rw [h, hid]
        exact hpos usr (by simp)
      · exact hpos u h
    · intro u hmem
      rcases mem_replace l1 l2 usr usr' u hmem with h | ⟨h, -⟩
      · rw [h, hic, hid]
        exact hcount usr (by simp)
      · exact hcount u h
    · intro it hit
      obtain ⟨v, hv, hvid⟩ := hlog it hit
      rw [e] at hv
      rcases List.mem_append.1 hv with h2 | h2
      · exact ⟨v, List.mem_append_left _ h2, hvid⟩
      · rcases List.mem_cons.1 h2 with h2 | h2
        · exact ⟨usr', by simp, by rw [hid, ← h2, hvid]⟩
        · exact ⟨v, List.mem_append_right _ (List.mem_cons_of_mem _ h2), hvid⟩

theorem foldl_calls_counters (calls : List UserCall) (manager : UserManager)
    (hids : (manager.users.map (·.id)).Pairwise (· < ·))
    (hpos : ∀ u ∈ manager.users, 0 < u.id)
    (hcount : ∀ u ∈ manager.users, u.interaction_count =
      ((manager.interactions.filter (fun it => it.user_id = u.id)).length : Int))
    (hlog : ∀ it ∈ manager.interactions, ∃ u ∈ manager.users, u.id = it.user_id) :
    ((calls.foldl apply_call manager).users.map (·.id)).Pairwise (· < ·) ∧
    (∀ u ∈ (calls.foldl apply_call manager).users, 0 < u.id) ∧
    (∀ u ∈ (calls.foldl apply_call manager).users, u.interaction_count =
      (((calls.foldl apply_call manager).interactions.filter
        (fun it => it.user_id = u.id)).length : Int)) ∧
    (∀ it ∈ (calls.foldl apply_call manager).interactions,
      ∃ u ∈ (calls.foldl apply_call manager).users, u.id = it.user_id) := by
  induction calls generalizing manager with
  | nil => exact ⟨hids, hpos, hcount, hlog⟩
  | cons call rest ih =>
    rw [List.foldl_cons]
    obtain ⟨h1, h2, h3, h4⟩ := apply_call_counters manager call hids hpos hcount hlog
    exact ih _ h1 h2 h3 h4

theorem run_calls_counters (calls : List UserCall) :
    ((run_calls calls).users.map (·.id)).Pairwise (· < ·) ∧
    (∀ u ∈ (run_calls calls).users, 0 < u.id) ∧
    (∀ u ∈ (run_calls calls).users, u.interaction_count =
      (((run_calls calls).interactions.filter (fun it => it.user_id = u.id)).length : Int)) ∧
    (∀ it ∈ (run_calls calls).interactions, ∃ u ∈ (run_calls calls).users,
      u.id = it.user_id) :=
  foldl_calls_counters calls _ (by simp) (by simp) (by simp) (by simp)

theorem run_calls_append (calls : List UserCall) (call : UserCall) :
    run_calls (calls ++ [call]) = apply_call (run_calls calls) call := by
  unfold run_calls
  rw [List.foldl_append]
  rfl

end CounterLemmas

/-! ## The blend of three equal lists -/

section NoHistoryLemmas

theorem collect_watched_ids_nil (user_manager : UserManager) (user_id : Int)
    (h : ∀ it ∈ user_manager.interactions, it.user_id = user_id →
      it.type ≠ INTERACTION_COMPLETE) :
    collect_watched_ids user_manager user_id = [] := by
  unfold collect_watched_ids
  apply foldl_fixed
  intro it hit
  have hc : ¬ (it.user_id = user_id ∧ it.type = INTERACTION_COMPLETE) :=
    fun hh => h it hit hh.1 hh.2
  simp only [List.length_nil, Nat.zero_lt_succ, if_true, if_neg hc]

theorem tally_categories_nil (user_manager : UserManager) (content_catalog : ContentCatalog)
    (user_id : Int)
    (h : ∀ it ∈ user_manager.interactions, it.user_id = user_id →
      it.type ≠ INTERACTION_PLAY ∧ it.type ≠ INTERACTION_COMPLETE) :
    tally_categories user_manager content_catalog user_id = [] := by
  unfold tally_categories
  apply foldl_fixed
  intro it hit
  have hc : ¬ (it.user_id = user_id ∧
      (it.type = INTERACTION_PLAY ∨ it.type = INTERACTION_COMPLETE)) := by
    rintro ⟨h1, h2 | h2⟩
    · exact (h it hit h1).1 h2
    · exact (h it hit h1).2 h2
  simp only [tally_step, if_neg hc]

theorem merge_into_ids_of_subset (w : ℚ) (recs : List Int) (comb : List ContentScore)
    (hsub : ∀ x ∈ recs, x ∈ comb.map (·.content_id)) :
    (merge_into w recs comb).map (·.content_id) = comb.map (·.content_id) := by
  unfold merge_into
  apply foldl_invariant
    (fun b : List ContentScore => b.map (·.content_id) = comb.map (·.content_id))
  · rfl
  · intro b hb p hp
    have hmem : p.2 ∈ b.map (·.content_id) := by
      rw [hb]
      exact hsub p.2 (List.snd_mem_of_mem_enum hp)
    rw [add_or_insert_ids, if_pos hmem, hb]

theorem merge_same_ids (P : List Int) :
    (merge_recommendations P P P).map (·.content_id) = P := by
  unfold merge_recommendations
  have h1 : (merge_into 2 P (add_similarity_scores P)).map (·.content_id) = P := by
    rw [merge_into_ids_of_subset, add_similarity_scores_ids]
    intro x hx
    rw [add_similarity_scores_ids]
    exact hx
  rw [merge_into_ids_of_subset, h1]
  intro x hx
  rw [h1]
  exact hx

theorem blend_score_same (P : List Int) (x : Int) (hx : x ∈ P) :
    blend_score P P P x = 6 * ((P.length : ℚ) - (P.indexOf x : ℚ)) / (P.length : ℚ) := by
  unfold blend_score rank_contribution
  simp only [if_pos hx]
  ring

theorem merge_same_eq (P : List Int) (hP : P.Nodup) :
    merge_recommendations P P P =
      P.map (fun x =>
        ({ content_id := x,
           score := 6 * ((P.length : ℚ) - (P.indexOf x : ℚ)) / (P.length : ℚ) }
          : ContentScore)) := by
  rw [merge_recommendations_eq_map P P P hP hP hP, merge_same_ids]
  apply List.map_congr_left
  intro x hx
  rw [blend_score_same P x hx]

theorem merge_same_sorted (P : List Int) (hP : P.Nodup) :
    (merge_recommendations P P P).Pairwise (fun a b => b.score < a.score) := by
  rw [merge_same_eq P hP, List.pairwise_map, List.pairwise_iff_getElem]
  intro i j hi hj hij
  rw [List.indexOf_getElem hP i hi, List.indexOf_getElem hP j hj]
  have hN : (0 : ℚ) < (P.length : ℚ) := by
    have : 0 < P.length := by omega
    exact_mod_cast this
  have hq : (i : ℚ) < (j : ℚ) := by exact_mod_cast hij
  apply div_lt_div_of_pos_right _ hN
  linarith

theorem qsort_of_sorted (qsort : List ContentScore → List ContentScore)
    (hq : QsortSpec qsort) (l : List ContentScore)
    (hs : l.Pairwise (fun a b => b.score < a.score)) : qsort l = l := by
  have hnd : (l.map (·.score)).Nodup := by
    rw [List.Nodup, List.pairwise_map]
    exact hs.imp (fun h => ne_of_gt h)
  rw [qsort_eq_insertion_qsort qsort hq l hnd]
  unfold insertion_qsort
  apply List.Sorted.insertionSort_eq
  exact hs.imp (fun h => (compare_scores_le_zero_iff _ _).2 (le_of_lt h))

theorem by_similarity_no_history (qsort : List ContentScore → List ContentScore)
    (user_manager : UserManager) (content_catalog : ContentCatalog) (user_id k : Int)
    (hu : 0 < user_id) (hk : 0 < k)
    (h : ∀ it ∈ user_manager.interactions, it.user_id = user_id →
      it.type ≠ INTERACTION_COMPLETE) :
    recommendation_by_content_similarity qsort user_manager content_catalog user_id k =
      recommendation_by_popularity qsort content_catalog k := by
  have hg : ¬ (user_id ≤ 0 ∨ k ≤ 0) := by omega
  simp only [recommendation_by_content_similarity, if_neg hg,
    collect_watched_ids_nil user_manager user_id h, List.length_nil, if_true]

theorem by_category_no_history (qsort : List ContentScore → List ContentScore)
    (user_manager : UserManager) (content_catalog : ContentCatalog) (user_id k : Int)
    (hu : 0 < user_id) (hk : 0 < k)
    (h : ∀ it ∈ user_manager.interactions, it.user_id = user_id →
      it.type ≠ INTERACTION_PLAY ∧ it.type ≠ INTERACTION_COMPLETE) :
    recommendation_by_category qsort user_manager content_catalog user_id k =
      recommendation_by_popularity qsort content_catalog k := by
  have hg : ¬ (user_id ≤ 0 ∨ k ≤ 0) := by omega
  simp only [recommendation_by_category, if_neg hg,
    tally_categories_nil user_manager content_catalog user_id h, List.length_nil, if_true]

theorem by_popularity_length (qsort : List ContentScore → List ContentScore)
    (hq : QsortSpec qsort) (content_catalog : ContentCatalog) (k : Int) (hk : 0 < k) :
    (recommendation_by_popularity qsort content_catalog k).length =
      min k.toNat (min content_catalog.length 1000) := by
  have hg : ¬ k ≤ 0 := by omega
  simp only [recommendation_by_popularity, if_neg hg]
  rw [copy_recommendations_length qsort hq, collect_scores_eq_take]
  have hmap : content_catalog.filterMap
      (fun content => some ({ content_id := content.id, score := (content.views : ℚ) }
        : ContentScore)) =
      content_catalog.map
        (fun content => ({ content_id := content.id, score := (content.views : ℚ) }
          : ContentScore)) := by
    induction content_catalog with
    | nil => rfl
    | cons c cs ih => simp [List.filterMap_cons, ih]
  rw [hmap, List.length_take, List.length_map]
  omega

end NoHistoryLemmas

/-! ## Decimal numbers in CSV fields -/

section DecimalLemmas

theorem digit_char_facts (d : Nat) (hd : d < 10) :
    isdigit (Char.ofNat (48 + d)) = true ∧ (Char.ofNat (48 + d)).toNat - 48 = d ∧
    isspace (Char.ofNat (48 + d)) = false ∧ Char.ofNat (48 + d) ≠ ',' ∧
    Char.ofNat (48 + d) ≠ '\n' ∧ Char.ofNat (48 + d) ≠ ' ' ∧ Char.ofNat (48 + d) ≠ '\r' ∧
    Char.ofNat (48 + d) ≠ '-' ∧ Char.ofNat (48 + d) ≠ '+' := by
  interval_cases d <;> decide

theorem decimal_digits_mem (fuel n : Nat) :
    ∀ c ∈ decimal_digits fuel n, ∃ d, d < 10 ∧ c = Char.ofNat (48 + d) := by
  induction fuel generalizing n with
  | zero =>
    intro c hc
    simp [decimal_digits] at hc
  | succ fuel ih =>
    intro c hc
    unfold decimal_digits at hc
    by_cases hn : n < 10
    · rw [if_pos hn, List.mem_singleton] at hc
      exact ⟨n, hn, hc⟩
    · rw [if_neg hn] at hc
      rcases List.mem_append.1 hc with h | h
      · exact ih (n / 10) c h
      · rw [List.mem_singleton] at h
        exact ⟨n % 10, Nat.mod_lt _ (by norm_num), h⟩

theorem decimal_digits_ne_nil (fuel n : Nat) : decimal_digits (fuel + 1) n ≠ [] := by
  unfold decimal_digits
  by_cases hn : n < 10
  · rw [if_pos hn]
    exact List.cons_ne_nil _ _
  · rw [if_neg hn]
    simp

theorem decimal_digits_length_le (fuel : Nat) :
    ∀ (n k : Nat), 1 ≤ k → n < 10 ^ k → (decimal_digits fuel n).length ≤ k := by
  induction fuel with
  | zero =>
    intro n k _ _
    simp [decimal_digits]
  | succ fuel ih =>
    intro n k hk hn
    unfold decimal_digits
    by_cases h10 : n < 10
    · rw [if_pos h10]
      simpa using hk
    · rw [if_neg h10, List.length_append, List.length_singleton]
      have hk2 : 2 ≤ k := by
        by_contra hlt
        have : k = 1 := by omega
        rw [this] at hn
        omega
      have hdiv : n / 10 < 10 ^ (k - 1) := by
        apply Nat.div_lt_of_lt_mul
        have : 10 * 10 ^ (k - 1) = 10 ^ k := by
          rw [← pow_succ']
          congr 1
          omega
        rw [this]
        exact hn
      have := ih (n / 10) (k - 1) (by omega) hdiv
      omega

theorem atoi_digits_cons (acc : Int) (c : Char) (rest : CString) :
    atoi_digits acc (c :: rest) =
      if isdigit c then atoi_digits (acc * 10 + ((c.toNat - 48 : Nat) : Int)) rest
      else acc := rfl

theorem atoi_digits_decimal (fuel : Nat) :
    ∀ (n : Nat) (acc : Int) (rest : CString), n < 10 ^ fuel →
      atoi_digits acc (decimal_digits fuel n ++ rest) =
        atoi_digits (acc * 10 ^ (decimal_digits fuel n).length + (n : Int)) rest := by
  induction fuel with
  | zero =>
    intro n acc rest hn
    have h0 : n = 0 := by simpa using hn
    subst h0
    simp [decimal_digits]
  | succ fuel ih =>
    intro n acc rest hn
    unfold decimal_digits
    by_cases h10 : n < 10
    · rw [if_pos h10]
      obtain ⟨h1, h2, -⟩ := digit_char_facts n h10
      rw [List.singleton_append, atoi_digits_cons, if_pos h1, h2, List.length_singleton,
        pow_one]
    · rw [if_neg h10]
      have hdiv : n / 10 < 10 ^ fuel := by
        apply Nat.div_lt_of_lt_mul
        rw [← pow_succ']
        exact hn
      obtain ⟨h1, h2, -⟩ := digit_char_facts (n % 10) (Nat.mod_lt _ (by norm_num))
      rw [List.append_assoc, ih (n / 10) acc _ hdiv, List.singleton_append,
        atoi_digits_cons, if_pos h1, h2, List.length_append, List.length_singleton]
      congr 1
      have hsplit : (n : Int) = 10 * ((n / 10 : Nat) : Int) + ((n % 10 : Nat) : Int) := by
        have := Nat.div_add_mod n 10
        exact_mod_cast this.symm
      rw [hsplit, pow_succ]
      push_cast
      ring

theorem atoi_digits_of_decimal (n : Nat) :
    atoi_digits 0 (decimal_digits (n + 1) n) = (n : Int) := by
  have hlt : n < 10 ^ (n + 1) :=
    lt_of_lt_of_le (Nat.lt_pow_self (by norm_num) n) (Nat.pow_le_pow_right (by norm_num)
      (Nat.le_succ n))
  have h := atoi_digits_decimal (n + 1) n 0 [] hlt
  rw [List.append_nil] at h
  rw [h]
  simp [atoi_digits]

theorem sprintf_d_mem (n : Int) :
    ∀ c ∈ sprintf_d n, c = '-' ∨ ∃ d, d < 10 ∧ c = Char.ofNat (48 + d) := by
  intro c hc
  unfold sprintf_d at hc
  by_cases hn : n < 0
  · rw [if_pos hn] at hc
    rcases List.mem_cons.1 hc with h | h
    · exact Or.inl h
    · exact Or.inr (decimal_digits_mem _ _ c h)
  · rw [if_neg hn] at hc
    exact Or.inr (decimal_digits_mem _ _ c hc)

theorem dropWhile_isspace_digits (fuel n : Nat) :
    (decimal_digits (fuel + 1) n).dropWhile isspace = decimal_digits (fuel + 1) n := by
  cases hdd : decimal_digits (fuel + 1) n with
  | nil => rfl
  | cons c cs =>
    have hc : c ∈ decimal_digits (fuel + 1) n := by rw [hdd]; exact List.mem_cons_self _ _
    obtain ⟨d, hd, hcd⟩ := decimal_digits_mem _ _ c hc
    have hsp := (digit_char_facts d hd).2.2.1
    rw [← hcd] at hsp
    rw [List.dropWhile_cons, hsp]
    rfl

theorem atoi_sprintf_d (n : Int) : atoi (sprintf_d n) = n := by
  unfold atoi sprintf_d
  by_cases hn : n < 0
  · rw [if_pos hn]
    have hds : ('-' :: decimal_digits (n.natAbs + 1) n.natAbs).dropWhile isspace =
        '-' :: decimal_digits (n.natAbs + 1) n.natAbs := by
      rw [List.dropWhile_cons]
      have : isspace '-' = false := by decide
      rw [this]
      rfl
    simp only [hds, List.head?_cons, if_true, List.tail_cons]
    rw [atoi_digits_of_decimal]
    omega
  · rw [if_neg hn]
    simp only [dropWhile_isspace_digits]
    cases hdd : decimal_digits (n.natAbs + 1) n.natAbs with
    | nil => exact absurd hdd (decimal_digits_ne_nil _ _)
    | cons c cs =>
      have hc : c ∈ decimal_digits (n.natAbs + 1) n.natAbs := by
        rw [hdd]
        exact List.mem_cons_self _ _
      obtain ⟨d, hd, hcd⟩ := decimal_digits_mem _ _ c hc
      obtain ⟨-, -, -, -, -, -, -, hm, hp⟩ := digit_char_facts d hd
      rw [← hcd] at hm hp
      have h1 : ¬ (some c = some '-') := fun h => hm (Option.some_inj.1 h)
      have h2 : ¬ (some c = some '+') := fun h => hp (Option.some_inj.1 h)
      simp only [List.head?_cons, if_neg h1, if_neg h2]
      rw [← hdd, atoi_digits_of_decimal]
      omega

theorem sprintf_d_length (n : Int) (h : IsCInt n) : (sprintf_d n).length ≤ 11 := by
  unfold IsCInt at h
  have hlt : n.natAbs < 10 ^ 10 := by
    have : n.natAbs ≤ 2147483648 := by omega
    omega
  have hlen := decimal_digits_length_le (n.natAbs + 1) n.natAbs 10 (by norm_num) hlt
  unfold sprintf_d
  split_ifs
  · rw [List.length_cons]
    omega
  · omega

theorem sprintf_d_safe (n : Int) : CsvSafe (sprintf_d n) := by
  have hchar : ∀ c ∈ sprintf_d n,
      c ≠ ',' ∧ c ≠ '\n' ∧ c ≠ ' ' ∧ c ≠ '\r' := by
    intro c hc
    rcases sprintf_d_mem n c hc with h | ⟨d, hd, h⟩
    · rw [h]
      decide
    · obtain ⟨-, -, -, h1, h2, h3, h4, -, -⟩ := digit_char_facts d hd
      rw [h]
      exact ⟨h1, h2, h3, h4⟩
  have hne : sprintf_d n ≠ [] := by
    unfold sprintf_d
    split_ifs
    · exact List.cons_ne_nil _ _
    · exact decimal_digits_ne_nil _ _
  refine ⟨hne, fun c hc => ⟨(hchar c hc).1, (hchar c hc).2.1⟩, ?_, ?_, ?_⟩
  · intro h
    have := List.mem_of_mem_head? h
    exact (hchar _ this).2.2.1 rfl
  · intro h
    have := List.mem_of_mem_getLast? h
    exact (hchar _ this).2.2.1 rfl
  · intro h
    have := List.mem_of_mem_getLast? h
    exact (hchar _ this).2.2.2 rfl

end DecimalLemmas

/-! ## Writing and reading CSV lines -/

section CsvLemmas

theorem takeWhile_append_stop {α : Type} (p : α → Bool) (f : List α) (x : α) (rest : List α)
    (hf : ∀ c ∈ f, p c = true) (hx : p x = false) :
    (f ++ x :: rest).takeWhile p = f := by
  induction f with
  | nil => simp [List.takeWhile_cons, hx]
  | cons a as ih =>
    rw [List.cons_append, List.takeWhile_cons, hf a (List.mem_cons_self _ _)]
    simp only [if_true]
    rw [ih (fun c hc => hf c (List.mem_cons_of_mem _ hc))]

theorem dropWhile_append_stop {α : Type} (p : α → Bool) (f : List α) (x : α) (rest : List α)
    (hf : ∀ c ∈ f, p c = true) (hx : p x = false) :
    (f ++ x :: rest).dropWhile p = x :: rest := by
  induction f with
  | nil => simp [List.dropWhile_cons, hx]
  | cons a as ih =>
    rw [List.cons_append, List.dropWhile_cons, hf a (List.mem_cons_self _ _)]
    simp only [if_true]
    exact ih (fun c hc => hf c (List.mem_cons_of_mem _ hc))

theorem takeWhile_all {α : Type} (p : α → Bool) (f : List α) (hf : ∀ c ∈ f, p c = true) :
    f.takeWhile p = f := by
  induction f with
  | nil => rfl
  | cons a as ih =>
    rw [List.takeWhile_cons, hf a (List.mem_cons_self _ _)]
    simp only [if_true]
    rw [ih (fun c hc => hf c (List.mem_cons_of_mem _ hc))]

theorem dropWhile_all {α : Type} (p : α → Bool) (f : List α) (hf : ∀ c ∈ f, p c = true) :
    f.dropWhile p = [] := by
  induction f with
  | nil => rfl
  | cons a as ih =>
    rw [List.dropWhile_cons, hf a (List.mem_cons_self _ _)]
    simp only [if_true]
    exact ih (fun c hc => hf c (List.mem_cons_of_mem _ hc))

theorem dropWhile_head {α : Type} (p : α → Bool) (a : α) (as : List α) (ha : p a = false) :
    (a :: as).dropWhile p = a :: as := by
  rw [List.dropWhile_cons, ha]
  rfl

theorem trim_field_of_safe (s : CString) (h : CsvSafe s) : trim_field s = s := by
  obtain ⟨hne, -, hhead, hl1, hl2⟩ := h
  unfold trim_field
  have h1 : s.dropWhile (fun c => decide (c = ' ')) = s := by
    cases s with
    | nil => rfl
    | cons a as =>
      apply dropWhile_head
      have : ¬ a = ' ' := fun ha => hhead (by rw [ha]; rfl)
      simpa using this
  rw [h1]
  have h2 : s.reverse.dropWhile (fun c => decide (c = ' ' ∨ c = '\r')) = s.reverse := by
    cases hr : s.reverse with
    | nil => rfl
    | cons a as =>
      apply dropWhile_head
      have hlast : s.getLast? = some a := by
        rw [List.getLast?_eq_head?_reverse, hr]
        rfl
      have : ¬ (a = ' ' ∨ a = '\r') := by
        rintro (ha | ha)
        · exact hl1 (by rw [hlast, ha])
        · exact hl2 (by rw [hlast, ha])
      simpa using this
  rw [h2, List.reverse_reverse]

theorem strtok_r_nil : strtok_r [] = none := rfl

theorem strtok_r_last (f : CString) (hne : f ≠ []) (hnc : ∀ c ∈ f, c ≠ ',') :
    strtok_r f = some (f, []) := by
  cases f with
  | nil => exact absurd rfl hne
  | cons a as =>
    have ha : (fun c : Char => decide (c = ',')) a = false := by
      simpa using hnc a (List.mem_cons_self _ _)
    have hall : ∀ c ∈ a :: as, (fun c : Char => decide (c ≠ ',')) c = true := by
      intro c hc
      simpa using hnc c hc
    unfold strtok_r
    rw [dropWhile_head _ a as ha]
    simp only
    rw [takeWhile_all _ _ hall, dropWhile_all _ _ hall]
    rfl

theorem strtok_r_field (f rest : CString) (hne : f ≠ []) (hnc : ∀ c ∈ f, c ≠ ',') :
    strtok_r (f ++ ',' :: rest) = some (f, rest) := by
  cases f with
  | nil => exact absurd rfl hne
  | cons a as =>
    have ha : (fun c : Char => decide (c = ',')) a = false := by
      simpa using hnc a (List.mem_cons_self _ _)
    have hall : ∀ c ∈ a :: as, (fun c : Char => decide (c ≠ ',')) c = true := by
      intro c hc
      simpa using hnc c hc
    have hstop : (fun c : Char => decide (c ≠ ',')) ',' = false := by decide
    unfold strtok_r
    rw [List.cons_append, dropWhile_head _ a _ ha]
    simp only
    rw [← List.cons_append, takeWhile_append_stop _ _ _ _ hall hstop,
      dropWhile_append_stop _ _ _ _ hall hstop]
    rfl

theorem write_fields_cons_cons (f g : CString) (rest : List CString) :
    write_fields (f :: g :: rest) = f ++ ',' :: write_fields (g :: rest) := rfl

theorem parse_loop_succ (fuel : Nat) (rest : CString) (max_fields : Nat)
    (fields : List CString) :
    parse_loop (fuel + 1) rest max_fields fields =
      match strtok_r rest with
      | none => fields
      | some (token, rest) =>
        if fields.length < max_fields then
          parse_loop fuel rest max_fields (fields ++ [trim_field token])
        else fields := rfl

theorem parse_loop_write_fields (max_fields : Nat) :
    ∀ (fs : List CString) (fuel : Nat) (acc : List CString),
      (∀ f ∈ fs, f ≠ [] ∧ ∀ c ∈ f, c ≠ ',') → fs.length < fuel →
      acc.length + fs.length ≤ max_fields →
      parse_loop fuel (write_fields fs) max_fields acc = acc ++ fs.map trim_field := by
  intro fs
  induction fs with
  | nil =>
    intro fuel acc _ hfuel _
    obtain ⟨k, rfl⟩ : ∃ k, fuel = k + 1 := ⟨fuel - 1, by simp at hfuel; omega⟩
    rw [parse_loop_succ]
    simp [write_fields, strtok_r_nil]
  | cons f tl ih =>
    intro fuel acc hfs hfuel hmax
    obtain ⟨k, rfl⟩ : ∃ k, fuel = k + 1 := ⟨fuel - 1, by simp at hfuel; omega⟩
    have hf := hfs f (List.mem_cons_self _ _)
    have hlt : acc.length < max_fields := by
      simp only [List.length_cons] at hmax
      omega
    cases tl with
    | nil =>
      rw [parse_loop_succ]
      have hw : write_fields [f] = f := rfl
      rw [hw, strtok_r_last f hf.1 hf.2]
      simp only [if_pos hlt]
      have h := ih k (acc ++ [trim_field f]) (by simp) (by simpa using hfuel)
        (by simp only [List.length_append, List.length_singleton, List.length_nil]; omega)
      have hw0 : write_fields [] = [] := rfl
      rw [hw0] at h
      rw [h]
      simp
    | cons g rest =>
      rw [parse_loop_succ, write_fields_cons_cons, strtok_r_field f _ hf.1 hf.2]
      simp only [if_pos hlt]
      have e1 : (f :: g :: rest).length = rest.length + 2 := rfl
      have e2 : (g :: rest).length = rest.length + 1 := rfl
      have e3 : (acc ++ [trim_field f]).length = acc.length + 1 := by simp
      rw [e1] at hfuel hmax
      rw [ih k (acc ++ [trim_field f])
        (fun x hx => hfs x (List.mem_cons_of_mem _ hx))
        (by rw [e2]; omega) (by rw [e2, e3]; omega)]
      simp

theorem write_fields_length_ge (fs : List CString) (h : ∀ f ∈ fs, f ≠ []) :
    fs.length ≤ (write_fields fs).length := by
  induction fs with
  | nil => simp
  | cons f tl ih =>
    have hf : 1 ≤ f.length := by
      have := h f (List.mem_cons_self _ _)
      exact List.length_pos.2 this
    cases tl with
    | nil =>
      have hw : write_fields [f] = f := rfl
      rw [hw]
      simpa using hf
    | cons g rest =>
      rw [write_fields_cons_cons, List.length_append, List.length_cons]
      have := ih (fun x hx => h x (List.mem_cons_of_mem _ hx))
      simp only [List.length_cons] at this ⊢
      omega

theorem mem_write_fields (fs : List CString) (c : Char) (hc : c ∈ write_fields fs) :
    c = ',' ∨ ∃ f ∈ fs, c ∈ f := by
  induction fs with
  | nil => simp [write_fields] at hc
  | cons f tl ih =>
    cases tl with
    | nil =>
      have hw : write_fields [f] = f := rfl
      rw [hw] at hc
      exact Or.inr ⟨f, by simp, hc⟩
    | cons g rest =>
      rw [write_fields_cons_cons] at hc
      rcases List.mem_append.1 hc with h | h
      · exact Or.inr ⟨f, by simp, h⟩
      · rcases List.mem_cons.1 h with h | h
        · exact Or.inl h
        · rcases ih h with h2 | ⟨x, hx, hcx⟩
          · exact Or.inl h2
          · exact Or.inr ⟨x, List.mem_cons_of_mem _ hx, hcx⟩

theorem csv_parse_line_write_fields (fs : List CString) (max_fields : Nat)
    (hsafe : ∀ f ∈ fs, CsvSafe f) (hmax : fs.length ≤ max_fields) :
    csv_parse_line (write_fields fs) max_fields = fs := by
  unfold csv_parse_line
  rw [parse_loop_write_fields max_fields fs _ []
    (fun f hf => ⟨(hsafe f hf).1, fun c hc => ((hsafe f hf).2.1 c hc).1⟩)
    (by
      have := write_fields_length_ge fs (fun f hf => (hsafe f hf).1)
      omega)
    (by simpa using hmax)]
  rw [List.nil_append]
  conv_rhs => rw [← List.map_id fs]
  apply List.map_congr_left
  intro f hf
  exact trim_field_of_safe f (hsafe f hf)

theorem fgets_cons (n : Nat) (c : Char) (rest : List Char) :
    fgets (n + 1) (c :: rest) =
      if c = '\n' then ([c], rest) else (c :: (fgets n rest).1, (fgets n rest).2) := rfl

theorem fgets_line (line : CString) :
    ∀ (n : Nat) (rest : List Char), (∀ c ∈ line, c ≠ '\n') → line.length < n →
      fgets n (line ++ '\n' :: rest) = (line ++ ['\n'], rest) := by
  induction line with
  | nil =>
    intro n rest _ hn
    obtain ⟨k, rfl⟩ : ∃ k, n = k + 1 := ⟨n - 1, by simp at hn; omega⟩
    simp [fgets]
  | cons a as ih =>
    intro n rest hline hn
    obtain ⟨k, rfl⟩ : ∃ k, n = k + 1 := ⟨n - 1, by simp at hn; omega⟩
    have ha : ¬ a = '\n' := hline a (List.mem_cons_self _ _)
    have h := ih k rest (fun c hc => hline c (List.mem_cons_of_mem _ hc))
      (by simp only [List.length_cons] at hn; omega)
    rw [List.cons_append, fgets_cons, if_neg ha, h]
    rfl

theorem csv_read_line_line (line : CString) (rest : List Char)
    (hline : ∀ c ∈ line, c ≠ '\n') (hlen : line.length < 1023) :
    csv_read_line (line ++ '\n' :: rest) 1024 = some (line, rest) := by
  have hfg := fgets_line line 1023 rest hline hlen
  have hlast : (line ++ ['\n']).getLast? = some '\n' := List.getLast?_concat line
  cases hfile : line ++ '\n' :: rest with
  | nil => simp at hfile
  | cons a as =>
    unfold csv_read_line
    simp only
    rw [← hfile]
    have h1023 : 1024 - 1 = 1023 := rfl
    rw [h1023, hfg]
    simp only [hlast, if_true, List.dropLast_concat]

end CsvLemmas

/-! ## Saving and loading the catalog -/

section RoundTripLemmas

theorem content_fields_safe (c : Content) (ht : CsvSafe c.title) (hc : CsvSafe c.category) :
    ∀ f ∈ content_fields c, CsvSafe f := by
  intro f hf
  unfold content_fields at hf
  simp only [List.mem_cons, List.mem_singleton, List.not_mem_nil, or_false] at hf
  rcases hf with h | h | h | h | h | h <;> rw [h]
  · exact sprintf_d_safe _
  · exact ht
  · exact hc
  · exact sprintf_d_safe _
  · exact sprintf_d_safe _
  · exact sprintf_d_safe _

theorem content_of_fields_fields (c : Content) (ht : c.title.length < MAX_TITLE_LENGTH)
    (hc : c.category.length < MAX_CATEGORY_LENGTH) :
    content_of_fields (content_fields c) = c := by
  unfold content_of_fields content_fields
  simp only [List.getD_cons_zero, List.getD_cons_succ, atoi_sprintf_d,
    take_bound c.title MAX_TITLE_LENGTH ht, take_bound c.category MAX_CATEGORY_LENGTH hc,
    List.length_cons, List.length_nil]
  simp

theorem record_line_length (c : Content) (ht : c.title.length < MAX_TITLE_LENGTH)
    (hc : c.category.length < MAX_CATEGORY_LENGTH) (h1 : IsCInt c.id) (h2 : IsCInt c.duration)
    (h3 : IsCInt c.age_rating) (h4 : IsCInt c.views) :
    (write_fields (content_fields c)).length < 1023 := by
  have e1 := sprintf_d_length c.id h1
  have e2 := sprintf_d_length c.duration h2
  have e3 := sprintf_d_length c.age_rating h3
  have e4 := sprintf_d_length c.views h4
  unfold MAX_TITLE_LENGTH at ht
  unfold MAX_CATEGORY_LENGTH at hc
  simp only [content_fields, write_fields, List.length_append, List.length_cons]
  omega

theorem record_line_no_newline (c : Content) (ht : CsvSafe c.title)
    (hc : CsvSafe c.category) : ∀ ch ∈ write_fields (content_fields c), ch ≠ '\n' := by
  intro ch hch
  rcases mem_write_fields _ ch hch with h | ⟨f, hf, hcf⟩
  · rw [h]
    decide
  · exact ((content_fields_safe c ht hc f hf).2.1 ch hcf).2

theorem csv_write_line_fields (c : Content) :
    csv_write_line (content_fields c) = write_fields (content_fields c) ++ ['\n'] := rfl

theorem foldl_save_append (rs : List Content) :
    ∀ init : List Char,
      rs.foldl (fun file content => file ++ csv_write_line (content_fields content)) init =
        init ++
          rs.foldl (fun file content => file ++ csv_write_line (content_fields content))
            [] := by
  induction rs with
  | nil => intro init; simp
  | cons c cs ih =>
    intro init
    rw [List.foldl_cons, List.foldl_cons, ih (init ++ _), ih ([] ++ _), List.nil_append,
      List.append_assoc]

theorem load_loop_succ (fuel : Nat) (file : List Char) (catalog : ContentCatalog)
    (loaded_count : Int) :
    load_loop (fuel + 1) file catalog loaded_count =
      match csv_read_line file 1024 with
      | none => (loaded_count, catalog)
      | some (buffer, file) =>
        if (csv_parse_line buffer MAX_FIELD_COUNT).length ≥ 5 then
          load_loop fuel file
            (catalog ++ [content_of_fields (csv_parse_line buffer MAX_FIELD_COUNT)])
            (loaded_count + 1)
        else load_loop fuel file catalog loaded_count := rfl

theorem load_loop_lines :
    ∀ (rs : List Content) (fuel : Nat) (acc : ContentCatalog) (n : Int),
      (∀ c ∈ rs, c.title.length < MAX_TITLE_LENGTH ∧ c.category.length < MAX_CATEGORY_LENGTH ∧
        CsvSafe c.title ∧ CsvSafe c.category ∧ IsCInt c.id ∧ IsCInt c.duration ∧
        IsCInt c.age_rating ∧ IsCInt c.views) →
      (rs.foldl (fun file content => file ++ csv_write_line (content_fields content))
        []).length < fuel →
      load_loop fuel
          (rs.foldl (fun file content => file ++ csv_write_line (content_fields content)) [])
          acc n =
        (n + (rs.length : Int), acc ++ rs) := by
  intro rs
  induction rs with
  | nil =>
    intro fuel acc n _ hfuel
    obtain ⟨k, rfl⟩ : ∃ k, fuel = k + 1 := ⟨fuel - 1, by simp at hfuel; omega⟩
    rw [load_loop_succ]
    simp [csv_read_line]
  | cons c cs ih =>
    intro fuel acc n hgood hfuel
    obtain ⟨k, rfl⟩ : ∃ k, fuel = k + 1 := ⟨fuel - 1, by omega⟩
    obtain ⟨ht, hc, hts, hcs, h1, h2, h3, h4⟩ := hgood c (List.mem_cons_self _ _)
    have hfile : (c :: cs).foldl
        (fun file content => file ++ csv_write_line (content_fields content)) [] =
        write_fields (content_fields c) ++ '\n' ::
          cs.foldl (fun file content => file ++ csv_write_line (content_fields content))
            [] := by
      rw [List.foldl_cons, foldl_save_append cs, List.nil_append, csv_write_line_fields,
        List.append_assoc]
      rfl
    rw [hfile] at hfuel ⊢
    rw [load_loop_succ,
      csv_read_line_line _ _ (record_line_no_newline c hts hcs)
        (record_line_length c ht hc h1 h2 h3 h4)]
    simp only
    have hlen6 : (content_fields c).length = 6 := rfl
    rw [csv_parse_line_write_fields (content_fields c) MAX_FIELD_COUNT
      (content_fields_safe c hts hcs) (by rw [hlen6]; decide)]
    have h6 : (content_fields c).length ≥ 5 := by rw [hlen6]; decide
    rw [if_pos h6, content_of_fields_fields c ht hc,
      ih k (acc ++ [c]) (n + 1) (fun x hx => hgood x (List.mem_cons_of_mem _ hx))
        (by
          rw [List.length_append, List.length_cons] at hfuel
          omega)]
    simp only [List.length_cons, List.append_assoc, List.singleton_append, Nat.cast_add,
      Nat.cast_one]
    congr 1
    ring

theorem csv_header_line (rest : List Char) :
    csv_read_line (csv_header ++ '\n' :: rest) 1024 = some (csv_header, rest) :=
  csv_read_line_line csv_header rest (by decide) (by decide)

end RoundTripLemmas

/-! ## Field sizes along sequences of calls on the catalog -/

section WellFormedLemmas

theorem edit_fields_wellformed (title category : Option CString) (duration age_rating : Int)
    (c : Content)
    (h : c.title.length < MAX_TITLE_LENGTH ∧ c.category.length < MAX_CATEGORY_LENGTH) :
    (edit_fields title category duration age_rating c).title.length < MAX_TITLE_LENGTH ∧
    (edit_fields title category duration age_rating c).category.length
      < MAX_CATEGORY_LENGTH := by
  rw [edit_fields_title, edit_fields_category]
  constructor
  · cases title with
    | none => exact h.1
    | some t =>
      simp only [List.length_take]
      unfold MAX_TITLE_LENGTH
      omega
  · cases category with
    | none => exact h.2
    | some t =>
      simp only [List.length_take]
      unfold MAX_CATEGORY_LENGTH
      omega

theorem apply_catalog_call_wellformed (catalog : ContentCatalog) (call : CatalogCall)
    (h : WellFormedCatalog catalog) : WellFormedCatalog (apply_catalog_call catalog call) := by
  have hrepl : ∀ (l1 l2 : List Content) (c c' : Content), catalog = l1 ++ c :: l2 →
      (c.title.length < MAX_TITLE_LENGTH ∧ c.category.length < MAX_CATEGORY_LENGTH →
        c'.title.length < MAX_TITLE_LENGTH ∧ c'.category.length < MAX_CATEGORY_LENGTH) →
      WellFormedCatalog (l1 ++ c' :: l2) := by
    intro l1 l2 c c' e hc r hr
    rw [e] at h
    rcases List.mem_append.1 hr with hr | hr
    · exact h r (List.mem_append_left _ hr)
    · rcases List.mem_cons.1 hr with hr | hr
      · rw [hr]
        exact hc (h c (by simp))
      · exact h r (List.mem_append_right _ (List.mem_cons_of_mem _ hr))
  cases call with
  | add title category duration age_rating =>
    by_cases hg : duration ≤ 0 ∨ age_rating < 0
    · simp only [apply_catalog_call, content_add, if_pos hg]
      exact h
    · simp only [apply_catalog_call, content_add, if_neg hg]
      intro r hr
      rcases List.mem_append.1 hr with hr | hr
      · exact h r hr
      · rw [List.mem_singleton] at hr
        rw [hr]
        simp only [List.length_take]
        unfold MAX_TITLE_LENGTH MAX_CATEGORY_LENGTH
        omega
  | remove id =>
    have hsub : (apply_catalog_call catalog (CatalogCall.remove id)).Sublist catalog := by
      by_cases hg : id ≤ 0
      · simp only [apply_catalog_call, content_remove, if_pos hg]
        exact List.Sublist.refl _
      · cases hfind : find_index (catalog.map (·.id)) id with
        | none =>
          simp only [apply_catalog_call, content_remove, if_neg hg, hfind]
          exact List.Sublist.refl _
        | some index =>
          simp only [apply_catalog_call, content_remove, if_neg hg, hfind]
          exact List.eraseIdx_sublist _ _
    exact fun r hr => h r (hsub.subset hr)
  | edit id title category duration age_rating =>
    cases hget : content_get_by_id catalog id with
    | none =>
      simp only [apply_catalog_call,
        content_edit_of_none catalog id title category duration age_rating hget]
      exact h
    | some c =>
      obtain ⟨hpos, hid, l1, l2, e, hl1⟩ := content_get_by_id_decomp catalog id c hget
      have hcall : apply_catalog_call catalog
          (CatalogCall.edit id title category duration age_rating) =
          l1 ++ edit_fields title category duration age_rating c :: l2 := by
        subst e
        simp only [apply_catalog_call,
          content_edit_of_decomp l1 l2 c id title category duration age_rating hpos hid hl1]
      rw [hcall]
      exact hrepl l1 l2 c _ e (edit_fields_wellformed title category duration age_rating c)
  | increment_views id =>
    cases hget : content_get_by_id catalog id with
    | none =>
      simp only [apply_catalog_call, content_increment_views_of_none catalog id hget]
      exact h
    | some c =>
      obtain ⟨hpos, hid, l1, l2, e, hl1⟩ := content_get_by_id_decomp catalog id c hget
      have hcall : apply_catalog_call catalog (CatalogCall.increment_views id) =
          l1 ++ { c with views := c.views + 1 } :: l2 := by
        subst e
        simp only [apply_catalog_call,
          content_increment_views_of_decomp l1 l2 c id hpos hid hl1]
      rw [hcall]
      exact hrepl l1 l2 c _ e (fun hc => hc)

theorem run_catalog_calls_wellformed (calls : List CatalogCall) :
    WellFormedCatalog (run_catalog_calls calls) := by
  unfold run_catalog_calls
  apply foldl_invariant WellFormedCatalog
  · intro r hr
    cases hr
  · intro b hb call _
    exact apply_catalog_call_wellformed b call hb

theorem load_save_round_trip (catalog : ContentCatalog) (hwf : WellFormedCatalog catalog)
    (hsafe : ∀ c ∈ catalog, CsvSafe c.title ∧ CsvSafe c.category)
    (hint : ∀ c ∈ catalog,
      IsCInt c.id ∧ IsCInt c.duration ∧ IsCInt c.age_rating ∧ IsCInt c.views) :
    content_load_from_csv [] (content_save_to_csv catalog) =
      ((catalog.length : Int), catalog) := by
  unfold content_load_from_csv content_save_to_csv
  rw [foldl_save_append catalog, List.append_assoc, List.singleton_append, csv_header_line]
  simp only
  rw [load_loop_lines catalog _ [] 0
    (fun c hc => ⟨(hwf c hc).1, (hwf c hc).2, (hsafe c hc).1, (hsafe c hc).2, hint c hc⟩)
    (Nat.lt_succ_self _)]
  simp

end WellFormedLemmas

/-! ## The report under every admissible `qsort` -/

section ReportLemmas

theorem compare_content_views_le_zero_iff (a b : ContentReportItem) :
    compare_content_views a b ≤ 0 ↔ b.count ≤ a.count := by
  unfold compare_content_views
  omega

theorem insertion_report_qsort_spec : ReportQsortSpec insertion_report_qsort := by
  intro l
  refine ⟨List.perm_insertionSort _ l, ?_⟩
  haveI : IsTotal ContentReportItem (fun a b => compare_content_views a b ≤ 0) :=
    ⟨fun a b => by
      rw [compare_content_views_le_zero_iff, compare_content_views_le_zero_iff]
      exact le_total _ _⟩
  haveI : IsTrans ContentReportItem (fun a b => compare_content_views a b ≤ 0) :=
    ⟨fun a b c h1 h2 => by
      rw [compare_content_views_le_zero_iff] at h1 h2 ⊢
      exact le_trans h2 h1⟩
  exact List.sorted_insertionSort _ l

theorem report_qsort_eq_insertion (qsort : List ContentReportItem → List ContentReportItem)
    (hq : ReportQsortSpec qsort) (l : List ContentReportItem)
    (hnd : (l.map (·.count)).Nodup) : qsort l = insertion_report_qsort l := by
  have strict : ∀ (s : List ContentReportItem), s.Perm l →
      s.Pairwise (fun a b => compare_content_views a b ≤ 0) →
      s.Pairwise (fun a b => b.count < a.count) := by
    intro s hs hp
    have hnd2 : (s.map (·.count)).Nodup := (hs.map _).nodup_iff.2 hnd
    rw [List.Nodup, List.pairwise_map] at hnd2
    exact (hp.and hnd2).imp
      (fun h => lt_of_le_of_ne ((compare_content_views_le_zero_iff _ _).1 h.1) (Ne.symm h.2))
  haveI : IsAntisymm ContentReportItem (fun a b => b.count < a.count) :=
    ⟨fun a b h1 h2 => absurd h1 (not_lt.2 (le_of_lt h2))⟩
  obtain ⟨h1, h2⟩ := hq l
  obtain ⟨h3, h4⟩ := insertion_report_qsort_spec l
  exact List.eq_of_perm_of_sorted (h1.trans h3.symm) (strict _ h1 h2) (strict _ h3 h4)

/-- Whatever admissible `qsort` is used, the report of the two most viewed contents of the
catalog of `test_report` holds the contents 2 and 1 and not content 4. -/
theorem report_top_two_any_qsort (qsort : List ContentReportItem → List ContentReportItem)
    (hq : ReportQsortSpec qsort) :
    report_most_viewed_contents qsort reportCatalog 2 =
      [ { content_id := 2, title := "Filme de Ação 2".toList, count := 20 },
        { content_id := 1, title := "Filme de Ação 1".toList, count := 10 } ] := by
  have h : report_most_viewed_contents qsort reportCatalog 2 =
      qsort [ { content_id := 1, title := "Filme de Ação 1".toList, count := 10 },
              { content_id := 2, title := "Filme de Ação 2".toList, count := 20 } ] := by
    have hitems : (reportCatalog.take 2).map
        (fun content => ({ content_id := content.id,
                           title := content.title.take (MAX_TITLE_LENGTH - 1),
                           count := content.views } : ContentReportItem)) =
        [ { content_id := 1, title := "Filme de Ação 1".toList, count := 10 },
          { content_id := 2, title := "Filme de Ação 2".toList, count := 20 } ] := by decide
    have hg : ¬ ((2 : Int) ≤ 0) := by decide
    have hc : ¬ ((reportCatalog.length : Int) < 2) := by decide
    simp only [report_most_viewed_contents, if_neg hg, if_neg hc]
    exact congrArg qsort hitems
  rw [h, report_qsort_eq_insertion qsort hq _ (by decide)]
  decide

end ReportLemmas

/-! ## Rounding to binary32 and the scores in binary32 arithmetic -/

section Binary32Lemmas

theorem round_half_even_of_lt (q : ℚ) (n : Int) (h1 : (n : ℚ) - 1 / 2 < q)
    (h2 : q < (n : ℚ) + 1 / 2) : round_half_even q = n := by
  unfold round_half_even
  by_cases hq : (n : ℚ) ≤ q
  · have hf : ⌊q⌋ = n := by
      rw [Int.floor_eq_iff]
      constructor
      · exact hq
      · linarith
    simp only [hf]
    rw [if_pos (by linarith)]
  · have hf : ⌊q⌋ = n - 1 := by
      rw [Int.floor_eq_iff]
      push_cast
      constructor
      · linarith
      · linarith [not_le.1 hq]
    simp only [hf]
    push_cast
    rw [if_neg (by linarith), if_pos (by linarith)]
    ring

theorem round_half_even_intCast (n : Int) : round_half_even (n : ℚ) = n :=
  round_half_even_of_lt _ n (by linarith) (by linarith)

theorem log_two_eq (x : ℚ) (e : Int) (h1 : (2 : ℚ) ^ e ≤ x) (h2 : x < (2 : ℚ) ^ (e + 1)) :
    Int.log 2 x = e := by
  have hpos : 0 < x := lt_of_lt_of_le (by positivity) h1
  have hb : 1 < (2 : ℕ) := by norm_num
  have ha : e ≤ Int.log 2 x := (Int.zpow_le_iff_le_log hb hpos).1 (by exact_mod_cast h1)
  have hc : Int.log 2 x < e + 1 := (Int.lt_zpow_iff_log_lt hb hpos).1 (by exact_mod_cast h2)
  omega

/-- The value of `float_round` at a number that is not half way between two binary32
numbers: `n` is the integer nearest to `x / 2^(e-23)`. -/
theorem float_round_eq (x : ℚ) (e n : Int) (he : -126 ≤ e)
    (h1 : (2 : ℚ) ^ e ≤ |x|) (h2 : |x| < (2 : ℚ) ^ (e + 1))
    (h3 : (n : ℚ) - 1 / 2 < x / 2 ^ (e - 23)) (h4 : x / 2 ^ (e - 23) < (n : ℚ) + 1 / 2) :
    float_round x = (n : ℚ) * 2 ^ (e - 23) := by
  have hx : x ≠ 0 := by
    intro h
    rw [h, abs_zero] at h1
    exact absurd h1 (not_le.2 (by positivity))
  unfold float_round
  rw [if_neg hx]
  simp only
  rw [log_two_eq |x| e h1 h2, max_eq_left he, round_half_even_of_lt _ n h3 h4]

/-- A number with at most 24 significant bits and an exponent of at least -149 is a binary32
number: rounding leaves it as it is. -/
theorem float_round_representable (n p : Int) (hn : |n| < 2 ^ 24) (hp : -149 ≤ p) :
    float_round ((n : ℚ) * 2 ^ p) = (n : ℚ) * 2 ^ p := by
  by_cases hn0 : n = 0
  · simp [float_round, hn0]
  have h2 : (2 : ℚ) ≠ 0 := by norm_num
  have hx : (n : ℚ) * 2 ^ p ≠ 0 := mul_ne_zero (by exact_mod_cast hn0) (zpow_ne_zero _ h2)
  have habs : |(n : ℚ) * 2 ^ p| < (2 : ℚ) ^ (24 + p) := by
    rw [abs_mul, abs_of_pos (zpow_pos (by norm_num : (0 : ℚ) < 2) p), zpow_add₀ h2]
    apply mul_lt_mul_of_pos_right _ (zpow_pos (by norm_num) p)
    exact_mod_cast hn
  have hlog : Int.log 2 |(n : ℚ) * 2 ^ p| < 24 + p :=
    (Int.lt_zpow_iff_log_lt (by norm_num) (abs_pos.2 hx)).1 (by exact_mod_cast habs)
  unfold float_round
  rw [if_neg hx]
  simp only
  generalize hE : max (Int.log 2 |(n : ℚ) * 2 ^ p|) (-126) = e
  have hle : e - 23 ≤ p := by
    rw [← hE]
    have := max_le (show Int.log 2 |(n : ℚ) * 2 ^ p| ≤ p + 23 by omega)
      (show (-126 : Int) ≤ p + 23 by omega)
    omega
  obtain ⟨k, hk⟩ := Int.eq_ofNat_of_zero_le (show 0 ≤ p - (e - 23) by omega)
  have hdiv : (n : ℚ) * 2 ^ p / 2 ^ (e - 23) = ((n * 2 ^ k : Int) : ℚ) := by
    rw [mul_div_assoc, ← zpow_sub₀ h2, hk]
    push_cast
    rw [zpow_natCast]
  rw [hdiv, round_half_even_intCast]
  push_cast
  rw [mul_assoc, ← zpow_natCast, ← hk, ← zpow_add₀ h2]
  congr 2
  omega

theorem popularity_binary32_eq (qsort : List ContentScore → List ContentScore)
    (catalog : ContentCatalog) (k : Int) (hlen : catalog.length ≤ 1000) (hk : 0 < k) :
    recommendation_by_popularity_binary32 qsort catalog k =
      copy_recommendations
        (qsort (catalog.map
          (fun c => ({ content_id := c.id, score := float_of_int c.views } : ContentScore))))
        k := by
  have hg : ¬ k ≤ 0 := by omega
  simp only [recommendation_by_popularity_binary32, if_neg hg]
  rw [collect_scores_eq_filterMap _ _ hlen]
  have hmap : ∀ l : List Content,
      l.filterMap
          (fun content => some ({ content_id := content.id,
                                  score := float_of_int content.views } : ContentScore)) =
        l.map (fun c => ({ content_id := c.id, score := float_of_int c.views }
          : ContentScore)) := by
    intro l
    induction l with
    | nil => rfl
    | cons a as ih => simp only [List.filterMap_cons, List.map_cons, ih]
  rw [hmap]

theorem content_similarity_binary32_eq (qsort : List ContentScore → List ContentScore)
    (user_manager : UserManager) (content_catalog : ContentCatalog) (user_id m : Int)
    (hu : 0 < user_id) (hm : 0 < m)
    (hne : watched_set user_manager user_id ≠ [])
    (h100 : (watched_set user_manager user_id).length ≤ 100)
    (hcat : content_catalog.length ≤ 1000) :
    recommendation_by_content_similarity_binary32 qsort user_manager content_catalog user_id m =
      copy_recommendations
        (qsort ((content_catalog.filter
            (fun c => c.id ∉ watched_set user_manager user_id)).map
          (fun c => ({ content_id := c.id,
                       score := average_similarity_binary32 content_catalog
                         (collect_watched_ids user_manager user_id) c } : ContentScore)))) m := by
  have hg : ¬ (user_id ≤ 0 ∨ m ≤ 0) := by omega
  have hperm := collect_watched_ids_perm user_manager user_id h100
  have hlen : ¬ (collect_watched_ids user_manager user_id).length = 0 := by
    rw [hperm.length_eq]
    intro h
    exact hne (List.length_eq_zero.1 h)
  have hpos : (collect_watched_ids user_manager user_id).length > 0 := by omega
  simp only [recommendation_by_content_similarity_binary32, if_neg hg, if_neg hlen, if_pos hpos]
  rw [collect_scores_eq_filterMap _ _ hcat]
  have hstep : (fun candidate : Content =>
      if candidate.id ∈ collect_watched_ids user_manager user_id then none
      else some ({ content_id := candidate.id,
                   score := float_div
                     (total_similarity_binary32 content_catalog
                       (collect_watched_ids user_manager user_id) candidate)
                     (float_of_int ((collect_watched_ids user_manager user_id).length : Int)) }
                 : ContentScore)) =
      (fun candidate : Content =>
      if candidate.id ∈ watched_set user_manager user_id then none
      else some ({ content_id := candidate.id,
                   score := average_similarity_binary32 content_catalog
                     (collect_watched_ids user_manager user_id) candidate } : ContentScore)) := by
    funext candidate
    have hmem : candidate.id ∈ collect_watched_ids user_manager user_id ↔
        candidate.id ∈ watched_set user_manager user_id := hperm.mem_iff
    by_cases h : candidate.id ∈ watched_set user_manager user_id
    · rw [if_pos h, if_pos (hmem.2 h)]
    · rw [if_neg h, if_neg (fun h2 => h (hmem.1 h2))]
      rfl
  rw [hstep, filterMap_ite_none]

/-- Whatever the view counts are, the popularity ranking is a selection of the catalog in
non-increasing order of the score `(float)views`, and no content left out has a greater score
than a content returned. -/
theorem popularity_binary32_ranking (qsort : List ContentScore → List ContentScore)
    (hq : QsortSpec qsort) (catalog : ContentCatalog) (k : Int)
    (hlen : catalog.length ≤ 1000) (hk : 0 < k) :
    ((recommendation_by_popularity_binary32 qsort catalog k).length : Int)
      = min k (catalog.length : Int) ∧
    ∃ sel rest : List Content, (sel ++ rest).Perm catalog ∧
      recommendation_by_popularity_binary32 qsort catalog k = sel.map (·.id) ∧
      sel.Pairwise (fun a b => float_of_int b.views ≤ float_of_int a.views) ∧
      ∀ a ∈ sel, ∀ b ∈ rest, float_of_int b.views ≤ float_of_int a.views := by
  obtain ⟨sel, rest, hperm, hcopy, hsel, hpw⟩ :=
    ranked_selection qsort hq catalog
      (fun c => ({ content_id := c.id, score := float_of_int c.views } : ContentScore)) k
  rw [popularity_binary32_eq qsort catalog k hlen hk, hcopy]
  obtain ⟨h1, -, h3⟩ := List.pairwise_append.1 hpw
  refine ⟨?_, sel, rest, hperm, rfl, h1, h3⟩
  rw [List.length_map, hsel]
  omega

end Binary32Lemmas

/-! ## Binary32 scores on the stores with large numbers -/

section Binary32Evaluations

theorem float_round_zero : float_round 0 = 0 := by
  simp [float_round]

theorem float_round_one : float_round 1 = 1 := by
  have := float_round_representable 1 0 (by norm_num) (by norm_num)
  simpa using this

theorem float_round_eighteen : float_round 18 = 18 := by
  have := float_round_representable 18 0 (by norm_num) (by norm_num)
  simpa using this

theorem float_round_9999 : float_round 9999 = 9999 := by
  have := float_round_representable 9999 0 (by norm_num) (by norm_num)
  simpa using this

theorem float_round_10000 : float_round 10000 = 10000 := by
  have := float_round_representable 10000 0 (by norm_num) (by norm_num)
  simpa using this

theorem float_round_10001 : float_round 10001 = 10001 := by
  have := float_round_representable 10001 0 (by norm_num) (by norm_num)
  simpa using this

/-- The literal `0.2f`. -/
theorem float_round_fifth : float_round (1 / 5) = 13421773 / 67108864 := by
  have := float_round_eq (1 / 5) (-3) 13421773 (by norm_num) (by norm_num [abs_of_pos])
    (by norm_num [abs_of_pos]) (by norm_num) (by norm_num)
  norm_num at this ⊢
  exact this

theorem float_round_fifth_again : float_round (13421773 / 67108864) = 13421773 / 67108864 := by
  have := float_round_representable 13421773 (-26) (by norm_num) (by norm_num)
  norm_num at this ⊢
  exact this

theorem float_round_quotient_a : float_round (10000 / 10001) = 8387769 / 8388608 := by
  have := float_round_eq (10000 / 10001) (-1) 16775538 (by norm_num) (by norm_num [abs_of_pos])
    (by norm_num [abs_of_pos]) (by norm_num) (by norm_num)
  norm_num at this ⊢
  exact this

theorem float_round_quotient_b : float_round (9999 / 10000) = 8387769 / 8388608 := by
  have := float_round_eq (9999 / 10000) (-1) 16775538 (by norm_num) (by norm_num [abs_of_pos])
    (by norm_num [abs_of_pos]) (by norm_num) (by norm_num)
  norm_num at this ⊢
  exact this

theorem float_round_difference : float_round (839 / 8388608) = 839 / 8388608 := by
  have := float_round_representable 839 (-23) (by norm_num) (by norm_num)
  norm_num at this ⊢
  exact this

theorem float_round_product :
    float_round (11260867547 / 562949953421312) = 10996941 / 549755813888 := by
  have := float_round_eq (11260867547 / 562949953421312) (-16) 10996941 (by norm_num)
    (by norm_num [abs_of_pos]) (by norm_num [abs_of_pos]) (by norm_num) (by norm_num)
  norm_num at this ⊢
  exact this

theorem float_round_sum :
    float_round (109962161357 / 549755813888) = 13423115 / 67108864 := by
  have := float_round_eq (109962161357 / 549755813888) (-3) 13423115 (by norm_num)
    (by norm_num [abs_of_pos]) (by norm_num [abs_of_pos]) (by norm_num) (by norm_num)
  norm_num at this ⊢
  exact this

theorem float_round_score : float_round (13423115 / 67108864) = 13423115 / 67108864 := by
  have := float_round_representable 13423115 (-26) (by norm_num) (by norm_num)
  norm_num at this ⊢
  exact this

/-- The binary32 similarity of a content of one minute and a content of 10001 minutes of
another category and the same age rating: 0.20002000033855438. -/
theorem duration_similarity_10001 (w c : Content) (hcat : w.category ≠ c.category)
    (hage : w.age_rating = c.age_rating) (hw : w.duration = 1) (hc : c.duration = 10001) :
    recommendation_calculate_similarity_binary32 (some w) (some c) = 13423115 / 67108864 := by
  simp only [recommendation_calculate_similarity_binary32, if_neg hcat, hage, hw, hc]
  norm_num [float_of_int, float_add, float_sub, float_mul, float_div, float_round_zero,
    float_round_one, float_round_eighteen, float_round_10000, float_round_10001,
    float_round_fifth, float_round_fifth_again, float_round_quotient_a,
    float_round_difference, float_round_product, float_round_sum]

/-- The binary32 similarity of a content of one minute and a content of 10000 minutes of
another category and the same age rating: the same number. -/
theorem duration_similarity_10000 (w c : Content) (hcat : w.category ≠ c.category)
    (hage : w.age_rating = c.age_rating) (hw : w.duration = 1) (hc : c.duration = 10000) :
    recommendation_calculate_similarity_binary32 (some w) (some c) = 13423115 / 67108864 := by
  simp only [recommendation_calculate_similarity_binary32, if_neg hcat, hage, hw, hc]
  norm_num [float_of_int, float_add, float_sub, float_mul, float_div, float_round_zero,
    float_round_one, float_round_eighteen, float_round_9999, float_round_10000,
    float_round_fifth, float_round_fifth_again, float_round_quotient_b,
    float_round_difference, float_round_product, float_round_sum]

/-- The score of a candidate when the watched set is one content: the similarity itself. -/
theorem average_similarity_binary32_single (catalog : ContentCatalog) (w : Int)
    (watched candidate : Content) (hget : content_get_by_id catalog w = some watched)
    (hsim : recommendation_calculate_similarity_binary32 (some watched) (some candidate)
      = 13423115 / 67108864) :
    average_similarity_binary32 catalog [w] candidate = 13423115 / 67108864 := by
  simp only [average_similarity_binary32, total_similarity_binary32, List.foldl_cons,
    List.foldl_nil, hget, hsim, List.length_singleton]
  norm_num [float_of_int, float_add, float_div, float_round_one, float_round_score]

theorem duration_scores :
    (durationCatalog.filter (fun c => c.id ∉ watched_set durationManager 1)).map
      (fun c => ({ content_id := c.id,
                   score := average_similarity_binary32 durationCatalog
                     (collect_watched_ids durationManager 1) c } : ContentScore)) =
      [ { content_id := 2, score := 13423115 / 67108864 },
        { content_id := 3, score := 13423115 / 67108864 } ] := by
  have hW : watched_set durationManager 1 = [1] := by decide
  have hC : collect_watched_ids durationManager 1 = [1] := by decide
  rw [hW, hC]
  have hmap : (durationCatalog.filter (fun c => c.id ∉ ([1] : List Int))).map
      (fun c => ({ content_id := c.id,
                   score := average_similarity_binary32 durationCatalog [1] c }
                 : ContentScore)) =
      [ { content_id := 2, score := average_similarity_binary32 durationCatalog [1]
            { id := 2, title := "x".toList, category := "B".toList, duration := 10001,
              age_rating := 12, views := 0 } },
        { content_id := 3, score := average_similarity_binary32 durationCatalog [1]
            { id := 3, title := "y".toList, category := "B".toList, duration := 10000,
              age_rating := 12, views := 0 } } ] := rfl
  have hget : content_get_by_id durationCatalog 1 =
      some { id := 1, title := "w".toList, category := "A".toList, duration := 1,
             age_rating := 12, views := 0 } := by decide
  have e1 : average_similarity_binary32 durationCatalog [1]
      { id := 2, title := "x".toList, category := "B".toList, duration := 10001,
        age_rating := 12, views := 0 } = 13423115 / 67108864 :=
    average_similarity_binary32_single durationCatalog 1 _ _ hget
      (duration_similarity_10001 _ _ (by decide) rfl rfl rfl)
  have e2 : average_similarity_binary32 durationCatalog [1]
      { id := 3, title := "y".toList, category := "B".toList, duration := 10000,
        age_rating := 12, views := 0 } = 13423115 / 67108864 :=
    average_similarity_binary32_single durationCatalog 1 _ _ hget
      (duration_similarity_10000 _ _ (by decide) rfl rfl rfl)
  rw [hmap, e1, e2]

theorem duration_scores_swapped :
    (durationCatalogSwapped.filter (fun c => c.id ∉ watched_set durationManager 1)).map
      (fun c => ({ content_id := c.id,
                   score := average_similarity_binary32 durationCatalogSwapped
                     (collect_watched_ids durationManager 1) c } : ContentScore)) =
      [ { content_id := 2, score := 13423115 / 67108864 },
        { content_id := 3, score := 13423115 / 67108864 } ] := by
  have hW : watched_set durationManager 1 = [1] := by decide
  have hC : collect_watched_ids durationManager 1 = [1] := by decide
  rw [hW, hC]
  have hmap : (durationCatalogSwapped.filter (fun c => c.id ∉ ([1] : List Int))).map
      (fun c => ({ content_id := c.id,
                   score := average_similarity_binary32 durationCatalogSwapped [1] c }
                 : ContentScore)) =
      [ { content_id := 2, score := average_similarity_binary32 durationCatalogSwapped [1]
            { id := 2, title := "x".toList, category := "B".toList, duration := 10000,
              age_rating := 12, views := 0 } },
        { content_id := 3, score := average_similarity_binary32 durationCatalogSwapped [1]
            { id := 3, title := "y".toList, category := "B".toList, duration := 10001,
              age_rating := 12, views := 0 } } ] := rfl
  have hget : content_get_by_id durationCatalogSwapped 1 =
      some { id := 1, title := "w".toList, category := "A".toList, duration := 1,
             age_rating := 12, views := 0 } := by decide
  have e1 : average_similarity_binary32 durationCatalogSwapped [1]
      { id := 2, title := "x".toList, category := "B".toList, duration := 10000,
        age_rating := 12, views := 0 } = 13423115 / 67108864 :=
    average_similarity_binary32_single durationCatalogSwapped 1 _ _ hget
      (duration_similarity_10000 _ _ (by decide) rfl rfl rfl)
  have e2 : average_similarity_binary32 durationCatalogSwapped [1]
      { id := 3, title := "y".toList, category := "B".toList, duration := 10001,
        age_rating := 12, views := 0 } = 13423115 / 67108864 :=
    average_similarity_binary32_single durationCatalogSwapped 1 _ _ hget
      (duration_similarity_10001 _ _ (by decide) rfl rfl rfl)
  rw [hmap, e1, e2]

/-- The two long contents of `durationCatalog` get the same binary32 score, so that under
every sorting function the strategy returns the same ids for the catalog and for the catalog
with the two durations exchanged. -/
theorem duration_result_swapped (qsort : List ContentScore → List ContentScore) (m : Int) :
    recommendation_by_content_similarity_binary32 qsort durationManager durationCatalog 1 m =
      recommendation_by_content_similarity_binary32 qsort durationManager
        durationCatalogSwapped 1 m := by
  by_cases hm : m ≤ 0
  · have hg : (1 : Int) ≤ 0 ∨ m ≤ 0 := Or.inr hm
    simp only [recommendation_by_content_similarity_binary32, if_pos hg]
  · rw [content_similarity_binary32_eq qsort durationManager durationCatalog 1 m (by decide)
        (by omega) (by decide) (by decide) (by decide),
      content_similarity_binary32_eq qsort durationManager durationCatalogSwapped 1 m
        (by decide) (by omega) (by decide) (by decide) (by decide),
      duration_scores, duration_scores_swapped]

end Binary32Evaluations

/-! ## Claims -/

/-- C1 (fails as stated): on the two-record stores with ids 1 and 3 (pairwise distinct,
positive), removing the entry with the maximum id 3 succeeds and the entry created next receives
id 2, not the freed id 3; this happens alike in `content_add`, `user_add` and `list_create`. -/
theorem C1_freed_id_not_reassigned :
    gapCatalog.map (·.id) = [1, 3] ∧ gapUsers.users.map (·.id) = [1, 3] ∧
    gapLists.map (·.id) = [1, 3] ∧
    (content_remove gapCatalog 3).1 = 1 ∧
    (content_add (content_remove gapCatalog 3).2 "C".toList "Drama".toList 60 12).1 = 2 ∧
    (user_remove gapUsers 3).1 = 1 ∧
    (user_add (user_remove gapUsers 3).2 "eva".toList).1 = 2 ∧
    (list_remove gapLists 3).1 = 1 ∧
    (list_create (list_remove gapLists 3).2 1 "z".toList).1 = 2 := by
  decide

/-- C1 (amended): on a store whose ids are all positive, `content_add`, `user_add` and
`list_create` give the new entry id 1 when the store is empty and otherwise 1 + the largest id
present.  On a store with pairwise-distinct positive ids, removing the entry with the maximum id
succeeds, leaves the other ids, and the entry created next receives 1 + the largest remaining id
(1 when none remains); that is the freed id exactly when no entry remains and the freed id was 1,
or an entry with the freed id minus one remains. -/
theorem C1_id_policy :
    (∀ (catalog : ContentCatalog) (title category : CString) (duration age_rating : Int),
      0 < duration → 0 ≤ age_rating → (∀ c ∈ catalog, 0 < c.id) →
      IsMaxPlusOne (catalog.map (·.id))
        (content_add catalog title category duration age_rating).1) ∧
    (∀ (manager : UserManager) (username : CString),
      username ≠ [] → (∀ u ∈ manager.users, u.username ≠ username) →
      (∀ u ∈ manager.users, 0 < u.id) →
      IsMaxPlusOne (manager.users.map (·.id)) (user_add manager username).1) ∧
    (∀ (manager : ListManager) (user_id : Int) (name : CString),
      0 < user_id → name ≠ [] → (∀ l ∈ manager, 0 < l.id) →
      IsMaxPlusOne (manager.map (·.id)) (list_create manager user_id name).1) ∧
    (∀ (catalog : ContentCatalog) (c : Content) (title category : CString)
      (duration age_rating : Int),
      0 < duration → 0 ≤ age_rating → (∀ d ∈ catalog, 0 < d.id) →
      (catalog.map (·.id)).Nodup → c ∈ catalog → (∀ d ∈ catalog, d.id ≤ c.id) →
      (content_remove catalog c.id).1 = 1 ∧
      ((content_remove catalog c.id).2.map (·.id)) = (catalog.map (·.id)).erase c.id ∧
      IsMaxPlusOne ((content_remove catalog c.id).2.map (·.id))
        (content_add (content_remove catalog c.id).2 title category duration age_rating).1 ∧
      ((content_add (content_remove catalog c.id).2 title category duration age_rating).1 = c.id ↔
        ((content_remove catalog c.id).2 = [] ∧ c.id = 1) ∨
          ∃ d ∈ (content_remove catalog c.id).2, d.id = c.id - 1)) ∧
    (∀ (manager : UserManager) (u : User) (username : CString),
      username ≠ [] → (∀ v ∈ manager.users, v.username ≠ username) →
      (∀ v ∈ manager.users, 0 < v.id) →
      (manager.users.map (·.id)).Nodup → u ∈ manager.users →
      (∀ v ∈ manager.users, v.id ≤ u.id) →
      (user_remove manager u.id).1 = 1 ∧
      ((user_remove manager u.id).2.users.map (·.id)) = (manager.users.map (·.id)).erase u.id ∧
      IsMaxPlusOne ((user_remove manager u.id).2.users.map (·.id))
        (user_add (user_remove manager u.id).2 username).1 ∧
      ((user_add (user_remove manager u.id).2 username).1 = u.id ↔
        ((user_remove manager u.id).2.users = [] ∧ u.id = 1) ∨
          ∃ v ∈ (user_remove manager u.id).2.users, v.id = u.id - 1)) ∧
    (∀ (manager : ListManager) (l : CustomList) (user_id : Int) (name : CString),
      0 < user_id → name ≠ [] → (∀ m ∈ manager, 0 < m.id) →
      (manager.map (·.id)).Nodup → l ∈ manager → (∀ m ∈ manager, m.id ≤ l.id) →
      (list_remove manager l.id).1 = 1 ∧
      ((list_remove manager l.id).2.map (·.id)) = (manager.map (·.id)).erase l.id ∧
      IsMaxPlusOne ((list_remove manager l.id).2.map (·.id))
        (list_create (list_remove manager l.id).2 user_id name).1 ∧
      ((list_create (list_remove manager l.id).2 user_id name).1 = l.id ↔
        ((list_remove manager l.id).2 = [] ∧ l.id = 1) ∨
          ∃ m ∈ (list_remove manager l.id).2, m.id = l.id - 1)) := by
  refine ⟨?_, ?_, ?_, ?_, ?_, ?_⟩
  · intro catalog title category duration age_rating hd ha hpos
    have hg : ¬ (duration ≤ 0 ∨ age_rating < 0) := by omega
    simp only [content_add, if_neg hg]
    exact find_next_id_isMaxPlusOne _ (by simpa using hpos)
  · intro manager username hne huniq hpos
    have h1 : ¬ username.length = 0 := by simpa using hne
    have h2 : ¬ (manager.users.any (fun u => decide (u.username = username)) = true) := by
      simpa using huniq
    simp only [user_add, if_neg h1, h2, Bool.false_eq_true, if_false]
    exact find_next_id_isMaxPlusOne _ (by simpa using hpos)
  · intro manager user_id name hu hne hpos
    have h1 : ¬ (user_id ≤ 0 ∨ name.length = 0) := by
      have : ¬ name.length = 0 := by simpa using hne
      omega
    simp only [list_create, if_neg h1]
    exact find_next_id_isMaxPlusOne _ (by simpa using hpos)
  · intro catalog c title category duration age_rating hd ha hpos hnd hc hmax
    have hg : ¬ (duration ≤ 0 ∨ age_rating < 0) := by omega
    have hcid : ¬ c.id ≤ 0 := by have := hpos c hc; omega
    obtain ⟨k, hk⟩ := find_index_map_of_mem (·.id) catalog c hc
    obtain ⟨h1, h2, h3⟩ := eraseIdx_then_next_id (·.id) catalog c k hk hpos hnd hmax
    simp only [content_remove, if_neg hcid, hk, content_add, if_neg hg]
    exact ⟨trivial, h1, h2, h3⟩
  · intro manager u username hne huniq hpos hnd hu hmax
    have hcid : ¬ u.id ≤ 0 := by have := hpos u hu; omega
    obtain ⟨k, hk⟩ := find_index_map_of_mem (·.id) manager.users u hu
    obtain ⟨h1, h2, h3⟩ := eraseIdx_then_next_id (·.id) manager.users u k hk hpos hnd hmax
    have hn1 : ¬ username.length = 0 := by simpa using hne
    have hn2 : ¬ ((manager.users.eraseIdx k).any (fun u => decide (u.username = username))
        = true) := by
      simp only [List.any_eq_true, decide_eq_true_eq, not_exists, not_and]
      intro v hv
      exact huniq v (List.mem_of_mem_eraseIdx hv)
    simp only [user_remove, if_neg hcid, hk, user_add, if_neg hn1, hn2, Bool.false_eq_true,
      if_false]
    exact ⟨trivial, h1, h2, h3⟩
  · intro manager l user_id name hu hne hpos hnd hl hmax
    have hg : ¬ (user_id ≤ 0 ∨ name.length = 0) := by
      have : ¬ name.length = 0 := by simpa using hne
      omega
    have hcid : ¬ l.id ≤ 0 := by have := hpos l hl; omega
    obtain ⟨k, hk⟩ := find_index_map_of_mem (·.id) manager l hl
    obtain ⟨h1, h2, h3⟩ := eraseIdx_then_next_id (·.id) manager l k hk hpos hnd hmax
    simp only [list_remove, if_neg hcid, hk, list_create, if_neg hg]
    exact ⟨trivial, h1, h2, h3⟩

/-- C1 (amended), instance: the three creation functions on the stores with ids 1 and 3, and
removal of the maximum id 3 of the catalog followed by an addition. -/
theorem C1_id_policy_witness :
    IsMaxPlusOne (gapCatalog.map (·.id))
      (content_add gapCatalog "C".toList "Drama".toList 60 12).1 ∧
    IsMaxPlusOne (gapUsers.users.map (·.id)) (user_add gapUsers "eva".toList).1 ∧
    IsMaxPlusOne (gapLists.map (·.id)) (list_create gapLists 1 "z".toList).1 ∧
    IsMaxPlusOne ((content_remove gapCatalog 3).2.map (·.id))
      (content_add (content_remove gapCatalog 3).2 "C".toList "Drama".toList 60 12).1 ∧
    IsMaxPlusOne ((user_remove gapUsers 3).2.users.map (·.id))
      (user_add (user_remove gapUsers 3).2 "eva".toList).1 ∧
    IsMaxPlusOne ((list_remove gapLists 3).2.map (·.id))
      (list_create (list_remove gapLists 3).2 1 "z".toList).1 :=
  ⟨C1_id_policy.1 gapCatalog "C".toList "Drama".toList 60 12 (by decide) (by decide)
      (by decide),
   C1_id_policy.2.1 gapUsers "eva".toList (by decide) (by decide) (by decide),
   C1_id_policy.2.2.1 gapLists 1 "z".toList (by decide) (by decide) (by decide),
   (C1_id_policy.2.2.2.1 gapCatalog
      { id := 3, title := "B".toList, category := "Drama".toList, duration := 50,
        age_rating := 12, views := 0 }
      "C".toList "Drama".toList 60 12 (by decide) (by decide) (by decide) (by decide)
      (by decide) (by decide)).2.2.1,
   (C1_id_policy.2.2.2.2.1 gapUsers
      { id := 3, username := "rui".toList, favorite_contents := [], interaction_count := 0 }
      "eva".toList (by decide) (by decide) (by decide) (by decide) (by decide)
      (by decide)).2.2.1,
   (C1_id_policy.2.2.2.2.2 gapLists
      { id := 3, user_id := 1, name := "y".toList, content_ids := [] }
      1 "z".toList (by decide) (by decide) (by decide) (by decide) (by decide)
      (by decide)).2.2.1⟩

theorem content_get_by_id_append_new (catalog : ContentCatalog) (c : Content)
    (hpos : 0 < c.id) (hfresh : ∀ d ∈ catalog, d.id ≠ c.id) :
    content_get_by_id (catalog ++ [c]) c.id = some c := by
  have hg : ¬ c.id ≤ 0 := by omega
  have hnone : catalog.find? (fun d => decide (d.id = c.id)) = none := by
    rw [List.find?_eq_none]
    intro d hd
    simpa using hfresh d hd
  simp [content_get_by_id, hg, List.find?_append, hnone]

/-- C2: for every catalog, title shorter than 100 characters, category shorter than 50
characters, duration > 0 and age_rating >= 0, `content_add` returns an id > 0 that no record of
the catalog carries; `content_get_by_id` of that id on the new catalog returns the record with
exactly the supplied title, category, duration and age_rating and with views 0; the new catalog
has one record more and starts with the old records, unchanged and in their old order. -/
theorem C2_content_add_get (catalog : ContentCatalog) (title category : CString)
    (duration age_rating : Int)
    (ht : title.length < 100) (hc : category.length < 50)
    (hd : 0 < duration) (ha : 0 ≤ age_rating) :
    0 < (content_add catalog title category duration age_rating).1 ∧
    (∀ c ∈ catalog, c.id ≠ (content_add catalog title category duration age_rating).1) ∧
    content_get_by_id (content_add catalog title category duration age_rating).2
        (content_add catalog title category duration age_rating).1 =
      some { id := (content_add catalog title category duration age_rating).1,
             title := title, category := category, duration := duration,
             age_rating := age_rating, views := 0 } ∧
    (content_add catalog title category duration age_rating).2.length = catalog.length + 1 ∧
    (content_add catalog title category duration age_rating).2.take catalog.length = catalog := by
  have hg : ¬ (duration ≤ 0 ∨ age_rating < 0) := by omega
  have hpos := find_next_id_pos (catalog.map (·.id))
  have hfresh : ∀ c ∈ catalog, c.id ≠ find_next_id (catalog.map (·.id)) := by
    intro c hc
    have := find_next_id_gt (catalog.map (·.id)) c.id (List.mem_map_of_mem (·.id) hc)
    omega
  have htt : title.take (MAX_TITLE_LENGTH - 1) = title :=
    List.take_of_length_le (by simp only [MAX_TITLE_LENGTH]; omega)
  have hcc : category.take (MAX_CATEGORY_LENGTH - 1) = category :=
    List.take_of_length_le (by simp only [MAX_CATEGORY_LENGTH]; omega)
  simp only [content_add, if_neg hg, htt, hcc]
  refine ⟨hpos, hfresh, ?_, by simp, by simp⟩
  exact content_get_by_id_append_new catalog _ hpos hfresh

/-- C2, instance: adding "C" / "Drama" / 60 / 12 to the catalog with ids 1 and 3. -/
theorem C2_content_add_get_witness :
    0 < (content_add gapCatalog "C".toList "Drama".toList 60 12).1 ∧
    (∀ c ∈ gapCatalog, c.id ≠ (content_add gapCatalog "C".toList "Drama".toList 60 12).1) ∧
    content_get_by_id (content_add gapCatalog "C".toList "Drama".toList 60 12).2
        (content_add gapCatalog "C".toList "Drama".toList 60 12).1 =
      some { id := (content_add gapCatalog "C".toList "Drama".toList 60 12).1,
             title := "C".toList, category := "Drama".toList, duration := 60,
             age_rating := 12, views := 0 } ∧
    (content_add gapCatalog "C".toList "Drama".toList 60 12).2.length = gapCatalog.length + 1 ∧
    (content_add gapCatalog "C".toList "Drama".toList 60 12).2.take gapCatalog.length
      = gapCatalog :=
  C2_content_add_get gapCatalog "C".toList "Drama".toList 60 12 (by decide) (by decide)
    (by decide) (by decide)

/-- C4: for every pair of stores, every cap m > 0 and every user id > 0, (a) if the log holds
no COMPLETE interaction of that user, `recommendation_by_content_similarity` returns the list (and
so the count) of `recommendation_by_popularity` with cap m; (b) if the log holds no PLAY or
COMPLETE interaction of that user on a content that `content_get_by_id` finds in the catalog,
`recommendation_by_category` returns the list of `recommendation_by_popularity` with cap m. -/
theorem C4_popularity_fallback (qsort : List ContentScore → List ContentScore)
    (user_manager : UserManager) (content_catalog : ContentCatalog) (user_id m : Int)
    (hm : 0 < m) (hu : 0 < user_id) :
    ((∀ it ∈ user_manager.interactions,
        it.user_id = user_id → it.type ≠ INTERACTION_COMPLETE) →
      recommendation_by_content_similarity qsort user_manager content_catalog user_id m =
        recommendation_by_popularity qsort content_catalog m) ∧
    ((∀ it ∈ user_manager.interactions, it.user_id = user_id →
        (it.type = INTERACTION_PLAY ∨ it.type = INTERACTION_COMPLETE) →
        content_get_by_id content_catalog it.content_id = none) →
      recommendation_by_category qsort user_manager content_catalog user_id m =
        recommendation_by_popularity qsort content_catalog m) := by
  have hg : ¬ (user_id ≤ 0 ∨ m ≤ 0) := by omega
  constructor
  · intro h
    have hw : collect_watched_ids user_manager user_id = [] := by
      unfold collect_watched_ids
      apply foldl_fixed
      intro it hit
      have hc : ¬ (it.user_id = user_id ∧ it.type = INTERACTION_COMPLETE) :=
        fun hc => h it hit hc.1 hc.2
      simp [hc]
    simp only [recommendation_by_content_similarity, if_neg hg, hw, List.length_nil, if_true]
  · intro h
    have ht : tally_categories user_manager content_catalog user_id = [] := by
      unfold tally_categories
      apply foldl_fixed
      intro it hit
      unfold tally_step
      by_cases hc : it.user_id = user_id ∧
          (it.type = INTERACTION_PLAY ∨ it.type = INTERACTION_COMPLETE)
      · rw [if_pos hc, h it hit hc.1 hc.2]
      · rw [if_neg hc]
    simp only [recommendation_by_category, if_neg hg, ht, List.length_nil, if_true]

/-- C4, instance: user 3 has no interaction in the log of the test, so both strategies return
the popularity ranking with cap 3. -/
theorem C4_popularity_fallback_witness :
    recommendation_by_content_similarity insertion_qsort testManager testCatalog 3 3 =
      recommendation_by_popularity insertion_qsort testCatalog 3 ∧
    recommendation_by_category insertion_qsort testManager testCatalog 3 3 =
      recommendation_by_popularity insertion_qsort testCatalog 3 :=
  ⟨(C4_popularity_fallback insertion_qsort testManager testCatalog 3 3 (by decide)
      (by decide)).1 (by decide),
   (C4_popularity_fallback insertion_qsort testManager testCatalog 3 3 (by decide)
      (by decide)).2 (by decide)⟩

/-- C5: for every two contents a and b with non-negative durations,
`recommendation_calculate_similarity` equals, in exact arithmetic,
0.6 if the categories are equal (else 0) + 0.2 * (1 - |a.age_rating - b.age_rating| / 18)
+ 0.2 * (1 - |a.duration - b.duration| / max(a.duration, b.duration)), the duration term left
out when the maximum is 0.  No term is clamped: on two contents of different categories with
age ratings 0 and 90 and equal durations the value is -0.6. -/
theorem C5_similarity_formula :
    (∀ a b : Content, 0 ≤ a.duration → 0 ≤ b.duration →
      recommendation_calculate_similarity (some a) (some b) =
        (if a.category = b.category then 6 / 10 else 0) +
        2 / 10 * (1 - ((abs (a.age_rating - b.age_rating) : Int) : ℚ) / 18) +
        (if max a.duration b.duration = 0 then 0
         else 2 / 10 * (1 - ((abs (a.duration - b.duration) : Int) : ℚ)
                              / ((max a.duration b.duration : Int) : ℚ)))) ∧
    recommendation_calculate_similarity (some farContentA) (some farContentB) = -(6 / 10) := by
  constructor
  · intro a b ha _
    exact similarity_eq_formula a b ha
  · rw [similarity_eq_formula _ _ (by decide)]
    have hne : ¬ farContentA.category = farContentB.category := by decide
    simp only [similarity_formula, if_neg hne]
    simp only [farContentA, farContentB]
    norm_num

/-- C5, instance: the first two contents of the test catalog. -/
theorem C5_similarity_formula_witness :
    recommendation_calculate_similarity
        (some { id := 1, title := "Filme de Ação 1".toList, category := "Ação".toList,
                duration := 120, age_rating := 16, views := 10 })
        (some { id := 2, title := "Filme de Ação 2".toList, category := "Ação".toList,
                duration := 110, age_rating := 14, views := 20 }) =
      (if "Ação".toList = "Ação".toList then 6 / 10 else 0) +
      2 / 10 * (1 - ((abs ((16 : Int) - 14) : Int) : ℚ) / 18) +
      (if max (120 : Int) 110 = 0 then 0
       else 2 / 10 * (1 - ((abs ((120 : Int) - 110) : Int) : ℚ) / ((max (120 : Int) 110 : Int) : ℚ))) :=
  C5_similarity_formula.1
    { id := 1, title := "Filme de Ação 1".toList, category := "Ação".toList,
      duration := 120, age_rating := 16, views := 10 }
    { id := 2, title := "Filme de Ação 2".toList, category := "Ação".toList,
      duration := 110, age_rating := 14, views := 20 } (by decide) (by decide)

/-- C6: for all contents a, b, c with positive durations and age ratings between 0 and 18, if
b has the category of a and c has a different category, then
similarity(a, b) > similarity(a, c). -/
theorem C6_same_category_beats_other (a b c : Content)
    (hda : 0 < a.duration) (hdb : 0 < b.duration) (_hdc : 0 < c.duration)
    (haa : 0 ≤ a.age_rating ∧ a.age_rating ≤ 18)
    (hab : 0 ≤ b.age_rating ∧ b.age_rating ≤ 18)
    (_hac : 0 ≤ c.age_rating ∧ c.age_rating ≤ 18)
    (hsame : b.category = a.category) (hdiff : c.category ≠ a.category) :
    recommendation_calculate_similarity (some a) (some c) <
      recommendation_calculate_similarity (some a) (some b) := by
  have hage : abs (a.age_rating - b.age_rating) ≤ 18 := by
    rw [abs_le]
    constructor <;> omega
  have h1 := similarity_same_category_gt a b hda hdb hage hsame.symm
  have h2 := similarity_other_category_le a c hda (fun h => hdiff h.symm)
  have h3 : (4 / 10 : ℚ) < 6 / 10 := by norm_num
  exact lt_of_le_of_lt h2 (lt_trans h3 h1)

/-- C6, instance from the test: a = (Ação, 120, 16), b = (Ação, 110, 14),
c = (Comédia, 100, 12). -/
theorem C6_same_category_beats_other_witness :
    recommendation_calculate_similarity
        (some { id := 1, title := "Filme de Ação 1".toList, category := "Ação".toList,
                duration := 120, age_rating := 16, views := 10 })
        (some { id := 3, title := "Comédia 1".toList, category := "Comédia".toList,
                duration := 100, age_rating := 12, views := 5 }) <
      recommendation_calculate_similarity
        (some { id := 1, title := "Filme de Ação 1".toList, category := "Ação".toList,
                duration := 120, age_rating := 16, views := 10 })
        (some { id := 2, title := "Filme de Ação 2".toList, category := "Ação".toList,
                duration := 110, age_rating := 14, views := 20 }) :=
  C6_same_category_beats_other
    { id := 1, title := "Filme de Ação 1".toList, category := "Ação".toList,
      duration := 120, age_rating := 16, views := 10 }
    { id := 2, title := "Filme de Ação 2".toList, category := "Ação".toList,
      duration := 110, age_rating := 14, views := 20 }
    { id := 3, title := "Comédia 1".toList, category := "Comédia".toList,
      duration := 100, age_rating := 12, views := 5 }
    (by decide) (by decide) (by decide) (by decide) (by decide) (by decide) (by decide)
    (by decide)

/-- C7 (fails as stated): user 1 completed content 1 (one minute); the candidates are
content 2 (10001 minutes) and content 3 (10000 minutes), of another category.  The averages of
the similarity are 10002/50005 for content 2 and 10001/50000 for content 3, which is higher, but
in binary32 arithmetic both scores are 13423115/67108864 (0.20002000033855438), so
`compare_scores` returns 0 for the pair; with cap 1 and a sort that leaves equal entries in
their order, `recommendation_by_content_similarity` returns content 2 and leaves out
content 3.  Under every sorting function the result is the same as for the catalog with the two
durations exchanged, in which content 2 has the higher average. -/
theorem C7_higher_average_left_out :
    recommendation_by_content_similarity_binary32 insertion_qsort durationManager
      durationCatalog 1 1 = [2] ∧
    average_similarity_binary32 durationCatalog (collect_watched_ids durationManager 1)
      { id := 2, title := "x".toList, category := "B".toList, duration := 10001,
        age_rating := 12, views := 0 } = 13423115 / 67108864 ∧
    average_similarity_binary32 durationCatalog (collect_watched_ids durationManager 1)
      { id := 3, title := "y".toList, category := "B".toList, duration := 10000,
        age_rating := 12, views := 0 } = 13423115 / 67108864 ∧
    average_similarity durationCatalog (watched_set durationManager 1)
      { id := 2, title := "x".toList, category := "B".toList, duration := 10001,
        age_rating := 12, views := 0 } = 10002 / 50005 ∧
    average_similarity durationCatalog (watched_set durationManager 1)
      { id := 3, title := "y".toList, category := "B".toList, duration := 10000,
        age_rating := 12, views := 0 } = 10001 / 50000 ∧
    average_similarity durationCatalog (watched_set durationManager 1)
      { id := 2, title := "x".toList, category := "B".toList, duration := 10001,
        age_rating := 12, views := 0 } <
      average_similarity durationCatalog (watched_set durationManager 1)
        { id := 3, title := "y".toList, category := "B".toList, duration := 10000,
          age_rating := 12, views := 0 } ∧
    ∀ qsort : List ContentScore → List ContentScore,
      recommendation_by_content_similarity_binary32 qsort durationManager durationCatalog 1 1 =
        recommendation_by_content_similarity_binary32 qsort durationManager
          durationCatalogSwapped 1 1 := by
  have hW : watched_set durationManager 1 = [1] := by decide
  have hC : collect_watched_ids durationManager 1 = [1] := by decide
  have hget : content_get_by_id durationCatalog 1 =
      some { id := 1, title := "w".toList, category := "A".toList, duration := 1,
             age_rating := 12, views := 0 } := by decide
  have hcat : ¬ ("A".toList = "B".toList) := by decide
  have e1 : average_similarity durationCatalog [1]
      { id := 2, title := "x".toList, category := "B".toList, duration := 10001,
        age_rating := 12, views := 0 } = 10002 / 50005 := by
    simp only [average_similarity, List.map_cons, List.map_nil, hget]
    rw [similarity_eq_formula _ _ (by decide)]
    simp only [similarity_formula, if_neg hcat]
    norm_num
  have e2 : average_similarity durationCatalog [1]
      { id := 3, title := "y".toList, category := "B".toList, duration := 10000,
        age_rating := 12, views := 0 } = 10001 / 50000 := by
    simp only [average_similarity, List.map_cons, List.map_nil, hget]
    rw [similarity_eq_formula _ _ (by decide)]
    simp only [similarity_formula, if_neg hcat]
    norm_num
  rw [hW, hC, e1, e2]
  refine ⟨?_,
    average_similarity_binary32_single durationCatalog 1 _ _ hget
      (duration_similarity_10001 _ _ (by decide) rfl rfl rfl),
    average_similarity_binary32_single durationCatalog 1 _ _ hget
      (duration_similarity_10000 _ _ (by decide) rfl rfl rfl),
    rfl, rfl, by norm_num, fun qsort => duration_result_swapped qsort 1⟩
  rw [content_similarity_binary32_eq insertion_qsort durationManager durationCatalog 1 1
    (by decide) (by decide) (by decide) (by decide) (by decide), duration_scores]
  have h4 : insertion_qsort
      [ { content_id := 2, score := 13423115 / 67108864 },
        { content_id := 3, score := 13423115 / 67108864 } ] =
      [ { content_id := 2, score := 13423115 / 67108864 },
        { content_id := 3, score := 13423115 / 67108864 } ] := by
    simp only [insertion_qsort, List.insertionSort, List.orderedInsert, compare_scores]
    norm_num
  rw [h4]
  rfl

/-- C7 (amended): for every user (id > 0) whose watched set W is non-empty and has at most 100
ids, and every catalog of at most 1000 records, `recommendation_by_content_similarity` with cap
m >= 0 returns min(m, number of candidates) ids, where the candidates are exactly the catalog
contents whose id is not in W.  The score of a candidate is the `float` that the code computes:
the similarities of the items of W to the candidate, each computed in binary32 arithmetic, added
in the order in which the ids of W were first completed and divided by the number of ids, every
operation rounded.  The ids returned are those of the records `sel` of a rearrangement
`sel ++ rest` of the candidates, in non-increasing order of that score, and no candidate left
out has a higher score of that kind than a returned one. -/
theorem C7_content_similarity_ranking_binary32 (qsort : List ContentScore → List ContentScore)
    (hq : QsortSpec qsort)
    (user_manager : UserManager) (content_catalog : ContentCatalog) (user_id m : Int)
    (hu : 0 < user_id) (hm : 0 ≤ m)
    (hne : watched_set user_manager user_id ≠ [])
    (h100 : (watched_set user_manager user_id).length ≤ 100)
    (hcat : content_catalog.length ≤ 1000) :
    (collect_watched_ids user_manager user_id).Perm (watched_set user_manager user_id) ∧
    ∃ sel rest : List Content,
      (sel ++ rest).Perm
        (content_catalog.filter (fun c => c.id ∉ watched_set user_manager user_id)) ∧
      recommendation_by_content_similarity_binary32 qsort user_manager content_catalog user_id m
        = sel.map (·.id) ∧
      (sel.length : Int) = min m
        ((content_catalog.filter
          (fun c => c.id ∉ watched_set user_manager user_id)).length : Int) ∧
      sel.Pairwise (fun a b =>
        average_similarity_binary32 content_catalog
            (collect_watched_ids user_manager user_id) b ≤
          average_similarity_binary32 content_catalog
            (collect_watched_ids user_manager user_id) a) ∧
      ∀ a ∈ sel, ∀ b ∈ rest,
        average_similarity_binary32 content_catalog
            (collect_watched_ids user_manager user_id) b ≤
          average_similarity_binary32 content_catalog
            (collect_watched_ids user_manager user_id) a := by
  refine ⟨collect_watched_ids_perm user_manager user_id h100, ?_⟩
  obtain ⟨sel, rest, hperm, hcopy, hsel, hpw⟩ :=
    ranked_selection qsort hq
      (content_catalog.filter (fun c => c.id ∉ watched_set user_manager user_id))
      (fun c => ({ content_id := c.id,
                   score := average_similarity_binary32 content_catalog
                     (collect_watched_ids user_manager user_id) c } : ContentScore)) m
  obtain ⟨h1, -, h3⟩ := List.pairwise_append.1 hpw
  refine ⟨sel, rest, hperm, ?_, ?_, h1, h3⟩
  · by_cases hm0 : m = 0
    · have hg : user_id ≤ 0 ∨ m ≤ 0 := Or.inr (by omega)
      have hnil : sel = [] := by
        apply List.length_eq_zero.1
        rw [hsel, hm0]
        simp
      simp only [recommendation_by_content_similarity_binary32, if_pos hg, hnil, List.map_nil]
    · rw [content_similarity_binary32_eq qsort user_manager content_catalog user_id m hu
        (by omega) hne h100 hcat, hcopy]
  · rw [hsel]
    omega

/-- C7 (amended), instance: user 1 of the test (watched set {1, 3}) with cap 5. -/
theorem C7_content_similarity_ranking_binary32_witness :
    (collect_watched_ids testManager 1).Perm (watched_set testManager 1) ∧
    ∃ sel rest : List Content,
      (sel ++ rest).Perm
        (testCatalog.filter (fun c => c.id ∉ watched_set testManager 1)) ∧
      recommendation_by_content_similarity_binary32 insertion_qsort testManager testCatalog 1 5
        = sel.map (·.id) ∧
      (sel.length : Int) = min 5
        ((testCatalog.filter (fun c => c.id ∉ watched_set testManager 1)).length : Int) ∧
      sel.Pairwise (fun a b =>
        average_similarity_binary32 testCatalog (collect_watched_ids testManager 1) b ≤
          average_similarity_binary32 testCatalog (collect_watched_ids testManager 1) a) ∧
      ∀ a ∈ sel, ∀ b ∈ rest,
        average_similarity_binary32 testCatalog (collect_watched_ids testManager 1) b ≤
          average_similarity_binary32 testCatalog (collect_watched_ids testManager 1) a :=
  C7_content_similarity_ranking_binary32 insertion_qsort insertion_qsort_spec testManager
    testCatalog 1 5 (by decide) (by decide) (by decide) (by decide) (by decide)

/-- C8: for every user who has at least one PLAY or COMPLETE interaction on a content that
`content_get_by_id` finds in the catalog, every id returned by `recommendation_by_category` is
the id of a catalog content whose category equals the category of some content of the catalog
that this user has a PLAY or COMPLETE interaction on. -/
theorem C8_category_within_seen (qsort : List ContentScore → List ContentScore)
    (hq : QsortSpec qsort) (user_manager : UserManager) (content_catalog : ContentCatalog)
    (user_id m : Int) (hwf : WellFormedCatalog content_catalog)
    (hseen : ∃ it ∈ user_manager.interactions, it.user_id = user_id ∧
      (it.type = INTERACTION_PLAY ∨ it.type = INTERACTION_COMPLETE) ∧
      content_get_by_id content_catalog it.content_id ≠ none) :
    ∀ id ∈ recommendation_by_category qsort user_manager content_catalog user_id m,
      ∃ c ∈ content_catalog, c.id = id ∧
        ∃ it ∈ user_manager.interactions, it.user_id = user_id ∧
          (it.type = INTERACTION_PLAY ∨ it.type = INTERACTION_COMPLETE) ∧
          ∃ seen ∈ content_catalog,
            content_get_by_id content_catalog it.content_id = some seen ∧
            seen.category = c.category := by
  intro id hid
  have htally := tally_ne_nil user_manager content_catalog user_id hseen
  obtain ⟨c, hc, hcid, -, e, he, hname⟩ :=
    mem_by_category qsort hq user_manager content_catalog user_id m id htally hid
  obtain ⟨it, hit, hu, ht, seen, hget, hcat⟩ :=
    tally_names_seen user_manager content_catalog user_id e he
  have hmem := (content_get_by_id_some _ _ _ hget).1
  have hlen := (hwf seen hmem).2
  have htake : seen.category.take (MAX_CATEGORY_LENGTH - 1) = seen.category :=
    List.take_of_length_le (by omega)
  refine ⟨c, hc, hcid, it, hit, hu, ht, seen, hmem, hget, ?_⟩
  rw [← hname, hcat, htake]

/-- C8, instance: user 1 of the test, who completed contents 1 ("Ação") and 3 ("Comédia"),
is recommended content 2 only, of category "Ação". -/
theorem C8_category_within_seen_witness :
    recommendation_by_category insertion_qsort testManager testCatalog 1 5 = [2] ∧
    ∃ c ∈ testCatalog, c.id = 2 ∧
      ∃ it ∈ testManager.interactions, it.user_id = 1 ∧
        (it.type = INTERACTION_PLAY ∨ it.type = INTERACTION_COMPLETE) ∧
        ∃ seen ∈ testCatalog,
          content_get_by_id testCatalog it.content_id = some seen ∧
          seen.category = c.category :=
  ⟨by_category_test_user1,
   C8_category_within_seen insertion_qsort insertion_qsort_spec testManager testCatalog 1 5
    (by unfold WellFormedCatalog; decide)
    ⟨{ user_id := 1, content_id := 1, type := INTERACTION_COMPLETE, timestamp := 0 },
      by decide, by decide, by decide, by decide⟩
    2 (by rw [by_category_test_user1]; exact List.mem_singleton.2 rfl)⟩

/-- C9: for every pair of stores, every user id and every cap, no id c returned by
`recommendation_by_category` satisfies `recommendation_has_watched(user, c) = 1`, also on the
inputs on which the strategy falls back to popularity. -/
theorem C9_category_excludes_watched (qsort : List ContentScore → List ContentScore)
    (hq : QsortSpec qsort) (user_manager : UserManager) (content_catalog : ContentCatalog)
    (user_id m : Int) :
    ∀ id ∈ recommendation_by_category qsort user_manager content_catalog user_id m,
      recommendation_has_watched user_manager user_id id ≠ 1 := by
  intro id hid hw
  by_cases htally : tally_categories user_manager content_catalog user_id = []
  · have hfall : recommendation_by_category qsort user_manager content_catalog user_id m =
        if user_id ≤ 0 ∨ m ≤ 0 then []
        else recommendation_by_popularity qsort content_catalog m := by
      simp only [recommendation_by_category, htally, List.length_nil, if_true]
    rw [hfall] at hid
    by_cases hg : user_id ≤ 0 ∨ m ≤ 0
    · rw [if_pos hg] at hid
      simp at hid
    · rw [if_neg hg] at hid
      obtain ⟨c, hc, hcid⟩ := mem_by_popularity qsort hq content_catalog m id hid
      obtain ⟨-, hpos, it, hit, hu, hci, ht⟩ :=
        (has_watched_eq_one_iff user_manager user_id id).1 hw
      have hget : content_get_by_id content_catalog it.content_id ≠ none := by
        rw [hci, ← hcid]
        exact content_get_by_id_ne_none content_catalog c hc (by omega)
      exact tally_ne_nil user_manager content_catalog user_id
        ⟨it, hit, hu, ht.symm, hget⟩ htally
  · obtain ⟨c, -, hcid, h0, -⟩ :=
      mem_by_category qsort hq user_manager content_catalog user_id m id htally hid
    rw [hcid, hw] at h0
    cases h0

/-- C9, instance: user 1 of the test with cap 5 is recommended content 2, which that user has
not watched. -/
theorem C9_category_excludes_watched_witness :
    recommendation_by_category insertion_qsort testManager testCatalog 1 5 = [2] ∧
    recommendation_has_watched testManager 1 2 ≠ 1 :=
  ⟨by_category_test_user1,
   C9_category_excludes_watched insertion_qsort insertion_qsort_spec testManager testCatalog 1 5
    2 (by rw [by_category_test_user1]; exact List.mem_singleton.2 rfl)⟩

/-- C10 (fails as stated): user 1 plays content 1 (category "A"), then content 2 ("B"), then
plays and completes content 3 ("C").  The tally is A:1, B:1, C:2 in first-seen order, "A" and
"B" tie and "A" was seen first, yet the sorting loops leave the order C, B, A, and the result
lists content 5 (category "B") before content 4 (category "A"). -/
theorem C10_tie_not_first_seen :
    tally_categories tieManager tieCatalog 1 =
      [("A".toList, 1), ("B".toList, 1), ("C".toList, 2)] ∧
    sort_categories (tally_categories tieManager tieCatalog 1) =
      [("C".toList, 2), ("B".toList, 1), ("A".toList, 1)] ∧
    recommendation_by_category insertion_qsort tieManager tieCatalog 1 10 = [5, 4] := by
  have hg : ¬ ((1 : Int) ≤ 0 ∨ (10 : Int) ≤ 0) := by decide
  have h1 : tally_categories tieManager tieCatalog 1 =
      [("A".toList, 1), ("B".toList, 1), ("C".toList, 2)] := by decide
  have h2 : sort_categories [("A".toList, 1), ("B".toList, 1), ("C".toList, 2)] =
      [("C".toList, 2), ("B".toList, 1), ("A".toList, 1)] := by decide
  have hlen : ¬ ([("A".toList, (1 : Int)), ("B".toList, 1), ("C".toList, 2)].length = 0) := by
    decide
  refine ⟨h1, by rw [h1, h2], ?_⟩
  simp only [recommendation_by_category, if_neg hg, h1, if_neg hlen, h2]
  have h3 : collect_scores
      (category_candidate_score tieManager 1
        [("C".toList, 2), ("B".toList, 1), ("A".toList, 1)]) tieCatalog =
      [ { content_id := 4, score := 3 / 2 }, { content_id := 5, score := 5 / 2 } ] := by
    have e1 : category_score [("C".toList, 2), ("B".toList, 1), ("A".toList, 1)] 2 = 3 / 2 := by
      norm_num [category_score]
    have e2 : category_score [("C".toList, 2), ("B".toList, 1), ("A".toList, 1)] 1 = 5 / 2 := by
      norm_num [category_score]
    rw [← e1, ← e2]
    rfl
  rw [h3]
  have h4 : insertion_qsort
      [ { content_id := 4, score := 3 / 2 }, { content_id := 5, score := 5 / 2 } ] =
      [ { content_id := 5, score := 5 / 2 }, { content_id := 4, score := 3 / 2 } ] := by
    simp only [insertion_qsort, List.insertionSort, List.orderedInsert, compare_scores]
    norm_num
  rw [h4]
  rfl

/-- C10 (amended): in `recommendation_by_category` on a catalog whose categories fit the
50-byte field, whenever two categories X and Y have the same frequency n in the tally, X stands
before Y in the tally (X was first seen earlier in the log) and no category tallied after X has
a frequency above n, then X is ranked before Y by the sorting loops, and the ids returned are
those of catalog records `sel` among which no content of category Y precedes a content of
category X. -/
theorem C10_tie_first_seen_when_no_later_higher
    (qsort : List ContentScore → List ContentScore) (hq : QsortSpec qsort)
    (user_manager : UserManager) (content_catalog : ContentCatalog) (user_id m : Int)
    (hwf : WellFormedCatalog content_catalog)
    (X Y : CString) (n : Int) (before after : List (CString × Int))
    (htally : tally_categories user_manager content_catalog user_id
      = before ++ (X, n) :: after)
    (hY : (Y, n) ∈ after) (hafter : ∀ e ∈ after, e.2 ≤ n) :
    (∃ s1 s2, sort_categories (tally_categories user_manager content_catalog user_id)
        = s1 ++ (X, n) :: s2 ∧ (Y, n) ∈ s2) ∧
    ∃ sel : List Content,
      recommendation_by_category qsort user_manager content_catalog user_id m
        = sel.map (·.id) ∧
      (∀ c ∈ sel, c ∈ content_catalog) ∧
      sel.Pairwise (fun a b => ¬ (a.category = Y ∧ b.category = X)) := by
  obtain ⟨s1, s2, hs, hmem⟩ :=
    exchange_sort_keeps (X, n) after hafter
      ((tally_categories user_manager content_catalog user_id).length - 1) before
  rw [← htally, ← sort_categories_eq] at hs
  have hYs2 := hmem _ hY
  refine ⟨⟨s1, s2, hs, hYs2⟩, ?_⟩
  by_cases hg : user_id ≤ 0 ∨ m ≤ 0
  · refine ⟨[], ?_, by simp, List.Pairwise.nil⟩
    simp only [recommendation_by_category, if_pos hg, List.map_nil]
  · have hne : tally_categories user_manager content_catalog user_id ≠ [] := by
      rw [htally]
      simp
    obtain ⟨s2a, s2b, hs2⟩ := List.append_of_mem hYs2
    have hcats : sort_categories (tally_categories user_manager content_catalog user_id) =
        s1 ++ (X, n) :: (s2a ++ (Y, n) :: s2b) := by rw [hs, hs2]
    have hnd : ((sort_categories
        (tally_categories user_manager content_catalog user_id)).map (·.1)).Nodup :=
      ((sort_categories_perm _).map _).nodup_iff.2
        (tally_names_nodup user_manager content_catalog user_id hwf)
    have hpos : ∀ e ∈ sort_categories
        (tally_categories user_manager content_catalog user_id), 1 ≤ e.2 :=
      fun e he => tally_counts_pos user_manager content_catalog user_id e
        ((sort_categories_perm _).subset he)
    have hfX : find_category
        (sort_categories (tally_categories user_manager content_catalog user_id)) X =
        some s1.length := by
      rw [hcats]
      rw [hcats] at hnd
      exact find_category_mid s1 (X, n) _ (nodup_names_mid s1 (X, n) _ hnd)
    have hfY : find_category
        (sort_categories (tally_categories user_manager content_catalog user_id)) Y =
        some (s1.length + 1 + s2a.length) := by
      have e : s1 ++ (X, n) :: (s2a ++ (Y, n) :: s2b) =
          (s1 ++ (X, n) :: s2a) ++ (Y, n) :: s2b := by simp
      have hl : (s1 ++ (X, n) :: s2a).length = s1.length + 1 + s2a.length := by
        simp only [List.length_append, List.length_cons]
        omega
      rw [hcats, e, ← hl]
      rw [hcats, e] at hnd
      exact find_category_mid _ (Y, n) _ (nodup_names_mid _ (Y, n) _ hnd)
    have hlt := category_score_lt _ s1 s2a s2b (X, n) (Y, n)
      (sort_categories_sorted _) hpos hcats
    obtain ⟨sel, rest, hperm, hcopy, -, hpw⟩ :=
      ranked_selection qsort hq
        ((content_catalog.filter
          (fun c => (category_candidate_score user_manager user_id
            (sort_categories (tally_categories user_manager content_catalog user_id))
            c).isSome)).take 1000)
        (fun c => (category_candidate_score user_manager user_id
            (sort_categories (tally_categories user_manager content_catalog user_id))
            c).getD { content_id := c.id, score := 0 }) m
    have hitems : ∀ c ∈ sel, c ∈ content_catalog ∧
        (category_candidate_score user_manager user_id
          (sort_categories (tally_categories user_manager content_catalog user_id))
          c).isSome = true := by
      intro c hc
      have h1 := hperm.subset (List.mem_append_left _ hc)
      have h2 := List.mem_of_mem_take h1
      rw [List.mem_filter] at h2
      exact h2
    refine ⟨sel, ?_, fun c hc => (hitems c hc).1, ?_⟩
    · rw [by_category_eq qsort user_manager content_catalog user_id m hg hne, hcopy]
      apply List.map_congr_left
      intro c hc
      obtain ⟨j, -, hj⟩ := category_candidate_score_getD user_manager user_id _ c
        { content_id := c.id, score := 0 } (hitems c hc).2
      simp only [hj]
    · have hsel := (List.pairwise_append.1 hpw).1
      refine hsel.imp_of_mem ?_
      intro a b ha hb hab ⟨hca, hcb⟩
      obtain ⟨ja, hfa, hja⟩ := category_candidate_score_getD user_manager user_id _ a
        { content_id := a.id, score := 0 } (hitems a ha).2
      obtain ⟨jb, hfb, hjb⟩ := category_candidate_score_getD user_manager user_id _ b
        { content_id := b.id, score := 0 } (hitems b hb).2
      rw [hca, hfY] at hfa
      rw [hcb, hfX] at hfb
      cases hfa
      cases hfb
      simp only [hja, hjb] at hab
      exact absurd hab (not_le.2 hlt)

/-- C10 (amended), instance: user 1 of the test completed contents 1 ("Ação") and 3
("Comédia"); the two categories tie at frequency 1 and "Ação" was seen first. -/
theorem C10_tie_first_seen_when_no_later_higher_witness :
    (∃ s1 s2, sort_categories (tally_categories testManager testCatalog 1)
        = s1 ++ ("Ação".toList, 1) :: s2 ∧ ("Comédia".toList, 1) ∈ s2) ∧
    ∃ sel : List Content,
      recommendation_by_category insertion_qsort testManager testCatalog 1 5
        = sel.map (·.id) ∧
      (∀ c ∈ sel, c ∈ testCatalog) ∧
      sel.Pairwise (fun a b =>
        ¬ (a.category = "Comédia".toList ∧ b.category = "Ação".toList)) :=
  C10_tie_first_seen_when_no_later_higher insertion_qsort insertion_qsort_spec
    testManager testCatalog 1 5 (by unfold WellFormedCatalog; decide)
    "Ação".toList "Comédia".toList 1 [] [("Comédia".toList, 1)]
    (by decide) (by decide) (by decide)

/-- C12: `recommendation_has_watched(manager, u, c)` returns 1 if and only if u > 0, c > 0 and
the log contains an interaction with user_id = u, content_id = c and type PLAY or COMPLETE, and
returns 0 otherwise; when every interaction of the pair is a PAUSE or a FAVORITE it returns 0;
the result is that of the log restricted to the interactions of the pair, so interactions of
other users or on other contents do not matter.  On the stores of the test it returns 1 for
(user 1, content 1), 0 for (user 1, content 2) and 1 for (user 2, content 2). -/
theorem C12_has_watched_iff :
    (∀ (user_manager : UserManager) (u c : Int),
      (recommendation_has_watched user_manager u c = 1 ↔
        0 < u ∧ 0 < c ∧
        ∃ it ∈ user_manager.interactions, it.user_id = u ∧ it.content_id = c ∧
          (it.type = INTERACTION_PLAY ∨ it.type = INTERACTION_COMPLETE)) ∧
      (recommendation_has_watched user_manager u c = 0 ∨
        recommendation_has_watched user_manager u c = 1)) ∧
    (∀ (user_manager : UserManager) (u c : Int),
      (∀ it ∈ user_manager.interactions, it.user_id = u → it.content_id = c →
        it.type = INTERACTION_PAUSE ∨ it.type = INTERACTION_FAVORITE) →
      recommendation_has_watched user_manager u c = 0) ∧
    (∀ (user_manager : UserManager) (u c : Int),
      recommendation_has_watched user_manager u c =
        recommendation_has_watched
          { user_manager with
            interactions := user_manager.interactions.filter
              (fun it => it.user_id = u ∧ it.content_id = c) } u c) ∧
    recommendation_has_watched testManager 1 1 = 1 ∧
    recommendation_has_watched testManager 1 2 = 0 ∧
    recommendation_has_watched testManager 2 2 = 1 := by
  have hiff : ∀ (user_manager : UserManager) (u c : Int),
      recommendation_has_watched user_manager u c = 1 ↔
        0 < u ∧ 0 < c ∧
        ∃ it ∈ user_manager.interactions, it.user_id = u ∧ it.content_id = c ∧
          (it.type = INTERACTION_PLAY ∨ it.type = INTERACTION_COMPLETE) := by
    intro user_manager u c
    rw [has_watched_eq_one_iff]
    constructor
    · rintro ⟨h1, h2, it, hit, e1, e2, e3⟩
      exact ⟨h1, h2, it, hit, e1, e2, e3.symm⟩
    · rintro ⟨h1, h2, it, hit, e1, e2, e3⟩
      exact ⟨h1, h2, it, hit, e1, e2, e3.symm⟩
  refine ⟨fun user_manager u c =>
    ⟨hiff user_manager u c, has_watched_zero_or_one user_manager u c⟩, ?_, ?_,
    by decide, by decide, by decide⟩
  · intro user_manager u c h
    rcases has_watched_zero_or_one user_manager u c with h0 | h1
    · exact h0
    · obtain ⟨-, -, it, hit, e1, e2, e3⟩ := (hiff user_manager u c).1 h1
      rcases h it hit e1 e2 with h4 | h4
      · rw [h4] at e3
        rcases e3 with e3 | e3 <;> cases e3
      · rw [h4] at e3
        rcases e3 with e3 | e3 <;> cases e3
  · intro user_manager u c
    have hequiv : recommendation_has_watched user_manager u c = 1 ↔
        recommendation_has_watched
          { user_manager with
            interactions := user_manager.interactions.filter
              (fun it => it.user_id = u ∧ it.content_id = c) } u c = 1 := by
      rw [hiff, hiff]
      constructor
      · rintro ⟨h1, h2, it, hit, e1, e2, e3⟩
        refine ⟨h1, h2, it, ?_, e1, e2, e3⟩
        rw [List.mem_filter]
        exact ⟨hit, by simp [e1, e2]⟩
      · rintro ⟨h1, h2, it, hit, e1, e2, e3⟩
        exact ⟨h1, h2, it, (List.mem_filter.1 hit).1, e1, e2, e3⟩
    rcases has_watched_zero_or_one user_manager u c with h0 | h1
    · rcases has_watched_zero_or_one
        { user_manager with
          interactions := user_manager.interactions.filter
            (fun it => it.user_id = u ∧ it.content_id = c) } u c with g0 | g1
      · rw [h0, g0]
      · rw [hequiv.2 g1] at h0
        cases h0
    · rw [h1, hequiv.1 h1]

/-- C12, instance: user 1 only pauses and favourites content 1, so it does not count as
watched. -/
theorem C12_has_watched_iff_witness :
    recommendation_has_watched pauseManager 1 1 = 0 :=
  C12_has_watched_iff.2.1 pauseManager 1 1 (by decide)

/-- C13 (fails as stated): user 1 completes content 1 and plays content 2.  The similarity
strategy with cap 10 returns [2, 3]: content 2 is returned although
`recommendation_has_watched` is 1 for it, because the strategy excludes only the ids of
COMPLETE interactions. -/
theorem C13_similarity_returns_played :
    recommendation_by_content_similarity insertion_qsort blendManager blendCatalog 1 10
      = [2, 3] ∧
    recommendation_has_watched blendManager 1 2 = 1 := by
  constructor
  · rw [blend_similarity_test 10 (by decide)]
    rfl
  · decide

/-- C13 (amended): for every pair of stores in which the user has at most 100 distinct
completed content ids, every user id and every cap, no id returned by
`recommendation_by_content_similarity` has a COMPLETE interaction of that user in the log (the
strategy excludes the COMPLETE-only watched set; a content that the user only played can be
returned). -/
theorem C13_similarity_excludes_completed (qsort : List ContentScore → List ContentScore)
    (hq : QsortSpec qsort) (user_manager : UserManager) (content_catalog : ContentCatalog)
    (user_id m : Int) (h100 : (watched_set user_manager user_id).length ≤ 100) :
    ∀ id ∈ recommendation_by_content_similarity qsort user_manager content_catalog user_id m,
      ¬ ∃ it ∈ user_manager.interactions, it.user_id = user_id ∧ it.content_id = id ∧
        it.type = INTERACTION_COMPLETE := by
  intro id hid hex
  obtain ⟨it, hit, e1, e2, e3⟩ := hex
  have hmem : id ∈ watched_set user_manager user_id :=
    (mem_watched_set user_manager user_id id).2 ⟨it, hit, e1, e3, e2⟩
  have hperm := collect_watched_ids_perm user_manager user_id h100
  have hmem2 : id ∈ collect_watched_ids user_manager user_id := hperm.symm.subset hmem
  unfold recommendation_by_content_similarity at hid
  by_cases hg : user_id ≤ 0 ∨ m ≤ 0
  · rw [if_pos hg] at hid
    simp at hid
  · have hlen : ¬ (collect_watched_ids user_manager user_id).length = 0 := by
      intro h
      rw [List.length_eq_zero.1 h] at hmem2
      simp at hmem2
    simp only [if_neg hg, if_neg hlen] at hid
    obtain ⟨s, hs, rfl⟩ := mem_copy_recommendations qsort hq _ m _ hid
    obtain ⟨c, -, hstep⟩ := mem_collect_scores _ _ s hs
    by_cases hc : c.id ∈ collect_watched_ids user_manager user_id
    · rw [if_pos hc] at hstep
      cases hstep
    · rw [if_neg hc] at hstep
      simp only [Option.some.injEq] at hstep
      rw [← hstep] at hmem2
      exact hc hmem2

/-- C13 (amended), instance: content 3, returned to user 1 of the blend stores, has no COMPLETE
interaction of user 1. -/
theorem C13_similarity_excludes_completed_witness :
    recommendation_by_content_similarity insertion_qsort blendManager blendCatalog 1 10
      = [2, 3] ∧
    ¬ ∃ it ∈ blendManager.interactions, it.user_id = 1 ∧ it.content_id = 3 ∧
        it.type = INTERACTION_COMPLETE :=
  ⟨by rw [blend_similarity_test 10 (by decide)]; rfl,
   C13_similarity_excludes_completed insertion_qsort insertion_qsort_spec blendManager
    blendCatalog 1 10 (by decide) 3
    (by rw [blend_similarity_test 10 (by decide)]; decide)⟩

/-- C15 (fails as stated): user 1 of the blend stores completed content 1 and played
content 2.  With cap 1 `recommendation_personalized` returns [3], while the blend of the three
lists obtained with cap 1 (which are [2], [3] and [1]) is [2]: the function blends the lists
obtained with cap `MAX_RECOMMENDATIONS`, which are [2, 3], [3] and [1, 2, 3]. -/
theorem C15_blend_not_of_cap_m_lists :
    recommendation_personalized insertion_qsort blendManager blendCatalog 1 1 = [3] ∧
    blend insertion_qsort
      (recommendation_by_content_similarity insertion_qsort blendManager blendCatalog 1 1)
      (recommendation_by_category insertion_qsort blendManager blendCatalog 1 1)
      (recommendation_by_popularity insertion_qsort blendCatalog 1) 1 = [2] := by
  have hg : ¬ ((1 : Int) ≤ 0 ∨ (1 : Int) ≤ 0) := by decide
  constructor
  · simp only [recommendation_personalized, if_neg hg, blend_sublists_cap_ten.1,
      blend_sublists_cap_ten.2.1, blend_sublists_cap_ten.2.2, merge_blend_cap_ten,
      sort_blend_cap_ten]
    rfl
  · simp only [blend, blend_sublists_cap_one.1, blend_sublists_cap_one.2.1,
      blend_sublists_cap_one.2.2, merge_blend_cap_one, sort_blend_cap_one]
    rfl

/-- C15 (amended): for every pair of stores, user id > 0 and cap m > 0,
`recommendation_personalized` with cap m returns the blend (weights 3, 2, 1, sorted descending,
truncated to m) of the three lists that `recommendation_by_content_similarity`,
`recommendation_by_category` and `recommendation_by_popularity` return when each is called with
cap `MAX_RECOMMENDATIONS` = 10; for m = 10 these are the lists for cap m. -/
theorem C15_blend_of_cap_ten_lists (qsort : List ContentScore → List ContentScore)
    (user_manager : UserManager) (content_catalog : ContentCatalog) (user_id m : Int)
    (hu : 0 < user_id) (hm : 0 < m) :
    recommendation_personalized qsort user_manager content_catalog user_id m =
      blend qsort
        (recommendation_by_content_similarity qsort user_manager content_catalog user_id 10)
        (recommendation_by_category qsort user_manager content_catalog user_id 10)
        (recommendation_by_popularity qsort content_catalog 10) m ∧
    (m = 10 →
      recommendation_personalized qsort user_manager content_catalog user_id m =
        blend qsort
          (recommendation_by_content_similarity qsort user_manager content_catalog user_id m)
          (recommendation_by_category qsort user_manager content_catalog user_id m)
          (recommendation_by_popularity qsort content_catalog m) m) := by
  have h := personalized_eq qsort user_manager content_catalog user_id m hu hm
  refine ⟨h, ?_⟩
  intro h10
  subst h10
  exact h

/-- C15 (amended), instance: user 1 of the blend stores with cap 1. -/
theorem C15_blend_of_cap_ten_lists_witness :
    recommendation_personalized insertion_qsort blendManager blendCatalog 1 1 =
      blend insertion_qsort
        (recommendation_by_content_similarity insertion_qsort blendManager blendCatalog 1 10)
        (recommendation_by_category insertion_qsort blendManager blendCatalog 1 10)
        (recommendation_by_popularity insertion_qsort blendCatalog 10) 1 :=
  (C15_blend_of_cap_ten_lists insertion_qsort blendManager blendCatalog 1 1 (by decide)
    (by decide)).1

/-- C16: for every pair of stores, every user id > 0 and every cap m > 0,
`recommendation_personalized` returns n ids with n <= m; every returned id occurs in at least
one of the three sub-lists it computed; n >= 1 whenever the catalog is non-empty and n = 0 when
it is empty. -/
theorem C16_personalized_shape (qsort : List ContentScore → List ContentScore)
    (hq : QsortSpec qsort) (user_manager : UserManager) (content_catalog : ContentCatalog)
    (user_id m : Int) (hu : 0 < user_id) (hm : 0 < m) :
    ((recommendation_personalized qsort user_manager content_catalog user_id m).length : Int)
      ≤ m ∧
    (∀ id ∈ recommendation_personalized qsort user_manager content_catalog user_id m,
      id ∈ recommendation_by_content_similarity qsort user_manager content_catalog user_id
          MAX_RECOMMENDATIONS ∨
      id ∈ recommendation_by_category qsort user_manager content_catalog user_id
          MAX_RECOMMENDATIONS ∨
      id ∈ recommendation_by_popularity qsort content_catalog MAX_RECOMMENDATIONS) ∧
    (content_catalog ≠ [] →
      1 ≤ (recommendation_personalized qsort user_manager content_catalog user_id m).length) ∧
    (content_catalog = [] →
      (recommendation_personalized qsort user_manager content_catalog user_id m).length
        = 0) := by
  have heq := personalized_eq qsort user_manager content_catalog user_id m hu hm
  have hlen := copy_recommendations_length qsort hq
    (merge_recommendations
      (recommendation_by_content_similarity qsort user_manager content_catalog user_id
        MAX_RECOMMENDATIONS)
      (recommendation_by_category qsort user_manager content_catalog user_id
        MAX_RECOMMENDATIONS)
      (recommendation_by_popularity qsort content_catalog MAX_RECOMMENDATIONS)) m
  rw [← heq] at hlen
  refine ⟨by rw [hlen]; omega, ?_, ?_, ?_⟩
  · intro id hid
    rw [heq] at hid
    obtain ⟨s, hs, rfl⟩ := mem_copy_recommendations qsort hq _ m _ hid
    exact (merge_recommendations_ids_mem _ _ _ _).1 (List.mem_map_of_mem (·.content_id) hs)
  · intro hne
    have hP := popularity_ne_nil qsort hq content_catalog MAX_RECOMMENDATIONS (by decide) hne
    obtain ⟨x, hx⟩ := List.exists_mem_of_ne_nil _ hP
    have hmem := (merge_recommendations_ids_mem
      (recommendation_by_content_similarity qsort user_manager content_catalog user_id
        MAX_RECOMMENDATIONS)
      (recommendation_by_category qsort user_manager content_catalog user_id
        MAX_RECOMMENDATIONS)
      (recommendation_by_popularity qsort content_catalog MAX_RECOMMENDATIONS) x).2
      (Or.inr (Or.inr hx))
    have hpos : 0 < ((merge_recommendations
      (recommendation_by_content_similarity qsort user_manager content_catalog user_id
        MAX_RECOMMENDATIONS)
      (recommendation_by_category qsort user_manager content_catalog user_id
        MAX_RECOMMENDATIONS)
      (recommendation_by_popularity qsort content_catalog MAX_RECOMMENDATIONS)).map
        (·.content_id)).length := List.length_pos_of_mem hmem
    rw [List.length_map] at hpos
    rw [hlen]
    omega
  · intro hnil
    apply List.length_eq_zero.2
    apply List.eq_nil_iff_forall_not_mem.2
    intro id hid
    rw [heq] at hid
    obtain ⟨s, hs, rfl⟩ := mem_copy_recommendations qsort hq _ m _ hid
    have hmem := (merge_recommendations_ids_mem _ _ _ _).1
      (List.mem_map_of_mem (·.content_id) hs)
    rcases hmem with h | h | h
    · obtain ⟨c, hc, -⟩ := mem_by_similarity qsort hq _ _ _ _ _ h
      rw [hnil] at hc
      simp at hc
    · obtain ⟨c, hc, -⟩ := mem_by_category_catalog qsort hq _ _ _ _ _ h
      rw [hnil] at hc
      simp at hc
    · obtain ⟨c, hc, -⟩ := mem_by_popularity qsort hq _ _ _ h
      rw [hnil] at hc
      simp at hc

/-- C16, instance: user 1 of the blend stores with cap 1 receives exactly one id, content 3,
which is in the similarity list. -/
theorem C16_personalized_shape_witness :
    ((recommendation_personalized insertion_qsort blendManager blendCatalog 1 1).length : Int)
      ≤ 1 ∧
    (3 ∈ recommendation_by_content_similarity insertion_qsort blendManager blendCatalog 1
          MAX_RECOMMENDATIONS ∨
      3 ∈ recommendation_by_category insertion_qsort blendManager blendCatalog 1
          MAX_RECOMMENDATIONS ∨
      3 ∈ recommendation_by_popularity insertion_qsort blendCatalog MAX_RECOMMENDATIONS) ∧
    1 ≤ (recommendation_personalized insertion_qsort blendManager blendCatalog 1 1).length :=
  ⟨(C16_personalized_shape insertion_qsort insertion_qsort_spec blendManager blendCatalog 1 1
      (by decide) (by decide)).1,
   (C16_personalized_shape insertion_qsort insertion_qsort_spec blendManager blendCatalog 1 1
      (by decide) (by decide)).2.1 3
      (by
        have hg : ¬ ((1 : Int) ≤ 0 ∨ (1 : Int) ≤ 0) := by decide
        simp only [recommendation_personalized, if_neg hg, blend_sublists_cap_ten.1,
          blend_sublists_cap_ten.2.1, blend_sublists_cap_ten.2.2, merge_blend_cap_ten,
          sort_blend_cap_ten]
        decide),
   (C16_personalized_shape insertion_qsort insertion_qsort_spec blendManager blendCatalog 1 1
      (by decide) (by decide)).2.2.1 (by decide)⟩

/-- C17: for every manager and every id that `user_get_by_id` finds, `user_remove` returns 1
and afterwards (a) the interaction log is a rearrangement of the old log restricted to the
entries whose user_id differs from the removed id, so `user_get_interaction_count` is 0 for that
id and unchanged for every other id; (b) the user sequence is the old one with the first record
of that id erased, the other records unchanged and in their old order. -/
theorem C17_cascade_delete (manager : UserManager) (user_id : Int)
    (hex : user_get_by_id manager user_id ≠ none) :
    (user_remove manager user_id).1 = 1 ∧
    (user_remove manager user_id).2.interactions.Perm
      (manager.interactions.filter (fun it => it.user_id ≠ user_id)) ∧
    user_get_interaction_count (user_remove manager user_id).2 user_id = 0 ∧
    (∀ other, other ≠ user_id →
      user_get_interaction_count (user_remove manager user_id).2 other =
        user_get_interaction_count manager other) ∧
    ∃ l1 usr l2, manager.users = l1 ++ usr :: l2 ∧ usr.id = user_id ∧
      (∀ v ∈ l1, v.id ≠ user_id) ∧ (user_remove manager user_id).2.users = l1 ++ l2 := by
  cases hget : user_get_by_id manager user_id with
  | none => exact absurd hget hex
  | some usr =>
    obtain ⟨hpos, hid, l1, l2, e, hl1⟩ := user_get_by_id_some manager user_id usr hget
    have hg : ¬ user_id ≤ 0 := by omega
    have hfind : find_index (manager.users.map (·.id)) user_id = some l1.length := by
      rw [e]
      exact find_index_of_decomp l1 l2 usr user_id hid hl1
    have hperm : (remove_interactions_loop user_id manager.interactions.length
        manager.interactions 0).Perm
        (manager.interactions.filter (fun it => it.user_id ≠ user_id)) := by
      have h := remove_interactions_loop_perm user_id manager.interactions.length []
        manager.interactions (le_refl _) (by simp)
      simpa using h
    have hrem : user_remove manager user_id =
        (1, { users := manager.users.eraseIdx l1.length,
              interactions := remove_interactions_loop user_id manager.interactions.length
                manager.interactions 0 }) := by
      simp only [user_remove, if_neg hg, hfind]
    rw [hrem]
    refine ⟨rfl, hperm, ?_, ?_, l1, usr, l2, e, hid, hl1, ?_⟩
    · rw [user_get_interaction_count_eq _ _ hpos]
      have h := (hperm.filter (fun it => it.user_id = user_id)).length_eq
      simp only at h
      rw [h]
      have hnil : (manager.interactions.filter (fun it => decide (it.user_id ≠ user_id))).filter
          (fun it => decide (it.user_id = user_id)) = [] := by
        rw [List.filter_filter, List.filter_eq_nil_iff]
        intro it _
        simp
      rw [hnil]
      rfl
    · intro other hother
      by_cases ho : other ≤ 0
      · simp only [user_get_interaction_count, if_pos ho]
      · rw [user_get_interaction_count_eq _ _ (by omega),
          user_get_interaction_count_eq _ _ (by omega)]
        have h := (hperm.filter (fun it => it.user_id = other)).length_eq
        simp only at h
        rw [h]
        have heq : (manager.interactions.filter
            (fun it => decide (it.user_id ≠ user_id))).filter
            (fun it => decide (it.user_id = other)) =
            manager.interactions.filter (fun it => decide (it.user_id = other)) := by
          rw [List.filter_filter]
          apply List.filter_congr
          intro it _
          by_cases hit : it.user_id = other
          · have : ¬ it.user_id = user_id := by rw [hit]; exact hother
            simp [hit, hother]
          · simp [hit]
        rw [heq]
    · simp only
      rw [e]
      exact eraseIdx_mid l1 usr l2

/-- C17, instance: removing user 2 from the manager of the test. -/
theorem C17_cascade_delete_witness :
    (user_remove testManager 2).1 = 1 ∧
    (user_remove testManager 2).2.interactions.Perm
      (testManager.interactions.filter (fun it => it.user_id ≠ 2)) ∧
    user_get_interaction_count (user_remove testManager 2).2 2 = 0 ∧
    (∀ other, other ≠ 2 →
      user_get_interaction_count (user_remove testManager 2).2 other =
        user_get_interaction_count testManager other) ∧
    ∃ l1 usr l2, testManager.users = l1 ++ usr :: l2 ∧ usr.id = 2 ∧
      (∀ v ∈ l1, v.id ≠ 2) ∧ (user_remove testManager 2).2.users = l1 ++ l2 :=
  C17_cascade_delete testManager 2 (by decide)

/-- C18: `user_register_interaction(manager, u, c, t)` returns 1 if and only if u > 0, c > 0
and a user with id u exists, and returns 0 otherwise; when it returns 0 the manager is
unchanged; when it returns 1 the log is the old log with exactly the entry (u, c, t, now)
appended at the end, and the user sequence differs from the old one only in the first record
of id u, whose id and username are kept, whose interaction_count is one more than before and
whose favorites are unchanged unless t is FAVORITE. -/
theorem C18_register_interaction (manager : UserManager) (u c : Int) (t : InteractionType)
    (now : Int) :
    ((user_register_interaction manager u c t now).1 = 1 ↔
      0 < u ∧ 0 < c ∧ ∃ v ∈ manager.users, v.id = u) ∧
    ((user_register_interaction manager u c t now).1 = 0 ∨
      (user_register_interaction manager u c t now).1 = 1) ∧
    ((user_register_interaction manager u c t now).1 = 0 →
      (user_register_interaction manager u c t now).2 = manager) ∧
    ((user_register_interaction manager u c t now).1 = 1 →
      (user_register_interaction manager u c t now).2.interactions =
        manager.interactions ++
          [{ user_id := u, content_id := c, type := t, timestamp := now }] ∧
      ∃ l1 usr l2 usr', manager.users = l1 ++ usr :: l2 ∧ (∀ v ∈ l1, v.id ≠ u) ∧
        usr.id = u ∧
        (user_register_interaction manager u c t now).2.users = l1 ++ usr' :: l2 ∧
        usr'.id = usr.id ∧ usr'.username = usr.username ∧
        usr'.interaction_count = usr.interaction_count + 1 ∧
        (t ≠ INTERACTION_FAVORITE → usr'.favorite_contents = usr.favorite_contents)) := by
  rcases user_register_interaction_cases manager u c t now with
    ⟨h0, hno⟩ | ⟨hu, hc, l1, usr, l2, e, hid, hl1, -, h1⟩
  · rw [h0]
    refine ⟨⟨fun h => (by cases h), fun h => absurd h hno⟩, Or.inl rfl, fun _ => rfl, ?_⟩
    intro h
    cases h
  · rw [h1]
    refine ⟨⟨fun _ => ⟨hu, hc, usr, by rw [e]; simp, hid⟩, fun _ => rfl⟩, Or.inr rfl, ?_, ?_⟩
    · intro h
      cases h
    · intro _
      refine ⟨rfl, l1, usr, l2, _, e, hl1, hid, rfl, rfl, rfl, rfl, ?_⟩
      intro ht
      simp [ht]

/-- C18, instance: in the manager of the test the users 1 and 2 exist, so registering a PLAY of
content 5 by user 2 returns 1. -/
theorem C18_register_interaction_witness :
    (user_register_interaction testManager 2 5 INTERACTION_PLAY 7).1 = 1 ∧
    (user_register_interaction testManager 2 5 INTERACTION_PLAY 7).2.interactions =
      testManager.interactions ++
        [{ user_id := 2, content_id := 5, type := INTERACTION_PLAY, timestamp := 7 }] :=
  ⟨(C18_register_interaction testManager 2 5 INTERACTION_PLAY 7).1.2 (by decide),
   ((C18_register_interaction testManager 2 5 INTERACTION_PLAY 7).2.2.2 (by decide)).1⟩

/-- C19 (fails as stated): the only user has the 100 favorites 1, ..., 100.  Registering a
FAVORITE interaction on content 101 returns 1 and logs the entry, but content 101 is not among
the favorites afterwards. -/
theorem C19_favorite_not_added_when_full :
    (user_register_interaction fullFavoritesManager 1 101 INTERACTION_FAVORITE 0).1 = 1 ∧
    (user_register_interaction fullFavoritesManager 1 101 INTERACTION_FAVORITE 0).2.interactions
      = [{ user_id := 1, content_id := 101, type := INTERACTION_FAVORITE, timestamp := 0 }] ∧
    ∀ usr ∈ (user_register_interaction fullFavoritesManager 1 101
        INTERACTION_FAVORITE 0).2.users, 101 ∉ usr.favorite_contents := by
  decide

/-- C19 (amended): for every manager, user u that `user_get_by_id` finds and content id c > 0,
`user_register_interaction(manager, u, c, FAVORITE)` returns 1 and afterwards the log is the old
log followed by the new FAVORITE entry; user u is still found afterwards, and c is a member of
the favorites of user u afterwards exactly when u had fewer than 100 favorites before the call or
c already was a favorite of u. -/
theorem C19_favorite_logs_and_favourites (manager : UserManager) (u c now : Int) (usr : User)
    (hget : user_get_by_id manager u = some usr) (hc : 0 < c) :
    (user_register_interaction manager u c INTERACTION_FAVORITE now).1 = 1 ∧
    (user_register_interaction manager u c INTERACTION_FAVORITE now).2.interactions =
      manager.interactions ++
        [{ user_id := u, content_id := c, type := INTERACTION_FAVORITE, timestamp := now }] ∧
    ∃ usr', user_get_by_id (user_register_interaction manager u c INTERACTION_FAVORITE now).2 u
        = some usr' ∧
      (c ∈ usr'.favorite_contents ↔
        (usr.favorite_contents.length < 100 ∨ c ∈ usr.favorite_contents)) := by
  rcases user_register_interaction_cases manager u c INTERACTION_FAVORITE now with
    ⟨-, hno⟩ | ⟨hu, -, l1, usr2, l2, e, hid, hl1, hget2, h1⟩
  · exfalso
    obtain ⟨hpos, hid, l1, l2, e, -⟩ := user_get_by_id_some manager u usr hget
    exact hno ⟨hpos, hc, usr, by rw [e]; simp, hid⟩
  · rw [hget] at hget2
    cases hget2
    rw [h1]
    refine ⟨rfl, rfl, _, user_get_by_id_of_decomp _ l1 l2 _ _ u hu rfl hid hl1, ?_⟩
    simp only
    by_cases hmem : c ∈ usr.favorite_contents
    · simp [hmem]
    · by_cases hlt : usr.favorite_contents.length < 100
      · simp [hmem, hlt]
      · simp [hmem, hlt]

/-- C19 (amended), instance: user 1 of the test has no favorites; a FAVORITE interaction on
content 4 returns 1, logs the entry and makes content 4 a favorite. -/
theorem C19_favorite_logs_and_favourites_witness :
    (user_register_interaction testManager 1 4 INTERACTION_FAVORITE 0).1 = 1 ∧
    (user_register_interaction testManager 1 4 INTERACTION_FAVORITE 0).2.interactions =
      testManager.interactions ++
        [{ user_id := 1, content_id := 4, type := INTERACTION_FAVORITE, timestamp := 0 }] ∧
    ∃ usr', user_get_by_id (user_register_interaction testManager 1 4
        INTERACTION_FAVORITE 0).2 1 = some usr' ∧
      (4 ∈ usr'.favorite_contents ↔
        (([] : List Int).length < 100 ∨ (4 : Int) ∈ ([] : List Int))) :=
  C19_favorite_logs_and_favourites testManager 1 4 0
    { id := 1, username := "Utilizador1".toList, favorite_contents := [],
      interaction_count := 2 }
    (by decide) (by decide)

/-- C20: for every manager, user id and content id, a second call of `user_add_favorite` with
the same arguments leaves the manager in the state reached after the first call and returns the
value that the first call returned; when the content (id > 0) was not a favorite and the user
had fewer than 100 favorites, the favorites afterwards are the old ones followed by the new id,
one more in total. -/
theorem C20_add_favorite_idempotent (manager : UserManager) (u c : Int) :
    (user_add_favorite (user_add_favorite manager u c).2 u c).2 =
      (user_add_favorite manager u c).2 ∧
    (user_add_favorite (user_add_favorite manager u c).2 u c).1 =
      (user_add_favorite manager u c).1 ∧
    (∀ usr, user_get_by_id manager u = some usr → 0 < c → c ∉ usr.favorite_contents →
      usr.favorite_contents.length < 100 →
      ∃ usr', user_get_by_id (user_add_favorite (user_add_favorite manager u c).2 u c).2 u
          = some usr' ∧
        usr'.favorite_contents = usr.favorite_contents ++ [c] ∧
        usr'.favorite_contents.length = usr.favorite_contents.length + 1) := by
  by_cases hg : u ≤ 0 ∨ c ≤ 0
  · have h0 : user_add_favorite manager u c = (0, manager) := by
      simp only [user_add_favorite, if_pos hg]
    rw [h0]
    simp only
    rw [h0]
    refine ⟨rfl, rfl, ?_⟩
    intro usr hget hc
    have := (user_get_by_id_some manager u usr hget).1
    omega
  · cases hget : user_get_by_id manager u with
    | none =>
      have h0 : user_add_favorite manager u c = (0, manager) := by
        simp only [user_add_favorite, if_neg hg, hget]
      rw [h0]
      simp only
      rw [h0]
      refine ⟨rfl, rfl, ?_⟩
      intro usr h
      cases h
    | some usr =>
      obtain ⟨hpos, hid, l1, l2, e, hl1⟩ := user_get_by_id_some manager u usr hget
      obtain ⟨users, log⟩ := manager
      simp only at e
      subst e
      have hc : 0 < c := by omega
      have hfirst := user_add_favorite_of_decomp l1 l2 log usr u c hpos hc hid hl1
      by_cases h1 : c ∈ usr.favorite_contents
      · rw [if_pos h1] at hfirst
        rw [hfirst]
        simp only
        rw [hfirst]
        refine ⟨rfl, rfl, ?_⟩
        intro usr2 hget2 _ hnot
        cases hget2
        exact absurd h1 hnot
      · rw [if_neg h1] at hfirst
        by_cases h2 : usr.favorite_contents.length ≥ 100
        · rw [if_pos h2] at hfirst
          rw [hfirst]
          simp only
          rw [hfirst]
          refine ⟨rfl, rfl, ?_⟩
          intro usr2 hget2 _ _ hlt
          cases hget2
          omega
        · rw [if_neg h2] at hfirst
          have hsecond := user_add_favorite_of_decomp l1 l2 log
            { usr with favorite_contents := usr.favorite_contents ++ [c] } u c hpos hc hid hl1
          have hmem : c ∈ usr.favorite_contents ++ [c] := by simp
          simp only [if_pos hmem] at hsecond
          rw [hfirst]
          simp only
          rw [hsecond]
          refine ⟨rfl, rfl, ?_⟩
          intro usr2 hget2 _ _ _
          cases hget2
          refine ⟨_, user_get_by_id_of_decomp _ l1 l2 log _ u hpos rfl hid hl1, rfl, ?_⟩
          simp

/-- C20, instance: user 1, whose only favorite is content 1, adds content 2 twice. -/
theorem C20_add_favorite_idempotent_witness :
    ∃ usr', user_get_by_id
        (user_add_favorite (user_add_favorite pauseManager 1 2).2 1 2).2 1 = some usr' ∧
      usr'.favorite_contents = [1] ++ [2] ∧
      usr'.favorite_contents.length = [(1 : Int)].length + 1 :=
  (C20_add_favorite_idempotent pauseManager 1 2).2.2
    { id := 1, username := "ana".toList, favorite_contents := [1], interaction_count := 2 }
    (by decide) (by decide) (by decide) (by decide)

/-- C21: for every user that `user_get_by_id` finds with 100 favorites and every content id
c > 0 not among them, `user_add_favorite` returns 0 and leaves the whole manager unchanged; for
every list that `list_get_by_id` finds with 100 items and every content id c > 0 not among them,
`list_add_content` returns 0 and leaves the list manager unchanged; in every manager reached
from the empty manager by calls of `user_add`, `user_remove`, `user_register_interaction`,
`user_add_favorite` and `user_remove_favorite`, no user has more than 100 favorites. -/
theorem C21_capacity_exceeded :
    (∀ (manager : UserManager) (user_id c : Int) (usr : User),
      user_get_by_id manager user_id = some usr → usr.favorite_contents.length = 100 → 0 < c →
      c ∉ usr.favorite_contents → user_add_favorite manager user_id c = (0, manager)) ∧
    (∀ (lists : ListManager) (list_id c : Int) (l : CustomList),
      list_get_by_id lists list_id = some l → l.content_ids.length = 100 → 0 < c →
      c ∉ l.content_ids → list_add_content lists list_id c = (0, lists)) ∧
    (∀ (calls : List UserCall), ∀ u ∈ (run_calls calls).users,
      u.favorite_contents.length ≤ 100) := by
  refine ⟨?_, ?_, ?_⟩
  · intro manager user_id c usr hget hlen hc hnot
    have hpos := (user_get_by_id_some manager user_id usr hget).1
    have hg : ¬ (user_id ≤ 0 ∨ c ≤ 0) := by omega
    have hfull : usr.favorite_contents.length ≥ 100 := by omega
    simp only [user_add_favorite, if_neg hg, hget, if_neg hnot, if_pos hfull]
  · intro lists list_id c l hget hlen hc hnot
    have hpos : 0 < list_id := by
      unfold list_get_by_id at hget
      by_cases h : list_id ≤ 0
      · rw [if_pos h] at hget
        cases hget
      · omega
    have hg : ¬ (list_id ≤ 0 ∨ c ≤ 0) := by omega
    have hfull : l.content_ids.length ≥ MAX_LIST_ITEMS := by
      unfold MAX_LIST_ITEMS
      omega
    simp only [list_add_content, if_neg hg, hget, if_neg hnot, if_pos hfull]
  · intro calls
    exact foldl_calls_favorites_bound calls _ (by simp)

/-- C21, instance: the user with the favorites 1, ..., 100 and the list with the items
1, ..., 100 do not take content 101; after a FAVORITE interaction and the addition of the same
favorite the user has one favorite. -/
theorem C21_capacity_exceeded_witness :
    user_add_favorite fullFavoritesManager 1 101 = (0, fullFavoritesManager) ∧
    list_add_content fullList 1 101 = (0, fullList) ∧
    (∀ u ∈ (run_calls [UserCall.add "ana".toList,
        UserCall.register_interaction 1 7 INTERACTION_FAVORITE 0,
        UserCall.add_favorite 1 7]).users, u.favorite_contents.length ≤ 100) :=
  ⟨C21_capacity_exceeded.1 fullFavoritesManager 1 101
      { id := 1, username := "ana".toList,
        favorite_contents := (List.range 100).map (fun i => (i : Int) + 1),
        interaction_count := 0 }
      (by decide) (by decide) (by decide) (by decide),
   C21_capacity_exceeded.2.1 fullList 1 101
      { id := 1, user_id := 1, name := "x".toList,
        content_ids := (List.range 100).map (fun i => (i : Int) + 1) }
      (by decide) (by decide) (by decide) (by decide),
   C21_capacity_exceeded.2.2 _⟩

/-- C22: for every manager and every username shorter than 50 characters, `user_add` returns
-1 if and only if the username is empty or some user of the manager has exactly that username
(equality of the character sequences, so letter case counts), and then the manager is unchanged;
otherwise it returns an id > 0 that no user of the manager carries, appends a user with that id,
that username, no favorites and interaction_count 0, leaves the other users and the log
unchanged, and afterwards `user_get_by_id` of the new id and `user_get_by_username` of the name
both return the new user. -/
theorem C22_user_add (manager : UserManager) (username : CString)
    (hlen : username.length < MAX_USERNAME_LENGTH) :
    ((user_add manager username).1 = -1 ↔
      username = [] ∨ ∃ u ∈ manager.users, u.username = username) ∧
    ((user_add manager username).1 = -1 → (user_add manager username).2 = manager) ∧
    ((user_add manager username).1 ≠ -1 →
      0 < (user_add manager username).1 ∧
      (∀ u ∈ manager.users, u.id ≠ (user_add manager username).1) ∧
      (user_add manager username).2.users =
        manager.users ++
          [{ id := (user_add manager username).1, username := username,
             favorite_contents := [], interaction_count := 0 }] ∧
      (user_add manager username).2.interactions = manager.interactions ∧
      user_get_by_id (user_add manager username).2 (user_add manager username).1 =
        some { id := (user_add manager username).1, username := username,
               favorite_contents := [], interaction_count := 0 } ∧
      user_get_by_username (user_add manager username).2 username =
        some { id := (user_add manager username).1, username := username,
               favorite_contents := [], interaction_count := 0 }) := by
  have hposid := find_next_id_pos (manager.users.map (·.id))
  rcases user_add_cases manager username with ⟨h, hdup⟩ | ⟨hno, h⟩
  · rw [h]
    exact ⟨⟨fun _ => hdup, fun _ => rfl⟩, fun _ => rfl, fun hne => absurd rfl hne⟩
  · rw [h, take_bound username MAX_USERNAME_LENGTH hlen]
    have hfresh : ∀ u ∈ manager.users, u.id ≠ find_next_id (manager.users.map (·.id)) := by
      intro u hu
      have := find_next_id_gt (manager.users.map (·.id)) u.id (List.mem_map_of_mem _ hu)
      omega
    refine ⟨⟨?_, fun hd => absurd hd hno⟩, ?_, fun _ => ⟨hposid, hfresh, rfl, rfl, ?_, ?_⟩⟩
    · intro heq
      simp only at heq
      omega
    · intro heq
      simp only at heq
      omega
    · exact user_get_by_id_of_decomp _ manager.users [] _ _ _ hposid (by simp) rfl hfresh
    · unfold user_get_by_username
      rw [List.find?_eq_some]
      refine ⟨by simp, manager.users, [], by simp, ?_⟩
      intro u hu
      have : ¬ u.username = username := fun hname => hno (Or.inr ⟨u, hu, hname⟩)
      simpa using this

/-- C22, instance (`test_user`): in the manager of the test, which holds "Utilizador1" and
"Utilizador2", the name "Utilizador1" is refused and the name "utilizador1", which differs only
in letter case, is accepted with the new id 3 and found under that id and under that name. -/
theorem C22_user_add_witness :
    (user_add testManager "Utilizador1".toList).1 = -1 ∧
    (user_add testManager "Utilizador1".toList).2 = testManager ∧
    (user_add testManager "utilizador1".toList).1 = 3 ∧
    user_get_by_id (user_add testManager "utilizador1".toList).2
        (user_add testManager "utilizador1".toList).1 =
      some { id := (user_add testManager "utilizador1".toList).1,
             username := "utilizador1".toList, favorite_contents := [],
             interaction_count := 0 } ∧
    user_get_by_username (user_add testManager "utilizador1".toList).2 "utilizador1".toList =
      some { id := (user_add testManager "utilizador1".toList).1,
             username := "utilizador1".toList, favorite_contents := [],
             interaction_count := 0 } :=
  ⟨(C22_user_add testManager "Utilizador1".toList (by decide)).1.2 (by decide),
   (C22_user_add testManager "Utilizador1".toList (by decide)).2.1 (by decide),
   by decide,
   ((C22_user_add testManager "utilizador1".toList (by decide)).2.2 (by decide)).2.2.2.2.1,
   ((C22_user_add testManager "utilizador1".toList (by decide)).2.2 (by decide)).2.2.2.2.2⟩

/-- C23 (the code differs): starting from the empty manager, two calls of `user_add` with the
same name of 60 characters both succeed, with ids 1 and 2; the duplicate check compares the
stored names with the whole argument, and both records store its first 49 characters, so the
two user records hold the same username. -/
theorem C23_long_username_stored_twice :
    (user_add { users := [], interactions := [] } longUsername).1 = 1 ∧
    (user_add (user_add { users := [], interactions := [] } longUsername).2 longUsername).1
      = 2 ∧
    (run_calls [UserCall.add longUsername, UserCall.add longUsername]).users =
      [ { id := 1, username := List.replicate 49 'a', favorite_contents := [],
          interaction_count := 0 },
        { id := 2, username := List.replicate 49 'a', favorite_contents := [],
          interaction_count := 0 } ] ∧
    ¬ ((run_calls [UserCall.add longUsername, UserCall.add longUsername]).users.map
        (·.username)).Nodup := by
  refine ⟨by decide, by decide, by decide, ?_⟩
  have h : (run_calls [UserCall.add longUsername, UserCall.add longUsername]).users.map
      (·.username) = [List.replicate 49 'a', List.replicate 49 'a'] := by decide
  rw [h]
  simp

/-- C24: for every catalog and id, `content_remove` returns 1 if and only if id > 0 and some
record carries that id, and returns 0 otherwise; when it returns 1 the catalog is the old
sequence with the first record of that id erased, the surviving records unchanged and in their
old relative order, the count is one less and, when the ids of the old catalog are distinct,
`content_get_by_id` of that id finds nothing; when it returns 0 the catalog is unchanged. -/
theorem C24_content_remove (catalog : ContentCatalog) (id : Int) :
    ((content_remove catalog id).1 = 1 ↔ 0 < id ∧ ∃ c ∈ catalog, c.id = id) ∧
    ((content_remove catalog id).1 = 0 ∨ (content_remove catalog id).1 = 1) ∧
    ((content_remove catalog id).1 = 1 →
      (∃ l1 c l2, catalog = l1 ++ c :: l2 ∧ c.id = id ∧ (∀ d ∈ l1, d.id ≠ id) ∧
        (content_remove catalog id).2 = l1 ++ l2) ∧
      (content_remove catalog id).2.Sublist catalog ∧
      (content_remove catalog id).2.length + 1 = catalog.length ∧
      ((catalog.map (·.id)).Nodup →
        content_get_by_id (content_remove catalog id).2 id = none)) ∧
    ((content_remove catalog id).1 = 0 → (content_remove catalog id).2 = catalog) := by
  by_cases hg : id ≤ 0
  · have h0 : content_remove catalog id = (0, catalog) := by
      simp only [content_remove, if_pos hg]
    rw [h0]
    refine ⟨⟨fun h => (by cases h), ?_⟩, Or.inl rfl, fun h => (by cases h), fun _ => rfl⟩
    rintro ⟨h, -⟩
    omega
  · cases hfind : find_index (catalog.map (·.id)) id with
    | none =>
      have h0 : content_remove catalog id = (0, catalog) := by
        simp only [content_remove, if_neg hg, hfind]
      rw [h0]
      refine ⟨⟨fun h => (by cases h), ?_⟩, Or.inl rfl, fun h => (by cases h), fun _ => rfl⟩
      rintro ⟨-, c, hc, hcid⟩
      obtain ⟨k, hk⟩ := find_index_map_of_mem (·.id) catalog c hc
      simp only [hcid] at hk
      rw [hfind] at hk
      cases hk
    | some index =>
      have h1 : content_remove catalog id = (1, catalog.eraseIdx index) := by
        simp only [content_remove, if_neg hg, hfind]
      obtain ⟨l1, c, l2, e, hcid, hl1, herase⟩ :=
        find_index_map_some (·.id) catalog id index hfind
      rw [h1]
      refine ⟨⟨fun _ => ⟨by omega, c, by rw [e]; simp, hcid⟩, fun _ => rfl⟩, Or.inr rfl,
        fun _ => ⟨⟨l1, c, l2, e, hcid, hl1, herase⟩, ?_, ?_, ?_⟩, fun h => (by cases h)⟩
      · exact List.eraseIdx_sublist _ _
      · simp only
        rw [herase, e]
        simp
        omega
      · intro hnd
        simp only
        rw [herase, content_get_by_id_eq_none_iff]
        rintro ⟨-, d, hd, hdid⟩
        rw [e] at hnd
        simp only [List.map_append, List.map_cons] at hnd
        rcases List.mem_append.1 hd with hd1 | hd2
        · exact hl1 d hd1 hdid
        · have h2 := (List.nodup_append.1 hnd).2.1
          have h3 := (List.nodup_cons.1 h2).1
          apply h3
          rw [hcid, ← hdid]
          exact List.mem_map_of_mem _ hd2

/-- C24, instance (`test_content`): removing content 2 from the catalog of the test returns 1,
leaves two records and `content_get_by_id` of 2 finds nothing. -/
theorem C24_content_remove_witness :
    (content_remove testContentCatalog 2).1 = 1 ∧
    (content_remove testContentCatalog 2).2.length + 1 = testContentCatalog.length ∧
    content_get_by_id (content_remove testContentCatalog 2).2 2 = none :=
  ⟨(C24_content_remove testContentCatalog 2).1.2 (by decide),
   ((C24_content_remove testContentCatalog 2).2.2.1 (by decide)).2.2.1,
   ((C24_content_remove testContentCatalog 2).2.2.1 (by decide)).2.2.2 (by decide)⟩

/-- C25: for every catalog and every id that `content_get_by_id` finds, `content_edit` returns 1
and replaces the first record of that id by a record with duration = the argument when the
argument is > 0 and the old duration otherwise (so for 0), age_rating = the argument when it is
>= 0 and the old age_rating when it is negative, title and category replaced (by the first 99
and 49 characters of the argument) only when one is supplied, id and views unchanged; every
other record and the store order are unchanged, so the new duration is 0 or the new age_rating
negative only if the old one was.  For an id that `content_get_by_id` does not find it returns
0 and the catalog is unchanged. -/
theorem C25_content_edit_fields (catalog : ContentCatalog) (id : Int)
    (title category : Option CString) (duration age_rating : Int) :
    (∀ old, content_get_by_id catalog id = some old →
      (content_edit catalog id title category duration age_rating).1 = 1 ∧
      ∃ l1 l2 new, catalog = l1 ++ old :: l2 ∧ (∀ d ∈ l1, d.id ≠ id) ∧
        (content_edit catalog id title category duration age_rating).2 = l1 ++ new :: l2 ∧
        (0 < duration → new.duration = duration) ∧
        (duration = 0 → new.duration = old.duration) ∧
        (0 ≤ age_rating → new.age_rating = age_rating) ∧
        (age_rating < 0 → new.age_rating = old.age_rating) ∧
        (∀ t, title = some t → new.title = t.take (MAX_TITLE_LENGTH - 1)) ∧
        (title = none → new.title = old.title) ∧
        (∀ t, category = some t → new.category = t.take (MAX_CATEGORY_LENGTH - 1)) ∧
        (category = none → new.category = old.category) ∧
        new.id = old.id ∧ new.views = old.views ∧
        (new.duration = 0 → old.duration = 0) ∧
        (new.age_rating < 0 → old.age_rating = new.age_rating)) ∧
    (content_get_by_id catalog id = none →
      content_edit catalog id title category duration age_rating = (0, catalog)) := by
  refine ⟨?_, content_edit_of_none catalog id title category duration age_rating⟩
  intro old hget
  obtain ⟨hpos, hid, l1, l2, e, hl1⟩ := content_get_by_id_decomp catalog id old hget
  subst e
  rw [content_edit_of_decomp l1 l2 old id title category duration age_rating hpos hid hl1]
  refine ⟨rfl, l1, l2, _, rfl, hl1, rfl, ?_, ?_, ?_, ?_, ?_, ?_, ?_, ?_,
    edit_fields_id _ _ _ _ _, edit_fields_views _ _ _ _ _, ?_, ?_⟩
  · intro h
    rw [edit_fields_duration, if_pos h]
  · intro h
    rw [edit_fields_duration, if_neg (by omega)]
  · intro h
    rw [edit_fields_age_rating, if_pos h]
  · intro h
    rw [edit_fields_age_rating, if_neg (by omega)]
  · intro t ht
    rw [edit_fields_title, ht]
  · intro ht
    rw [edit_fields_title, ht]
  · intro t ht
    rw [edit_fields_category, ht]
  · intro ht
    rw [edit_fields_category, ht]
  · rw [edit_fields_duration]
    by_cases h : duration > 0
    · rw [if_pos h]
      intro h0
      omega
    · rw [if_neg h]
      exact fun h0 => h0
  · rw [edit_fields_age_rating]
    by_cases h : age_rating ≥ 0
    · rw [if_pos h]
      intro h0
      omega
    · rw [if_neg h]
      intro _
      rfl

/-- C25, instance (`test_content`): editing content 1 of the catalog of the test with a new
title, no category and duration 130 returns 1 and stores the title and the duration. -/
theorem C25_content_edit_fields_witness :
    (content_edit testContentCatalog 1 (some "Filme 1 - Edição Especial".toList) none 130
      (-1)).1 = 1 ∧
    ∃ l1 l2 new, testContentCatalog = l1 ++
        { id := 1, title := "Filme 1".toList, category := "Ação".toList, duration := 120,
          age_rating := 16, views := 0 } :: l2 ∧ (∀ d ∈ l1, d.id ≠ 1) ∧
      (content_edit testContentCatalog 1 (some "Filme 1 - Edição Especial".toList) none 130
        (-1)).2 = l1 ++ new :: l2 ∧
      new.duration = 130 ∧ new.age_rating = 16 ∧
      new.title = "Filme 1 - Edição Especial".toList.take (MAX_TITLE_LENGTH - 1) ∧
      new.category = "Ação".toList := by
  obtain ⟨h1, l1, l2, new, e, hl1, h2, hd, -, -, ha, ht, -, -, hc, -⟩ :=
    (C25_content_edit_fields testContentCatalog 1 (some "Filme 1 - Edição Especial".toList) none
      130 (-1)).1
      { id := 1, title := "Filme 1".toList, category := "Ação".toList, duration := 120,
        age_rating := 16, views := 0 } (by decide)
  exact ⟨h1, l1, l2, new, e, hl1, h2, hd (by decide), ha (by decide), ht _ rfl, hc rfl⟩

/-- C26 (the code differs): `test_content` edits content 1, whose age_rating is 16, with the
arguments (new title, no category, 130, 0).  `content_edit` returns 1 and the record found
afterwards has age_rating 0, not 16, because the test `age_rating >= 0` lets 0 through. -/
theorem C26_edit_age_rating_zero_overwrites :
    content_get_by_id testContentCatalog 1 =
      some { id := 1, title := "Filme 1".toList, category := "Ação".toList, duration := 120,
             age_rating := 16, views := 0 } ∧
    (content_edit testContentCatalog 1 (some "Filme 1 - Edição Especial".toList) none 130 0).1
      = 1 ∧
    content_get_by_id
        (content_edit testContentCatalog 1 (some "Filme 1 - Edição Especial".toList) none 130
          0).2 1 =
      some { id := 1, title := "Filme 1 - Edição Especial".toList, category := "Ação".toList,
             duration := 130, age_rating := 0, views := 0 } := by
  decide

/-- C27 (fails as stated): editing content 1 of the catalog of the test with an empty title and
an empty category (duration 0 and age_rating -1, which keep their fields) returns 1 and leaves
the record with the empty title and the empty category. -/
theorem C27_empty_string_overwrites :
    (content_edit testContentCatalog 1 (some []) (some []) 0 (-1)).1 = 1 ∧
    content_get_by_id (content_edit testContentCatalog 1 (some []) (some []) 0 (-1)).2 1 =
      some { id := 1, title := [], category := [], duration := 120, age_rating := 16,
             views := 0 } := by
  decide

/-- C27 (amended): for every catalog and every content that `content_get_by_id` finds, calling
`content_edit` with no title (`NULL`) leaves the title as it was and calling it with no category
(`NULL`) leaves the category as it was; the edit menu of `main.c` passes `NULL` for an empty line
of input, so an empty line there leaves the field as it was. -/
theorem C27_absent_string_keeps (catalog : ContentCatalog) (id : Int) (old : Content)
    (hget : content_get_by_id catalog id = some old)
    (title category : Option CString) (duration age_rating : Int) :
    (∃ new, content_get_by_id (content_edit catalog id none category duration age_rating).2 id
        = some new ∧ new.title = old.title) ∧
    (∃ new, content_get_by_id (content_edit catalog id title none duration age_rating).2 id
        = some new ∧ new.category = old.category) ∧
    (∃ new, content_get_by_id
        (content_edit catalog id (edit_argument []) (edit_argument []) duration age_rating).2 id
        = some new ∧ new.title = old.title ∧ new.category = old.category) := by
  obtain ⟨hpos, hid, l1, l2, e, hl1⟩ := content_get_by_id_decomp catalog id old hget
  subst e
  have key : ∀ t c : Option CString,
      content_get_by_id (content_edit (l1 ++ old :: l2) id t c duration age_rating).2 id =
        some (edit_fields t c duration age_rating old) := by
    intro t c
    rw [content_edit_of_decomp l1 l2 old id t c duration age_rating hpos hid hl1]
    exact content_get_by_id_of_decomp l1 l2 _ id hpos
      ((edit_fields_id t c duration age_rating old).trans hid) hl1
  have hempty : edit_argument [] = none := rfl
  refine ⟨⟨_, key none category, ?_⟩, ⟨_, key title none, ?_⟩,
    ⟨edit_fields none none duration age_rating old, ?_, ?_, ?_⟩⟩
  · rw [edit_fields_title]
  · rw [edit_fields_category]
  · rw [hempty]
    exact key none none
  · rw [edit_fields_title]
  · rw [edit_fields_category]

/-- C27 (amended), instance: editing content 1 of the catalog of the test with no title and no
category keeps "Filme 1" and "Ação". -/
theorem C27_absent_string_keeps_witness :
    (∃ new, content_get_by_id (content_edit testContentCatalog 1 none (some "x".toList) 130
        0).2 1 = some new ∧ new.title = "Filme 1".toList) ∧
    (∃ new, content_get_by_id (content_edit testContentCatalog 1 (some "y".toList) none 130
        0).2 1 = some new ∧ new.category = "Ação".toList) :=
  ⟨(C27_absent_string_keeps testContentCatalog 1
      { id := 1, title := "Filme 1".toList, category := "Ação".toList, duration := 120,
        age_rating := 16, views := 0 } (by decide) (some "y".toList) (some "x".toList) 130 0).1,
   (C27_absent_string_keeps testContentCatalog 1
      { id := 1, title := "Filme 1".toList, category := "Ação".toList, duration := 120,
        age_rating := 16, views := 0 } (by decide) (some "y".toList) (some "x".toList) 130
      0).2.1⟩

/-- C28 (fails as stated): the only record of the catalog has the title of 99 letters `a`.  A
search for the string of 100 letters `a` with cap 10 returns the id of that record, although the
title, being shorter, does not contain the search string; the function compares with the first
99 characters of the search string. -/
theorem C28_long_search_string_matches :
    WellFormedCatalog boundCatalog ∧
    content_search_by_title boundCatalog (List.replicate 100 'a') 10 = [1] ∧
    first_matches (fun c => title_contains (List.replicate 100 'a') c.title) boundCatalog 10
      = [] := by
  refine ⟨by unfold WellFormedCatalog; decide, by decide, ?_⟩
  have h : title_contains (List.replicate 100 'a') (List.replicate 99 'a') = false := by
    unfold title_contains
    rw [decide_eq_false_iff_not]
    intro hin
    have := hin.length_le
    simp at this
  have hf : boundCatalog.filter
      (fun c => title_contains (List.replicate 100 'a') c.title) = [] := by
    rw [List.filter_eq_nil_iff]
    intro c hc
    have hct : c.title = List.replicate 99 'a' := by
      unfold boundCatalog at hc
      rw [List.mem_singleton] at hc
      rw [hc]
    rw [hct, h]
    exact Bool.false_ne_true
  unfold first_matches
  rw [hf]
  rfl

/-- C28 (amended): for every catalog, every search string s shorter than 100 characters and
every cap k > 0, `content_search_by_title` returns exactly the ids of the first k records, in
store order, whose title contains s as a contiguous substring when letter case is ignored; with
at most k matches it returns all of them. -/
theorem C28_search_by_title (catalog : ContentCatalog) (s : CString) (k : Int)
    (hwf : WellFormedCatalog catalog) (hs : s.length < MAX_TITLE_LENGTH) (hk : 0 < k) :
    content_search_by_title catalog s k =
      first_matches (fun c => title_contains s c.title) catalog k ∧
    (((catalog.filter (fun c => title_contains s c.title)).length : Int) ≤ k →
      content_search_by_title catalog s k =
        (catalog.filter (fun c => title_contains s c.title)).map (·.id)) := by
  have hg : ¬ k ≤ 0 := by omega
  have hmain : content_search_by_title catalog s k =
      first_matches (fun c => title_contains s c.title) catalog k := by
    simp only [content_search_by_title, if_neg hg, search_loop_eq]
    apply first_matches_congr
    intro c hc
    rw [take_bound c.title MAX_TITLE_LENGTH (hwf c hc).1, take_bound s MAX_TITLE_LENGTH hs]
    unfold title_contains
    rw [Bool.eq_iff_iff, strstr_iff, decide_eq_true_iff]
  refine ⟨hmain, ?_⟩
  intro hall
  rw [hmain]
  exact first_matches_all _ catalog k hall

/-- C28 (amended), instance (`test_content`): after the edit of the test the only title that
contains "filme" is "Filme 1 - Edição Especial"; the search for "filme" with cap 10 returns the
id 1 of that record. -/
theorem C28_search_by_title_witness :
    content_search_by_title
        (content_edit testContentCatalog 1 (some "Filme 1 - Edição Especial".toList) none 130
          0).2 "filme".toList 10 =
      first_matches (fun c => title_contains "filme".toList c.title)
        (content_edit testContentCatalog 1 (some "Filme 1 - Edição Especial".toList) none 130
          0).2 10 ∧
    content_search_by_title
        (content_edit testContentCatalog 1 (some "Filme 1 - Edição Especial".toList) none 130
          0).2 "filme".toList 10 = [1] :=
  ⟨(C28_search_by_title
      (content_edit testContentCatalog 1 (some "Filme 1 - Edição Especial".toList) none 130 0).2
      "filme".toList 10 (by unfold WellFormedCatalog; decide) (by decide) (by decide)).1,
   by decide⟩

/-- C29 (fails as stated): the only record of the catalog has the category of 49 letters `a`,
a proper prefix of the name of 50 letters `a`.  A search for that name with cap 10 returns the
id of the record, although its category does not equal the name; the function compares with the
first 49 characters of the name. -/
theorem C29_long_category_name_matches :
    WellFormedCatalog boundCatalog ∧
    content_search_by_category boundCatalog (List.replicate 50 'a') 10 = [1] ∧
    first_matches (fun c => category_equals (List.replicate 50 'a') c.category) boundCatalog 10
      = [] ∧
    List.replicate 49 'a' ++ ['a'] = List.replicate 50 'a' := by
  refine ⟨by unfold WellFormedCatalog; decide, by decide, by decide, by decide⟩

/-- C29 (amended): for every catalog, every category name c shorter than 50 characters and every
cap k > 0, `content_search_by_category` returns exactly the ids of the first k records, in store
order, whose whole category equals c when letter case is ignored; a record whose category has
another length than c (one that merely contains c, or is a proper prefix of c) is not among the
records selected. -/
theorem C29_search_by_category (catalog : ContentCatalog) (c : CString) (k : Int)
    (hwf : WellFormedCatalog catalog) (hc : c.length < MAX_CATEGORY_LENGTH) (hk : 0 < k) :
    content_search_by_category catalog c k =
      first_matches (fun r => category_equals c r.category) catalog k ∧
    (∀ r ∈ catalog, r.category.length ≠ c.length →
      r ∉ catalog.filter (fun r => category_equals c r.category)) := by
  have hg : ¬ k ≤ 0 := by omega
  constructor
  · simp only [content_search_by_category, if_neg hg, search_loop_eq]
    apply first_matches_congr
    intro r hr
    rw [take_bound r.category MAX_CATEGORY_LENGTH (hwf r hr).2,
      take_bound c MAX_CATEGORY_LENGTH hc]
    rfl
  · intro r _ hlen hmem
    have h := (List.mem_filter.1 hmem).2
    unfold category_equals at h
    rw [decide_eq_true_iff] at h
    have := congrArg List.length h
    simp only [List.length_map] at this
    exact hlen this

/-- C29 (amended), instance (`test_content`): the search for "Drama" with cap 10 in the catalog
of the test returns the id 2, and so does the search for "DRAMA"; the record of category
"Educacional" is not selected by the name "Educa". -/
theorem C29_search_by_category_witness :
    content_search_by_category testContentCatalog "Drama".toList 10 =
      first_matches (fun r => category_equals "Drama".toList r.category) testContentCatalog 10 ∧
    content_search_by_category testContentCatalog "Drama".toList 10 = [2] ∧
    content_search_by_category testContentCatalog "DRAMA".toList 10 = [2] ∧
    content_search_by_category testContentCatalog "Educa".toList 10 = [] :=
  ⟨(C29_search_by_category testContentCatalog "Drama".toList 10
      (by unfold WellFormedCatalog; decide) (by decide) (by decide)).1,
   by decide, by decide, by decide⟩

/-- C30: when given an id <= 0, `content_get_by_id` and `user_get_by_id` return no record;
`content_remove`, `content_edit`, `content_increment_views`, `user_remove`,
`user_register_interaction` (user or content id), `user_add_favorite` and
`user_remove_favorite` (user or content id) return 0 and leave the catalog or the user manager
as it was; `recommendation_has_watched` (user or content id) returns 0 and the three user-based
strategies return no recommendation. -/
theorem C30_non_positive_ids_rejected (qsort : List ContentScore → List ContentScore)
    (catalog : ContentCatalog) (manager : UserManager) (id : Int) (hid : id ≤ 0) :
    content_get_by_id catalog id = none ∧
    content_remove catalog id = (0, catalog) ∧
    (∀ title category duration age_rating,
      content_edit catalog id title category duration age_rating = (0, catalog)) ∧
    content_increment_views catalog id = (0, catalog) ∧
    user_get_by_id manager id = none ∧
    user_remove manager id = (0, manager) ∧
    (∀ other type now,
      user_register_interaction manager id other type now = (0, manager) ∧
      user_register_interaction manager other id type now = (0, manager)) ∧
    (∀ other,
      user_add_favorite manager id other = (0, manager) ∧
      user_add_favorite manager other id = (0, manager) ∧
      user_remove_favorite manager id other = (0, manager) ∧
      user_remove_favorite manager other id = (0, manager) ∧
      recommendation_has_watched manager id other = 0 ∧
      recommendation_has_watched manager other id = 0) ∧
    (∀ max_recommendations,
      recommendation_by_content_similarity qsort manager catalog id max_recommendations = [] ∧
      recommendation_by_category qsort manager catalog id max_recommendations = [] ∧
      recommendation_personalized qsort manager catalog id max_recommendations = []) := by
  have h1 : ∀ other : Int, id ≤ 0 ∨ other ≤ 0 := fun _ => Or.inl hid
  have h2 : ∀ other : Int, other ≤ 0 ∨ id ≤ 0 := fun _ => Or.inr hid
  refine ⟨?_, ?_, ?_, ?_, ?_, ?_, ?_, ?_, ?_⟩
  · simp only [content_get_by_id, if_pos hid]
  · simp only [content_remove, if_pos hid]
  · intro title category duration age_rating
    simp only [content_edit, if_pos hid]
  · simp only [content_increment_views, if_pos hid]
  · simp only [user_get_by_id, if_pos hid]
  · simp only [user_remove, if_pos hid]
  · intro other type now
    exact ⟨by simp only [user_register_interaction, if_pos (h1 other)],
      by simp only [user_register_interaction, if_pos (h2 other)]⟩
  · intro other
    exact ⟨by simp only [user_add_favorite, if_pos (h1 other)],
      by simp only [user_add_favorite, if_pos (h2 other)],
      by simp only [user_remove_favorite, if_pos (h1 other)],
      by simp only [user_remove_favorite, if_pos (h2 other)],
      by simp only [recommendation_has_watched, if_pos (h1 other)],
      by simp only [recommendation_has_watched, if_pos (h2 other)]⟩
  · intro max_recommendations
    exact ⟨by simp only [recommendation_by_content_similarity, if_pos (h1 max_recommendations)],
      by simp only [recommendation_by_category, if_pos (h1 max_recommendations)],
      by simp only [recommendation_personalized, if_pos (h1 max_recommendations)]⟩

/-- C30, instance: the id 0 and the id -3 on the stores of `test_recommendation`. -/
theorem C30_non_positive_ids_rejected_witness :
    content_get_by_id testCatalog 0 = none ∧
    content_remove testCatalog 0 = (0, testCatalog) ∧
    content_increment_views testCatalog (-3) = (0, testCatalog) ∧
    user_remove testManager (-3) = (0, testManager) ∧
    user_register_interaction testManager 1 0 INTERACTION_PLAY 0 = (0, testManager) ∧
    recommendation_personalized insertion_qsort testManager testCatalog 0 10 = [] :=
  ⟨(C30_non_positive_ids_rejected insertion_qsort testCatalog testManager 0 (by decide)).1,
   (C30_non_positive_ids_rejected insertion_qsort testCatalog testManager 0 (by decide)).2.1,
   (C30_non_positive_ids_rejected insertion_qsort testCatalog testManager (-3)
      (by decide)).2.2.2.1,
   (C30_non_positive_ids_rejected insertion_qsort testCatalog testManager (-3)
      (by decide)).2.2.2.2.2.1,
   ((C30_non_positive_ids_rejected insertion_qsort testCatalog testManager 0
      (by decide)).2.2.2.2.2.2.1 1 INTERACTION_PLAY 0).2,
   ((C30_non_positive_ids_rejected insertion_qsort testCatalog testManager 0
      (by decide)).2.2.2.2.2.2.2.2 10).2.2⟩

/-- C31 (fails as stated): `content_add` stores a content with the title "A,B" (id 1, category
"X", duration 10, age_rating 0).  `content_save_to_csv` writes the line `1,A,B,X,10,0,0`, and
`content_load_from_csv` reads one record from it, with title "A", category "B", duration 0 and
age_rating 10: the file format has no quoting, so a comma in a string moves the fields. -/
theorem C31_comma_title_not_restored :
    run_catalog_calls [CatalogCall.add "A,B".toList "X".toList 10 0] =
      [{ id := 1, title := "A,B".toList, category := "X".toList, duration := 10,
         age_rating := 0, views := 0 }] ∧
    content_save_to_csv (run_catalog_calls [CatalogCall.add "A,B".toList "X".toList 10 0]) =
      csv_header ++ '\n' :: "1,A,B,X,10,0,0".toList ++ ['\n'] ∧
    content_load_from_csv []
        (content_save_to_csv
          (run_catalog_calls [CatalogCall.add "A,B".toList "X".toList 10 0])) =
      (1, [{ id := 1, title := "A".toList, category := "B".toList, duration := 0,
             age_rating := 10, views := 0 }]) := by
  decide

/-- C31 (amended): for every catalog built from the empty catalog by `content_add`,
`content_edit`, `content_increment_views` and `content_remove` in which every title and every
category is not empty, holds no comma and no newline, does not start with a space and does not
end with a space or a carriage return (the numbers being C `int`s): reading the characters
written by `content_save_to_csv` with `content_load_from_csv` into a fresh catalog loads exactly
count records and gives the same catalog, so for every id the loaded record has the identical
title, category, duration, age_rating and views. -/
theorem C31_content_round_trip (calls : List CatalogCall)
    (hsafe : ∀ c ∈ run_catalog_calls calls, CsvSafe c.title ∧ CsvSafe c.category)
    (hint : ∀ c ∈ run_catalog_calls calls,
      IsCInt c.id ∧ IsCInt c.duration ∧ IsCInt c.age_rating ∧ IsCInt c.views) :
    (content_load_from_csv [] (content_save_to_csv (run_catalog_calls calls))).1 =
      ((run_catalog_calls calls).length : Int) ∧
    (content_load_from_csv [] (content_save_to_csv (run_catalog_calls calls))).2 =
      run_catalog_calls calls ∧
    ∀ id, content_get_by_id
        (content_load_from_csv [] (content_save_to_csv (run_catalog_calls calls))).2 id =
      content_get_by_id (run_catalog_calls calls) id := by
  have h := load_save_round_trip (run_catalog_calls calls)
    (run_catalog_calls_wellformed calls) hsafe hint
  rw [h]
  exact ⟨rfl, rfl, fun _ => rfl⟩

/-- C31 (amended), instance (`test_content`): the catalog of the test at the moment it is saved
(three additions, the edit of content 1, one view of content 1, the removal of content 2) is
loaded back with 2 records, and content 1 is found with its title and its one view. -/
theorem C31_content_round_trip_witness :
    (content_load_from_csv [] (content_save_to_csv (run_catalog_calls
      [CatalogCall.add "Filme 1".toList "Ação".toList 120 16,
       CatalogCall.add "Série 1".toList "Drama".toList 45 12,
       CatalogCall.add "Documentário".toList "Educacional".toList 90 0,
       CatalogCall.edit 1 (some "Filme 1 - Edição Especial".toList) none 130 0,
       CatalogCall.increment_views 1, CatalogCall.remove 2]))).1 = 2 ∧
    content_get_by_id (content_load_from_csv [] (content_save_to_csv (run_catalog_calls
      [CatalogCall.add "Filme 1".toList "Ação".toList 120 16,
       CatalogCall.add "Série 1".toList "Drama".toList 45 12,
       CatalogCall.add "Documentário".toList "Educacional".toList 90 0,
       CatalogCall.edit 1 (some "Filme 1 - Edição Especial".toList) none 130 0,
       CatalogCall.increment_views 1, CatalogCall.remove 2]))).2 1 =
      some { id := 1, title := "Filme 1 - Edição Especial".toList, category := "Ação".toList,
             duration := 130, age_rating := 0, views := 1 } := by
  obtain ⟨h1, -, h3⟩ := C31_content_round_trip
    [CatalogCall.add "Filme 1".toList "Ação".toList 120 16,
     CatalogCall.add "Série 1".toList "Drama".toList 45 12,
     CatalogCall.add "Documentário".toList "Educacional".toList 90 0,
     CatalogCall.edit 1 (some "Filme 1 - Edição Especial".toList) none 130 0,
     CatalogCall.increment_views 1, CatalogCall.remove 2] (by decide) (by decide)
  exact ⟨h1, (h3 1).trans (by decide)⟩

/-- C32: for every buffer of at least 9 characters (the callers pass 20),
`user_interaction_type_to_string` yields the upper-case name PLAY, PAUSE, COMPLETE or FAVORITE
of the type, and `user_interaction_type_from_string` of that name returns the type;
`user_interaction_type_from_string` returns the same type for two strings that differ only in
letter case, and maps every string that is not one of the four names in any letter case to
PLAY. -/
theorem C32_type_names_round_trip :
    (∀ size, 9 ≤ size →
      user_interaction_type_to_string INTERACTION_PLAY size = "PLAY".toList ∧
      user_interaction_type_to_string INTERACTION_PAUSE size = "PAUSE".toList ∧
      user_interaction_type_to_string INTERACTION_COMPLETE size = "COMPLETE".toList ∧
      user_interaction_type_to_string INTERACTION_FAVORITE size = "FAVORITE".toList ∧
      ∀ t, user_interaction_type_from_string (user_interaction_type_to_string t size) = t) ∧
    (∀ s1 s2 : CString, s1.map toupper = s2.map toupper →
      user_interaction_type_from_string s1 = user_interaction_type_from_string s2) ∧
    (∀ s : CString, s.map toupper ≠ "PLAY".toList → s.map toupper ≠ "PAUSE".toList →
      s.map toupper ≠ "COMPLETE".toList → s.map toupper ≠ "FAVORITE".toList →
      user_interaction_type_from_string s = INTERACTION_PLAY) := by
  have hname : ∀ (t : InteractionType) (size : Nat), 9 ≤ size →
      user_interaction_type_to_string t size =
        match t with
        | INTERACTION_PLAY => "PLAY".toList
        | INTERACTION_PAUSE => "PAUSE".toList
        | INTERACTION_COMPLETE => "COMPLETE".toList
        | INTERACTION_FAVORITE => "FAVORITE".toList := by
    intro t size hsize
    unfold user_interaction_type_to_string
    apply List.take_of_length_le
    cases t <;> simp <;> omega
  refine ⟨?_, ?_, ?_⟩
  · intro size hsize
    refine ⟨hname _ size hsize, hname _ size hsize, hname _ size hsize, hname _ size hsize, ?_⟩
    intro t
    rw [hname t size hsize]
    cases t <;> decide
  · intro s1 s2 h
    rw [from_string_eq, from_string_eq, h]
  · intro s h1 h2 h3 h4
    rw [from_string_eq, if_neg h1, if_neg h2, if_neg h3, if_neg h4]

/-- C32, instance: with the buffer of 20 characters that the callers use, COMPLETE is written as
"COMPLETE"; "complete" and "Complete" are read as COMPLETE and "watch" is read as PLAY. -/
theorem C32_type_names_round_trip_witness :
    user_interaction_type_to_string INTERACTION_COMPLETE 20 = "COMPLETE".toList ∧
    user_interaction_type_from_string
        (user_interaction_type_to_string INTERACTION_COMPLETE 20) = INTERACTION_COMPLETE ∧
    user_interaction_type_from_string "complete".toList =
      user_interaction_type_from_string "Complete".toList ∧
    user_interaction_type_from_string "complete".toList = INTERACTION_COMPLETE ∧
    user_interaction_type_from_string "watch".toList = INTERACTION_PLAY :=
  ⟨(C32_type_names_round_trip.1 20 (by decide)).2.2.1,
   (C32_type_names_round_trip.1 20 (by decide)).2.2.2.2 INTERACTION_COMPLETE,
   C32_type_names_round_trip.2.1 "complete".toList "Complete".toList (by decide),
   by decide,
   C32_type_names_round_trip.2.2 "watch".toList (by decide) (by decide) (by decide)
     (by decide)⟩

/-- C33 (the code differs): two contents of different categories with the same duration and the
age ratings 0 and 90, both accepted by `content_add`, have the similarity -3/5; the age term
`0.2 * (1 - 90 / 18)` is -0.8, because the code takes 18 for the largest difference of two age
ratings. -/
theorem C33_similarity_below_zero :
    (content_add [] "A".toList "X".toList 1 0).1 = 1 ∧
    (content_add (content_add [] "A".toList "X".toList 1 0).2 "B".toList "Y".toList 1 90).2 =
      [farContentA, farContentB] ∧
    recommendation_calculate_similarity (some farContentA) (some farContentB) = -3 / 5 ∧
    recommendation_calculate_similarity (some farContentA) (some farContentB) < 0 := by
  have hne : ¬ ('X' = 'Y') := by decide
  have h : recommendation_calculate_similarity (some farContentA) (some farContentB)
      = -3 / 5 := by
    norm_num [recommendation_calculate_similarity, farContentA, farContentB, hne]
  refine ⟨by decide, by decide, h, ?_⟩
  rw [h]
  norm_num

/-- C34 (the code differs): on the catalog of `test_report` (views 10, 20, 5, 15) with
max_results 2, `report_most_viewed_contents` copies the first two records and sorts them: it
reports content 2 (20 views) and content 1 (10 views) and leaves out content 4, which has 15
views, more than the reported content 1.  With max_results 10 it reports the four contents in
the order 2, 4, 1, 3. -/
theorem C34_report_leaves_out_more_viewed :
    report_most_viewed_contents insertion_report_qsort reportCatalog 2 =
      [ { content_id := 2, title := "Filme de Ação 2".toList, count := 20 },
        { content_id := 1, title := "Filme de Ação 1".toList, count := 10 } ] ∧
    content_get_by_id reportCatalog 4 =
      some { id := 4, title := "Drama 1".toList, category := "Drama".toList, duration := 140,
             age_rating := 16, views := 15 } ∧
    (4 : Int) ∉ (report_most_viewed_contents insertion_report_qsort reportCatalog 2).map
      (·.content_id) ∧
    (report_most_viewed_contents insertion_report_qsort reportCatalog 10).map
      (fun item => (item.content_id, item.count)) = [(2, 20), (4, 15), (1, 10), (3, 5)] := by
  decide

/-- C35: in every catalog reached from the empty catalog by calls of `content_add`,
`content_remove`, `content_edit` and `content_increment_views`, the ids are strictly increasing
in store order, hence pairwise distinct, and every record has id > 0, duration > 0,
age_rating >= 0 and views >= 0; a call other than `content_increment_views` leaves the views of
every record that is still found unchanged; `content_increment_views` returns 1 or 0, when it
returns 1 it adds exactly 1 to the views of the first record with the id and changes nothing
else, and when it returns 0 the catalog is unchanged. -/
theorem C35_catalog_invariant :
    (∀ calls : List CatalogCall,
      ((run_catalog_calls calls).map (·.id)).Pairwise (· < ·) ∧
      ((run_catalog_calls calls).map (·.id)).Nodup ∧
      ∀ c ∈ run_catalog_calls calls,
        0 < c.id ∧ 0 < c.duration ∧ 0 ≤ c.age_rating ∧ 0 ≤ c.views) ∧
    (∀ (calls : List CatalogCall) (call : CatalogCall) (id : Int) (old new : Content),
      (∀ i, call ≠ CatalogCall.increment_views i) →
      content_get_by_id (run_catalog_calls calls) id = some old →
      content_get_by_id (apply_catalog_call (run_catalog_calls calls) call) id = some new →
      new.views = old.views) ∧
    (∀ (catalog : ContentCatalog) (id : Int),
      ((content_increment_views catalog id).1 = 1 ∧
        ∃ l1 c l2, catalog = l1 ++ c :: l2 ∧ c.id = id ∧ (∀ d ∈ l1, d.id ≠ id) ∧
          (content_increment_views catalog id).2 =
            l1 ++ { c with views := c.views + 1 } :: l2) ∨
      content_increment_views catalog id = (0, catalog)) := by
  refine ⟨?_, ?_, ?_⟩
  · intro calls
    have h := run_catalog_calls_invariant calls
    exact ⟨h.1, pairwise_lt_nodup _ h.1, h.2⟩
  · intro calls call id old new hcall hold hnew
    exact apply_catalog_call_views _ call
      (pairwise_lt_nodup _ (run_catalog_calls_invariant calls).1) hcall id old new hold hnew
  · intro catalog id
    cases hget : content_get_by_id catalog id with
    | none =>
      right
      exact content_increment_views_of_none catalog id hget
    | some c =>
      left
      obtain ⟨hpos, hid, l1, l2, e, hl1⟩ := content_get_by_id_decomp catalog id c hget
      subst e
      rw [content_increment_views_of_decomp l1 l2 c id hpos hid hl1]
      exact ⟨rfl, l1, c, l2, rfl, hid, hl1, rfl⟩

/-- C35, instance: three additions, an edit with duration 0 and age_rating -1, the removal of
content 2 and a fourth addition leave the ids 1, 3, 4; the edit of content 1 keeps its views. -/
theorem C35_catalog_invariant_witness :
    (run_catalog_calls
      [CatalogCall.add "a".toList "X".toList 90 12, CatalogCall.add "b".toList "X".toList 80 0,
       CatalogCall.add "c".toList "Y".toList 70 16, CatalogCall.increment_views 1,
       CatalogCall.edit 1 none none 0 (-1), CatalogCall.remove 2,
       CatalogCall.add "d".toList "Y".toList 60 18]).map (·.id) = [1, 3, 4] ∧
    (∀ new, content_get_by_id (apply_catalog_call
        (run_catalog_calls [CatalogCall.add "a".toList "X".toList 90 12,
          CatalogCall.increment_views 1]) (CatalogCall.edit 1 none none 0 (-1))) 1 = some new →
      new.views = 1) :=
  ⟨by decide,
   fun new hnew => C35_catalog_invariant.2.1
     [CatalogCall.add "a".toList "X".toList 90 12, CatalogCall.increment_views 1]
     (CatalogCall.edit 1 none none 0 (-1)) 1
     { id := 1, title := "a".toList, category := "X".toList, duration := 90, age_rating := 12,
       views := 1 } new
     (by intro i h; cases h) (by decide) hnew⟩

/-- C36: in every manager reached from the empty manager by calls of `user_add`, `user_remove`,
`user_register_interaction`, `user_add_favorite` and `user_remove_favorite`, the
interaction_count of every user record equals `user_get_interaction_count` of its id, which is
the number of log entries with that user_id, and the user_id of every log entry is the id of a
user of the manager; a user that `user_add` creates with the id that a removal just freed has
interaction_count 0 and no log entry. -/
theorem C36_counter_matches_log :
    (∀ calls : List UserCall,
      (∀ u ∈ (run_calls calls).users,
        u.interaction_count = user_get_interaction_count (run_calls calls) u.id ∧
        user_get_interaction_count (run_calls calls) u.id =
          (((run_calls calls).interactions.filter
            (fun it => it.user_id = u.id)).length : Int)) ∧
      (∀ it ∈ (run_calls calls).interactions,
        ∃ u ∈ (run_calls calls).users, u.id = it.user_id)) ∧
    (∀ (calls : List UserCall) (user_id : Int) (username : CString),
      (user_remove (run_calls calls) user_id).1 = 1 →
      (user_add (user_remove (run_calls calls) user_id).2 username).1 = user_id →
      user_get_interaction_count
          (user_add (user_remove (run_calls calls) user_id).2 username).2 user_id = 0 ∧
      (∀ it ∈ (user_add (user_remove (run_calls calls) user_id).2 username).2.interactions,
        it.user_id ≠ user_id) ∧
      ∃ usr, user_get_by_id (user_add (user_remove (run_calls calls) user_id).2 username).2
          user_id = some usr ∧ usr.interaction_count = 0) := by
  constructor
  · intro calls
    obtain ⟨-, hpos, hcount, hlog⟩ := run_calls_counters calls
    refine ⟨?_, hlog⟩
    intro u hu
    have h := user_get_interaction_count_eq (run_calls calls) u.id (hpos u hu)
    exact ⟨by rw [h]; exact hcount u hu, h⟩
  · intro calls user_id username hrem hadd
    have hreach : (user_add (user_remove (run_calls calls) user_id).2 username).2 =
        run_calls ((calls ++ [UserCall.remove user_id]) ++ [UserCall.add username]) := by
      rw [run_calls_append, run_calls_append]
      rfl
    obtain ⟨hids, hpos, hcount, -⟩ :=
      run_calls_counters ((calls ++ [UserCall.remove user_id]) ++ [UserCall.add username])
    rw [← hreach] at hids hpos hcount
    have hupos : 0 < user_id := by
      by_contra hle
      have : user_remove (run_calls calls) user_id = (0, run_calls calls) := by
        simp only [user_remove, if_pos (not_lt.1 hle)]
      rw [this] at hrem
      cases hrem
    rcases user_add_cases (user_remove (run_calls calls) user_id).2 username with
      ⟨h, -⟩ | ⟨-, h⟩
    · rw [h] at hadd
      simp only at hadd
      omega
    · rw [h] at hadd hcount ⊢
      simp only at hadd hcount ⊢
      have hnew := hcount
        { id := find_next_id ((user_remove (run_calls calls) user_id).2.users.map (·.id)),
          username := username.take (MAX_USERNAME_LENGTH - 1),
          favorite_contents := [], interaction_count := 0 } (by simp)
      simp only [hadd] at hnew
      have hlen : ((user_remove (run_calls calls) user_id).2.interactions.filter
          (fun it => decide (it.user_id = user_id))).length = 0 := by
        have := hnew.symm
        exact_mod_cast this
      refine ⟨?_, ?_, ?_⟩
      · rw [user_get_interaction_count_eq _ _ hupos]
        simp only
        rw [hlen]
        rfl
      · intro it hit heq
        have hmem : it ∈ (user_remove (run_calls calls) user_id).2.interactions.filter
            (fun it => decide (it.user_id = user_id)) := by
          rw [List.mem_filter]
          exact ⟨hit, by simpa using heq⟩
        rw [List.length_eq_zero.1 hlen] at hmem
        cases hmem
      · refine ⟨_, user_get_by_id_of_decomp _ _ [] _ _ user_id hupos rfl hadd ?_, rfl⟩
        intro v hv
        have := find_next_id_gt _ v.id (List.mem_map_of_mem (·.id) hv)
        omega

/-- C36, instance: user 1 is added and registers two interactions, is removed, and a user added
next receives the id 1 again; that user has interaction_count 0 and no log entry. -/
theorem C36_counter_matches_log_witness :
    (user_remove (run_calls [UserCall.add "ana".toList,
      UserCall.register_interaction 1 5 INTERACTION_PLAY 0,
      UserCall.register_interaction 1 6 INTERACTION_FAVORITE 0]) 1).1 = 1 ∧
    (user_add (user_remove (run_calls [UserCall.add "ana".toList,
      UserCall.register_interaction 1 5 INTERACTION_PLAY 0,
      UserCall.register_interaction 1 6 INTERACTION_FAVORITE 0]) 1).2 "eva".toList).1 = 1 ∧
    user_get_interaction_count
      (user_add (user_remove (run_calls [UserCall.add "ana".toList,
        UserCall.register_interaction 1 5 INTERACTION_PLAY 0,
        UserCall.register_interaction 1 6 INTERACTION_FAVORITE 0]) 1).2 "eva".toList).2 1
      = 0 ∧
    (∀ u ∈ (run_calls [UserCall.add "ana".toList,
        UserCall.register_interaction 1 5 INTERACTION_PLAY 0,
        UserCall.register_interaction 1 6 INTERACTION_FAVORITE 0]).users,
      u.interaction_count = user_get_interaction_count (run_calls [UserCall.add "ana".toList,
        UserCall.register_interaction 1 5 INTERACTION_PLAY 0,
        UserCall.register_interaction 1 6 INTERACTION_FAVORITE 0]) u.id) :=
  ⟨by decide, by decide,
   (C36_counter_matches_log.2 [UserCall.add "ana".toList,
      UserCall.register_interaction 1 5 INTERACTION_PLAY 0,
      UserCall.register_interaction 1 6 INTERACTION_FAVORITE 0] 1 "eva".toList
      (by decide) (by decide)).1,
   fun u hu => ((C36_counter_matches_log.1 [UserCall.add "ana".toList,
      UserCall.register_interaction 1 5 INTERACTION_PLAY 0,
      UserCall.register_interaction 1 6 INTERACTION_FAVORITE 0]).1 u hu).1⟩

/-- C37: for every catalog with pairwise-distinct ids, every user id > 0 without a PLAY and
without a COMPLETE interaction in the log, and every cap m > 0: the similarity list and the
category list that `recommendation_personalized` computes are both the popularity list P
(`recommendation_by_popularity` with cap 10); the merged entries are the ids of P in order, the
id at rank i with score 6 * (N - i) / N, N the length of P, strictly decreasing; and
`recommendation_personalized` with cap m returns exactly the first m entries of P, which are
min(m, 10, count) ids. -/
theorem C37_no_history_blend_is_popularity (qsort : List ContentScore → List ContentScore)
    (hq : QsortSpec qsort) (user_manager : UserManager) (content_catalog : ContentCatalog)
    (user_id m : Int) (hnd : (content_catalog.map (·.id)).Nodup)
    (hu : 0 < user_id) (hm : 0 < m)
    (hno : ∀ it ∈ user_manager.interactions, it.user_id = user_id →
      it.type ≠ INTERACTION_PLAY ∧ it.type ≠ INTERACTION_COMPLETE) :
    recommendation_by_content_similarity qsort user_manager content_catalog user_id
        MAX_RECOMMENDATIONS =
      recommendation_by_popularity qsort content_catalog MAX_RECOMMENDATIONS ∧
    recommendation_by_category qsort user_manager content_catalog user_id
        MAX_RECOMMENDATIONS =
      recommendation_by_popularity qsort content_catalog MAX_RECOMMENDATIONS ∧
    merge_recommendations
        (recommendation_by_popularity qsort content_catalog MAX_RECOMMENDATIONS)
        (recommendation_by_popularity qsort content_catalog MAX_RECOMMENDATIONS)
        (recommendation_by_popularity qsort content_catalog MAX_RECOMMENDATIONS) =
      (recommendation_by_popularity qsort content_catalog MAX_RECOMMENDATIONS).map
        (fun x =>
          ({ content_id := x,
             score := 6 *
               (((recommendation_by_popularity qsort content_catalog
                   MAX_RECOMMENDATIONS).length : ℚ) -
                 ((recommendation_by_popularity qsort content_catalog
                   MAX_RECOMMENDATIONS).indexOf x : ℚ)) /
               ((recommendation_by_popularity qsort content_catalog
                 MAX_RECOMMENDATIONS).length : ℚ) } : ContentScore)) ∧
    (merge_recommendations
        (recommendation_by_popularity qsort content_catalog MAX_RECOMMENDATIONS)
        (recommendation_by_popularity qsort content_catalog MAX_RECOMMENDATIONS)
        (recommendation_by_popularity qsort content_catalog MAX_RECOMMENDATIONS)).Pairwise
      (fun a b => b.score < a.score) ∧
    recommendation_personalized qsort user_manager content_catalog user_id m =
      (recommendation_by_popularity qsort content_catalog MAX_RECOMMENDATIONS).take m.toNat ∧
    (recommendation_personalized qsort user_manager content_catalog user_id m).length =
      min m.toNat (min 10 content_catalog.length) := by
  have hP := by_popularity_nodup qsort hq content_catalog MAX_RECOMMENDATIONS hnd
  have hS := by_similarity_no_history qsort user_manager content_catalog user_id
    MAX_RECOMMENDATIONS hu (by decide) (fun it hit h => (hno it hit h).2)
  have hC := by_category_no_history qsort user_manager content_catalog user_id
    MAX_RECOMMENDATIONS hu (by decide) hno
  have hsorted := merge_same_sorted _ hP
  have hmain : recommendation_personalized qsort user_manager content_catalog user_id m =
      (recommendation_by_popularity qsort content_catalog MAX_RECOMMENDATIONS).take
        m.toNat := by
    rw [personalized_eq qsort user_manager content_catalog user_id m hu hm, hS, hC,
      qsort_of_sorted qsort hq _ hsorted]
    unfold copy_recommendations
    rw [List.map_take, merge_same_ids]
  refine ⟨hS, hC, merge_same_eq _ hP, hsorted, hmain, ?_⟩
  rw [hmain, List.length_take,
    by_popularity_length qsort hq content_catalog MAX_RECOMMENDATIONS (by decide)]
  have h10 : MAX_RECOMMENDATIONS.toNat = 10 := rfl
  rw [h10]
  omega

/-- C37, instance: user 1 has only a PAUSE and a FAVORITE interaction; on the catalog of
`test_recommendation` (views 10, 20, 5, 15, 3) the blend with cap 3 is the head 2, 4, 1 of the
popularity list. -/
theorem C37_no_history_blend_is_popularity_witness :
    recommendation_personalized insertion_qsort pauseManager testCatalog 1 3 =
      (recommendation_by_popularity insertion_qsort testCatalog MAX_RECOMMENDATIONS).take 3 ∧
    (recommendation_by_popularity insertion_qsort testCatalog MAX_RECOMMENDATIONS).take 3 =
      [2, 4, 1] ∧
    (recommendation_personalized insertion_qsort pauseManager testCatalog 1 3).length =
      min 3 (min 10 5) :=
  ⟨(C37_no_history_blend_is_popularity insertion_qsort insertion_qsort_spec pauseManager
      testCatalog 1 3 (by decide) (by decide) (by decide) (by decide)).2.2.2.2.1,
   by decide,
   (C37_no_history_blend_is_popularity insertion_qsort insertion_qsort_spec pauseManager
      testCatalog 1 3 (by decide) (by decide) (by decide) (by decide)).2.2.2.2.2⟩

/-- C38: for every catalog with pairwise-distinct ids, every user manager, user id and cap, each
of `recommendation_by_popularity`, `recommendation_by_content_similarity`,
`recommendation_by_category` and `recommendation_personalized` returns a list in which no
content id occurs twice, and every returned id is the id of a content of the catalog. -/
theorem C38_no_recommendation_repeated (qsort : List ContentScore → List ContentScore)
    (hq : QsortSpec qsort) (user_manager : UserManager) (content_catalog : ContentCatalog)
    (user_id m : Int) (hnd : (content_catalog.map (·.id)).Nodup) :
    ((recommendation_by_popularity qsort content_catalog m).Nodup ∧
      ∀ id ∈ recommendation_by_popularity qsort content_catalog m,
        ∃ c ∈ content_catalog, c.id = id) ∧
    ((recommendation_by_content_similarity qsort user_manager content_catalog user_id
        m).Nodup ∧
      ∀ id ∈ recommendation_by_content_similarity qsort user_manager content_catalog user_id m,
        ∃ c ∈ content_catalog, c.id = id) ∧
    ((recommendation_by_category qsort user_manager content_catalog user_id m).Nodup ∧
      ∀ id ∈ recommendation_by_category qsort user_manager content_catalog user_id m,
        ∃ c ∈ content_catalog, c.id = id) ∧
    ((recommendation_personalized qsort user_manager content_catalog user_id m).Nodup ∧
      ∀ id ∈ recommendation_personalized qsort user_manager content_catalog user_id m,
        ∃ c ∈ content_catalog, c.id = id) :=
  ⟨⟨by_popularity_nodup qsort hq content_catalog m hnd,
    fun id h => mem_by_popularity qsort hq content_catalog m id h⟩,
   ⟨by_similarity_nodup qsort hq user_manager content_catalog user_id m hnd,
    fun id h => mem_by_similarity qsort hq user_manager content_catalog user_id m id h⟩,
   ⟨by_category_nodup qsort hq user_manager content_catalog user_id m hnd,
    fun id h => mem_by_category_catalog qsort hq user_manager content_catalog user_id m id h⟩,
   ⟨personalized_nodup qsort hq user_manager content_catalog user_id m hnd,
    fun id h => mem_personalized_catalog qsort hq user_manager content_catalog user_id m id h⟩⟩

/-- C38, instance: the four strategies on the stores of `test_recommendation` for user 1 and
cap 10. -/
theorem C38_no_recommendation_repeated_witness :
    (recommendation_by_popularity insertion_qsort testCatalog 10).Nodup ∧
    (recommendation_by_content_similarity insertion_qsort testManager testCatalog 1 10).Nodup ∧
    (recommendation_by_category insertion_qsort testManager testCatalog 1 10).Nodup ∧
    (recommendation_personalized insertion_qsort testManager testCatalog 1 10).Nodup ∧
    (∀ id ∈ recommendation_personalized insertion_qsort testManager testCatalog 1 10,
      ∃ c ∈ testCatalog, c.id = id) :=
  ⟨(C38_no_recommendation_repeated insertion_qsort insertion_qsort_spec testManager testCatalog
      1 10 (by decide)).1.1,
   (C38_no_recommendation_repeated insertion_qsort insertion_qsort_spec testManager testCatalog
      1 10 (by decide)).2.1.1,
   (C38_no_recommendation_repeated insertion_qsort insertion_qsort_spec testManager testCatalog
      1 10 (by decide)).2.2.1.1,
   (C38_no_recommendation_repeated insertion_qsort insertion_qsort_spec testManager testCatalog
      1 10 (by decide)).2.2.2.1,
   (C38_no_recommendation_repeated insertion_qsort insertion_qsort_spec testManager testCatalog
      1 10 (by decide)).2.2.2.2⟩

/-- C39 (fails as stated): the catalog holds the ids 1 and 3 (pairwise distinct, positive,
highest id 3) and user 1 has a PLAY interaction on content 3.  After `content_remove(3)` the
next `content_add` succeeds with id 2, not 3; `recommendation_has_watched(1, 2)` is 0 and
`recommendation_by_category` lists the new content 2 for user 1. -/
theorem C39_gap_id_not_reused :
    gapCatalog.map (·.id) = [1, 3] ∧
    recommendation_has_watched gapWatchManager 1 3 = 1 ∧
    (content_remove gapCatalog 3).1 = 1 ∧
    (content_add (content_remove gapCatalog 3).2 "C".toList "Drama".toList 50 12).1 = 2 ∧
    recommendation_has_watched gapWatchManager 1 2 = 0 ∧
    recommendation_by_category insertion_qsort gapWatchManager
      (content_add (content_remove gapCatalog 3).2 "C".toList "Drama".toList 50 12).2 1 10
      = [1, 2] := by
  decide

/-- C39 (amended): for every catalog with pairwise-distinct positive ids whose highest id is m
and which, unless m = 1, also holds a content with id m - 1, and every user (id > 0) that has a
PLAY or COMPLETE interaction on content m: `content_remove(m)` succeeds, the next successful
`content_add` gives the new content the id m, `content_get_by_id` of m finds the new content,
`recommendation_has_watched(user, m)` returns 1 and `recommendation_by_category` does not list
m for that user, whatever the cap. -/
theorem C39_reused_id_inherits_history (qsort : List ContentScore → List ContentScore)
    (hq : QsortSpec qsort) (catalog : ContentCatalog) (manager : UserManager)
    (m u : Int) (title category : CString) (duration age_rating cap : Int)
    (hpos : ∀ d ∈ catalog, 0 < d.id) (hnd : (catalog.map (·.id)).Nodup)
    (hm : ∃ c ∈ catalog, c.id = m) (hmax : ∀ d ∈ catalog, d.id ≤ m)
    (hprev : m = 1 ∨ ∃ d ∈ catalog, d.id = m - 1)
    (hu : 0 < u)
    (hwatch : ∃ it ∈ manager.interactions, it.user_id = u ∧ it.content_id = m ∧
      (it.type = INTERACTION_PLAY ∨ it.type = INTERACTION_COMPLETE))
    (hd : 0 < duration) (ha : 0 ≤ age_rating) :
    (content_remove catalog m).1 = 1 ∧
    (content_add (content_remove catalog m).2 title category duration age_rating).1 = m ∧
    content_get_by_id
        (content_add (content_remove catalog m).2 title category duration age_rating).2 m =
      some { id := m, title := title.take (MAX_TITLE_LENGTH - 1),
             category := category.take (MAX_CATEGORY_LENGTH - 1), duration := duration,
             age_rating := age_rating, views := 0 } ∧
    recommendation_has_watched manager u m = 1 ∧
    m ∉ recommendation_by_category qsort manager
      (content_add (content_remove catalog m).2 title category duration age_rating).2 u
      cap := by
  obtain ⟨c, hc, rfl⟩ := hm
  have hcpos : 0 < c.id := hpos c hc
  obtain ⟨k, hk⟩ := find_index_map_of_mem (·.id) catalog c hc
  have hg : ¬ c.id ≤ 0 := by omega
  have hrem : content_remove catalog c.id = (1, catalog.eraseIdx k) := by
    simp only [content_remove, if_neg hg, hk]
  obtain ⟨hids, -, hiff⟩ := eraseIdx_then_next_id (·.id) catalog c k hk hpos hnd hmax
  have hnext : find_next_id ((catalog.eraseIdx k).map (·.id)) = c.id := by
    apply hiff.2
    rcases hprev with h1 | ⟨d, hdmem, hdid⟩
    · left
      refine ⟨?_, h1⟩
      apply List.eq_nil_iff_forall_not_mem.2
      intro d hdmem
      have h2 : d.id ∈ (catalog.eraseIdx k).map (·.id) := List.mem_map_of_mem _ hdmem
      rw [hids, hnd.mem_erase_iff] at h2
      obtain ⟨hne, hin⟩ := h2
      obtain ⟨d', hd', hd'id⟩ := List.mem_map.1 hin
      have h3 := hpos d' hd'
      have h4 := hmax d' hd'
      omega
    · right
      have h2 : d.id ∈ (catalog.map (·.id)).erase c.id := by
        rw [hnd.mem_erase_iff]
        exact ⟨by omega, List.mem_map_of_mem _ hdmem⟩
      rw [← hids] at h2
      obtain ⟨d', hd', hd'id⟩ := List.mem_map.1 h2
      exact ⟨d', hd', by rw [hd'id, hdid]⟩
  have hgadd : ¬ (duration ≤ 0 ∨ age_rating < 0) := by omega
  have hadd : content_add (catalog.eraseIdx k) title category duration age_rating =
      (c.id, catalog.eraseIdx k ++
        [{ id := c.id, title := title.take (MAX_TITLE_LENGTH - 1),
           category := category.take (MAX_CATEGORY_LENGTH - 1), duration := duration,
           age_rating := age_rating, views := 0 }]) := by
    simp only [content_add, if_neg hgadd, hnext]
  have hfresh : ∀ d ∈ catalog.eraseIdx k, d.id ≠ c.id := by
    intro d hdmem
    have h2 : d.id ∈ (catalog.eraseIdx k).map (·.id) := List.mem_map_of_mem _ hdmem
    rw [hids, hnd.mem_erase_iff] at h2
    exact h2.1
  have hget : content_get_by_id (catalog.eraseIdx k ++
        [{ id := c.id, title := title.take (MAX_TITLE_LENGTH - 1),
           category := category.take (MAX_CATEGORY_LENGTH - 1), duration := duration,
           age_rating := age_rating, views := 0 }]) c.id =
      some { id := c.id, title := title.take (MAX_TITLE_LENGTH - 1),
             category := category.take (MAX_CATEGORY_LENGTH - 1), duration := duration,
             age_rating := age_rating, views := 0 } :=
    content_get_by_id_of_decomp (catalog.eraseIdx k) [] _ c.id hcpos rfl hfresh
  have hw : recommendation_has_watched manager u c.id = 1 := by
    rw [has_watched_eq_one_iff]
    obtain ⟨it, hit, h1, h2, h3⟩ := hwatch
    exact ⟨hu, hcpos, it, hit, h1, h2, h3.symm⟩
  rw [hrem]
  simp only
  rw [hadd]
  refine ⟨trivial, rfl, hget, hw, ?_⟩
  intro hmem
  have htally : tally_categories manager (catalog.eraseIdx k ++
        [{ id := c.id, title := title.take (MAX_TITLE_LENGTH - 1),
           category := category.take (MAX_CATEGORY_LENGTH - 1), duration := duration,
           age_rating := age_rating, views := 0 }]) u ≠ [] := by
    apply tally_ne_nil
    obtain ⟨it, hit, h1, h2, h3⟩ := hwatch
    refine ⟨it, hit, h1, h3, ?_⟩
    rw [h2, hget]
    exact Option.some_ne_none _
  obtain ⟨d, -, hdid, hd0, -⟩ := mem_by_category qsort hq manager _ u cap c.id htally hmem
  rw [hdid, hw] at hd0
  cases hd0

/-- C39 (amended), instance: user 1 of `test_recommendation` completed content 3; on the
catalog of `test_content` (ids 1, 2, 3) content 3 is removed, the next content receives id 3 and
is not listed for user 1. -/
theorem C39_reused_id_inherits_history_witness :
    (content_remove testContentCatalog 3).1 = 1 ∧
    (content_add (content_remove testContentCatalog 3).2 "N".toList "Drama".toList 60 12).1
      = 3 ∧
    recommendation_has_watched testManager 1 3 = 1 ∧
    (3 : Int) ∉ recommendation_by_category insertion_qsort testManager
      (content_add (content_remove testContentCatalog 3).2 "N".toList "Drama".toList 60 12).2
      1 10 := by
  obtain ⟨h1, h2, -, h4, h5⟩ :=
    C39_reused_id_inherits_history insertion_qsort insertion_qsort_spec testContentCatalog
      testManager 3 1 "N".toList "Drama".toList 60 12 10 (by decide) (by decide) (by decide)
      (by decide) (by decide) (by decide) (by decide) (by decide) (by decide)
  exact ⟨h1, h2, h4, h5⟩

/-- C40: for every two contents a and b, similarity(a, b) = similarity(b, a) and
similarity(a, b) <= 1; similarity(a, a) = 1 for every content a with positive duration. -/
theorem C40_similarity_symmetric (a b : Content) :
    recommendation_calculate_similarity (some a) (some b) =
      recommendation_calculate_similarity (some b) (some a) ∧
    recommendation_calculate_similarity (some a) (some b) ≤ 1 ∧
    (0 < a.duration → recommendation_calculate_similarity (some a) (some a) = 1) :=
  ⟨similarity_comm a b, similarity_le_one a b, similarity_self a⟩

/-- C40, instance: the two contents with age ratings 0 and 90. -/
theorem C40_similarity_symmetric_witness :
    recommendation_calculate_similarity (some farContentA) (some farContentB) =
      recommendation_calculate_similarity (some farContentB) (some farContentA) ∧
    recommendation_calculate_similarity (some farContentA) (some farContentB) ≤ 1 ∧
    recommendation_calculate_similarity (some farContentA) (some farContentA) = 1 :=
  ⟨(C40_similarity_symmetric farContentA farContentB).1,
   (C40_similarity_symmetric farContentA farContentB).2.1,
   (C40_similarity_symmetric farContentA farContentB).2.2 (by decide)⟩

end Streamflix
